import Mathlib

/-!
Reorder-buffer speculative ordered executor

A shallow embedding of `Galois/Runtime/ROBexecutor.h` (classes `ROBcontext` and
`ROBexecutor`).  Pointers to contexts and to Lockables are natural numbers, the
context arena and the per-thread containers are total maps from indices, and every
member function becomes a function on the executor state `Exec`.

Fields whose doc comment says *ghost* do not exist in the C++ object: they record the
history of a run (which items were committed, which state changes were made) so that
properties of a whole run can be stated.  No function reads a ghost field.
-/

set_option autoImplicit false

namespace ROBexecutor

/-! ## Data model -/

/-- The enumeration `ROBcontext::State`. -/
inductive State where
  | UNSCHEDULED
  | SCHEDULED
  | READY_TO_COMMIT
  | ABORT_SELF
  | ABORT_HELP
  | COMMITTING
  | ABORTING
  | COMMIT_DONE
  | ABORT_DONE
  deriving DecidableEq, Repr

/-- The result of `SimpleRuntimeContext::tryAcquire`. -/
inductive AcquireStatus where
  | FAIL
  | NEW_OWNER
  | ALREADY_OWNER
  deriving DecidableEq, Repr

/-- The members of `ROBcontext`.  `pushBuffer` is `userHandle.getPushBuffer ()`.
`nCommit` and `nAbort` are ghost: the number of runs of `doCommit` and of `doAbort` on
this object since it was constructed. -/
structure Ctxt (T : Type) where
  state : State
  active : T
  lostConflict : Bool
  executed : Bool
  owner : Nat
  nhood : List Nat
  pushBuffer : List T
  nCommit : Nat
  nAbort : Nat

/-- The members of `ROBexecutor` together with the memory it works on: the context
arena `ctxts` (pointer to object) and the owner word of every Lockable.
`maxThreads` is the number of rows of a `PerThreadStorage`, `activeThreads` is
`getActiveThreads ()`.
Ghost fields: `commitLog` (items in the order `doCommit` ran, newest first),
`publishLog` (items handed to `push` by `doCommit`), `stateLog` (every store to a
context state as (pointer, old state, new state), newest first) and `assertFailed`
(some `assert` of the source was evaluated on a false condition). -/
structure Exec (T : Type) where
  activeThreads : Nat
  maxThreads : Nat
  ctxts : Nat → Ctxt T
  lockOwner : Nat → Option Nat
  pending : Nat → List T
  rob : List Nat
  freeList : Nat → List Nat
  numTotal : Nat
  numCommitted : Nat
  numGlobalCleanups : Nat
  abortSelfByConflict : Nat
  abortSelfBySignal : Nat
  abortByOther : Nat
  commitLog : List T
  publishLog : List T
  stateLog : List (Nat × State × State)
  assertFailed : Bool

/-- The constant `ROBexecutor::WINDOW_SIZE_PER_THREAD`. -/
def WINDOW_SIZE_PER_THREAD : Nat := 1024

/-! ## The min-heap -/

/-- Modelled from the spec: `Galois::MinHeap` (`Galois/PriorityQueue.h` is not among the
sources).  A heap is the list of its elements; `heapPop` returns a least element under
the comparator together with the remaining elements, `none` on an empty heap. -/
def heapPop {α : Type} (lt : α → α → Bool) : List α → Option (α × List α)
  | [] => none
  | x :: xs =>
    match heapPop lt xs with
    | none => some (x, [])
    | some (m, rest) => if lt m x then some (m, x :: rest) else some (x, xs)

/-- Modelled from the spec: `MinHeap::top`, the element `heapPop` would return. -/
def heapTop {α : Type} (lt : α → α → Bool) (h : List α) : Option α :=
  (heapPop lt h).map Prod.fst

/-- Modelled from the spec: `MinHeap::push`. -/
def heapPush {α : Type} (x : α) (h : List α) : List α := x :: h

/-- `PerThreadContainer::empty_all`: the conjunction over all rows. -/
def emptyAll {α : Type} (rows : Nat) (cont : Nat → List α) : Bool :=
  (List.range rows).foldl (fun res i => res && (cont i).isEmpty) true

/-! ## Stores to the executor state

Every assignment of the source to one member is one of the following functions. -/

section Stores

variable {T : Type}

/-- The constructor `ROBcontext (x, e)` run on thread `tid`. -/
def Ctxt.construct (x : T) (tid : Nat) : Ctxt T :=
  { state := .UNSCHEDULED, active := x, lostConflict := false, executed := false,
    owner := tid, nhood := [], pushBuffer := [], nCommit := 0, nAbort := 0 }

/-- The placement `new (ctx) Ctxt (x, *this)` on thread `tid` (after `ctx->~Ctxt ()`). -/
def construct (c : Nat) (x : T) (tid : Nat) (s : Exec T) : Exec T :=
  { s with ctxts := Function.update s.ctxts c (Ctxt.construct x tid) }

/-- `ROBcontext::setState`; the store is recorded in the ghost `stateLog`. -/
def setState (c : Nat) (st : State) (s : Exec T) : Exec T :=
  { s with
    ctxts := Function.update s.ctxts c { s.ctxts c with state := st }
    stateLog := (c, (s.ctxts c).state, st) :: s.stateLog }

/-- The store `lostConflict = b` in context `c`. -/
def setLostConflict (c : Nat) (b : Bool) (s : Exec T) : Exec T :=
  { s with ctxts := Function.update s.ctxts c { s.ctxts c with lostConflict := b } }

/-- The store `ctx->executed = b`. -/
def setExecuted (c : Nat) (b : Bool) (s : Exec T) : Exec T :=
  { s with ctxts := Function.update s.ctxts c { s.ctxts c with executed := b } }

/-- The store `ctx->owner = tid`. -/
def setOwner (c : Nat) (tid : Nat) (s : Exec T) : Exec T :=
  { s with ctxts := Function.update s.ctxts c { s.ctxts c with owner := tid } }

/-- The call `nhood.push_back (l)` in context `c`. -/
def nhoodPushBack (c l : Nat) (s : Exec T) : Exec T :=
  { s with ctxts := Function.update s.ctxts c { s.ctxts c with nhood := (s.ctxts c).nhood ++ [l] } }

/-- The call `userHandle.getPushBuffer ().push_back (x)` an operator makes while it
runs under context `c`. -/
def pushBufferAppend (c : Nat) (x : T) (s : Exec T) : Exec T :=
  { s with
    ctxts := Function.update s.ctxts c { s.ctxts c with pushBuffer := (s.ctxts c).pushBuffer ++ [x] } }

/-- `UserContextAccess::reset` as far as the executor sees it: the push buffer is
cleared. -/
def resetUserHandle (c : Nat) (s : Exec T) : Exec T :=
  { s with ctxts := Function.update s.ctxts c { s.ctxts c with pushBuffer := [] } }

/-- Ghost: one more run of `doCommit` on context `c`. -/
def countCommit (c : Nat) (s : Exec T) : Exec T :=
  { s with ctxts := Function.update s.ctxts c { s.ctxts c with nCommit := (s.ctxts c).nCommit + 1 } }

/-- Ghost: one more run of `doAbort` on context `c`. -/
def countAbort (c : Nat) (s : Exec T) : Exec T :=
  { s with ctxts := Function.update s.ctxts c { s.ctxts c with nAbort := (s.ctxts c).nAbort + 1 } }

/-- Ghost: `doCommit` on context `c` logs its item and the content of its push buffer. -/
def logCommit (c : Nat) (s : Exec T) : Exec T :=
  { s with
    commitLog := (s.ctxts c).active :: s.commitLog
    publishLog := (s.ctxts c).pushBuffer ++ s.publishLog }

/-- The `assert` of the source: execution goes on, a failure is remembered. -/
def assertThat (cond : Bool) (s : Exec T) : Exec T :=
  { s with assertFailed := s.assertFailed || !cond }

/-- A store to the owner word of Lockable `l`. -/
def setLockOwner (l : Nat) (o : Option Nat) (s : Exec T) : Exec T :=
  { s with lockOwner := Function.update s.lockOwner l o }

/-- One round of the loop of `ROBcontext::releaseLocks` on the owner words: the guard
`getOwner (l) == this` and then `release (l)`, which stores null. -/
def releaseOne (c : Nat) (own : Nat → Option Nat) (l : Nat) : Nat → Option Nat :=
  if own l = some c then Function.update own l none else own

/-- `ROBcontext::releaseLocks`: the loop over the neighborhood. -/
def releaseLocks (c : Nat) (s : Exec T) : Exec T :=
  { s with lockOwner := (s.ctxts c).nhood.foldl (releaseOne c) s.lockOwner }

/-- A store of the heap `h` to `pending[i]` (the heap that is left behind by a `pop`). -/
def setPending (i : Nat) (h : List T) (s : Exec T) : Exec T :=
  { s with pending := Function.update s.pending i h }

/-- The statement `pending.get ().push (x)` run on thread `tid`. -/
def pushLocal (tid : Nat) (x : T) (s : Exec T) : Exec T :=
  { s with pending := Function.update s.pending tid (heapPush x (s.pending tid)) }

/-- `ROBexecutor::push` run on thread `tid`: every item goes to the caller's own heap. -/
def push (tid : Nat) (items : List T) (s : Exec T) : Exec T :=
  { s with pending :=
      Function.update s.pending tid (items.foldl (fun h x => heapPush x h) (s.pending tid)) }

/-- `ROBexecutor::push_abort`: the item goes to the heap of `owner / 2`. -/
def push_abort (x : T) (owner : Nat) (s : Exec T) : Exec T :=
  { s with pending := Function.update s.pending (owner / 2) (heapPush x (s.pending (owner / 2))) }

/-- A store of the heap `r` to `rob` (the heap that is left behind by a `pop`, or that a
`push` makes). -/
def setRob (r : List Nat) (s : Exec T) : Exec T :=
  { s with rob := r }

/-- A store of the deque `q` to `freeList[w]`. -/
def setFreeList (w : Nat) (q : List Nat) (s : Exec T) : Exec T :=
  { s with freeList := Function.update s.freeList w q }

/-- `ROBexecutor::reclaim`: `freeList[ctx->owner].push_back (ctx)`. -/
def reclaim (ctx : Nat) (s : Exec T) : Exec T :=
  { s with freeList :=
      Function.update s.freeList (s.ctxts ctx).owner (s.freeList (s.ctxts ctx).owner ++ [ctx]) }

/-- `numTotal += 1`. -/
def addNumTotal (s : Exec T) : Exec T := { s with numTotal := s.numTotal + 1 }

/-- `numCommitted += 1`. -/
def addNumCommitted (s : Exec T) : Exec T := { s with numCommitted := s.numCommitted + 1 }

/-- `numGlobalCleanups += 1`. -/
def addNumGlobalCleanups (s : Exec T) : Exec T :=
  { s with numGlobalCleanups := s.numGlobalCleanups + 1 }

/-- `abortSelfByConflict += 1`. -/
def addAbortSelfByConflict (s : Exec T) : Exec T :=
  { s with abortSelfByConflict := s.abortSelfByConflict + 1 }

/-- `abortSelfBySignal += 1`. -/
def addAbortSelfBySignal (s : Exec T) : Exec T :=
  { s with abortSelfBySignal := s.abortSelfBySignal + 1 }

/-- `abortByOther += 1`. -/
def addAbortByOther (s : Exec T) : Exec T := { s with abortByOther := s.abortByOther + 1 }

end Stores

/-! ## ROBcontext -/

section Context

variable {T : Type}

/-- `ROBcontext::hasState`. -/
def hasState (c : Nat) (st : State) (s : Exec T) : Bool :=
  decide ((s.ctxts c).state = st)

/-- `ROBcontext::hasExecuted`. -/
def hasExecuted (c : Nat) (s : Exec T) : Bool := (s.ctxts c).executed

/-- `ROBcontext::casState`: the store happens only when the old value matches. -/
def casState (c : Nat) (s_old s_new : State) (s : Exec T) : Bool × Exec T :=
  if (s.ctxts c).state = s_old then (true, setState c s_new s) else (false, s)

/-- Modelled from the spec: `SimpleRuntimeContext::tryAcquire` (spec 4.1; `Context.h` is
not among the sources).  The owner word goes from null to `c`, or is left alone. -/
def tryAcquire (c l : Nat) (s : Exec T) : AcquireStatus × Exec T :=
  match s.lockOwner l with
  | none => (.NEW_OWNER, setLockOwner l (some c) s)
  | some o => if o = c then (.ALREADY_OWNER, s) else (.FAIL, s)

/-- Modelled from the spec: `SimpleRuntimeContext::getOwner` (spec 4.1). -/
def getOwner (l : Nat) (s : Exec T) : Option Nat := s.lockOwner l

/-- `ROBcontext::doCommit` run on thread `tid`.  `userHandle.commit ()` only touches
user data.  Ghost: the item and the published items are logged, `nCommit` counts. -/
def doCommit (tid c : Nat) (s : Exec T) : Exec T :=
  let s0 := assertThat (hasState c .COMMITTING s) s
  let s1 := releaseLocks c (logCommit c s0)
  let s2 := push tid (s1.ctxts c).pushBuffer s1
  let s3 := resetUserHandle c s2
  countCommit c (setState c .COMMIT_DONE s3)

/-- `ROBcontext::doAbort`.  `userHandle.rollback ()` only touches user data.
Ghost: `nAbort` counts. -/
def doAbort (c : Nat) (s : Exec T) : Exec T :=
  let s0 := assertThat (hasState c .ABORTING s) s
  let s1 := releaseLocks c s0
  let s2 := push_abort (s1.ctxts c).active (s1.ctxts c).owner s1
  let s3 := resetUserHandle c s2
  countAbort c (setState c .ABORT_DONE s3)

/-- `ROBcontext::PtrComparator::operator ()`, which is `getCtxtCmp ()`. -/
def ctxtCmp (cmp : T → T → Bool) (s : Exec T) (left right : Nat) : Bool :=
  cmp (s.ctxts left).active (s.ctxts right).active

/-- The three statements `that->setState (ABORTING); that->doAbort ();
executor.abortByOther += 1;` of `resolveConflict`. -/
def abortOther (that : Nat) (s : Exec T) : Exec T :=
  addAbortByOther (doAbort that (setState that .ABORTING s))

/-- The `while (true)` loop of `resolveConflict`.  No other thread runs in between, so
a round that changes nothing repeats for ever; `none` is a loop that has not left after
`fuel` rounds. -/
def spinLoop : Nat → Nat → Exec T → Option (Exec T)
  | 0, _, _ => none
  | fuel + 1, that, s =>
    if hasState that .ABORT_DONE s then some s
    else if hasExecuted that s then
      match casState that .ABORT_SELF .ABORT_HELP s with
      | (true, s1) => spinLoop fuel that (abortOther that s1)
      | (false, s1) => spinLoop fuel that s1
    else spinLoop fuel that s

/-- `ROBcontext::resolveConflict` with `this = self`.  The result is the returned flag
and the state, `none` when the spin loop does not leave within `fuel` rounds. -/
def resolveConflict (cmp : T → T → Bool) (fuel : Nat) (self that : Nat) (s : Exec T) :
    Option (Bool × Exec T) :=
  if ctxtCmp cmp s self that then
    let s0 := assertThat (!hasState that .COMMIT_DONE s && !hasState that .COMMITTING s) s
    if hasState that .ABORT_DONE s0 then some (false, s0)
    else
      match casState that .SCHEDULED .ABORT_SELF s0 with
      | (true, s1) => (spinLoop fuel that s1).map (fun s2 => (false, s2))
      | (false, s1) =>
        if hasState that .ABORT_SELF s1 then (spinLoop fuel that s1).map (fun s2 => (false, s2))
        else
          match casState that .READY_TO_COMMIT .ABORT_HELP s1 with
          | (true, s2) => some (false, abortOther that s2)
          | (false, s2) => some (false, s2)
  else
    some (true, setState self .ABORT_SELF s)

/-- `ROBcontext::subAcquire` with `this = c`: the retry loop `for (succ = false; !succ;)`.
`none` is a loop (this one or the spin loop inside) that has not left within `fuel`
rounds. -/
def subAcquire (cmp : T → T → Bool) : Nat → Nat → Nat → Exec T → Option (Exec T)
  | 0, _, _, _ => none
  | fuel + 1, c, l, s =>
    match tryAcquire c l s with
    | (.FAIL, s1) =>
      match getOwner l s1 with
      | some that =>
        match resolveConflict cmp fuel c that s1 with
        | none => none
        | some (abortSelf, s2) =>
          let s3 := setLostConflict c true s2
          if abortSelf then some s3 else subAcquire cmp fuel c l s3
      | none => subAcquire cmp fuel c l s1
    | (.NEW_OWNER, s1) => some (nhoodPushBack c l s1)
    | (.ALREADY_OWNER, s1) => some (assertThat (decide (l ∈ (s1.ctxts c).nhood)) s1)

end Context

/-! ## ROBexecutor -/

section Executor

variable {T : Type}

/-- The body of the scan loop of `scheduleGlobalMinFirst` for heap `i`; the accumulator
is (`minTID`, `minPtr`). -/
def scanStep (cmp : T → T → Bool) (pending : Nat → List T) (acc : Nat × Option T) (i : Nat) :
    Nat × Option T :=
  match heapTop cmp (pending i) with
  | none => acc
  | some t =>
    match acc.2 with
    | none => (i, some t)
    | some m => if cmp t m then (i, some t) else acc

/-- The scan loop `for (i = 0; i < getActiveThreads (); ++i)` of
`scheduleGlobalMinFirst`, started with `minTID = 0` and `minPtr = nullptr`. -/
def scanMin (cmp : T → T → Bool) (s : Exec T) : Nat × Option T :=
  (List.range s.activeThreads).foldl (scanStep cmp s.pending) (0, none)

/-- `ROBexecutor::scheduleGlobalMinFirst` run on thread `tid`; the result is the
returned pointer (`none` for `nullptr`) and the state. -/
def scheduleGlobalMinFirst (cmp : T → T → Bool) (tid : Nat) (s : Exec T) :
    Option Nat × Exec T :=
  let notEmpty := !(s.freeList tid).isEmpty && !emptyAll s.maxThreads s.pending
  if notEmpty then
    if !(s.freeList tid).isEmpty then
      let minTID := (scanMin cmp s).1
      match heapPop cmp (s.pending minTID), (s.freeList tid).getLast? with
      | some (x, rest), some ctx =>
        let s1 := setFreeList tid (s.freeList tid).dropLast s
        let s2 := construct ctx x tid (setPending minTID rest s1)
        let s3 := setOwner ctx tid (setState ctx .SCHEDULED s2)
        (some ctx, addNumTotal (setRob (heapPush ctx s3.rob) s3))
      | _, _ => (none, s)
    else (none, s)
  else (none, s)

/-- The loop of `ROBexecutor::isEarliest` over the remaining heap indices, with the
`break` as soon as `earliest` is false. -/
def isEarliestLoop (cmp : T → T → Bool) (pending : Nat → List T) (x : T) :
    List Nat → Bool → Bool
  | [], earliest => earliest
  | i :: rest, earliest =>
    let e1 :=
      match heapTop cmp (pending i) with
      | some t => earliest && !cmp t x
      | none => earliest
    if !e1 then e1 else isEarliestLoop cmp pending x rest e1

/-- `ROBexecutor::isEarliest`.  The executor state is only read. -/
def isEarliest (cmp : T → T → Bool) (x : T) (s : Exec T) : Bool :=
  isEarliestLoop cmp s.pending x (List.range s.activeThreads) true

/-- The first loop of `ROBexecutor::reclaimGlobally`: the reorder buffer is drained,
contexts in ABORT_DONE are reclaimed, the others are collected in `buffer`.  One round
per element of the reorder buffer. -/
def drainROB (cmp : T → T → Bool) : Nat → Exec T → List Nat → Exec T × List Nat
  | 0, s, buffer => (s, buffer)
  | fuel + 1, s, buffer =>
    match heapPop (ctxtCmp cmp s) s.rob with
    | none => (s, buffer)
    | some (ctx, rest) =>
      let s1 := setRob rest s
      if hasState ctx .ABORT_DONE s1 then drainROB cmp fuel (reclaim ctx s1) buffer
      else drainROB cmp fuel s1 (buffer ++ [ctx])

/-- `ROBexecutor::reclaimGlobally`. -/
def reclaimGlobally (cmp : T → T → Bool) (s : Exec T) : Exec T :=
  let s0 := addNumGlobalCleanups s
  let r := drainROB cmp s0.rob.length s0 []
  setRob (r.2.foldl (fun h c => heapPush c h) r.1.rob) r.1

/-- What one round of the `while (!rob.empty ())` loop of `clearROB` did. -/
inductive Sweep (T : Type) where
  | stop : Sweep T
  | reclaimed (head : Nat) (s : Exec T) : Sweep T
  | committed (head : Nat) (s : Exec T) : Sweep T

/-- One round of the loop of `ROBexecutor::clearROB` run on thread `tid`: `stop` is the
loop condition being false or a `break`. -/
def clearROBRound (cmp : T → T → Bool) (tid : Nat) (s : Exec T) : Sweep T :=
  match heapTop (ctxtCmp cmp s) s.rob with
  | none => .stop
  | some head =>
    if hasState head .ABORT_DONE s then
      match heapPop (ctxtCmp cmp s) s.rob with
      | none => .stop
      | some (t, rest) => .reclaimed head (reclaim t (setRob rest s))
    else if hasState head .READY_TO_COMMIT s then
      if isEarliest cmp (s.ctxts head).active s then
        let s1 := setState head .COMMITTING s
        let s2 := doCommit tid head s1
        match heapPop (ctxtCmp cmp s2) s2.rob with
        | none => .stop
        | some (t, rest) =>
          let s3 := assertThat (decide (t = head)) (setRob rest s2)
          .committed head (addNumCommitted (reclaim t s3))
      else .stop
    else .stop

/-- The loop of `ROBexecutor::clearROB`; the flag is `didWork`.  Every round that does
not stop removes one element of the reorder buffer, so `fuel` rounds are enough when
`fuel` is the size of the reorder buffer. -/
def clearROBLoop (cmp : T → T → Bool) (tid : Nat) : Nat → Exec T → Bool → Bool × Exec T
  | 0, s, didWork => (didWork, s)
  | fuel + 1, s, didWork =>
    match clearROBRound cmp tid s with
    | .stop => (didWork, s)
    | .reclaimed _ s1 => clearROBLoop cmp tid fuel s1 true
    | .committed _ s1 => clearROBLoop cmp tid fuel s1 true

/-- `ROBexecutor::clearROB` run on thread `tid`. -/
def clearROB (cmp : T → T → Bool) (tid : Nat) (s : Exec T) : Bool × Exec T :=
  let r := clearROBLoop cmp tid s.rob.length s false
  let s1 := r.2
  if !s1.rob.isEmpty && emptyAll s1.maxThreads s1.freeList then
    (r.1, reclaimGlobally cmp s1)
  else (r.1, s1)

/-- `ROBexecutor::execute`: `if (ctx->lostConflict) abortSelfByConflict += 1; else
abortSelfBySignal += 1;`. -/
def countSelfAbort (c : Nat) (s : Exec T) : Exec T :=
  if (s.ctxts c).lostConflict then addAbortSelfByConflict s else addAbortSelfBySignal s

/-- The statements of `ROBexecutor::execute` between `applyOperator (ctx)` and
`clearROB (ctx)`: the two compare-and-swaps, the self abort with its counter, and the
store to `executed`. -/
def finishIteration (ctx : Nat) (s : Exec T) : Exec T :=
  let s2 :=
    match casState ctx .SCHEDULED .READY_TO_COMMIT s with
    | (true, s1) => s1
    | (false, s1) =>
      match casState ctx .ABORT_SELF .ABORTING s1 with
      | (true, s2) =>
        doAbort ctx (countSelfAbort ctx s2)
      | (false, s2) => s2
  setExecuted ctx true s2

end Executor

/-! ## Specification-side definitions -/

section SpecDefs

variable {T : Type}

/-- The comparator requirement of the spec (section 3): `cmp` is a strict order in which
being incomparable is transitive, so that items may compare equal. -/
structure StrictWeak (cmp : T → T → Bool) : Prop where
  irrefl : ∀ a, cmp a a = false
  trans : ∀ a b c, cmp a b = true → cmp b c = true → cmp a c = true
  negTrans : ∀ a b c, cmp a b = false → cmp b c = false → cmp a c = false

/-- The spec's wording of `isEarliest` (section 4.6): no pending heap has a top item
strictly less than `x`; all heaps are looked at. -/
def isEarliestSpec (cmp : T → T → Bool) (x : T) (s : Exec T) : Bool :=
  (List.range s.activeThreads).all fun i =>
    match heapTop cmp (s.pending i) with
    | some t => !cmp t x
    | none => true

/-- The legal transitions of a context state (spec section 4.3). -/
def legalTransition : State → State → Bool
  | .UNSCHEDULED, .SCHEDULED => true
  | .SCHEDULED, .READY_TO_COMMIT => true
  | .SCHEDULED, .ABORT_SELF => true
  | .ABORT_SELF, .ABORTING => true
  | .ABORT_SELF, .ABORT_HELP => true
  | .READY_TO_COMMIT, .ABORT_HELP => true
  | .ABORT_HELP, .ABORTING => true
  | .ABORTING, .ABORT_DONE => true
  | .READY_TO_COMMIT, .COMMITTING => true
  | .COMMITTING, .COMMIT_DONE => true
  | _, _ => false

/-- The terminal states of a context. -/
def State.terminal (st : State) : Bool :=
  decide (st = .COMMIT_DONE) || decide (st = .ABORT_DONE)

/-- The contexts of the reorder buffer whose attempt is not over: those that are not in
state ABORT_DONE (a committed context leaves the buffer in the round that commits it). -/
def liveRob (s : Exec T) : List Nat :=
  s.rob.filter fun c => decide ((s.ctxts c).state ≠ .ABORT_DONE)

/-- The items of the pending heaps of the active threads, as a multiset. -/
def heapItems (pending : Nat → List T) : Nat → Multiset T
  | 0 => 0
  | k + 1 => heapItems pending k + (pending k : Multiset T)

/-- The items waiting in the pending heaps. -/
def pendingItems (s : Exec T) : Multiset T := heapItems s.pending s.activeThreads

/-- The items held by the contexts of the reorder buffer whose attempt is not over. -/
def liveItems (s : Exec T) : Multiset T :=
  ((liveRob s).map fun c => (s.ctxts c).active : List T)

end SpecDefs

/-! ## Start-up and runs -/

section Runs

variable {T : Type}

/-- The executor right after the constructor `ROBexecutor (cmp, nhFunc, opFunc)`: empty
containers, zero counters, no Lockable owned.  The arena holds no context yet; its
content `Ctxt.construct junk 0` stands for unallocated memory. -/
def Exec.fresh (activeThreads maxThreads : Nat) (junk : T) : Exec T :=
  { activeThreads := activeThreads, maxThreads := maxThreads,
    ctxts := fun _ => Ctxt.construct junk 0, lockOwner := fun _ => none,
    pending := fun _ => [], rob := [], freeList := fun _ => [],
    numTotal := 0, numCommitted := 0, numGlobalCleanups := 0,
    abortSelfByConflict := 0, abortSelfBySignal := 0, abortByOther := 0,
    commitLog := [], publishLog := [], stateLog := [], assertFailed := false }

/-- The `do_all` of `push_initial`: the `k`-th remaining item is pushed by thread
`assign k` into its own heap. -/
def pushEach (assign : Nat → Nat) : Nat → List T → Exec T → Exec T
  | _, [], s => s
  | k, y :: ys, s => pushEach assign (k + 1) ys (pushLocal (assign k) y s)

/-- One round of the allocation loop of `push_initial` on thread `tid`: the `j`-th
context of that thread is allocated at pointer `tid * window + j`, constructed from
`dummy`, set to SCHEDULED and appended to the thread's free list. -/
def allocSlot (window : Nat) (dummy : T) (tid : Nat) (s : Exec T) (j : Nat) : Exec T :=
  let ctx := tid * window + j
  let s1 := setState ctx .SCHEDULED (construct ctx dummy tid s)
  setFreeList tid (s1.freeList tid ++ [ctx]) s1

/-- The `on_each` of `push_initial`: every active thread allocates `window` contexts. -/
def allocAll (window : Nat) (dummy : T) (s : Exec T) : Exec T :=
  (List.range s.activeThreads).foldl
    (fun s1 tid => (List.range window).foldl (allocSlot window dummy tid) s1) s

/-- `ROBexecutor::push_initial` for a window of `window` contexts per thread.  On an
empty range the first `assert` fails and `*beg` has no value: the result is `none`. -/
def push_initialW (cmp : T → T → Bool) (window : Nat) (assign : Nat → Nat) (items : List T)
    (s : Exec T) : Option (Exec T) :=
  match items with
  | [] => none
  | x :: rest =>
    let s1 := pushEach assign 0 rest (setPending 0 (heapPush x (s.pending 0)) s)
    let s2 := assertThat (!emptyAll s1.maxThreads s1.pending) s1
    match heapTop cmp (s2.pending 0) with
    | none => none
    | some dummy => some (allocAll window dummy s2)

/-- `ROBexecutor::push_initial`, with the window size of the source. -/
def push_initial (cmp : T → T → Bool) (assign : Nat → Nat) (items : List T) (s : Exec T) :
    Option (Exec T) :=
  push_initialW cmp WINDOW_SIZE_PER_THREAD assign items s

/-- The state `s0` in which the worker threads start: `push_initial` has run on a fresh
executor with at least one active thread, every item having been pushed by an active
thread. -/
def Initial (cmp : T → T → Bool) (window : Nat) (items : List T) (s0 : Exec T) : Prop :=
  ∃ (activeThreads maxThreads : Nat) (junk : T) (assign : Nat → Nat),
    0 < activeThreads ∧ activeThreads ≤ maxThreads ∧ (∀ k, assign k < activeThreads) ∧
    push_initialW cmp window assign items (Exec.fresh activeThreads maxThreads junk) = some s0

/-- Context `c` is between its scheduling and the store to `executed`: its owner thread
is inside `applyOperator` or just behind it. -/
def Running (s : Exec T) (c : Nat) : Prop :=
  c ∈ s.rob ∧ (s.ctxts c).executed = false

/-- The statements of the winning branch of `resolveConflict` up to the spin loop: the
`assert` and the compare-and-swap that signals `that`. -/
def signalThat (that : Nat) (s : Exec T) : Exec T :=
  let s0 := assertThat (!hasState that .COMMIT_DONE s && !hasState that .COMMITTING s) s
  (casState that .SCHEDULED .ABORT_SELF s0).2

/-- One step of a run of whole operations: a thread runs one of the operations below
from its first statement to its last before another thread runs.  These are the
executions of the program in which no thread is interrupted inside an operation; the
executions in which the statements of different threads interleave are those of
`FineStep`.  `allowed a x` says that an operator working on item `a` may push item `x`.
* `schedule`: a thread runs `scheduleGlobalMinFirst`;
* `acquire`: the operator of a running context calls `subAcquire`, which returns; the
  read of the owner of the Lockable, the comparison, the `assert` and the stores to the
  owner are made with no step of another thread in between;
* `signal`: the operator of a running context is in `resolveConflict` against the owner
  `that` of a Lockable, has won the comparison and signalled, and now waits in the loop
  for `that`; the operator goes on with an `acquire`.  The store `lostConflict = true`
  of `subAcquire` behind `resolveConflict` is made in this step: the flag is read only
  by the thread of the context, behind `applyOperator`;
* `opPush`: the operator of a running context appends to its push buffer;
* `finish`: the owner thread runs the statements behind `applyOperator`;
* `clear`: a thread runs `clearROB`; the test of the head and the store of COMMITTING
  are made with no step of another thread in between. -/
inductive Step (cmp : T → T → Bool) (allowed : T → T → Prop) : Exec T → Exec T → Prop where
  | schedule (s : Exec T) (tid : Nat) :
      tid < s.activeThreads → Step cmp allowed s (scheduleGlobalMinFirst cmp tid s).2
  | acquire (s : Exec T) (c l fuel : Nat) (s1 : Exec T) :
      Running s c → subAcquire cmp fuel c l s = some s1 → Step cmp allowed s s1
  | signal (s : Exec T) (c l that : Nat) :
      Running s c → s.lockOwner l = some that → that ≠ c → ctxtCmp cmp s c that = true →
      hasState that .ABORT_DONE s = false →
      Step cmp allowed s (setLostConflict c true (signalThat that s))
  | opPush (s : Exec T) (c : Nat) (x : T) :
      Running s c → allowed (s.ctxts c).active x → Step cmp allowed s (pushBufferAppend c x s)
  | finish (s : Exec T) (c : Nat) :
      Running s c → Step cmp allowed s (finishIteration c s)
  | clear (s : Exec T) (tid : Nat) :
      tid < s.activeThreads → Step cmp allowed s (clearROB cmp tid s).2

/-- The states a run reaches from `s0`. -/
inductive Reachable (cmp : T → T → Bool) (allowed : T → T → Prop) (s0 : Exec T) :
    Exec T → Prop where
  | init : Reachable cmp allowed s0 s0
  | step (s s1 : Exec T) :
      Reachable cmp allowed s0 s → Step cmp allowed s s1 → Reachable cmp allowed s0 s1

/-- State `s` is reached by a run of the executor on the input `items`. -/
def Run (cmp : T → T → Bool) (allowed : T → T → Prop) (window : Nat) (items : List T)
    (s : Exec T) : Prop :=
  ∃ s0, Initial cmp window items s0 ∧ Reachable cmp allowed s0 s

/-- Structural invariant of the executor state between atomic steps. -/
structure WF (s : Exec T) : Prop where
  owned : ∀ l c, s.lockOwner l = some c →
    l ∈ (s.ctxts c).nhood ∧ c ∈ s.rob ∧
      (s.ctxts c).state ≠ .ABORT_DONE ∧ (s.ctxts c).state ≠ .COMMIT_DONE
  robNodup : s.rob.Nodup
  freeNotRob : ∀ w c, c ∈ s.freeList w → c ∉ s.rob
  freeNodup : ∀ w, (s.freeList w).Nodup
  freeDisjoint : ∀ w w1 c, c ∈ s.freeList w → c ∈ s.freeList w1 → w = w1
  notExecuted : ∀ c, c ∈ s.rob → (s.ctxts c).executed = false →
    (s.ctxts c).state = .SCHEDULED ∨ (s.ctxts c).state = .ABORT_SELF
  ownerValid : ∀ c, c ∈ s.rob → (s.ctxts c).owner < s.activeThreads
  pendingValid : ∀ i, s.activeThreads ≤ i → s.pending i = []

end Runs

/-! ## The state changes a step is made of -/

section Atoms

variable {T : Type}

/-- The state changes out of which every step of a run is composed, each with the
condition under which the source makes it.  Between two of them the counters, the logs
and the containers are consistent with each other.
* `sched`: the body of `scheduleGlobalMinFirst` when it schedules;
* `newOwner`, `asserted`, `loseState`, `lostFlag`: `subAcquire` and the losing branch
  of `resolveConflict`;
* `signalled`, `helped`: the winning branch of `resolveConflict`;
* `opPush`: an append to the push buffer;
* `finishReady`, `finishAbort`, `finishOnly`: the statements of `execute` behind
  `applyOperator`;
* `commit`, `dropAborted`: a round of the loop of `clearROB`, and a round of
  `reclaimGlobally` that reclaims;
* `permRob`, `cleanupCount`: the rest of `reclaimGlobally`. -/
inductive Atom (cmp : T → T → Bool) (allowed : T → T → Prop) : Exec T → Exec T → Prop where
  | sched (s : Exec T) (tid ctx j : Nat) (x : T) (rest : List T) :
      tid < s.activeThreads → j < s.activeThreads →
      (s.freeList tid).getLast? = some ctx →
      heapPop cmp (s.pending j) = some (x, rest) →
      Atom cmp allowed s
        (addNumTotal (setRob (heapPush ctx s.rob)
          (setOwner ctx tid (setState ctx .SCHEDULED
            (construct ctx x tid (setPending j rest
              (setFreeList tid (s.freeList tid).dropLast s)))))))
  | newOwner (s : Exec T) (c l : Nat) :
      Running s c → s.lockOwner l = none →
      Atom cmp allowed s (nhoodPushBack c l (setLockOwner l (some c) s))
  | asserted (s : Exec T) (cond : Bool) :
      Atom cmp allowed s (assertThat cond s)
  | loseState (s : Exec T) (c : Nat) :
      Running s c → Atom cmp allowed s (setState c .ABORT_SELF s)
  | lostFlag (s : Exec T) (c : Nat) :
      Atom cmp allowed s (setLostConflict c true s)
  | signalled (s : Exec T) (that : Nat) :
      (s.ctxts that).state = .SCHEDULED → Atom cmp allowed s (setState that .ABORT_SELF s)
  | helped (s : Exec T) (l that : Nat) :
      s.lockOwner l = some that →
      ((s.ctxts that).state = .READY_TO_COMMIT ∨
        ((s.ctxts that).state = .ABORT_SELF ∧ (s.ctxts that).executed = true)) →
      Atom cmp allowed s (abortOther that (setState that .ABORT_HELP s))
  | opPush (s : Exec T) (c : Nat) (x : T) :
      Running s c → allowed (s.ctxts c).active x → Atom cmp allowed s (pushBufferAppend c x s)
  | finishReady (s : Exec T) (c : Nat) :
      Running s c → (s.ctxts c).state = .SCHEDULED →
      Atom cmp allowed s (setExecuted c true (setState c .READY_TO_COMMIT s))
  | finishAbort (s : Exec T) (c : Nat) :
      Running s c → (s.ctxts c).state = .ABORT_SELF →
      Atom cmp allowed s
        (setExecuted c true (doAbort c (countSelfAbort c (setState c .ABORTING s))))
  | finishOnly (s : Exec T) (c : Nat) :
      Running s c → (s.ctxts c).state ≠ .SCHEDULED → (s.ctxts c).state ≠ .ABORT_SELF →
      Atom cmp allowed s (setExecuted c true s)
  | commit (s : Exec T) (tid head : Nat) (rest : List Nat) :
      tid < s.activeThreads →
      heapPop (ctxtCmp cmp s) s.rob = some (head, rest) →
      (s.ctxts head).state = .READY_TO_COMMIT →
      isEarliest cmp (s.ctxts head).active s = true →
      Atom cmp allowed s
        (addNumCommitted (reclaim head (assertThat true
          (setRob rest (doCommit tid head (setState head .COMMITTING s))))))
  | dropAborted (s : Exec T) (c : Nat) (rest : List Nat) :
      s.rob.Perm (c :: rest) → (s.ctxts c).state = .ABORT_DONE →
      Atom cmp allowed s (reclaim c (setRob rest s))
  | permRob (s : Exec T) (r : List Nat) :
      s.rob.Perm r → Atom cmp allowed s (setRob r s)
  | cleanupCount (s : Exec T) :
      Atom cmp allowed s (addNumGlobalCleanups s)

/-- A sequence of state changes. -/
inductive Atoms (cmp : T → T → Bool) (allowed : T → T → Prop) : Exec T → Exec T → Prop where
  | refl (s : Exec T) : Atoms cmp allowed s s
  | tail (s s1 s2 : Exec T) :
      Atoms cmp allowed s s1 → Atom cmp allowed s1 s2 → Atoms cmp allowed s s2

/-- Nothing has run yet on an executor with `n` active threads: no context is in
the reorder buffer, no Lockable is owned, the counters are zero, the logs are empty, and
every context is as its constructor and the first `setState (SCHEDULED)` left it. -/
structure Pristine (n : Nat) (s : Exec T) : Prop where
  rob : s.rob = []
  lockOwner : ∀ l, s.lockOwner l = none
  activeThreads : s.activeThreads = n
  pendingValid : ∀ i, n ≤ i → s.pending i = []
  numTotal : s.numTotal = 0
  numCommitted : s.numCommitted = 0
  numGlobalCleanups : s.numGlobalCleanups = 0
  abortSelfByConflict : s.abortSelfByConflict = 0
  abortSelfBySignal : s.abortSelfBySignal = 0
  abortByOther : s.abortByOther = 0
  commitLog : s.commitLog = []
  publishLog : s.publishLog = []
  ctxts : ∀ d, (s.ctxts d).nCommit = 0 ∧ (s.ctxts d).nAbort = 0 ∧
    (s.ctxts d).pushBuffer = [] ∧
    ((s.ctxts d).state = .UNSCHEDULED ∨ (s.ctxts d).state = .SCHEDULED)
  stateLog : ∀ e, e ∈ s.stateLog → e.2 = (State.UNSCHEDULED, State.SCHEDULED)

/-- The shape of the executor when the worker threads start: nothing has run, and the
free list of every active thread holds its `window` contexts. -/
structure Started (window : Nat) (s0 : Exec T) : Prop where
  pristine : Pristine s0.activeThreads s0
  active : 0 < s0.activeThreads
  freeList : ∀ w, s0.freeList w =
    if w < s0.activeThreads then (List.range window).map (fun j => w * window + j) else []

end Atoms

/-! ## Invariants of a run -/

section Invariants

variable {T : Type}

/-- Every recorded store to a context state is a legal transition or stores the value
that was there. -/
def LegalLog (s : Exec T) : Prop :=
  ∀ e, e ∈ s.stateLog → legalTransition e.2.1 e.2.2 = true ∨ e.2.1 = e.2.2

/-- For every context object: `doCommit` has run once and `doAbort` never when it is in
COMMIT_DONE, `doAbort` once and `doCommit` never when it is in ABORT_DONE, and neither
has run in any other state. -/
def OneOutcome (s : Exec T) : Prop :=
  ∀ d,
    ((s.ctxts d).state = .COMMIT_DONE → (s.ctxts d).nCommit = 1 ∧ (s.ctxts d).nAbort = 0) ∧
    ((s.ctxts d).state = .ABORT_DONE → (s.ctxts d).nCommit = 0 ∧ (s.ctxts d).nAbort = 1) ∧
    ((s.ctxts d).state ≠ .COMMIT_DONE → (s.ctxts d).state ≠ .ABORT_DONE →
      (s.ctxts d).nCommit = 0 ∧ (s.ctxts d).nAbort = 0)

/-- The counters account for every scheduled attempt: it was committed, or aborted, or
is still live in the reorder buffer. -/
def Counted (s : Exec T) : Prop :=
  s.numTotal =
    s.numCommitted + s.abortSelfByConflict + s.abortSelfBySignal + s.abortByOther +
      (liveRob s).length

/-- No item is lost or duplicated: the input and the published items are the committed
items, the pending items and the items of the live contexts; `numCommitted` counts the
committed items. -/
def Conserved (items : List T) (s : Exec T) : Prop :=
  (items : Multiset T) + (s.publishLog : Multiset T) =
      (s.commitLog : Multiset T) + pendingItems s + liveItems s ∧
    s.numCommitted = s.commitLog.length

/-- The committed items precede nothing that is still to come: no pending item and no
item of a context in the reorder buffer strictly precedes a committed item, no buffered
push precedes the item that pushes it, and the commit log is in order. -/
structure Ordered (cmp : T → T → Bool) (s : Exec T) : Prop where
  pending : ∀ x, x ∈ s.commitLog → ∀ i y, y ∈ s.pending i → cmp y x = false
  rob : ∀ x, x ∈ s.commitLog → ∀ c, c ∈ s.rob → cmp (s.ctxts c).active x = false
  buffer : ∀ c p, p ∈ (s.ctxts c).pushBuffer → cmp p (s.ctxts c).active = false
  log : s.commitLog.Pairwise fun later earlier => cmp later earlier = false

/-- The states at the head of the loop of `clearROB` run on thread `tid` and started in
`s`: `s` itself and every state a round that did not stop has produced. -/
inductive Swept (cmp : T → T → Bool) (tid : Nat) (s : Exec T) : Exec T → Prop where
  | start : Swept cmp tid s s
  | reclaimed (a b : Exec T) (head : Nat) :
      Swept cmp tid s a → clearROBRound cmp tid a = .reclaimed head b → Swept cmp tid s b
  | committed (a b : Exec T) (head : Nat) :
      Swept cmp tid s a → clearROBRound cmp tid a = .committed head b → Swept cmp tid s b

end Invariants

/-! ## A small run

Two threads, one context each, the items 5 and 3 under the order of the natural
numbers.  Thread 1 schedules item 3, thread 0 schedules item 5 and takes Lockable 7; the
operator of item 3 asks for Lockable 7, wins the comparison and signals; thread 0 aborts
its attempt; item 3 gets the Lockable, is committed, and item 5 is scheduled again and
committed. -/

section Demo

/-- The strict order of the natural numbers as a comparator. -/
def natLt (a b : Nat) : Bool := decide (a < b)

/-- The operators of the small run may push anything that does not precede their item. -/
def demoAllowed (a x : Nat) : Prop := natLt x a = false

/-- The small run: the state after `push_initial`. -/
def demoStart : Exec Nat :=
  allocAll 1 3
    (assertThat true (pushEach (fun _ => 0) 0 [3] (setPending 0 [5] (Exec.fresh 2 2 0))))

/-- The small run: thread 1 has scheduled item 3 into context 1. -/
def demo1 : Exec Nat := (scheduleGlobalMinFirst natLt 1 demoStart).2

/-- The small run: thread 0 has scheduled item 5 into context 0. -/
def demo2 : Exec Nat := (scheduleGlobalMinFirst natLt 0 demo1).2

/-- The small run: context 0 has acquired Lockable 7. -/
def demo3 : Exec Nat := nhoodPushBack 0 7 (setLockOwner 7 (some 0) demo2)

/-- The small run: context 1 has asked for Lockable 7 and signalled context 0. -/
def demo4 : Exec Nat := setLostConflict 1 true (signalThat 0 demo3)

/-- The small run: thread 0 has seen the signal and aborted context 0. -/
def demo5 : Exec Nat := finishIteration 0 demo4

/-- The small run: context 1 has acquired Lockable 7. -/
def demo6 : Exec Nat := nhoodPushBack 1 7 (setLockOwner 7 (some 1) demo5)

/-- The small run: thread 1 is behind the operator of context 1. -/
def demo7 : Exec Nat := finishIteration 1 demo6

/-- The small run: thread 1 has swept the reorder buffer; item 3 is committed. -/
def demo8 : Exec Nat := (clearROB natLt 1 demo7).2

/-- The small run: thread 0 has scheduled item 5 again. -/
def demo9 : Exec Nat := (scheduleGlobalMinFirst natLt 0 demo8).2

/-- The small run: thread 0 is behind the operator of context 0. -/
def demo10 : Exec Nat := finishIteration 0 demo9

/-- The small run: thread 0 has swept the reorder buffer; item 5 is committed. -/
def demoEnd : Exec Nat := (clearROB natLt 0 demo10).2

/-- A variant of the small run: after both items are scheduled, context 1 (item 3) is the
one that has acquired Lockable 7. -/
def demoLose : Exec Nat := nhoodPushBack 1 7 (setLockOwner 7 (some 1) demo2)

/-- A variant of the small run: context 0 (item 5) has acquired Lockable 7 and its
thread is behind the operator, so that it is READY_TO_COMMIT. -/
def demoReady : Exec Nat := finishIteration 0 demo3

/-- A variant of the small run: context 0 is in state ABORTING. -/
def demoAborting : Exec Nat := setState 0 .ABORTING (pushBufferAppend 0 9 demo4)

/-- Two equal items: the state after `push_initial` on the items 4 and 4, two threads,
one context each. -/
def tieStart : Exec Nat :=
  allocAll 1 4
    (assertThat true (pushEach (fun _ => 0) 0 [4] (setPending 0 [4] (Exec.fresh 2 2 0))))

/-- Two equal items: both are scheduled, into contexts 0 and 1. -/
def tie2 : Exec Nat :=
  (scheduleGlobalMinFirst natLt 1 (scheduleGlobalMinFirst natLt 0 tieStart).2).2

/-- Two equal items: context 0 has acquired Lockable 7. -/
def tie3 : Exec Nat := nhoodPushBack 0 7 (setLockOwner 7 (some 0) tie2)

/-- Two equal items, the other way round: context 1 has acquired Lockable 7. -/
def tie4 : Exec Nat := nhoodPushBack 1 7 (setLockOwner 7 (some 1) tie2)

/-- Three items: the state after `push_initial` on the items 1, 3 and 5, three threads,
one context each. -/
def trioStart : Exec Nat :=
  allocAll 1 1
    (assertThat true (pushEach (fun _ => 0) 0 [3, 5] (setPending 0 [1] (Exec.fresh 3 3 0))))

/-- Three items: thread 0 has scheduled item 1 into context 0. -/
def trio1 : Exec Nat := (scheduleGlobalMinFirst natLt 0 trioStart).2

/-- Three items: thread 1 has scheduled item 3 into context 1. -/
def trio2 : Exec Nat := (scheduleGlobalMinFirst natLt 1 trio1).2

/-- Three items: thread 2 has scheduled item 5 into context 2. -/
def trio3 : Exec Nat := (scheduleGlobalMinFirst natLt 2 trio2).2

/-- Three items: context 2 (item 5) has acquired Lockable 7. -/
def trio4 : Exec Nat := nhoodPushBack 2 7 (setLockOwner 7 (some 2) trio3)

/-- Three items: thread 2 is behind the operator of context 2, which is
READY_TO_COMMIT. -/
def trio5 : Exec Nat := finishIteration 2 trio4

/-- Three items: context 1 (item 3) has asked for Lockable 7, won against context 2,
aborted it and acquired the Lockable. -/
def trio6 : Exec Nat := (subAcquire natLt 2 1 7 trio5).getD trio5

/-- Three items: context 0 (item 1) has asked for Lockable 7 and signalled context 1. -/
def trio7 : Exec Nat := setLostConflict 0 true (signalThat 1 trio6)

/-- Three items: thread 1 has seen the signal and aborted context 1. -/
def trio8 : Exec Nat := finishIteration 1 trio7

/-- Every item asks for the one Lockable that has its own number. -/
def ownLock (a : Nat) : List Nat := [a]

/-- An independent run on the items 5 and 3: both are scheduled (as in the small run)
and context 0 (item 5) has acquired Lockable 5. -/
def indep3 : Exec Nat := nhoodPushBack 0 5 (setLockOwner 5 (some 0) demo2)

/-- An independent run: context 1 (item 3) has acquired Lockable 3. -/
def indep4 : Exec Nat := nhoodPushBack 1 3 (setLockOwner 3 (some 1) indep3)

/-- An independent run: thread 0 is behind the operator of context 0. -/
def indep5 : Exec Nat := finishIteration 0 indep4

/-- An independent run: thread 1 is behind the operator of context 1. -/
def indep6 : Exec Nat := finishIteration 1 indep5

/-- An independent run: thread 0 has swept the reorder buffer. -/
def indepEnd : Exec Nat := (clearROB natLt 0 indep6).2

end Demo

/-! ## Termination detection

The two detectors of `Termination.cpp`.  A call of `localTermination` is one atomic
step; the detector state is the per-thread token holders and the flag `globalTerm` of
the base class.  Ghost fields: `assertFailed` and `calls`, the record of the calls of
`localTermination` made so far, newest first. -/

section Termination

/-- Ghost: what one call of `localTermination` did.  `pass` says that the caller had
what it needs to hand a token on (ring: `hasToken`; tree: `haveAll`), `black` is the
colour it computed (`failed` or `taint` in the ring, `black` in the tree), `declared`
that it ran `propGlobalTerm`. -/
structure TermCall where
  tid : Nat
  pass : Bool
  black : Bool
  declared : Bool
  deriving DecidableEq, Repr

/-- `isSysMaster` of both detectors, for the thread with id `id`. -/
def isSysMaster (id : Nat) : Bool := decide (id = 0)

/-- `LocalTerminationDetection::TokenHolder`. -/
structure TokenHolder where
  tokenIsBlack : Bool
  hasToken : Bool
  processIsBlack : Bool
  lastWasWhite : Bool
  deriving DecidableEq, Repr

/-- The class `LocalTerminationDetection` (ring), with `activeThreads` and the member
`globalTerm` of its base class. -/
structure LocalTerminationDetection where
  activeThreads : Nat
  data : Nat → TokenHolder
  globalTerm : Bool
  assertFailed : Bool
  calls : List TermCall

namespace LocalTerminationDetection

/-- The detector before any thread has initialised its row: every row holds `junk`. -/
def fresh (activeThreads : Nat) (junk : TokenHolder) : LocalTerminationDetection :=
  { activeThreads := activeThreads, data := fun _ => junk, globalTerm := false,
    assertFailed := false, calls := [] }

/-- A store to the token holder of thread `id`. -/
def setHolder (id : Nat) (th : TokenHolder) (r : LocalTerminationDetection) :
    LocalTerminationDetection :=
  { r with data := Function.update r.data id th }

/-- The `assert` of the source: execution goes on, a failure is remembered. -/
def assertThat (cond : Bool) (r : LocalTerminationDetection) : LocalTerminationDetection :=
  { r with assertFailed := r.assertFailed || !cond }

/-- Ghost: the call is recorded. -/
def record (e : TermCall) (r : LocalTerminationDetection) : LocalTerminationDetection :=
  { r with calls := e :: r.calls }

/-- `LocalTerminationDetection::propToken` run on thread `id`. -/
def propToken (id : Nat) (isBlack : Bool) (r : LocalTerminationDetection) :
    LocalTerminationDetection :=
  let nxt := (id + 1) % r.activeThreads
  setHolder nxt { r.data nxt with tokenIsBlack := isBlack, hasToken := true } r

/-- `LocalTerminationDetection::propGlobalTerm`. -/
def propGlobalTerm (r : LocalTerminationDetection) : LocalTerminationDetection :=
  { r with globalTerm := true }

/-- `LocalTerminationDetection::initializeThread` run on thread `id`. -/
def initializeThread (id : Nat) (r : LocalTerminationDetection) : LocalTerminationDetection :=
  let r1 := setHolder id
    { tokenIsBlack := false, processIsBlack := true, lastWasWhite := true,
      hasToken := (r.data id).hasToken } r
  let r2 := { r1 with globalTerm := false }
  if isSysMaster id then setHolder id { r2.data id with hasToken := true } r2
  else setHolder id { r2.data id with hasToken := false } r2

/-- The end of `localTermination`, "normal thread or recirc by master": the token is
handed to the next thread of the ring. -/
def forwardToken (id : Nat) (r : LocalTerminationDetection) : LocalTerminationDetection :=
  let r1 := assertThat (!r.globalTerm) r
  let th := r1.data id
  let taint := th.processIsBlack || th.tokenIsBlack
  let r2 := setHolder id { th with processIsBlack := false, tokenIsBlack := false, hasToken := false } r1
  propToken id taint r2

/-- `LocalTerminationDetection::localTermination` run on thread `id`. -/
def localTermination (id : Nat) (workHappened : Bool) (r : LocalTerminationDetection) :
    LocalTerminationDetection :=
  let r0 := assertThat (!(workHappened && r.globalTerm)) r
  let r1 := setHolder id
    { r0.data id with processIsBlack := (r0.data id).processIsBlack || workHappened } r0
  let th := r1.data id
  if th.hasToken then
    if isSysMaster id then
      let failed := th.tokenIsBlack || th.processIsBlack
      let r2 := setHolder id { th with tokenIsBlack := false, processIsBlack := false } r1
      if (r2.data id).lastWasWhite && !failed then
        record { tid := id, pass := true, black := failed, declared := true } (propGlobalTerm r2)
      else
        let r3 := setHolder id { r2.data id with lastWasWhite := !failed } r2
        record { tid := id, pass := true, black := failed, declared := false } (forwardToken id r3)
    else
      record { tid := id, pass := true, black := th.processIsBlack || th.tokenIsBlack,
               declared := false } (forwardToken id r1)
  else
    record { tid := id, pass := false, black := th.processIsBlack || th.tokenIsBlack,
             declared := false } r1

/-- Every thread of `order` runs `initializeThread`, one after the other. -/
def initAll (order : List Nat) (r : LocalTerminationDetection) : LocalTerminationDetection :=
  order.foldl (fun r1 id => initializeThread id r1) r

/-- An interleaved sequence of calls `localTermination (workHappened)`, each given as
the calling thread and its argument. -/
def run (calls : List (Nat × Bool)) (r : LocalTerminationDetection) :
    LocalTerminationDetection :=
  calls.foldl (fun r1 c => localTermination c.1 c.2 r1) r

end LocalTerminationDetection

/-- Modelled from the spec: `TerminationDetection::globalTermination` (`Termination.h`
is not among the sources): the value of the flag `globalTerm`, which is true once global
termination has been declared. -/
def globalTermination (r : LocalTerminationDetection) : Bool := r.globalTerm

/-- `TreeTerminationDetection::num`, the fan-in of the tree. -/
def TreeTerminationDetection.num : Nat := 2

/-- `TreeTerminationDetection::TokenHolder`.  `down_token` only ever holds `false` or
`true`; `up_token` holds -1, 0 or 1; `child [i]` is a thread id or null. -/
structure TreeTokenHolder where
  down_token : Bool
  up_token : Nat → Int
  processIsBlack : Bool
  hasToken : Bool
  lastWasWhite : Bool
  parent : Nat
  parent_offset : Nat
  child : Nat → Option Nat

/-- The class `TreeTerminationDetection`, with `activeThreads` and the member
`globalTerm` of its base class. -/
structure TreeTerminationDetection where
  activeThreads : Nat
  data : Nat → TreeTokenHolder
  globalTerm : Bool
  assertFailed : Bool
  calls : List TermCall

namespace TreeTerminationDetection

/-- The detector before any thread has initialised its row: every row holds `junk`. -/
def fresh (activeThreads : Nat) (junk : TreeTokenHolder) : TreeTerminationDetection :=
  { activeThreads := activeThreads, data := fun _ => junk, globalTerm := false,
    assertFailed := false, calls := [] }

/-- A change of the token holder of thread `id`. -/
def modify (id : Nat) (f : TreeTokenHolder → TreeTokenHolder) (t : TreeTerminationDetection) :
    TreeTerminationDetection :=
  { t with data := Function.update t.data id (f (t.data id)) }

/-- The `assert` of the source: execution goes on, a failure is remembered. -/
def assertThat (cond : Bool) (t : TreeTerminationDetection) : TreeTerminationDetection :=
  { t with assertFailed := t.assertFailed || !cond }

/-- Ghost: the call is recorded. -/
def record (e : TermCall) (t : TreeTerminationDetection) : TreeTerminationDetection :=
  { t with calls := e :: t.calls }

/-- `TreeTerminationDetection::propGlobalTerm`. -/
def propGlobalTerm (t : TreeTerminationDetection) : TreeTerminationDetection :=
  { t with globalTerm := true }

/-- `TreeTerminationDetection::initializeThread` run on thread `id`.  The thread id is
`unsigned`, so that `id - 1` wraps for the master (which never reads `parent`). -/
def initializeThread (id : Nat) (t : TreeTerminationDetection) : TreeTerminationDetection :=
  let t1 := modify id (fun h =>
    { h with down_token := false, up_token := fun _ => 0, processIsBlack := true,
             hasToken := false, lastWasWhite := false }) t
  let t2 := { t1 with globalTerm := false }
  let t3 := modify id (fun h =>
    { h with parent := ((id + 4294967295) % 4294967296) / num,
             parent_offset := ((id + 4294967295) % 4294967296) % num,
             child := fun i =>
               if i < num then
                 (if id * num + i + 1 < t2.activeThreads then some (id * num + i + 1) else none)
               else h.child i }) t2
  if isSysMaster id then modify id (fun h => { h with down_token := true }) t3 else t3

/-- The first loop of `processToken`: are all up tokens in, and is one of them (or the
thread itself) black.  The accumulator is (`haveAll`, `black`). -/
def collect (th : TreeTokenHolder) : Bool × Bool :=
  (List.range num).foldl
    (fun (acc : Bool × Bool) i =>
      match th.child i with
      | some _ =>
        if th.up_token i = -1 then (false, acc.2)
        else (acc.1, acc.2 || decide (th.up_token i ≠ 0))
      | none => acc)
    (th.hasToken, th.processIsBlack)

/-- The second half of `processToken`, "recieved a down token, propagate". -/
def propagateDown (id : Nat) (t : TreeTerminationDetection) : TreeTerminationDetection :=
  if (t.data id).down_token then
    let t1 := modify id (fun h => { h with down_token := false, hasToken := true }) t
    (List.range num).foldl
      (fun t2 i =>
        let t3 := modify id (fun h => { h with up_token := Function.update h.up_token i (-1) }) t2
        match (t3.data id).child i with
        | some c => modify c (fun h => { h with down_token := true }) t3
        | none => t3)
      t1
  else t

/-- `TreeTerminationDetection::processToken` run on thread `id`. -/
def processToken (id : Nat) (t : TreeTerminationDetection) : TreeTerminationDetection :=
  let th := t.data id
  let haveAll := (collect th).1
  let black := (collect th).2
  if haveAll then
    let t1 := modify id (fun h => { h with processIsBlack := false, hasToken := false }) t
    if isSysMaster id then
      if th.lastWasWhite && !black then
        record { tid := id, pass := true, black := black, declared := true } (propGlobalTerm t1)
      else
        let t2 := modify id (fun h => { h with lastWasWhite := !black, down_token := true }) t1
        record { tid := id, pass := true, black := black, declared := false }
          (propagateDown id t2)
    else
      let t2 := modify th.parent (fun h =>
        { h with up_token := Function.update h.up_token th.parent_offset (if black then 1 else 0) })
        t1
      record { tid := id, pass := true, black := black, declared := false }
        (propagateDown id t2)
  else
    record { tid := id, pass := false, black := black, declared := false } (propagateDown id t)

/-- `TreeTerminationDetection::localTermination` run on thread `id`. -/
def localTermination (id : Nat) (workHappened : Bool) (t : TreeTerminationDetection) :
    TreeTerminationDetection :=
  let t0 := assertThat (!(workHappened && t.globalTerm)) t
  processToken id
    (modify id (fun h => { h with processIsBlack := h.processIsBlack || workHappened }) t0)

/-- Every thread of `order` runs `initializeThread`, one after the other. -/
def initAll (order : List Nat) (t : TreeTerminationDetection) : TreeTerminationDetection :=
  order.foldl (fun t1 id => initializeThread id t1) t

/-- An interleaved sequence of calls `localTermination (workHappened)`. -/
def run (calls : List (Nat × Bool)) (t : TreeTerminationDetection) :
    TreeTerminationDetection :=
  calls.foldl (fun t1 c => localTermination c.1 c.2 t1) t

end TreeTerminationDetection

/-- The passes of the master in a record of calls (newest first). -/
def masterPasses (calls : List TermCall) : List TermCall :=
  calls.filter fun c => decide (c.tid = 0) && c.pass

/-- The rule of both detectors, on the record of calls (newest first): a call declares
global termination only if it is a pass of the master that saw no black, and the
most recent earlier pass of the master saw no black either. -/
def TwoCleanPasses (calls : List TermCall) : Prop :=
  ∀ newer e older, calls = newer ++ e :: older → e.declared = true →
    e.tid = 0 ∧ e.pass = true ∧ e.black = false ∧
      ∃ p, (masterPasses older).head? = some p ∧ p.black = false

/-- The ring detector and the record of its calls fit together: the rule holds, the
flag `globalTerm` is set exactly when some call declared, and the master remembers in
`lastWasWhite` the colour of its last pass (before its first pass it is black itself). -/
structure LocalTerminationDetection.Consistent (r : LocalTerminationDetection) : Prop where
  rule : TwoCleanPasses r.calls
  flag : r.globalTerm = true ↔ ∃ e, e ∈ r.calls ∧ e.declared = true
  master :
    match (masterPasses r.calls).head? with
    | none => (r.data 0).processIsBlack = true
    | some p => (r.data 0).lastWasWhite = !p.black

/-- The tree detector and the record of its calls fit together: the rule holds, the
flag `globalTerm` is set exactly when some call declared, and the master remembers in
`lastWasWhite` the colour of its last pass (`false` before its first pass). -/
structure TreeTerminationDetection.Consistent (t : TreeTerminationDetection) : Prop where
  rule : TwoCleanPasses t.calls
  flag : t.globalTerm = true ↔ ∃ e, e ∈ t.calls ∧ e.declared = true
  master :
    match (masterPasses t.calls).head? with
    | none => (t.data 0).lastWasWhite = false
    | some p => (t.data 0).lastWasWhite = !p.black

/-- The junk content of an uninitialised row of the ring detector in the examples. -/
def demoHolder : TokenHolder :=
  { tokenIsBlack := true, hasToken := true, processIsBlack := false, lastWasWhite := true }

/-- The junk content of an uninitialised row of the tree detector in the examples. -/
def demoTreeHolder : TreeTokenHolder :=
  { down_token := true, up_token := fun _ => 1, processIsBlack := false, hasToken := true,
    lastWasWhite := true, parent := 0, parent_offset := 0, child := fun _ => none }

end Termination

/-! ## The worker loop -/

section Execute

variable {T : Type}

/-- The inner `do ... while (!rob.empty () || !pending.empty_all ())` loop of
`ROBexecutor::execute` run on thread `tid`, no other thread running in between.
`applyOperator ctx s` is the effect of `applyOperator (ctx)`, that is of the user's
`nhFunc` and `opFunc`, on the executor (`none`: it does not return).  The flag is
`didWork`; `none` is a loop that has not left after `fuel` rounds. -/
def executeInner (cmp : T → T → Bool) (applyOperator : Nat → Exec T → Option (Exec T))
    (tid : Nat) : Nat → Exec T → Bool → Option (Exec T × Bool)
  | 0, _, _ => none
  | fuel + 1, s, didWork =>
    let sched := scheduleGlobalMinFirst cmp tid s
    let worked :=
      match sched.1 with
      | some ctx => (applyOperator ctx sched.2).map fun s1 => (finishIteration ctx s1, true)
      | none => some (sched.2, didWork)
    match worked with
    | none => none
    | some (s2, didWork1) =>
      let cleared := clearROB cmp tid s2
      let didWork2 := didWork1 || cleared.1
      if !cleared.2.rob.isEmpty || !emptyAll cleared.2.maxThreads cleared.2.pending then
        executeInner cmp applyOperator tid fuel cleared.2 didWork2
      else some (cleared.2, didWork2)

/-- The outer `do ... while (term.globalTermination ())` loop of `ROBexecutor::execute`;
`term` is the ring detector, which is what `getSystemTermination ()` returns. -/
def executeOuter (cmp : T → T → Bool) (applyOperator : Nat → Exec T → Option (Exec T))
    (tid : Nat) : Nat → Exec T → LocalTerminationDetection →
    Option (Exec T × LocalTerminationDetection)
  | 0, _, _ => none
  | fuel + 1, s, term =>
    match executeInner cmp applyOperator tid fuel s false with
    | none => none
    | some (s1, didWork) =>
      let term1 := LocalTerminationDetection.localTermination tid didWork term
      if globalTermination term1 then executeOuter cmp applyOperator tid fuel s1 term1
      else some (s1, term1)

/-- `ROBexecutor::execute` run on thread `tid`. -/
def execute (cmp : T → T → Bool) (applyOperator : Nat → Exec T → Option (Exec T))
    (tid : Nat) (fuel : Nat) (s : Exec T) (term : LocalTerminationDetection) :
    Option (Exec T × LocalTerminationDetection) :=
  executeOuter cmp applyOperator tid fuel s (LocalTerminationDetection.initializeThread tid term)

/-- One worker, the single item 5: the state after `push_initial`, with one context in
the window. -/
def soloStart : Exec Nat :=
  allocAll 1 5 (assertThat true (pushEach (fun _ => 0) 0 [] (setPending 0 [5] (Exec.fresh 1 1 0))))

/-- An operator that acquires no Lockable and pushes nothing. -/
def idleOperator (_ctx : Nat) (s : Exec Nat) : Option (Exec Nat) := some s

end Execute

/-! ## Independent operators -/

section Independent

variable {T : Type}

/-- One atomic step of a run whose operators push nothing and ask only for the
Lockables `locks a` of their own item `a`: the steps of `Step` without `opPush`, a
call of `subAcquire` (returned, or spinning after its signal) being for a Lockable of
the caller's item. -/
inductive IndepStep (cmp : T → T → Bool) (locks : T → List Nat) : Exec T → Exec T → Prop where
  | schedule (s : Exec T) (tid : Nat) :
      tid < s.activeThreads → IndepStep cmp locks s (scheduleGlobalMinFirst cmp tid s).2
  | acquire (s : Exec T) (c l fuel : Nat) (s1 : Exec T) :
      Running s c → l ∈ locks (s.ctxts c).active → subAcquire cmp fuel c l s = some s1 →
      IndepStep cmp locks s s1
  | signal (s : Exec T) (c l that : Nat) :
      Running s c → l ∈ locks (s.ctxts c).active → s.lockOwner l = some that → that ≠ c →
      ctxtCmp cmp s c that = true → hasState that .ABORT_DONE s = false →
      IndepStep cmp locks s (setLostConflict c true (signalThat that s))
  | finish (s : Exec T) (c : Nat) :
      Running s c → IndepStep cmp locks s (finishIteration c s)
  | clear (s : Exec T) (tid : Nat) :
      tid < s.activeThreads → IndepStep cmp locks s (clearROB cmp tid s).2

/-- State `s` is reached by a run of the executor on the input `items` whose operators
push nothing and ask only for the Lockables of their own item. -/
def IndepRun (cmp : T → T → Bool) (locks : T → List Nat) (window : Nat) (items : List T)
    (s : Exec T) : Prop :=
  ∃ s0, Initial cmp window items s0 ∧ Relation.ReflTransGen (IndepStep cmp locks) s0 s

/-- The state changes a step of such a run is made of when no two live contexts share a
Lockable: those of `Atom` that involve no contest and no push; `sched` also says that
the scheduled item is a least pending item. -/
inductive QuietAtom (cmp : T → T → Bool) (locks : T → List Nat) : Exec T → Exec T → Prop where
  | sched (s : Exec T) (tid ctx j : Nat) (x : T) (rest : List T) :
      tid < s.activeThreads → j < s.activeThreads →
      (s.freeList tid).getLast? = some ctx →
      heapPop cmp (s.pending j) = some (x, rest) →
      (∀ i, i < s.activeThreads → ∀ y, y ∈ s.pending i → cmp y x = false) →
      QuietAtom cmp locks s
        (addNumTotal (setRob (heapPush ctx s.rob)
          (setOwner ctx tid (setState ctx .SCHEDULED
            (construct ctx x tid (setPending j rest
              (setFreeList tid (s.freeList tid).dropLast s)))))))
  | newOwner (s : Exec T) (c l : Nat) :
      Running s c → l ∈ locks (s.ctxts c).active → s.lockOwner l = none →
      QuietAtom cmp locks s (nhoodPushBack c l (setLockOwner l (some c) s))
  | asserted (s : Exec T) (cond : Bool) :
      QuietAtom cmp locks s (assertThat cond s)
  | finishReady (s : Exec T) (c : Nat) :
      Running s c → (s.ctxts c).state = .SCHEDULED →
      QuietAtom cmp locks s (setExecuted c true (setState c .READY_TO_COMMIT s))
  | commit (s : Exec T) (tid head : Nat) (rest : List Nat) :
      tid < s.activeThreads →
      heapPop (ctxtCmp cmp s) s.rob = some (head, rest) →
      (s.ctxts head).state = .READY_TO_COMMIT →
      isEarliest cmp (s.ctxts head).active s = true →
      QuietAtom cmp locks s
        (addNumCommitted (reclaim head (assertThat true
          (setRob rest (doCommit tid head (setState head .COMMITTING s))))))
  | permRob (s : Exec T) (r : List Nat) :
      s.rob.Perm r → QuietAtom cmp locks s (setRob r s)
  | cleanupCount (s : Exec T) :
      QuietAtom cmp locks s (addNumGlobalCleanups s)

/-- The shape of the states of such a run: every context of the reorder buffer is
running in state SCHEDULED or has executed and is READY_TO_COMMIT, nothing was aborted,
nothing was pushed, every Lockable is owned by a context whose item asks for it, and no
pending item strictly precedes the item of a context of the reorder buffer. -/
structure Quiet (cmp : T → T → Bool) (locks : T → List Nat) (s : Exec T) : Prop where
  states : ∀ c, c ∈ s.rob →
    ((s.ctxts c).executed = false ∧ (s.ctxts c).state = .SCHEDULED) ∨
      ((s.ctxts c).executed = true ∧ (s.ctxts c).state = .READY_TO_COMMIT)
  abortSelfByConflict : s.abortSelfByConflict = 0
  abortSelfBySignal : s.abortSelfBySignal = 0
  abortByOther : s.abortByOther = 0
  nAbort : ∀ d, (s.ctxts d).nAbort = 0
  buffers : ∀ d, (s.ctxts d).pushBuffer = []
  published : s.publishLog = []
  ownLocks : ∀ l c, s.lockOwner l = some c → l ∈ locks (s.ctxts c).active
  early : ∀ c, c ∈ s.rob → ∀ i y, y ∈ s.pending i → cmp y (s.ctxts c).active = false

/-- The contexts allocated for worker `w` by `push_initial`. -/
def slotsOf (window w : Nat) : List Nat := (List.range window).map fun j => w * window + j

/-- Every context allocated for worker `w` is in the free list of `w` or is in the
reorder buffer with owner `w`, and nothing else is. -/
def SlotsHome (window : Nat) (s : Exec T) : Prop :=
  ∀ w, w < s.activeThreads →
    (s.freeList w ++ s.rob.filter fun c => decide ((s.ctxts c).owner = w)).Perm
      (slotsOf window w)

end Independent

/-! ## A state with an item in the row of an idle thread -/

section IdleRow

/-- A state in which the scan of `scheduleGlobalMinFirst` finds nothing although
`pending.empty_all ()` is false: one active thread with an empty heap and a free
context, and an item in the row of a thread that is not active. -/
def idleRowState : Exec Nat :=
  setPending 1 [9] (setFreeList 0 [0] (Exec.fresh 1 2 0))

end IdleRow

/-! ## The ring detector: what a record of calls shows -/

section RingRecords

open LocalTerminationDetection

/-- A declaration of global termination comes late in a record of calls (newest first),
`n` workers: at least two passes of the master are older than a call that declares, and
at least three when there are two workers or more. -/
def LateDeclare (n : Nat) (calls : List TermCall) : Prop :=
  ∀ newer e older, calls = newer ++ e :: older → e.declared = true →
    2 ≤ (masterPasses older).length ∧ (2 ≤ n → 3 ≤ (masterPasses older).length)

/-- In a record of calls (newest first) no token is handed on after a declaration of
global termination: a later call that held the token declared, too. -/
def NoForwardAfter (calls : List TermCall) : Prop :=
  ∀ newer e older, calls = newer ++ e :: older → e.declared = true →
    ∀ x, x ∈ newer → x.pass = true → x.declared = true

/-- The ring detector with `n` workers between two calls of `localTermination`, the
token being with worker `h`: no other worker has it; before the first pass of the master
every worker is stained; between the first and the second pass of the master the token
is black or the workers it has not yet visited are stained; the master remembers the
black passes in `lastWasWhite`; and after a declaration the master keeps the token. -/
structure RingAt (n : Nat) (r : LocalTerminationDetection) (h : Nat) : Prop where
  act : r.activeThreads = n
  lt : h < n
  has : (r.data h).hasToken = true
  only : ∀ j, j < n → j ≠ h → (r.data j).hasToken = false
  first : (masterPasses r.calls).length = 0 →
    h = 0 ∧ ∀ j, j < n → (r.data j).processIsBlack = true
  second : (masterPasses r.calls).length = 1 →
    (r.data 0).lastWasWhite = false ∧
      (2 ≤ n → (h = 0 → (r.data 0).tokenIsBlack = true) ∧
        (h ≠ 0 → ∀ j, h ≤ j → j < n → (r.data j).processIsBlack = true))
  third : (masterPasses r.calls).length = 2 → 2 ≤ n → (r.data 0).lastWasWhite = false
  flag : (∃ e, e ∈ r.calls ∧ e.declared = true) → r.globalTerm = true
  done : r.assertFailed = false → r.globalTerm = true →
    h = 0 ∧ (r.data 0).lastWasWhite = true ∧ (r.data 0).tokenIsBlack = false ∧
      (r.data 0).processIsBlack = false
  late : LateDeclare n r.calls
  quiet : r.assertFailed = false → NoForwardAfter r.calls

/-- The row of worker `j` of the ring detector as `initializeThread` leaves it. -/
def ringRow (j : Nat) : TokenHolder :=
  { tokenIsBlack := false, hasToken := isSysMaster j, processIsBlack := true,
    lastWasWhite := true }

end RingRecords

/-! ## The contexts between two state changes -/

section SoundStates

/-- What holds of the contexts between two state changes of a run, besides `WF`: no
context is in one of the states that only exist inside a commit or an abort; a context
whose `executed` flag is set is past the states SCHEDULED and ABORT_SELF; no Lockable
is twice in a neighborhood; and a context whose operator is still running owns every
Lockable of its neighborhood. -/
structure Sound {T : Type} (s : Exec T) : Prop where
  settled : ∀ d, (s.ctxts d).state ≠ .COMMITTING ∧ (s.ctxts d).state ≠ .ABORTING ∧
    (s.ctxts d).state ≠ .ABORT_HELP
  executedPast : ∀ d, (s.ctxts d).executed = true →
    (s.ctxts d).state ≠ .SCHEDULED ∧ (s.ctxts d).state ≠ .ABORT_SELF
  nhoodNodup : ∀ d, (s.ctxts d).nhood.Nodup
  nhoodOwned : ∀ c, c ∈ s.rob → (s.ctxts c).executed = false →
    ∀ l, l ∈ (s.ctxts c).nhood → s.lockOwner l = some c

end SoundStates

/-! ## The mutexes

The lock and unlock statements of the source as sequences of events.  Every function
below follows the control flow of the member function it is named after and lists the
`lock ()` and `unlock ()` calls in the order in which the function makes them, on
`robMutex` and on `pendingMutex [i]`. -/

section Mutexes

variable {T : Type}

/-- A `lock ()` or `unlock ()` of `robMutex` or of `pendingMutex [i]`, or the entry
of `resolveConflict`. -/
inductive MutexEvent where
  | lockRob
  | unlockRob
  | lockPending (i : Nat)
  | unlockPending (i : Nat)
  | enterResolve
  deriving DecidableEq, Repr

/-- The mutexes a thread holds: `robMutex`, and the indices of the pending-heap mutexes. -/
structure Held where
  rob : Bool
  pending : List Nat
  deriving DecidableEq, Repr

/-- The lock discipline on one event, `none` when the event breaks it: `robMutex` is
locked only while no mutex is held, a pending-heap mutex only while no other pending-heap
mutex is held, a mutex is unlocked by the thread that holds it, and `resolveConflict` is
entered only while no mutex is held. -/
def Held.step (h : Held) : MutexEvent → Option Held
  | .lockRob => if h.rob || !h.pending.isEmpty then none else some { h with rob := true }
  | .unlockRob => if h.rob then some { h with rob := false } else none
  | .lockPending i => if h.pending.isEmpty then some { h with pending := [i] } else none
  | .unlockPending i => if h.pending = [i] then some { h with pending := [] } else none
  | .enterResolve => if h.rob || !h.pending.isEmpty then none else some h

/-- The lock discipline on a sequence of events. -/
def Held.run : Held → List MutexEvent → Option Held
  | h, [] => some h
  | h, e :: es =>
    match h.step e with
    | none => none
    | some h1 => h1.run es

/-- A sequence of events keeps the lock discipline, starts with no mutex held and ends
with no mutex held. -/
def disciplined (es : List MutexEvent) : Bool :=
  decide (Held.run { rob := false, pending := [] } es = some { rob := false, pending := [] })

/-- `ROBexecutor::push` run on thread `tid`: `pendingMutex.getLocal ()`. -/
def pushEvents (tid : Nat) : List MutexEvent := [.lockPending tid, .unlockPending tid]

/-- `ROBexecutor::push_abort`: `pendingMutex.getRemote (owner / 2)`. -/
def push_abortEvents (owner : Nat) : List MutexEvent :=
  [.lockPending (owner / 2), .unlockPending (owner / 2)]

/-- `ROBcontext::doCommit` run on thread `tid`: the call of `executor.push`. -/
def doCommitEvents (tid : Nat) : List MutexEvent := pushEvents tid

/-- `ROBcontext::doAbort` on context `c`: the call of `executor.push_abort`. -/
def doAbortEvents (c : Nat) (s : Exec T) : List MutexEvent :=
  push_abortEvents (s.ctxts c).owner

/-- `ROBexecutor::scheduleGlobalMinFirst` run on thread `tid`. -/
def scheduleGlobalMinFirstEvents (cmp : T → T → Bool) (tid : Nat) (s : Exec T) :
    List MutexEvent :=
  let notEmpty := !(s.freeList tid).isEmpty && !emptyAll s.maxThreads s.pending
  if notEmpty then
    [.lockRob] ++
      (if !(s.freeList tid).isEmpty then
        ((List.range s.activeThreads).flatMap fun i => [.lockPending i, .unlockPending i]) ++
          [.lockPending (scanMin cmp s).1, .unlockPending (scanMin cmp s).1]
      else []) ++
      [.unlockRob]
  else []

/-- The loop of `ROBexecutor::isEarliest`, with its `break`. -/
def isEarliestLoopEvents (cmp : T → T → Bool) (pending : Nat → List T) (x : T) :
    List Nat → Bool → List MutexEvent
  | [], _ => []
  | i :: rest, earliest =>
    let e1 :=
      match heapTop cmp (pending i) with
      | some t => earliest && !cmp t x
      | none => earliest
    [.lockPending i, .unlockPending i] ++
      (if !e1 then [] else isEarliestLoopEvents cmp pending x rest e1)

/-- `ROBexecutor::isEarliest`. -/
def isEarliestEvents (cmp : T → T → Bool) (x : T) (s : Exec T) : List MutexEvent :=
  isEarliestLoopEvents cmp s.pending x (List.range s.activeThreads) true

/-- One round of the loop of `ROBexecutor::clearROB` run on thread `tid`: `reclaim`
locks nothing, a head in READY_TO_COMMIT is tested with `isEarliest` and committed with
`doCommit`. -/
def clearROBRoundEvents (cmp : T → T → Bool) (tid : Nat) (s : Exec T) : List MutexEvent :=
  match heapTop (ctxtCmp cmp s) s.rob with
  | none => []
  | some head =>
    if hasState head .ABORT_DONE s then []
    else if hasState head .READY_TO_COMMIT s then
      isEarliestEvents cmp (s.ctxts head).active s ++
        (if isEarliest cmp (s.ctxts head).active s then doCommitEvents tid else [])
    else []

/-- The loop of `ROBexecutor::clearROB`. -/
def clearROBLoopEvents (cmp : T → T → Bool) (tid : Nat) : Nat → Exec T → List MutexEvent
  | 0, _ => []
  | fuel + 1, s =>
    clearROBRoundEvents cmp tid s ++
      match clearROBRound cmp tid s with
      | .stop => []
      | .reclaimed _ s1 => clearROBLoopEvents cmp tid fuel s1
      | .committed _ s1 => clearROBLoopEvents cmp tid fuel s1

/-- `ROBexecutor::clearROB` run on thread `tid`; `reclaimGlobally` locks nothing. -/
def clearROBEvents (cmp : T → T → Bool) (tid : Nat) (s : Exec T) : List MutexEvent :=
  [.lockRob] ++ clearROBLoopEvents cmp tid s.rob.length s ++ [.unlockRob]

/-- The `while (true)` loop of `resolveConflict`: a round that helps runs `doAbort`. -/
def spinLoopEvents : Nat → Nat → Exec T → List MutexEvent
  | 0, _, _ => []
  | fuel + 1, that, s =>
    if hasState that .ABORT_DONE s then []
    else if hasExecuted that s then
      match casState that .ABORT_SELF .ABORT_HELP s with
      | (true, s1) =>
        doAbortEvents that (setState that .ABORTING s1) ++
          spinLoopEvents fuel that (abortOther that s1)
      | (false, s1) => spinLoopEvents fuel that s1
    else spinLoopEvents fuel that s

/-- `ROBcontext::resolveConflict` with `this = self`, from its entry. -/
def resolveConflictEvents (cmp : T → T → Bool) (fuel : Nat) (self that : Nat) (s : Exec T) :
    List MutexEvent :=
  .enterResolve ::
    (if ctxtCmp cmp s self that then
      let s0 := assertThat (!hasState that .COMMIT_DONE s && !hasState that .COMMITTING s) s
      if hasState that .ABORT_DONE s0 then []
      else
        match casState that .SCHEDULED .ABORT_SELF s0 with
        | (true, s1) => spinLoopEvents fuel that s1
        | (false, s1) =>
          if hasState that .ABORT_SELF s1 then spinLoopEvents fuel that s1
          else
            match casState that .READY_TO_COMMIT .ABORT_HELP s1 with
            | (true, s2) => doAbortEvents that (setState that .ABORTING s2)
            | (false, _) => []
    else [])

/-- `ROBcontext::subAcquire` with `this = c`; `tryAcquire` locks nothing. -/
def subAcquireEvents (cmp : T → T → Bool) : Nat → Nat → Nat → Exec T → List MutexEvent
  | 0, _, _, _ => []
  | fuel + 1, c, l, s =>
    match tryAcquire c l s with
    | (.FAIL, s1) =>
      match getOwner l s1 with
      | some that =>
        resolveConflictEvents cmp fuel c that s1 ++
          match resolveConflict cmp fuel c that s1 with
          | none => []
          | some (abortSelf, s2) =>
            if abortSelf then [] else subAcquireEvents cmp fuel c l (setLostConflict c true s2)
      | none => subAcquireEvents cmp fuel c l s1
    | (.NEW_OWNER, _) => []
    | (.ALREADY_OWNER, _) => []

/-- The statements of `ROBexecutor::execute` between `applyOperator (ctx)` and
`clearROB (ctx)`: a self abort runs `doAbort`. -/
def finishIterationEvents (ctx : Nat) (s : Exec T) : List MutexEvent :=
  match casState ctx .SCHEDULED .READY_TO_COMMIT s with
  | (true, _) => []
  | (false, s1) =>
    match casState ctx .ABORT_SELF .ABORTING s1 with
    | (true, s2) => doAbortEvents ctx (countSelfAbort ctx s2)
    | (false, _) => []

/-- One round of the inner loop of `ROBexecutor::execute` run on thread `tid`, the
operator being a sequence of calls of `subAcquire`, given by their Lockables: the events
of the round, in the states a run without other threads goes through. -/
def executeRoundEvents (cmp : T → T → Bool) (fuel tid : Nat) (locks : List Nat)
    (s : Exec T) : List MutexEvent :=
  let sched := scheduleGlobalMinFirst cmp tid s
  scheduleGlobalMinFirstEvents cmp tid s ++
    match sched.1 with
    | some ctx =>
      let op := locks.foldl
        (fun (acc : List MutexEvent × Exec T) l =>
          (acc.1 ++ subAcquireEvents cmp fuel ctx l acc.2,
            (subAcquire cmp fuel ctx l acc.2).getD acc.2))
        ([], sched.2)
      op.1 ++ finishIterationEvents ctx op.2 ++
        clearROBEvents cmp tid (finishIteration ctx op.2)
    | none => clearROBEvents cmp tid sched.2

/-- A sequence of events that takes only pending-heap mutexes, one at a time, and gives
them back: it can be run with or without `robMutex` held. -/
def PendingOnly (es : List MutexEvent) : Prop :=
  ∀ b : Bool, Held.run { rob := b, pending := [] } es = some { rob := b, pending := [] }

/-- A sequence that starts with no mutex held, keeps the discipline and ends with no
mutex held. -/
def Free (es : List MutexEvent) : Prop :=
  Held.run { rob := false, pending := [] } es = some { rob := false, pending := [] }

end Mutexes

/-! ## The worker threads, statement by statement

The runs of `Step` take a whole `subAcquire`, a whole `clearROB` and the statements
behind `applyOperator` as one step each.  The source runs them on several threads with no
lock around `resolveConflict`: the pointer `that` is kept in a local variable while other
threads go on, and `clearROB` tests the state of the head and stores COMMITTING in two
statements.  In this section a step of a thread is one statement of `execute`,
`applyOperator`, `subAcquire`, `resolveConflict` or `clearROB`, the local variables of
the thread (`ctx`, `l`, `that`, `head`) are kept in its `Stage`, and the steps of
different threads interleave in any order.

A step that is more than one statement is a block of statements of one thread:
`scheduleGlobalMinFirst` (under `robMutex`), `doAbort`, `doCommit` with the `pop` and the
`reclaim` behind it (under `robMutex`), `reclaimGlobally` (under `robMutex`),
`tryAcquire` with the `push_back` or the `assert` of its branch, and the tests at the
head of a round of `clearROB`.  A thread may run such a block without another thread
running in between, so every `FineStep` is a piece of an execution of the program, and
every state that is `FineReachable` is a state the program can be in.  The steps do not
cover every interleaving inside those blocks; this section is used to exhibit
executions, not to exclude them. -/

section FineRuns

variable {T : Type}

/-- The code of the user, as far as the executor sees it: `nhFunc a` is the list of the
Lockables that `nhFunc (a, userHandle)` acquires, in the order of the calls of `acquire`
(each is a call of `subAcquire`), and `opFunc a` is the list of the items that
`opFunc (a, userHandle)` pushes (each push appends to the push buffer).  Both are
functions of the item alone. -/
structure Operator (T : Type) where
  nhFunc : T → List Nat
  opFunc : T → List T

/-- The statement a worker thread runs next, with its local variables; the numbers are
the lines of `ROBexecutor.h`.
In `ROBexecutor::execute`:
* `idle`: `ctx = scheduleGlobalMinFirst ()` (476, the function is 584 to 639);
* `atCasReady ctx`: `ctx->casState (SCHEDULED, READY_TO_COMMIT)` (487);
* `atCasAbort ctx`: `ctx->casState (ABORT_SELF, ABORTING)` (488);
* `atCount ctx`: `if (ctx->lostConflict) abortSelfByConflict += 1; else
  abortSelfBySignal += 1;` (490 to 495);
* `atSelfAbort ctx`: `ctx->doAbort ()` (497);
* `atExecuted ctx`: `ctx->executed = true` (502);
* `atClear`: the call `clearROB (ctx)` (509), at `robMutex.lock ()` (712);
* `atLoopTest`: `while (!rob.empty () || !pending.empty_all ())` (532);
* `stopped`: behind the inner loop.
In `applyOperator`:
* `inNhood ctx`: inside `nhFunc` (575), before its next call of `acquire` or its return;
* `atOpCheck ctx`: `if (ctx->hasState (SCHEDULED))` (577);
* `inOp ctx`: inside `opFunc` (578), before its next push or its return.
In `subAcquire (l)`:
* `atTry ctx l`: `acq = tryAcquire (l)` (162) and the branch NEW_OWNER (181) or
  ALREADY_OWNER (187);
* `atGetOwner ctx l`: `that = getOwner (l)` and `if (that != nullptr)` (166, 167);
* `atLostFlag ctx l abortSelf`: `succ = abortSelf; lostConflict = true;` (170, 171)
  behind the return of `resolveConflict`.
In `resolveConflict (that, l)`:
* `atCompare ctx l that`: `if (executor.getCtxtCmp () (this, that))` (272);
* `atAssert ctx l that`: `assert (!that->hasState (COMMIT_DONE) &&
  !that->hasState (COMMITTING))` (274);
* `atTestDone ctx l that`: `if (that->hasState (ABORT_DONE))` (276);
* `atSignal ctx l that`: `that->casState (SCHEDULED, ABORT_SELF)` (279);
* `atTestSelf ctx l that`: `|| that->hasState (ABORT_SELF)` (279);
* `atSpin ctx l that`: the head of a round of `while (true)`:
  `if (that->hasState (ABORT_DONE)) break;` (286);
* `atLoadExec ctx l that`: `if (that->hasExecuted ())` (290);
* `atHelpCas ctx l that`: `that->casState (ABORT_SELF, ABORT_HELP)` (291);
* `atReadyCas ctx l that`: `that->casState (READY_TO_COMMIT, ABORT_HELP)` (303);
* `atHelpStore ctx l that spin`: `that->setState (ABORTING)` (292 when `spin` is true,
  the statement inside the loop; 304 otherwise);
* `atHelpAbort ctx l that spin`: `that->doAbort ()` (293 or 305);
* `atHelpCount ctx l that spin`: `executor.abortByOther += 1` (294 or 306);
* `atLose ctx l`: `this->setState (ABORT_SELF); ret = true;` (312, 314).
In `clearROB`, with `robMutex` held:
* `clearLoop`: `while (!rob.empty ())`, `head = rob.top ()` and the tests of the state of
  `head` and of `isEarliest (head->active)` (713 to 725); when `head` is in ABORT_DONE
  also `reclaim (rob.pop ())` (719);
* `clearStore head`: `head->setState (COMMITTING)` (727);
* `clearCommit head`: `head->doCommit (); t = rob.pop (); assert (t == head);
  reclaim (t); numCommitted += 1;` (728 to 736);
* `clearTail`: `if (!rob.empty () && freeList.empty_all ()) reclaimGlobally ();` and
  `robMutex.unlock ()` (748 to 754). -/
inductive Stage where
  | idle
  | inNhood (ctx : Nat)
  | atTry (ctx l : Nat)
  | atGetOwner (ctx l : Nat)
  | atCompare (ctx l that : Nat)
  | atAssert (ctx l that : Nat)
  | atTestDone (ctx l that : Nat)
  | atSignal (ctx l that : Nat)
  | atTestSelf (ctx l that : Nat)
  | atSpin (ctx l that : Nat)
  | atLoadExec (ctx l that : Nat)
  | atHelpCas (ctx l that : Nat)
  | atReadyCas (ctx l that : Nat)
  | atHelpStore (ctx l that : Nat) (spin : Bool)
  | atHelpAbort (ctx l that : Nat) (spin : Bool)
  | atHelpCount (ctx l that : Nat) (spin : Bool)
  | atLose (ctx l : Nat)
  | atLostFlag (ctx l : Nat) (abortSelf : Bool)
  | atOpCheck (ctx : Nat)
  | inOp (ctx : Nat)
  | atCasReady (ctx : Nat)
  | atCasAbort (ctx : Nat)
  | atCount (ctx : Nat)
  | atSelfAbort (ctx : Nat)
  | atExecuted (ctx : Nat)
  | atClear
  | clearLoop
  | clearStore (head : Nat)
  | clearCommit (head : Nat)
  | clearTail
  | atLoopTest
  | stopped
  deriving DecidableEq, Repr

/-- The executor, the statement every worker thread runs next, the number of calls
that the function of the user running on a thread has made so far, and the holder of
`robMutex`. -/
structure Fine (T : Type) where
  exec : Exec T
  stage : Nat → Stage
  calls : Nat → Nat
  robMutex : Option Nat

/-- The worker threads enter `execute`: every thread is before its first
`scheduleGlobalMinFirst`, `robMutex` is free. -/
def Fine.start (s0 : Exec T) : Fine T :=
  { exec := s0, stage := fun _ => .idle, calls := fun _ => 0, robMutex := none }

/-- Thread `w` moves to the statement `st`; the executor becomes `e`. -/
def Fine.goto (f : Fine T) (w : Nat) (st : Stage) (e : Exec T) : Fine T :=
  { exec := e, stage := Function.update f.stage w st, calls := f.calls,
    robMutex := f.robMutex }

/-- Thread `w` moves to the statement `st` with `n` calls of the function of the user
made. -/
def Fine.call (f : Fine T) (w : Nat) (st : Stage) (n : Nat) (e : Exec T) : Fine T :=
  { exec := e, stage := Function.update f.stage w st,
    calls := Function.update f.calls w n, robMutex := f.robMutex }

/-- The next statement of thread `w`.  `none`: the thread cannot run (it waits for
`robMutex`, it has left the loop, or `opFunc` is about to push an item that precedes its
own, which the operators of this development do not do). -/
def Fine.stmt (cmp : T → T → Bool) (op : Operator T) (w : Nat) (f : Fine T) :
    Option (Fine T) :=
  let e := f.exec
  match f.stage w with
  | .idle =>
    if (!(e.freeList w).isEmpty && !emptyAll e.maxThreads e.pending) &&
        f.robMutex.isSome then none
    else
      match scheduleGlobalMinFirst cmp w e with
      | (some ctx, e1) => some (f.call w (.inNhood ctx) 0 e1)
      | (none, e1) => some (f.goto w .atClear e1)
  | .inNhood c =>
    match (op.nhFunc (e.ctxts c).active).get? (f.calls w) with
    | some l => some (f.call w (.atTry c l) (f.calls w + 1) e)
    | none => some (f.goto w (.atOpCheck c) e)
  | .atTry c l =>
    match tryAcquire c l e with
    | (.NEW_OWNER, e1) => some (f.goto w (.inNhood c) (nhoodPushBack c l e1))
    | (.ALREADY_OWNER, e1) =>
      some (f.goto w (.inNhood c) (assertThat (decide (l ∈ (e1.ctxts c).nhood)) e1))
    | (.FAIL, e1) => some (f.goto w (.atGetOwner c l) e1)
  | .atGetOwner c l =>
    match getOwner l e with
    | some that => some (f.goto w (.atCompare c l that) e)
    | none => some (f.goto w (.atTry c l) e)
  | .atCompare c l that =>
    if ctxtCmp cmp e c that then some (f.goto w (.atAssert c l that) e)
    else some (f.goto w (.atLose c l) e)
  | .atAssert c l that =>
    some (f.goto w (.atTestDone c l that)
      (assertThat (!hasState that .COMMIT_DONE e && !hasState that .COMMITTING e) e))
  | .atTestDone c l that =>
    if hasState that .ABORT_DONE e then some (f.goto w (.atLostFlag c l false) e)
    else some (f.goto w (.atSignal c l that) e)
  | .atSignal c l that =>
    match casState that .SCHEDULED .ABORT_SELF e with
    | (true, e1) => some (f.goto w (.atSpin c l that) e1)
    | (false, e1) => some (f.goto w (.atTestSelf c l that) e1)
  | .atTestSelf c l that =>
    if hasState that .ABORT_SELF e then some (f.goto w (.atSpin c l that) e)
    else some (f.goto w (.atReadyCas c l that) e)
  | .atSpin c l that =>
    if hasState that .ABORT_DONE e then some (f.goto w (.atLostFlag c l false) e)
    else some (f.goto w (.atLoadExec c l that) e)
  | .atLoadExec c l that =>
    if hasExecuted that e then some (f.goto w (.atHelpCas c l that) e)
    else some (f.goto w (.atSpin c l that) e)
  | .atHelpCas c l that =>
    match casState that .ABORT_SELF .ABORT_HELP e with
    | (true, e1) => some (f.goto w (.atHelpStore c l that true) e1)
    | (false, e1) => some (f.goto w (.atSpin c l that) e1)
  | .atReadyCas c l that =>
    match casState that .READY_TO_COMMIT .ABORT_HELP e with
    | (true, e1) => some (f.goto w (.atHelpStore c l that false) e1)
    | (false, e1) => some (f.goto w (.atLostFlag c l false) e1)
  | .atHelpStore c l that spin =>
    some (f.goto w (.atHelpAbort c l that spin) (setState that .ABORTING e))
  | .atHelpAbort c l that spin =>
    some (f.goto w (.atHelpCount c l that spin) (doAbort that e))
  | .atHelpCount c l that spin =>
    if spin then some (f.goto w (.atSpin c l that) (addAbortByOther e))
    else some (f.goto w (.atLostFlag c l false) (addAbortByOther e))
  | .atLose c l =>
    some (f.goto w (.atLostFlag c l true) (setState c .ABORT_SELF e))
  | .atLostFlag c l abortSelf =>
    if abortSelf then some (f.goto w (.inNhood c) (setLostConflict c true e))
    else some (f.goto w (.atTry c l) (setLostConflict c true e))
  | .atOpCheck c =>
    if hasState c .SCHEDULED e then some (f.call w (.inOp c) 0 e)
    else some (f.goto w (.atCasReady c) e)
  | .inOp c =>
    match (op.opFunc (e.ctxts c).active).get? (f.calls w) with
    | some x =>
      if cmp x (e.ctxts c).active then none
      else some (f.call w (.inOp c) (f.calls w + 1) (pushBufferAppend c x e))
    | none => some (f.goto w (.atCasReady c) e)
  | .atCasReady c =>
    match casState c .SCHEDULED .READY_TO_COMMIT e with
    | (true, e1) => some (f.goto w (.atExecuted c) e1)
    | (false, e1) => some (f.goto w (.atCasAbort c) e1)
  | .atCasAbort c =>
    match casState c .ABORT_SELF .ABORTING e with
    | (true, e1) => some (f.goto w (.atCount c) e1)
    | (false, e1) => some (f.goto w (.atExecuted c) e1)
  | .atCount c => some (f.goto w (.atSelfAbort c) (countSelfAbort c e))
  | .atSelfAbort c => some (f.goto w (.atExecuted c) (doAbort c e))
  | .atExecuted c => some (f.goto w .atClear (setExecuted c true e))
  | .atClear =>
    if f.robMutex.isSome then none
    else
      some { exec := e, stage := Function.update f.stage w .clearLoop, calls := f.calls,
             robMutex := some w }
  | .clearLoop =>
    match heapTop (ctxtCmp cmp e) e.rob with
    | none => some (f.goto w .clearTail e)
    | some head =>
      if hasState head .ABORT_DONE e then
        match heapPop (ctxtCmp cmp e) e.rob with
        | none => none
        | some (t, rest) => some (f.goto w .clearLoop (reclaim t (setRob rest e)))
      else if hasState head .READY_TO_COMMIT e then
        if isEarliest cmp (e.ctxts head).active e then some (f.goto w (.clearStore head) e)
        else some (f.goto w .clearTail e)
      else some (f.goto w .clearTail e)
  | .clearStore head =>
    some (f.goto w (.clearCommit head) (setState head .COMMITTING e))
  | .clearCommit head =>
    let e2 := doCommit w head e
    match heapPop (ctxtCmp cmp e2) e2.rob with
    | none => none
    | some (t, rest) =>
      let e3 := assertThat (decide (t = head)) (setRob rest e2)
      some (f.goto w .clearLoop (addNumCommitted (reclaim t e3)))
  | .clearTail =>
    let e1 :=
      if !e.rob.isEmpty && emptyAll e.maxThreads e.freeList then reclaimGlobally cmp e
      else e
    some { exec := e1, stage := Function.update f.stage w .atLoopTest, calls := f.calls,
           robMutex := none }
  | .atLoopTest =>
    if !e.rob.isEmpty || !emptyAll e.maxThreads e.pending then some (f.goto w .idle e)
    else some (f.goto w .stopped e)
  | .stopped => none

/-- One step of thread `w`, which is one of the active threads. -/
def Fine.next (cmp : T → T → Bool) (op : Operator T) (w : Nat) (f : Fine T) :
    Option (Fine T) :=
  if w < f.exec.activeThreads then Fine.stmt cmp op w f else none

/-- The steps of a schedule, one after the other: each entry is the thread that runs.
`none`: some thread of the schedule could not run. -/
def Fine.run (cmp : T → T → Bool) (op : Operator T) : List Nat → Fine T → Option (Fine T)
  | [], f => some f
  | w :: rest, f =>
    match Fine.next cmp op w f with
    | some f1 => Fine.run cmp op rest f1
    | none => none

end FineRuns
/-! ### A commit behind a helping abort

Three threads, one context each (context `i` belongs to thread `i`), input 10, 30, 50.
The operator of 50 acquires Lockables 7 and 8, in this order, the operator of 30 acquires
8 and 7, the operators of 10, 11 and 12 acquire nothing; the operator of 10 pushes 11 and
12 and the others push nothing. -/

section HeapLemmas

variable {α : Type}

theorem heapPop_eq_none {lt : α → α → Bool} {h : List α} :
    heapPop lt h = none ↔ h = [] := by
  cases h with
  | nil => simp [heapPop]
  | cons x xs =>
    simp only [heapPop]
    cases heapPop lt xs with
    | none => simp
    | some p => by_cases hlt : lt p.1 x = true <;> simp [hlt]

theorem heapTop_eq_none {lt : α → α → Bool} {h : List α} :
    heapTop lt h = none ↔ h = [] := by
  simp [heapTop, heapPop_eq_none]

theorem heapTop_eq_some {lt : α → α → Bool} {h : List α} {m : α} :
    heapTop lt h = some m ↔ ∃ rest, heapPop lt h = some (m, rest) := by
  unfold heapTop
  cases heapPop lt h with
  | none => simp
  | some p =>
    obtain ⟨a, r⟩ := p
    simp

theorem heapPop_perm {lt : α → α → Bool} :
    ∀ {h : List α} {m : α} {rest : List α}, heapPop lt h = some (m, rest) → h.Perm (m :: rest)
  | [], _, _, hp => by simp [heapPop] at hp
  | x :: xs, m, rest, hp => by
    simp only [heapPop] at hp
    cases hxs : heapPop lt xs with
    | none =>
      rw [hxs] at hp
      simp only [Option.some.injEq, Prod.mk.injEq] at hp
      obtain ⟨rfl, rfl⟩ := hp
      have : xs = [] := heapPop_eq_none.mp hxs
      subst this
      exact List.Perm.refl _
    | some p =>
      obtain ⟨m1, r1⟩ := p
      rw [hxs] at hp
      have ih := heapPop_perm hxs
      by_cases hlt : lt m1 x = true
      · simp only [hlt, if_true, Option.some.injEq, Prod.mk.injEq] at hp
        obtain ⟨rfl, rfl⟩ := hp
        exact ((List.Perm.cons x ih).trans (List.Perm.swap _ _ _))
      · simp only [hlt, Option.some.injEq, Prod.mk.injEq] at hp
        obtain ⟨rfl, rfl⟩ := hp
        exact List.Perm.refl _

theorem heapPop_mem {lt : α → α → Bool} {h : List α} {m : α} {rest : List α}
    (hp : heapPop lt h = some (m, rest)) : m ∈ h :=
  (heapPop_perm hp).symm.subset (List.mem_cons_self _ _)

theorem heapPop_rest_subset {lt : α → α → Bool} {h : List α} {m : α} {rest : List α}
    (hp : heapPop lt h = some (m, rest)) : ∀ y, y ∈ rest → y ∈ h :=
  fun _ hy => (heapPop_perm hp).symm.subset (List.mem_cons_of_mem _ hy)

theorem heapPop_length {lt : α → α → Bool} {h : List α} {m : α} {rest : List α}
    (hp : heapPop lt h = some (m, rest)) : h.length = rest.length + 1 := by
  simpa using (heapPop_perm hp).length_eq

/-- The element returned by `heapPop` is a least element: nothing in the heap strictly
precedes it, for a comparator that is a strict weak order on the keys `key`. -/
theorem heapPop_least {β : Type} {cmp : β → β → Bool} (hc : StrictWeak cmp) (key : α → β) :
    ∀ {h : List α} {m : α} {rest : List α},
      heapPop (fun a b => cmp (key a) (key b)) h = some (m, rest) →
      ∀ y, y ∈ h → cmp (key y) (key m) = false
  | [], _, _, hp => by simp [heapPop] at hp
  | x :: xs, m, rest, hp => by
    intro y hy
    simp only [heapPop] at hp
    cases hxs : heapPop (fun a b => cmp (key a) (key b)) xs with
    | none =>
      rw [hxs] at hp
      simp only [Option.some.injEq, Prod.mk.injEq] at hp
      obtain ⟨rfl, rfl⟩ := hp
      have : xs = [] := heapPop_eq_none.mp hxs
      subst this
      simp only [List.mem_singleton] at hy
      subst hy
      exact hc.irrefl _
    | some p =>
      obtain ⟨m1, r1⟩ := p
      rw [hxs] at hp
      have ih := heapPop_least hc key hxs
      by_cases hlt : cmp (key m1) (key x) = true
      · simp only [hlt, if_true, Option.some.injEq, Prod.mk.injEq] at hp
        obtain ⟨rfl, rfl⟩ := hp
        rcases List.mem_cons.mp hy with rfl | hy
        · cases hyx : cmp (key y) (key m1) with
          | false => rfl
          | true =>
            have h2 := hc.trans _ _ _ hlt hyx
            rw [hc.irrefl] at h2
            exact absurd h2 (by simp)
        · exact ih y hy
      · simp only [hlt, Option.some.injEq, Prod.mk.injEq] at hp
        obtain ⟨rfl, rfl⟩ := hp
        rcases List.mem_cons.mp hy with rfl | hy
        · exact hc.irrefl _
        · exact hc.negTrans _ _ _ (ih y hy) (by simpa using hlt)

theorem heapTop_least {cmp : α → α → Bool} (hc : StrictWeak cmp) {h : List α} {m : α}
    (ht : heapTop cmp h = some m) : ∀ y, y ∈ h → cmp y m = false := by
  obtain ⟨rest, hp⟩ := heapTop_eq_some.mp ht
  exact heapPop_least hc id hp

theorem emptyAll_eq_true {rows : Nat} {cont : Nat → List α} :
    emptyAll rows cont = true ↔ ∀ i, i < rows → cont i = [] := by
  unfold emptyAll
  induction rows with
  | zero => simp
  | succ n ih =>
    rw [List.range_succ, List.foldl_append]
    simp only [List.foldl_cons, List.foldl_nil, Bool.and_eq_true, ih, List.isEmpty_iff]
    constructor
    · rintro ⟨h1, h2⟩ i hi
      rcases Nat.lt_succ_iff_lt_or_eq.mp hi with h | rfl
      · exact h1 i h
      · exact h2
    · intro h
      exact ⟨fun i hi => h i (Nat.lt_succ_of_lt hi), h n (Nat.lt_succ_self n)⟩

end HeapLemmas


/-! ## Field-by-field effects of the stores -/

section Projections

variable {T : Type}

@[simp] theorem hasState_eq (c : Nat) (st : State) (s : Exec T) :
    hasState c st s = decide ((s.ctxts c).state = st) := rfl

@[simp] theorem heapPush_eq {α : Type} (x : α) (h : List α) : heapPush x h = x :: h := rfl

@[simp] theorem construct_activeThreads (c : Nat) (x : T) (tid : Nat) (s : Exec T) :
    (construct c x tid s).activeThreads = s.activeThreads := rfl

@[simp] theorem construct_maxThreads (c : Nat) (x : T) (tid : Nat) (s : Exec T) :
    (construct c x tid s).maxThreads = s.maxThreads := rfl

@[simp] theorem construct_lockOwner (c : Nat) (x : T) (tid : Nat) (s : Exec T) :
    (construct c x tid s).lockOwner = s.lockOwner := rfl

@[simp] theorem construct_pending (c : Nat) (x : T) (tid : Nat) (s : Exec T) :
    (construct c x tid s).pending = s.pending := rfl

@[simp] theorem construct_rob (c : Nat) (x : T) (tid : Nat) (s : Exec T) :
    (construct c x tid s).rob = s.rob := rfl

@[simp] theorem construct_freeList (c : Nat) (x : T) (tid : Nat) (s : Exec T) :
    (construct c x tid s).freeList = s.freeList := rfl

@[simp] theorem construct_numTotal (c : Nat) (x : T) (tid : Nat) (s : Exec T) :
    (construct c x tid s).numTotal = s.numTotal := rfl

@[simp] theorem construct_numCommitted (c : Nat) (x : T) (tid : Nat) (s : Exec T) :
    (construct c x tid s).numCommitted = s.numCommitted := rfl

@[simp] theorem construct_numGlobalCleanups (c : Nat) (x : T) (tid : Nat) (s : Exec T) :
    (construct c x tid s).numGlobalCleanups = s.numGlobalCleanups := rfl

@[simp] theorem construct_abortSelfByConflict (c : Nat) (x : T) (tid : Nat) (s : Exec T) :
    (construct c x tid s).abortSelfByConflict = s.abortSelfByConflict := rfl

@[simp] theorem construct_abortSelfBySignal (c : Nat) (x : T) (tid : Nat) (s : Exec T) :
    (construct c x tid s).abortSelfBySignal = s.abortSelfBySignal := rfl

@[simp] theorem construct_abortByOther (c : Nat) (x : T) (tid : Nat) (s : Exec T) :
    (construct c x tid s).abortByOther = s.abortByOther := rfl

@[simp] theorem construct_commitLog (c : Nat) (x : T) (tid : Nat) (s : Exec T) :
    (construct c x tid s).commitLog = s.commitLog := rfl

@[simp] theorem construct_publishLog (c : Nat) (x : T) (tid : Nat) (s : Exec T) :
    (construct c x tid s).publishLog = s.publishLog := rfl

@[simp] theorem construct_stateLog (c : Nat) (x : T) (tid : Nat) (s : Exec T) :
    (construct c x tid s).stateLog = s.stateLog := rfl

@[simp] theorem construct_assertFailed (c : Nat) (x : T) (tid : Nat) (s : Exec T) :
    (construct c x tid s).assertFailed = s.assertFailed := rfl

@[simp] theorem construct_ctxts_state (c : Nat) (x : T) (tid : Nat) (s : Exec T) (d : Nat) :
    ((construct c x tid s).ctxts d).state = if d = c then .UNSCHEDULED else (s.ctxts d).state := by
  by_cases h : d = c
  · subst h; simp only [construct, Ctxt.construct, Function.update_same, if_true]
  · simp only [construct, Function.update_noteq h, if_neg h]

@[simp] theorem construct_ctxts_active (c : Nat) (x : T) (tid : Nat) (s : Exec T) (d : Nat) :
    ((construct c x tid s).ctxts d).active = if d = c then x else (s.ctxts d).active := by
  by_cases h : d = c
  · subst h; simp only [construct, Ctxt.construct, Function.update_same, if_true]
  · simp only [construct, Function.update_noteq h, if_neg h]

@[simp] theorem construct_ctxts_lostConflict (c : Nat) (x : T) (tid : Nat) (s : Exec T) (d : Nat) :
    ((construct c x tid s).ctxts d).lostConflict = if d = c then false else (s.ctxts d).lostConflict := by
  by_cases h : d = c
  · subst h; simp only [construct, Ctxt.construct, Function.update_same, if_true]
  · simp only [construct, Function.update_noteq h, if_neg h]

@[simp] theorem construct_ctxts_executed (c : Nat) (x : T) (tid : Nat) (s : Exec T) (d : Nat) :
    ((construct c x tid s).ctxts d).executed = if d = c then false else (s.ctxts d).executed := by
  by_cases h : d = c
  · subst h; simp only [construct, Ctxt.construct, Function.update_same, if_true]
  · simp only [construct, Function.update_noteq h, if_neg h]

@[simp] theorem construct_ctxts_owner (c : Nat) (x : T) (tid : Nat) (s : Exec T) (d : Nat) :
    ((construct c x tid s).ctxts d).owner = if d = c then tid else (s.ctxts d).owner := by
  by_cases h : d = c
  · subst h; simp only [construct, Ctxt.construct, Function.update_same, if_true]
  · simp only [construct, Function.update_noteq h, if_neg h]

@[simp] theorem construct_ctxts_nhood (c : Nat) (x : T) (tid : Nat) (s : Exec T) (d : Nat) :
    ((construct c x tid s).ctxts d).nhood = if d = c then [] else (s.ctxts d).nhood := by
  by_cases h : d = c
  · subst h; simp only [construct, Ctxt.construct, Function.update_same, if_true]
  · simp only [construct, Function.update_noteq h, if_neg h]

@[simp] theorem construct_ctxts_pushBuffer (c : Nat) (x : T) (tid : Nat) (s : Exec T) (d : Nat) :
    ((construct c x tid s).ctxts d).pushBuffer = if d = c then [] else (s.ctxts d).pushBuffer := by
  by_cases h : d = c
  · subst h; simp only [construct, Ctxt.construct, Function.update_same, if_true]
  · simp only [construct, Function.update_noteq h, if_neg h]

@[simp] theorem construct_ctxts_nCommit (c : Nat) (x : T) (tid : Nat) (s : Exec T) (d : Nat) :
    ((construct c x tid s).ctxts d).nCommit = if d = c then 0 else (s.ctxts d).nCommit := by
  by_cases h : d = c
  · subst h; simp only [construct, Ctxt.construct, Function.update_same, if_true]
  · simp only [construct, Function.update_noteq h, if_neg h]

@[simp] theorem construct_ctxts_nAbort (c : Nat) (x : T) (tid : Nat) (s : Exec T) (d : Nat) :
    ((construct c x tid s).ctxts d).nAbort = if d = c then 0 else (s.ctxts d).nAbort := by
  by_cases h : d = c
  · subst h; simp only [construct, Ctxt.construct, Function.update_same, if_true]
  · simp only [construct, Function.update_noteq h, if_neg h]

@[simp] theorem setState_activeThreads (c : Nat) (st : State) (s : Exec T) :
    (setState c st s).activeThreads = s.activeThreads := rfl

@[simp] theorem setState_maxThreads (c : Nat) (st : State) (s : Exec T) :
    (setState c st s).maxThreads = s.maxThreads := rfl

@[simp] theorem setState_lockOwner (c : Nat) (st : State) (s : Exec T) :
    (setState c st s).lockOwner = s.lockOwner := rfl

@[simp] theorem setState_pending (c : Nat) (st : State) (s : Exec T) :
    (setState c st s).pending = s.pending := rfl

@[simp] theorem setState_rob (c : Nat) (st : State) (s : Exec T) :
    (setState c st s).rob = s.rob := rfl

@[simp] theorem setState_freeList (c : Nat) (st : State) (s : Exec T) :
    (setState c st s).freeList = s.freeList := rfl

@[simp] theorem setState_numTotal (c : Nat) (st : State) (s : Exec T) :
    (setState c st s).numTotal = s.numTotal := rfl

@[simp] theorem setState_numCommitted (c : Nat) (st : State) (s : Exec T) :
    (setState c st s).numCommitted = s.numCommitted := rfl

@[simp] theorem setState_numGlobalCleanups (c : Nat) (st : State) (s : Exec T) :
    (setState c st s).numGlobalCleanups = s.numGlobalCleanups := rfl

@[simp] theorem setState_abortSelfByConflict (c : Nat) (st : State) (s : Exec T) :
    (setState c st s).abortSelfByConflict = s.abortSelfByConflict := rfl

@[simp] theorem setState_abortSelfBySignal (c : Nat) (st : State) (s : Exec T) :
    (setState c st s).abortSelfBySignal = s.abortSelfBySignal := rfl

@[simp] theorem setState_abortByOther (c : Nat) (st : State) (s : Exec T) :
    (setState c st s).abortByOther = s.abortByOther := rfl

@[simp] theorem setState_commitLog (c : Nat) (st : State) (s : Exec T) :
    (setState c st s).commitLog = s.commitLog := rfl

@[simp] theorem setState_publishLog (c : Nat) (st : State) (s : Exec T) :
    (setState c st s).publishLog = s.publishLog := rfl

@[simp] theorem setState_stateLog (c : Nat) (st : State) (s : Exec T) :
    (setState c st s).stateLog = (c, (s.ctxts c).state, st) :: s.stateLog := rfl

@[simp] theorem setState_assertFailed (c : Nat) (st : State) (s : Exec T) :
    (setState c st s).assertFailed = s.assertFailed := rfl

@[simp] theorem setState_ctxts_state (c : Nat) (st : State) (s : Exec T) (d : Nat) :
    ((setState c st s).ctxts d).state = if d = c then st else (s.ctxts d).state := by
  by_cases h : d = c
  · subst h; simp only [setState, Ctxt.construct, Function.update_same, if_true]
  · simp only [setState, Function.update_noteq h, if_neg h]

@[simp] theorem setState_ctxts_active (c : Nat) (st : State) (s : Exec T) (d : Nat) :
    ((setState c st s).ctxts d).active = (s.ctxts d).active := by
  by_cases h : d = c
  · subst h; simp only [setState, Ctxt.construct, Function.update_same, if_true]
  · simp only [setState, Function.update_noteq h, if_neg h]

@[simp] theorem setState_ctxts_lostConflict (c : Nat) (st : State) (s : Exec T) (d : Nat) :
    ((setState c st s).ctxts d).lostConflict = (s.ctxts d).lostConflict := by
  by_cases h : d = c
  · subst h; simp only [setState, Ctxt.construct, Function.update_same, if_true]
  · simp only [setState, Function.update_noteq h, if_neg h]

@[simp] theorem setState_ctxts_executed (c : Nat) (st : State) (s : Exec T) (d : Nat) :
    ((setState c st s).ctxts d).executed = (s.ctxts d).executed := by
  by_cases h : d = c
  · subst h; simp only [setState, Ctxt.construct, Function.update_same, if_true]
  · simp only [setState, Function.update_noteq h, if_neg h]

@[simp] theorem setState_ctxts_owner (c : Nat) (st : State) (s : Exec T) (d : Nat) :
    ((setState c st s).ctxts d).owner = (s.ctxts d).owner := by
  by_cases h : d = c
  · subst h; simp only [setState, Ctxt.construct, Function.update_same, if_true]
  · simp only [setState, Function.update_noteq h, if_neg h]

@[simp] theorem setState_ctxts_nhood (c : Nat) (st : State) (s : Exec T) (d : Nat) :
    ((setState c st s).ctxts d).nhood = (s.ctxts d).nhood := by
  by_cases h : d = c
  · subst h; simp only [setState, Ctxt.construct, Function.update_same, if_true]
  · simp only [setState, Function.update_noteq h, if_neg h]

@[simp] theorem setState_ctxts_pushBuffer (c : Nat) (st : State) (s : Exec T) (d : Nat) :
    ((setState c st s).ctxts d).pushBuffer = (s.ctxts d).pushBuffer := by
  by_cases h : d = c
  · subst h; simp only [setState, Ctxt.construct, Function.update_same, if_true]
  · simp only [setState, Function.update_noteq h, if_neg h]

@[simp] theorem setState_ctxts_nCommit (c : Nat) (st : State) (s : Exec T) (d : Nat) :
    ((setState c st s).ctxts d).nCommit = (s.ctxts d).nCommit := by
  by_cases h : d = c
  · subst h; simp only [setState, Ctxt.construct, Function.update_same, if_true]
  · simp only [setState, Function.update_noteq h, if_neg h]

@[simp] theorem setState_ctxts_nAbort (c : Nat) (st : State) (s : Exec T) (d : Nat) :
    ((setState c st s).ctxts d).nAbort = (s.ctxts d).nAbort := by
  by_cases h : d = c
  · subst h; simp only [setState, Ctxt.construct, Function.update_same, if_true]
  · simp only [setState, Function.update_noteq h, if_neg h]

@[simp] theorem setLostConflict_activeThreads (c : Nat) (b : Bool) (s : Exec T) :
    (setLostConflict c b s).activeThreads = s.activeThreads := rfl

@[simp] theorem setLostConflict_maxThreads (c : Nat) (b : Bool) (s : Exec T) :
    (setLostConflict c b s).maxThreads = s.maxThreads := rfl

@[simp] theorem setLostConflict_lockOwner (c : Nat) (b : Bool) (s : Exec T) :
    (setLostConflict c b s).lockOwner = s.lockOwner := rfl

@[simp] theorem setLostConflict_pending (c : Nat) (b : Bool) (s : Exec T) :
    (setLostConflict c b s).pending = s.pending := rfl

@[simp] theorem setLostConflict_rob (c : Nat) (b : Bool) (s : Exec T) :
    (setLostConflict c b s).rob = s.rob := rfl

@[simp] theorem setLostConflict_freeList (c : Nat) (b : Bool) (s : Exec T) :
    (setLostConflict c b s).freeList = s.freeList := rfl

@[simp] theorem setLostConflict_numTotal (c : Nat) (b : Bool) (s : Exec T) :
    (setLostConflict c b s).numTotal = s.numTotal := rfl

@[simp] theorem setLostConflict_numCommitted (c : Nat) (b : Bool) (s : Exec T) :
    (setLostConflict c b s).numCommitted = s.numCommitted := rfl

@[simp] theorem setLostConflict_numGlobalCleanups (c : Nat) (b : Bool) (s : Exec T) :
    (setLostConflict c b s).numGlobalCleanups = s.numGlobalCleanups := rfl

@[simp] theorem setLostConflict_abortSelfByConflict (c : Nat) (b : Bool) (s : Exec T) :
    (setLostConflict c b s).abortSelfByConflict = s.abortSelfByConflict := rfl

@[simp] theorem setLostConflict_abortSelfBySignal (c : Nat) (b : Bool) (s : Exec T) :
    (setLostConflict c b s).abortSelfBySignal = s.abortSelfBySignal := rfl

@[simp] theorem setLostConflict_abortByOther (c : Nat) (b : Bool) (s : Exec T) :
    (setLostConflict c b s).abortByOther = s.abortByOther := rfl

@[simp] theorem setLostConflict_commitLog (c : Nat) (b : Bool) (s : Exec T) :
    (setLostConflict c b s).commitLog = s.commitLog := rfl

@[simp] theorem setLostConflict_publishLog (c : Nat) (b : Bool) (s : Exec T) :
    (setLostConflict c b s).publishLog = s.publishLog := rfl

@[simp] theorem setLostConflict_stateLog (c : Nat) (b : Bool) (s : Exec T) :
    (setLostConflict c b s).stateLog = s.stateLog := rfl

@[simp] theorem setLostConflict_assertFailed (c : Nat) (b : Bool) (s : Exec T) :
    (setLostConflict c b s).assertFailed = s.assertFailed := rfl

@[simp] theorem setLostConflict_ctxts_state (c : Nat) (b : Bool) (s : Exec T) (d : Nat) :
    ((setLostConflict c b s).ctxts d).state = (s.ctxts d).state := by
  by_cases h : d = c
  · subst h; simp only [setLostConflict, Ctxt.construct, Function.update_same, if_true]
  · simp only [setLostConflict, Function.update_noteq h, if_neg h]

@[simp] theorem setLostConflict_ctxts_active (c : Nat) (b : Bool) (s : Exec T) (d : Nat) :
    ((setLostConflict c b s).ctxts d).active = (s.ctxts d).active := by
  by_cases h : d = c
  · subst h; simp only [setLostConflict, Ctxt.construct, Function.update_same, if_true]
  · simp only [setLostConflict, Function.update_noteq h, if_neg h]

@[simp] theorem setLostConflict_ctxts_lostConflict (c : Nat) (b : Bool) (s : Exec T) (d : Nat) :
    ((setLostConflict c b s).ctxts d).lostConflict = if d = c then b else (s.ctxts d).lostConflict := by
  by_cases h : d = c
  · subst h; simp only [setLostConflict, Ctxt.construct, Function.update_same, if_true]
  · simp only [setLostConflict, Function.update_noteq h, if_neg h]

@[simp] theorem setLostConflict_ctxts_executed (c : Nat) (b : Bool) (s : Exec T) (d : Nat) :
    ((setLostConflict c b s).ctxts d).executed = (s.ctxts d).executed := by
  by_cases h : d = c
  · subst h; simp only [setLostConflict, Ctxt.construct, Function.update_same, if_true]
  · simp only [setLostConflict, Function.update_noteq h, if_neg h]

@[simp] theorem setLostConflict_ctxts_owner (c : Nat) (b : Bool) (s : Exec T) (d : Nat) :
    ((setLostConflict c b s).ctxts d).owner = (s.ctxts d).owner := by
  by_cases h : d = c
  · subst h; simp only [setLostConflict, Ctxt.construct, Function.update_same, if_true]
  · simp only [setLostConflict, Function.update_noteq h, if_neg h]

@[simp] theorem setLostConflict_ctxts_nhood (c : Nat) (b : Bool) (s : Exec T) (d : Nat) :
    ((setLostConflict c b s).ctxts d).nhood = (s.ctxts d).nhood := by
  by_cases h : d = c
  · subst h; simp only [setLostConflict, Ctxt.construct, Function.update_same, if_true]
  · simp only [setLostConflict, Function.update_noteq h, if_neg h]

@[simp] theorem setLostConflict_ctxts_pushBuffer (c : Nat) (b : Bool) (s : Exec T) (d : Nat) :
    ((setLostConflict c b s).ctxts d).pushBuffer = (s.ctxts d).pushBuffer := by
  by_cases h : d = c
  · subst h; simp only [setLostConflict, Ctxt.construct, Function.update_same, if_true]
  · simp only [setLostConflict, Function.update_noteq h, if_neg h]

@[simp] theorem setLostConflict_ctxts_nCommit (c : Nat) (b : Bool) (s : Exec T) (d : Nat) :
    ((setLostConflict c b s).ctxts d).nCommit = (s.ctxts d).nCommit := by
  by_cases h : d = c
  · subst h; simp only [setLostConflict, Ctxt.construct, Function.update_same, if_true]
  · simp only [setLostConflict, Function.update_noteq h, if_neg h]

@[simp] theorem setLostConflict_ctxts_nAbort (c : Nat) (b : Bool) (s : Exec T) (d : Nat) :
    ((setLostConflict c b s).ctxts d).nAbort = (s.ctxts d).nAbort := by
  by_cases h : d = c
  · subst h; simp only [setLostConflict, Ctxt.construct, Function.update_same, if_true]
  · simp only [setLostConflict, Function.update_noteq h, if_neg h]

@[simp] theorem setExecuted_activeThreads (c : Nat) (b : Bool) (s : Exec T) :
    (setExecuted c b s).activeThreads = s.activeThreads := rfl

@[simp] theorem setExecuted_maxThreads (c : Nat) (b : Bool) (s : Exec T) :
    (setExecuted c b s).maxThreads = s.maxThreads := rfl

@[simp] theorem setExecuted_lockOwner (c : Nat) (b : Bool) (s : Exec T) :
    (setExecuted c b s).lockOwner = s.lockOwner := rfl

@[simp] theorem setExecuted_pending (c : Nat) (b : Bool) (s : Exec T) :
    (setExecuted c b s).pending = s.pending := rfl

@[simp] theorem setExecuted_rob (c : Nat) (b : Bool) (s : Exec T) :
    (setExecuted c b s).rob = s.rob := rfl

@[simp] theorem setExecuted_freeList (c : Nat) (b : Bool) (s : Exec T) :
    (setExecuted c b s).freeList = s.freeList := rfl

@[simp] theorem setExecuted_numTotal (c : Nat) (b : Bool) (s : Exec T) :
    (setExecuted c b s).numTotal = s.numTotal := rfl

@[simp] theorem setExecuted_numCommitted (c : Nat) (b : Bool) (s : Exec T) :
    (setExecuted c b s).numCommitted = s.numCommitted := rfl

@[simp] theorem setExecuted_numGlobalCleanups (c : Nat) (b : Bool) (s : Exec T) :
    (setExecuted c b s).numGlobalCleanups = s.numGlobalCleanups := rfl

@[simp] theorem setExecuted_abortSelfByConflict (c : Nat) (b : Bool) (s : Exec T) :
    (setExecuted c b s).abortSelfByConflict = s.abortSelfByConflict := rfl

@[simp] theorem setExecuted_abortSelfBySignal (c : Nat) (b : Bool) (s : Exec T) :
    (setExecuted c b s).abortSelfBySignal = s.abortSelfBySignal := rfl

@[simp] theorem setExecuted_abortByOther (c : Nat) (b : Bool) (s : Exec T) :
    (setExecuted c b s).abortByOther = s.abortByOther := rfl

@[simp] theorem setExecuted_commitLog (c : Nat) (b : Bool) (s : Exec T) :
    (setExecuted c b s).commitLog = s.commitLog := rfl

@[simp] theorem setExecuted_publishLog (c : Nat) (b : Bool) (s : Exec T) :
    (setExecuted c b s).publishLog = s.publishLog := rfl

@[simp] theorem setExecuted_stateLog (c : Nat) (b : Bool) (s : Exec T) :
    (setExecuted c b s).stateLog = s.stateLog := rfl

@[simp] theorem setExecuted_assertFailed (c : Nat) (b : Bool) (s : Exec T) :
    (setExecuted c b s).assertFailed = s.assertFailed := rfl

@[simp] theorem setExecuted_ctxts_state (c : Nat) (b : Bool) (s : Exec T) (d : Nat) :
    ((setExecuted c b s).ctxts d).state = (s.ctxts d).state := by
  by_cases h : d = c
  · subst h; simp only [setExecuted, Ctxt.construct, Function.update_same, if_true]
  · simp only [setExecuted, Function.update_noteq h, if_neg h]

@[simp] theorem setExecuted_ctxts_active (c : Nat) (b : Bool) (s : Exec T) (d : Nat) :
    ((setExecuted c b s).ctxts d).active = (s.ctxts d).active := by
  by_cases h : d = c
  · subst h; simp only [setExecuted, Ctxt.construct, Function.update_same, if_true]
  · simp only [setExecuted, Function.update_noteq h, if_neg h]

@[simp] theorem setExecuted_ctxts_lostConflict (c : Nat) (b : Bool) (s : Exec T) (d : Nat) :
    ((setExecuted c b s).ctxts d).lostConflict = (s.ctxts d).lostConflict := by
  by_cases h : d = c
  · subst h; simp only [setExecuted, Ctxt.construct, Function.update_same, if_true]
  · simp only [setExecuted, Function.update_noteq h, if_neg h]

@[simp] theorem setExecuted_ctxts_executed (c : Nat) (b : Bool) (s : Exec T) (d : Nat) :
    ((setExecuted c b s).ctxts d).executed = if d = c then b else (s.ctxts d).executed := by
  by_cases h : d = c
  · subst h; simp only [setExecuted, Ctxt.construct, Function.update_same, if_true]
  · simp only [setExecuted, Function.update_noteq h, if_neg h]

@[simp] theorem setExecuted_ctxts_owner (c : Nat) (b : Bool) (s : Exec T) (d : Nat) :
    ((setExecuted c b s).ctxts d).owner = (s.ctxts d).owner := by
  by_cases h : d = c
  · subst h; simp only [setExecuted, Ctxt.construct, Function.update_same, if_true]
  · simp only [setExecuted, Function.update_noteq h, if_neg h]

@[simp] theorem setExecuted_ctxts_nhood (c : Nat) (b : Bool) (s : Exec T) (d : Nat) :
    ((setExecuted c b s).ctxts d).nhood = (s.ctxts d).nhood := by
  by_cases h : d = c
  · subst h; simp only [setExecuted, Ctxt.construct, Function.update_same, if_true]
  · simp only [setExecuted, Function.update_noteq h, if_neg h]

@[simp] theorem setExecuted_ctxts_pushBuffer (c : Nat) (b : Bool) (s : Exec T) (d : Nat) :
    ((setExecuted c b s).ctxts d).pushBuffer = (s.ctxts d).pushBuffer := by
  by_cases h : d = c
  · subst h; simp only [setExecuted, Ctxt.construct, Function.update_same, if_true]
  · simp only [setExecuted, Function.update_noteq h, if_neg h]

@[simp] theorem setExecuted_ctxts_nCommit (c : Nat) (b : Bool) (s : Exec T) (d : Nat) :
    ((setExecuted c b s).ctxts d).nCommit = (s.ctxts d).nCommit := by
  by_cases h : d = c
  · subst h; simp only [setExecuted, Ctxt.construct, Function.update_same, if_true]
  · simp only [setExecuted, Function.update_noteq h, if_neg h]

@[simp] theorem setExecuted_ctxts_nAbort (c : Nat) (b : Bool) (s : Exec T) (d : Nat) :
    ((setExecuted c b s).ctxts d).nAbort = (s.ctxts d).nAbort := by
  by_cases h : d = c
  · subst h; simp only [setExecuted, Ctxt.construct, Function.update_same, if_true]
  · simp only [setExecuted, Function.update_noteq h, if_neg h]

@[simp] theorem setOwner_activeThreads (c : Nat) (tid : Nat) (s : Exec T) :
    (setOwner c tid s).activeThreads = s.activeThreads := rfl

@[simp] theorem setOwner_maxThreads (c : Nat) (tid : Nat) (s : Exec T) :
    (setOwner c tid s).maxThreads = s.maxThreads := rfl

@[simp] theorem setOwner_lockOwner (c : Nat) (tid : Nat) (s : Exec T) :
    (setOwner c tid s).lockOwner = s.lockOwner := rfl

@[simp] theorem setOwner_pending (c : Nat) (tid : Nat) (s : Exec T) :
    (setOwner c tid s).pending = s.pending := rfl

@[simp] theorem setOwner_rob (c : Nat) (tid : Nat) (s : Exec T) :
    (setOwner c tid s).rob = s.rob := rfl

@[simp] theorem setOwner_freeList (c : Nat) (tid : Nat) (s : Exec T) :
    (setOwner c tid s).freeList = s.freeList := rfl

@[simp] theorem setOwner_numTotal (c : Nat) (tid : Nat) (s : Exec T) :
    (setOwner c tid s).numTotal = s.numTotal := rfl

@[simp] theorem setOwner_numCommitted (c : Nat) (tid : Nat) (s : Exec T) :
    (setOwner c tid s).numCommitted = s.numCommitted := rfl

@[simp] theorem setOwner_numGlobalCleanups (c : Nat) (tid : Nat) (s : Exec T) :
    (setOwner c tid s).numGlobalCleanups = s.numGlobalCleanups := rfl

@[simp] theorem setOwner_abortSelfByConflict (c : Nat) (tid : Nat) (s : Exec T) :
    (setOwner c tid s).abortSelfByConflict = s.abortSelfByConflict := rfl

@[simp] theorem setOwner_abortSelfBySignal (c : Nat) (tid : Nat) (s : Exec T) :
    (setOwner c tid s).abortSelfBySignal = s.abortSelfBySignal := rfl

@[simp] theorem setOwner_abortByOther (c : Nat) (tid : Nat) (s : Exec T) :
    (setOwner c tid s).abortByOther = s.abortByOther := rfl

@[simp] theorem setOwner_commitLog (c : Nat) (tid : Nat) (s : Exec T) :
    (setOwner c tid s).commitLog = s.commitLog := rfl

@[simp] theorem setOwner_publishLog (c : Nat) (tid : Nat) (s : Exec T) :
    (setOwner c tid s).publishLog = s.publishLog := rfl

@[simp] theorem setOwner_stateLog (c : Nat) (tid : Nat) (s : Exec T) :
    (setOwner c tid s).stateLog = s.stateLog := rfl

@[simp] theorem setOwner_assertFailed (c : Nat) (tid : Nat) (s : Exec T) :
    (setOwner c tid s).assertFailed = s.assertFailed := rfl

@[simp] theorem setOwner_ctxts_state (c : Nat) (tid : Nat) (s : Exec T) (d : Nat) :
    ((setOwner c tid s).ctxts d).state = (s.ctxts d).state := by
  by_cases h : d = c
  · subst h; simp only [setOwner, Ctxt.construct, Function.update_same, if_true]
  · simp only [setOwner, Function.update_noteq h, if_neg h]

@[simp] theorem setOwner_ctxts_active (c : Nat) (tid : Nat) (s : Exec T) (d : Nat) :
    ((setOwner c tid s).ctxts d).active = (s.ctxts d).active := by
  by_cases h : d = c
  · subst h; simp only [setOwner, Ctxt.construct, Function.update_same, if_true]
  · simp only [setOwner, Function.update_noteq h, if_neg h]

@[simp] theorem setOwner_ctxts_lostConflict (c : Nat) (tid : Nat) (s : Exec T) (d : Nat) :
    ((setOwner c tid s).ctxts d).lostConflict = (s.ctxts d).lostConflict := by
  by_cases h : d = c
  · subst h; simp only [setOwner, Ctxt.construct, Function.update_same, if_true]
  · simp only [setOwner, Function.update_noteq h, if_neg h]

@[simp] theorem setOwner_ctxts_executed (c : Nat) (tid : Nat) (s : Exec T) (d : Nat) :
    ((setOwner c tid s).ctxts d).executed = (s.ctxts d).executed := by
  by_cases h : d = c
  · subst h; simp only [setOwner, Ctxt.construct, Function.update_same, if_true]
  · simp only [setOwner, Function.update_noteq h, if_neg h]

@[simp] theorem setOwner_ctxts_owner (c : Nat) (tid : Nat) (s : Exec T) (d : Nat) :
    ((setOwner c tid s).ctxts d).owner = if d = c then tid else (s.ctxts d).owner := by
  by_cases h : d = c
  · subst h; simp only [setOwner, Ctxt.construct, Function.update_same, if_true]
  · simp only [setOwner, Function.update_noteq h, if_neg h]

@[simp] theorem setOwner_ctxts_nhood (c : Nat) (tid : Nat) (s : Exec T) (d : Nat) :
    ((setOwner c tid s).ctxts d).nhood = (s.ctxts d).nhood := by
  by_cases h : d = c
  · subst h; simp only [setOwner, Ctxt.construct, Function.update_same, if_true]
  · simp only [setOwner, Function.update_noteq h, if_neg h]

@[simp] theorem setOwner_ctxts_pushBuffer (c : Nat) (tid : Nat) (s : Exec T) (d : Nat) :
    ((setOwner c tid s).ctxts d).pushBuffer = (s.ctxts d).pushBuffer := by
  by_cases h : d = c
  · subst h; simp only [setOwner, Ctxt.construct, Function.update_same, if_true]
  · simp only [setOwner, Function.update_noteq h, if_neg h]

@[simp] theorem setOwner_ctxts_nCommit (c : Nat) (tid : Nat) (s : Exec T) (d : Nat) :
    ((setOwner c tid s).ctxts d).nCommit = (s.ctxts d).nCommit := by
  by_cases h : d = c
  · subst h; simp only [setOwner, Ctxt.construct, Function.update_same, if_true]
  · simp only [setOwner, Function.update_noteq h, if_neg h]

@[simp] theorem setOwner_ctxts_nAbort (c : Nat) (tid : Nat) (s : Exec T) (d : Nat) :
    ((setOwner c tid s).ctxts d).nAbort = (s.ctxts d).nAbort := by
  by_cases h : d = c
  · subst h; simp only [setOwner, Ctxt.construct, Function.update_same, if_true]
  · simp only [setOwner, Function.update_noteq h, if_neg h]

@[simp] theorem nhoodPushBack_activeThreads (c l : Nat) (s : Exec T) :
    (nhoodPushBack c l s).activeThreads = s.activeThreads := rfl

@[simp] theorem nhoodPushBack_maxThreads (c l : Nat) (s : Exec T) :
    (nhoodPushBack c l s).maxThreads = s.maxThreads := rfl

@[simp] theorem nhoodPushBack_lockOwner (c l : Nat) (s : Exec T) :
    (nhoodPushBack c l s).lockOwner = s.lockOwner := rfl

@[simp] theorem nhoodPushBack_pending (c l : Nat) (s : Exec T) :
    (nhoodPushBack c l s).pending = s.pending := rfl

@[simp] theorem nhoodPushBack_rob (c l : Nat) (s : Exec T) :
    (nhoodPushBack c l s).rob = s.rob := rfl

@[simp] theorem nhoodPushBack_freeList (c l : Nat) (s : Exec T) :
    (nhoodPushBack c l s).freeList = s.freeList := rfl

@[simp] theorem nhoodPushBack_numTotal (c l : Nat) (s : Exec T) :
    (nhoodPushBack c l s).numTotal = s.numTotal := rfl

@[simp] theorem nhoodPushBack_numCommitted (c l : Nat) (s : Exec T) :
    (nhoodPushBack c l s).numCommitted = s.numCommitted := rfl

@[simp] theorem nhoodPushBack_numGlobalCleanups (c l : Nat) (s : Exec T) :
    (nhoodPushBack c l s).numGlobalCleanups = s.numGlobalCleanups := rfl

@[simp] theorem nhoodPushBack_abortSelfByConflict (c l : Nat) (s : Exec T) :
    (nhoodPushBack c l s).abortSelfByConflict = s.abortSelfByConflict := rfl

@[simp] theorem nhoodPushBack_abortSelfBySignal (c l : Nat) (s : Exec T) :
    (nhoodPushBack c l s).abortSelfBySignal = s.abortSelfBySignal := rfl

@[simp] theorem nhoodPushBack_abortByOther (c l : Nat) (s : Exec T) :
    (nhoodPushBack c l s).abortByOther = s.abortByOther := rfl

@[simp] theorem nhoodPushBack_commitLog (c l : Nat) (s : Exec T) :
    (nhoodPushBack c l s).commitLog = s.commitLog := rfl

@[simp] theorem nhoodPushBack_publishLog (c l : Nat) (s : Exec T) :
    (nhoodPushBack c l s).publishLog = s.publishLog := rfl

@[simp] theorem nhoodPushBack_stateLog (c l : Nat) (s : Exec T) :
    (nhoodPushBack c l s).stateLog = s.stateLog := rfl

@[simp] theorem nhoodPushBack_assertFailed (c l : Nat) (s : Exec T) :
    (nhoodPushBack c l s).assertFailed = s.assertFailed := rfl

@[simp] theorem nhoodPushBack_ctxts_state (c l : Nat) (s : Exec T) (d : Nat) :
    ((nhoodPushBack c l s).ctxts d).state = (s.ctxts d).state := by
  by_cases h : d = c
  · subst h; simp only [nhoodPushBack, Ctxt.construct, Function.update_same, if_true]
  · simp only [nhoodPushBack, Function.update_noteq h, if_neg h]

@[simp] theorem nhoodPushBack_ctxts_active (c l : Nat) (s : Exec T) (d : Nat) :
    ((nhoodPushBack c l s).ctxts d).active = (s.ctxts d).active := by
  by_cases h : d = c
  · subst h; simp only [nhoodPushBack, Ctxt.construct, Function.update_same, if_true]
  · simp only [nhoodPushBack, Function.update_noteq h, if_neg h]

@[simp] theorem nhoodPushBack_ctxts_lostConflict (c l : Nat) (s : Exec T) (d : Nat) :
    ((nhoodPushBack c l s).ctxts d).lostConflict = (s.ctxts d).lostConflict := by
  by_cases h : d = c
  · subst h; simp only [nhoodPushBack, Ctxt.construct, Function.update_same, if_true]
  · simp only [nhoodPushBack, Function.update_noteq h, if_neg h]

@[simp] theorem nhoodPushBack_ctxts_executed (c l : Nat) (s : Exec T) (d : Nat) :
    ((nhoodPushBack c l s).ctxts d).executed = (s.ctxts d).executed := by
  by_cases h : d = c
  · subst h; simp only [nhoodPushBack, Ctxt.construct, Function.update_same, if_true]
  · simp only [nhoodPushBack, Function.update_noteq h, if_neg h]

@[simp] theorem nhoodPushBack_ctxts_owner (c l : Nat) (s : Exec T) (d : Nat) :
    ((nhoodPushBack c l s).ctxts d).owner = (s.ctxts d).owner := by
  by_cases h : d = c
  · subst h; simp only [nhoodPushBack, Ctxt.construct, Function.update_same, if_true]
  · simp only [nhoodPushBack, Function.update_noteq h, if_neg h]

@[simp] theorem nhoodPushBack_ctxts_nhood (c l : Nat) (s : Exec T) (d : Nat) :
    ((nhoodPushBack c l s).ctxts d).nhood = if d = c then (s.ctxts c).nhood ++ [l] else (s.ctxts d).nhood := by
  by_cases h : d = c
  · subst h; simp only [nhoodPushBack, Ctxt.construct, Function.update_same, if_true]
  · simp only [nhoodPushBack, Function.update_noteq h, if_neg h]

@[simp] theorem nhoodPushBack_ctxts_pushBuffer (c l : Nat) (s : Exec T) (d : Nat) :
    ((nhoodPushBack c l s).ctxts d).pushBuffer = (s.ctxts d).pushBuffer := by
  by_cases h : d = c
  · subst h; simp only [nhoodPushBack, Ctxt.construct, Function.update_same, if_true]
  · simp only [nhoodPushBack, Function.update_noteq h, if_neg h]

@[simp] theorem nhoodPushBack_ctxts_nCommit (c l : Nat) (s : Exec T) (d : Nat) :
    ((nhoodPushBack c l s).ctxts d).nCommit = (s.ctxts d).nCommit := by
  by_cases h : d = c
  · subst h; simp only [nhoodPushBack, Ctxt.construct, Function.update_same, if_true]
  · simp only [nhoodPushBack, Function.update_noteq h, if_neg h]

@[simp] theorem nhoodPushBack_ctxts_nAbort (c l : Nat) (s : Exec T) (d : Nat) :
    ((nhoodPushBack c l s).ctxts d).nAbort = (s.ctxts d).nAbort := by
  by_cases h : d = c
  · subst h; simp only [nhoodPushBack, Ctxt.construct, Function.update_same, if_true]
  · simp only [nhoodPushBack, Function.update_noteq h, if_neg h]

@[simp] theorem pushBufferAppend_activeThreads (c : Nat) (x : T) (s : Exec T) :
    (pushBufferAppend c x s).activeThreads = s.activeThreads := rfl

@[simp] theorem pushBufferAppend_maxThreads (c : Nat) (x : T) (s : Exec T) :
    (pushBufferAppend c x s).maxThreads = s.maxThreads := rfl

@[simp] theorem pushBufferAppend_lockOwner (c : Nat) (x : T) (s : Exec T) :
    (pushBufferAppend c x s).lockOwner = s.lockOwner := rfl

@[simp] theorem pushBufferAppend_pending (c : Nat) (x : T) (s : Exec T) :
    (pushBufferAppend c x s).pending = s.pending := rfl

@[simp] theorem pushBufferAppend_rob (c : Nat) (x : T) (s : Exec T) :
    (pushBufferAppend c x s).rob = s.rob := rfl

@[simp] theorem pushBufferAppend_freeList (c : Nat) (x : T) (s : Exec T) :
    (pushBufferAppend c x s).freeList = s.freeList := rfl

@[simp] theorem pushBufferAppend_numTotal (c : Nat) (x : T) (s : Exec T) :
    (pushBufferAppend c x s).numTotal = s.numTotal := rfl

@[simp] theorem pushBufferAppend_numCommitted (c : Nat) (x : T) (s : Exec T) :
    (pushBufferAppend c x s).numCommitted = s.numCommitted := rfl

@[simp] theorem pushBufferAppend_numGlobalCleanups (c : Nat) (x : T) (s : Exec T) :
    (pushBufferAppend c x s).numGlobalCleanups = s.numGlobalCleanups := rfl

@[simp] theorem pushBufferAppend_abortSelfByConflict (c : Nat) (x : T) (s : Exec T) :
    (pushBufferAppend c x s).abortSelfByConflict = s.abortSelfByConflict := rfl

@[simp] theorem pushBufferAppend_abortSelfBySignal (c : Nat) (x : T) (s : Exec T) :
    (pushBufferAppend c x s).abortSelfBySignal = s.abortSelfBySignal := rfl

@[simp] theorem pushBufferAppend_abortByOther (c : Nat) (x : T) (s : Exec T) :
    (pushBufferAppend c x s).abortByOther = s.abortByOther := rfl

@[simp] theorem pushBufferAppend_commitLog (c : Nat) (x : T) (s : Exec T) :
    (pushBufferAppend c x s).commitLog = s.commitLog := rfl

@[simp] theorem pushBufferAppend_publishLog (c : Nat) (x : T) (s : Exec T) :
    (pushBufferAppend c x s).publishLog = s.publishLog := rfl

@[simp] theorem pushBufferAppend_stateLog (c : Nat) (x : T) (s : Exec T) :
    (pushBufferAppend c x s).stateLog = s.stateLog := rfl

@[simp] theorem pushBufferAppend_assertFailed (c : Nat) (x : T) (s : Exec T) :
    (pushBufferAppend c x s).assertFailed = s.assertFailed := rfl

@[simp] theorem pushBufferAppend_ctxts_state (c : Nat) (x : T) (s : Exec T) (d : Nat) :
    ((pushBufferAppend c x s).ctxts d).state = (s.ctxts d).state := by
  by_cases h : d = c
  · subst h; simp only [pushBufferAppend, Ctxt.construct, Function.update_same, if_true]
  · simp only [pushBufferAppend, Function.update_noteq h, if_neg h]

@[simp] theorem pushBufferAppend_ctxts_active (c : Nat) (x : T) (s : Exec T) (d : Nat) :
    ((pushBufferAppend c x s).ctxts d).active = (s.ctxts d).active := by
  by_cases h : d = c
  · subst h; simp only [pushBufferAppend, Ctxt.construct, Function.update_same, if_true]
  · simp only [pushBufferAppend, Function.update_noteq h, if_neg h]

@[simp] theorem pushBufferAppend_ctxts_lostConflict (c : Nat) (x : T) (s : Exec T) (d : Nat) :
    ((pushBufferAppend c x s).ctxts d).lostConflict = (s.ctxts d).lostConflict := by
  by_cases h : d = c
  · subst h; simp only [pushBufferAppend, Ctxt.construct, Function.update_same, if_true]
  · simp only [pushBufferAppend, Function.update_noteq h, if_neg h]

@[simp] theorem pushBufferAppend_ctxts_executed (c : Nat) (x : T) (s : Exec T) (d : Nat) :
    ((pushBufferAppend c x s).ctxts d).executed = (s.ctxts d).executed := by
  by_cases h : d = c
  · subst h; simp only [pushBufferAppend, Ctxt.construct, Function.update_same, if_true]
  · simp only [pushBufferAppend, Function.update_noteq h, if_neg h]

@[simp] theorem pushBufferAppend_ctxts_owner (c : Nat) (x : T) (s : Exec T) (d : Nat) :
    ((pushBufferAppend c x s).ctxts d).owner = (s.ctxts d).owner := by
  by_cases h : d = c
  · subst h; simp only [pushBufferAppend, Ctxt.construct, Function.update_same, if_true]
  · simp only [pushBufferAppend, Function.update_noteq h, if_neg h]

@[simp] theorem pushBufferAppend_ctxts_nhood (c : Nat) (x : T) (s : Exec T) (d : Nat) :
    ((pushBufferAppend c x s).ctxts d).nhood = (s.ctxts d).nhood := by
  by_cases h : d = c
  · subst h; simp only [pushBufferAppend, Ctxt.construct, Function.update_same, if_true]
  · simp only [pushBufferAppend, Function.update_noteq h, if_neg h]

@[simp] theorem pushBufferAppend_ctxts_pushBuffer (c : Nat) (x : T) (s : Exec T) (d : Nat) :
    ((pushBufferAppend c x s).ctxts d).pushBuffer = if d = c then (s.ctxts c).pushBuffer ++ [x] else (s.ctxts d).pushBuffer := by
  by_cases h : d = c
  · subst h; simp only [pushBufferAppend, Ctxt.construct, Function.update_same, if_true]
  · simp only [pushBufferAppend, Function.update_noteq h, if_neg h]

@[simp] theorem pushBufferAppend_ctxts_nCommit (c : Nat) (x : T) (s : Exec T) (d : Nat) :
    ((pushBufferAppend c x s).ctxts d).nCommit = (s.ctxts d).nCommit := by
  by_cases h : d = c
  · subst h; simp only [pushBufferAppend, Ctxt.construct, Function.update_same, if_true]
  · simp only [pushBufferAppend, Function.update_noteq h, if_neg h]

@[simp] theorem pushBufferAppend_ctxts_nAbort (c : Nat) (x : T) (s : Exec T) (d : Nat) :
    ((pushBufferAppend c x s).ctxts d).nAbort = (s.ctxts d).nAbort := by
  by_cases h : d = c
  · subst h; simp only [pushBufferAppend, Ctxt.construct, Function.update_same, if_true]
  · simp only [pushBufferAppend, Function.update_noteq h, if_neg h]

@[simp] theorem resetUserHandle_activeThreads (c : Nat) (s : Exec T) :
    (resetUserHandle c s).activeThreads = s.activeThreads := rfl

@[simp] theorem resetUserHandle_maxThreads (c : Nat) (s : Exec T) :
    (resetUserHandle c s).maxThreads = s.maxThreads := rfl

@[simp] theorem resetUserHandle_lockOwner (c : Nat) (s : Exec T) :
    (resetUserHandle c s).lockOwner = s.lockOwner := rfl

@[simp] theorem resetUserHandle_pending (c : Nat) (s : Exec T) :
    (resetUserHandle c s).pending = s.pending := rfl

@[simp] theorem resetUserHandle_rob (c : Nat) (s : Exec T) :
    (resetUserHandle c s).rob = s.rob := rfl

@[simp] theorem resetUserHandle_freeList (c : Nat) (s : Exec T) :
    (resetUserHandle c s).freeList = s.freeList := rfl

@[simp] theorem resetUserHandle_numTotal (c : Nat) (s : Exec T) :
    (resetUserHandle c s).numTotal = s.numTotal := rfl

@[simp] theorem resetUserHandle_numCommitted (c : Nat) (s : Exec T) :
    (resetUserHandle c s).numCommitted = s.numCommitted := rfl

@[simp] theorem resetUserHandle_numGlobalCleanups (c : Nat) (s : Exec T) :
    (resetUserHandle c s).numGlobalCleanups = s.numGlobalCleanups := rfl

@[simp] theorem resetUserHandle_abortSelfByConflict (c : Nat) (s : Exec T) :
    (resetUserHandle c s).abortSelfByConflict = s.abortSelfByConflict := rfl

@[simp] theorem resetUserHandle_abortSelfBySignal (c : Nat) (s : Exec T) :
    (resetUserHandle c s).abortSelfBySignal = s.abortSelfBySignal := rfl

@[simp] theorem resetUserHandle_abortByOther (c : Nat) (s : Exec T) :
    (resetUserHandle c s).abortByOther = s.abortByOther := rfl

@[simp] theorem resetUserHandle_commitLog (c : Nat) (s : Exec T) :
    (resetUserHandle c s).commitLog = s.commitLog := rfl

@[simp] theorem resetUserHandle_publishLog (c : Nat) (s : Exec T) :
    (resetUserHandle c s).publishLog = s.publishLog := rfl

@[simp] theorem resetUserHandle_stateLog (c : Nat) (s : Exec T) :
    (resetUserHandle c s).stateLog = s.stateLog := rfl

@[simp] theorem resetUserHandle_assertFailed (c : Nat) (s : Exec T) :
    (resetUserHandle c s).assertFailed = s.assertFailed := rfl

@[simp] theorem resetUserHandle_ctxts_state (c : Nat) (s : Exec T) (d : Nat) :
    ((resetUserHandle c s).ctxts d).state = (s.ctxts d).state := by
  by_cases h : d = c
  · subst h; simp only [resetUserHandle, Ctxt.construct, Function.update_same, if_true]
  · simp only [resetUserHandle, Function.update_noteq h, if_neg h]

@[simp] theorem resetUserHandle_ctxts_active (c : Nat) (s : Exec T) (d : Nat) :
    ((resetUserHandle c s).ctxts d).active = (s.ctxts d).active := by
  by_cases h : d = c
  · subst h; simp only [resetUserHandle, Ctxt.construct, Function.update_same, if_true]
  · simp only [resetUserHandle, Function.update_noteq h, if_neg h]

@[simp] theorem resetUserHandle_ctxts_lostConflict (c : Nat) (s : Exec T) (d : Nat) :
    ((resetUserHandle c s).ctxts d).lostConflict = (s.ctxts d).lostConflict := by
  by_cases h : d = c
  · subst h; simp only [resetUserHandle, Ctxt.construct, Function.update_same, if_true]
  · simp only [resetUserHandle, Function.update_noteq h, if_neg h]

@[simp] theorem resetUserHandle_ctxts_executed (c : Nat) (s : Exec T) (d : Nat) :
    ((resetUserHandle c s).ctxts d).executed = (s.ctxts d).executed := by
  by_cases h : d = c
  · subst h; simp only [resetUserHandle, Ctxt.construct, Function.update_same, if_true]
  · simp only [resetUserHandle, Function.update_noteq h, if_neg h]

@[simp] theorem resetUserHandle_ctxts_owner (c : Nat) (s : Exec T) (d : Nat) :
    ((resetUserHandle c s).ctxts d).owner = (s.ctxts d).owner := by
  by_cases h : d = c
  · subst h; simp only [resetUserHandle, Ctxt.construct, Function.update_same, if_true]
  · simp only [resetUserHandle, Function.update_noteq h, if_neg h]

@[simp] theorem resetUserHandle_ctxts_nhood (c : Nat) (s : Exec T) (d : Nat) :
    ((resetUserHandle c s).ctxts d).nhood = (s.ctxts d).nhood := by
  by_cases h : d = c
  · subst h; simp only [resetUserHandle, Ctxt.construct, Function.update_same, if_true]
  · simp only [resetUserHandle, Function.update_noteq h, if_neg h]

@[simp] theorem resetUserHandle_ctxts_pushBuffer (c : Nat) (s : Exec T) (d : Nat) :
    ((resetUserHandle c s).ctxts d).pushBuffer = if d = c then [] else (s.ctxts d).pushBuffer := by
  by_cases h : d = c
  · subst h; simp only [resetUserHandle, Ctxt.construct, Function.update_same, if_true]
  · simp only [resetUserHandle, Function.update_noteq h, if_neg h]

@[simp] theorem resetUserHandle_ctxts_nCommit (c : Nat) (s : Exec T) (d : Nat) :
    ((resetUserHandle c s).ctxts d).nCommit = (s.ctxts d).nCommit := by
  by_cases h : d = c
  · subst h; simp only [resetUserHandle, Ctxt.construct, Function.update_same, if_true]
  · simp only [resetUserHandle, Function.update_noteq h, if_neg h]

@[simp] theorem resetUserHandle_ctxts_nAbort (c : Nat) (s : Exec T) (d : Nat) :
    ((resetUserHandle c s).ctxts d).nAbort = (s.ctxts d).nAbort := by
  by_cases h : d = c
  · subst h; simp only [resetUserHandle, Ctxt.construct, Function.update_same, if_true]
  · simp only [resetUserHandle, Function.update_noteq h, if_neg h]

@[simp] theorem countCommit_activeThreads (c : Nat) (s : Exec T) :
    (countCommit c s).activeThreads = s.activeThreads := rfl

@[simp] theorem countCommit_maxThreads (c : Nat) (s : Exec T) :
    (countCommit c s).maxThreads = s.maxThreads := rfl

@[simp] theorem countCommit_lockOwner (c : Nat) (s : Exec T) :
    (countCommit c s).lockOwner = s.lockOwner := rfl

@[simp] theorem countCommit_pending (c : Nat) (s : Exec T) :
    (countCommit c s).pending = s.pending := rfl

@[simp] theorem countCommit_rob (c : Nat) (s : Exec T) :
    (countCommit c s).rob = s.rob := rfl

@[simp] theorem countCommit_freeList (c : Nat) (s : Exec T) :
    (countCommit c s).freeList = s.freeList := rfl

@[simp] theorem countCommit_numTotal (c : Nat) (s : Exec T) :
    (countCommit c s).numTotal = s.numTotal := rfl

@[simp] theorem countCommit_numCommitted (c : Nat) (s : Exec T) :
    (countCommit c s).numCommitted = s.numCommitted := rfl

@[simp] theorem countCommit_numGlobalCleanups (c : Nat) (s : Exec T) :
    (countCommit c s).numGlobalCleanups = s.numGlobalCleanups := rfl

@[simp] theorem countCommit_abortSelfByConflict (c : Nat) (s : Exec T) :
    (countCommit c s).abortSelfByConflict = s.abortSelfByConflict := rfl

@[simp] theorem countCommit_abortSelfBySignal (c : Nat) (s : Exec T) :
    (countCommit c s).abortSelfBySignal = s.abortSelfBySignal := rfl

@[simp] theorem countCommit_abortByOther (c : Nat) (s : Exec T) :
    (countCommit c s).abortByOther = s.abortByOther := rfl

@[simp] theorem countCommit_commitLog (c : Nat) (s : Exec T) :
    (countCommit c s).commitLog = s.commitLog := rfl

@[simp] theorem countCommit_publishLog (c : Nat) (s : Exec T) :
    (countCommit c s).publishLog = s.publishLog := rfl

@[simp] theorem countCommit_stateLog (c : Nat) (s : Exec T) :
    (countCommit c s).stateLog = s.stateLog := rfl

@[simp] theorem countCommit_assertFailed (c : Nat) (s : Exec T) :
    (countCommit c s).assertFailed = s.assertFailed := rfl

@[simp] theorem countCommit_ctxts_state (c : Nat) (s : Exec T) (d : Nat) :
    ((countCommit c s).ctxts d).state = (s.ctxts d).state := by
  by_cases h : d = c
  · subst h; simp only [countCommit, Ctxt.construct, Function.update_same, if_true]
  · simp only [countCommit, Function.update_noteq h, if_neg h]

@[simp] theorem countCommit_ctxts_active (c : Nat) (s : Exec T) (d : Nat) :
    ((countCommit c s).ctxts d).active = (s.ctxts d).active := by
  by_cases h : d = c
  · subst h; simp only [countCommit, Ctxt.construct, Function.update_same, if_true]
  · simp only [countCommit, Function.update_noteq h, if_neg h]

@[simp] theorem countCommit_ctxts_lostConflict (c : Nat) (s : Exec T) (d : Nat) :
    ((countCommit c s).ctxts d).lostConflict = (s.ctxts d).lostConflict := by
  by_cases h : d = c
  · subst h; simp only [countCommit, Ctxt.construct, Function.update_same, if_true]
  · simp only [countCommit, Function.update_noteq h, if_neg h]

@[simp] theorem countCommit_ctxts_executed (c : Nat) (s : Exec T) (d : Nat) :
    ((countCommit c s).ctxts d).executed = (s.ctxts d).executed := by
  by_cases h : d = c
  · subst h; simp only [countCommit, Ctxt.construct, Function.update_same, if_true]
  · simp only [countCommit, Function.update_noteq h, if_neg h]

@[simp] theorem countCommit_ctxts_owner (c : Nat) (s : Exec T) (d : Nat) :
    ((countCommit c s).ctxts d).owner = (s.ctxts d).owner := by
  by_cases h : d = c
  · subst h; simp only [countCommit, Ctxt.construct, Function.update_same, if_true]
  · simp only [countCommit, Function.update_noteq h, if_neg h]

@[simp] theorem countCommit_ctxts_nhood (c : Nat) (s : Exec T) (d : Nat) :
    ((countCommit c s).ctxts d).nhood = (s.ctxts d).nhood := by
  by_cases h : d = c
  · subst h; simp only [countCommit, Ctxt.construct, Function.update_same, if_true]
  · simp only [countCommit, Function.update_noteq h, if_neg h]

@[simp] theorem countCommit_ctxts_pushBuffer (c : Nat) (s : Exec T) (d : Nat) :
    ((countCommit c s).ctxts d).pushBuffer = (s.ctxts d).pushBuffer := by
  by_cases h : d = c
  · subst h; simp only [countCommit, Ctxt.construct, Function.update_same, if_true]
  · simp only [countCommit, Function.update_noteq h, if_neg h]

@[simp] theorem countCommit_ctxts_nCommit (c : Nat) (s : Exec T) (d : Nat) :
    ((countCommit c s).ctxts d).nCommit = if d = c then (s.ctxts c).nCommit + 1 else (s.ctxts d).nCommit := by
  by_cases h : d = c
  · subst h; simp only [countCommit, Ctxt.construct, Function.update_same, if_true]
  · simp only [countCommit, Function.update_noteq h, if_neg h]

@[simp] theorem countCommit_ctxts_nAbort (c : Nat) (s : Exec T) (d : Nat) :
    ((countCommit c s).ctxts d).nAbort = (s.ctxts d).nAbort := by
  by_cases h : d = c
  · subst h; simp only [countCommit, Ctxt.construct, Function.update_same, if_true]
  · simp only [countCommit, Function.update_noteq h, if_neg h]

@[simp] theorem countAbort_activeThreads (c : Nat) (s : Exec T) :
    (countAbort c s).activeThreads = s.activeThreads := rfl

@[simp] theorem countAbort_maxThreads (c : Nat) (s : Exec T) :
    (countAbort c s).maxThreads = s.maxThreads := rfl

@[simp] theorem countAbort_lockOwner (c : Nat) (s : Exec T) :
    (countAbort c s).lockOwner = s.lockOwner := rfl

@[simp] theorem countAbort_pending (c : Nat) (s : Exec T) :
    (countAbort c s).pending = s.pending := rfl

@[simp] theorem countAbort_rob (c : Nat) (s : Exec T) :
    (countAbort c s).rob = s.rob := rfl

@[simp] theorem countAbort_freeList (c : Nat) (s : Exec T) :
    (countAbort c s).freeList = s.freeList := rfl

@[simp] theorem countAbort_numTotal (c : Nat) (s : Exec T) :
    (countAbort c s).numTotal = s.numTotal := rfl

@[simp] theorem countAbort_numCommitted (c : Nat) (s : Exec T) :
    (countAbort c s).numCommitted = s.numCommitted := rfl

@[simp] theorem countAbort_numGlobalCleanups (c : Nat) (s : Exec T) :
    (countAbort c s).numGlobalCleanups = s.numGlobalCleanups := rfl

@[simp] theorem countAbort_abortSelfByConflict (c : Nat) (s : Exec T) :
    (countAbort c s).abortSelfByConflict = s.abortSelfByConflict := rfl

@[simp] theorem countAbort_abortSelfBySignal (c : Nat) (s : Exec T) :
    (countAbort c s).abortSelfBySignal = s.abortSelfBySignal := rfl

@[simp] theorem countAbort_abortByOther (c : Nat) (s : Exec T) :
    (countAbort c s).abortByOther = s.abortByOther := rfl

@[simp] theorem countAbort_commitLog (c : Nat) (s : Exec T) :
    (countAbort c s).commitLog = s.commitLog := rfl

@[simp] theorem countAbort_publishLog (c : Nat) (s : Exec T) :
    (countAbort c s).publishLog = s.publishLog := rfl

@[simp] theorem countAbort_stateLog (c : Nat) (s : Exec T) :
    (countAbort c s).stateLog = s.stateLog := rfl

@[simp] theorem countAbort_assertFailed (c : Nat) (s : Exec T) :
    (countAbort c s).assertFailed = s.assertFailed := rfl

@[simp] theorem countAbort_ctxts_state (c : Nat) (s : Exec T) (d : Nat) :
    ((countAbort c s).ctxts d).state = (s.ctxts d).state := by
  by_cases h : d = c
  · subst h; simp only [countAbort, Ctxt.construct, Function.update_same, if_true]
  · simp only [countAbort, Function.update_noteq h, if_neg h]

@[simp] theorem countAbort_ctxts_active (c : Nat) (s : Exec T) (d : Nat) :
    ((countAbort c s).ctxts d).active = (s.ctxts d).active := by
  by_cases h : d = c
  · subst h; simp only [countAbort, Ctxt.construct, Function.update_same, if_true]
  · simp only [countAbort, Function.update_noteq h, if_neg h]

@[simp] theorem countAbort_ctxts_lostConflict (c : Nat) (s : Exec T) (d : Nat) :
    ((countAbort c s).ctxts d).lostConflict = (s.ctxts d).lostConflict := by
  by_cases h : d = c
  · subst h; simp only [countAbort, Ctxt.construct, Function.update_same, if_true]
  · simp only [countAbort, Function.update_noteq h, if_neg h]

@[simp] theorem countAbort_ctxts_executed (c : Nat) (s : Exec T) (d : Nat) :
    ((countAbort c s).ctxts d).executed = (s.ctxts d).executed := by
  by_cases h : d = c
  · subst h; simp only [countAbort, Ctxt.construct, Function.update_same, if_true]
  · simp only [countAbort, Function.update_noteq h, if_neg h]

@[simp] theorem countAbort_ctxts_owner (c : Nat) (s : Exec T) (d : Nat) :
    ((countAbort c s).ctxts d).owner = (s.ctxts d).owner := by
  by_cases h : d = c
  · subst h; simp only [countAbort, Ctxt.construct, Function.update_same, if_true]
  · simp only [countAbort, Function.update_noteq h, if_neg h]

@[simp] theorem countAbort_ctxts_nhood (c : Nat) (s : Exec T) (d : Nat) :
    ((countAbort c s).ctxts d).nhood = (s.ctxts d).nhood := by
  by_cases h : d = c
  · subst h; simp only [countAbort, Ctxt.construct, Function.update_same, if_true]
  · simp only [countAbort, Function.update_noteq h, if_neg h]

@[simp] theorem countAbort_ctxts_pushBuffer (c : Nat) (s : Exec T) (d : Nat) :
    ((countAbort c s).ctxts d).pushBuffer = (s.ctxts d).pushBuffer := by
  by_cases h : d = c
  · subst h; simp only [countAbort, Ctxt.construct, Function.update_same, if_true]
  · simp only [countAbort, Function.update_noteq h, if_neg h]

@[simp] theorem countAbort_ctxts_nCommit (c : Nat) (s : Exec T) (d : Nat) :
    ((countAbort c s).ctxts d).nCommit = (s.ctxts d).nCommit := by
  by_cases h : d = c
  · subst h; simp only [countAbort, Ctxt.construct, Function.update_same, if_true]
  · simp only [countAbort, Function.update_noteq h, if_neg h]

@[simp] theorem countAbort_ctxts_nAbort (c : Nat) (s : Exec T) (d : Nat) :
    ((countAbort c s).ctxts d).nAbort = if d = c then (s.ctxts c).nAbort + 1 else (s.ctxts d).nAbort := by
  by_cases h : d = c
  · subst h; simp only [countAbort, Ctxt.construct, Function.update_same, if_true]
  · simp only [countAbort, Function.update_noteq h, if_neg h]

@[simp] theorem logCommit_activeThreads (c : Nat) (s : Exec T) :
    (logCommit c s).activeThreads = s.activeThreads := rfl

@[simp] theorem logCommit_maxThreads (c : Nat) (s : Exec T) :
    (logCommit c s).maxThreads = s.maxThreads := rfl

@[simp] theorem logCommit_ctxts (c : Nat) (s : Exec T) :
    (logCommit c s).ctxts = s.ctxts := rfl

@[simp] theorem logCommit_lockOwner (c : Nat) (s : Exec T) :
    (logCommit c s).lockOwner = s.lockOwner := rfl

@[simp] theorem logCommit_pending (c : Nat) (s : Exec T) :
    (logCommit c s).pending = s.pending := rfl

@[simp] theorem logCommit_rob (c : Nat) (s : Exec T) :
    (logCommit c s).rob = s.rob := rfl

@[simp] theorem logCommit_freeList (c : Nat) (s : Exec T) :
    (logCommit c s).freeList = s.freeList := rfl

@[simp] theorem logCommit_numTotal (c : Nat) (s : Exec T) :
    (logCommit c s).numTotal = s.numTotal := rfl

@[simp] theorem logCommit_numCommitted (c : Nat) (s : Exec T) :
    (logCommit c s).numCommitted = s.numCommitted := rfl

@[simp] theorem logCommit_numGlobalCleanups (c : Nat) (s : Exec T) :
    (logCommit c s).numGlobalCleanups = s.numGlobalCleanups := rfl

@[simp] theorem logCommit_abortSelfByConflict (c : Nat) (s : Exec T) :
    (logCommit c s).abortSelfByConflict = s.abortSelfByConflict := rfl

@[simp] theorem logCommit_abortSelfBySignal (c : Nat) (s : Exec T) :
    (logCommit c s).abortSelfBySignal = s.abortSelfBySignal := rfl

@[simp] theorem logCommit_abortByOther (c : Nat) (s : Exec T) :
    (logCommit c s).abortByOther = s.abortByOther := rfl

@[simp] theorem logCommit_commitLog (c : Nat) (s : Exec T) :
    (logCommit c s).commitLog = (s.ctxts c).active :: s.commitLog := rfl

@[simp] theorem logCommit_publishLog (c : Nat) (s : Exec T) :
    (logCommit c s).publishLog = (s.ctxts c).pushBuffer ++ s.publishLog := rfl

@[simp] theorem logCommit_stateLog (c : Nat) (s : Exec T) :
    (logCommit c s).stateLog = s.stateLog := rfl

@[simp] theorem logCommit_assertFailed (c : Nat) (s : Exec T) :
    (logCommit c s).assertFailed = s.assertFailed := rfl

@[simp] theorem assertThat_activeThreads (cond : Bool) (s : Exec T) :
    (assertThat cond s).activeThreads = s.activeThreads := rfl

@[simp] theorem assertThat_maxThreads (cond : Bool) (s : Exec T) :
    (assertThat cond s).maxThreads = s.maxThreads := rfl

@[simp] theorem assertThat_ctxts (cond : Bool) (s : Exec T) :
    (assertThat cond s).ctxts = s.ctxts := rfl

@[simp] theorem assertThat_lockOwner (cond : Bool) (s : Exec T) :
    (assertThat cond s).lockOwner = s.lockOwner := rfl

@[simp] theorem assertThat_pending (cond : Bool) (s : Exec T) :
    (assertThat cond s).pending = s.pending := rfl

@[simp] theorem assertThat_rob (cond : Bool) (s : Exec T) :
    (assertThat cond s).rob = s.rob := rfl

@[simp] theorem assertThat_freeList (cond : Bool) (s : Exec T) :
    (assertThat cond s).freeList = s.freeList := rfl

@[simp] theorem assertThat_numTotal (cond : Bool) (s : Exec T) :
    (assertThat cond s).numTotal = s.numTotal := rfl

@[simp] theorem assertThat_numCommitted (cond : Bool) (s : Exec T) :
    (assertThat cond s).numCommitted = s.numCommitted := rfl

@[simp] theorem assertThat_numGlobalCleanups (cond : Bool) (s : Exec T) :
    (assertThat cond s).numGlobalCleanups = s.numGlobalCleanups := rfl

@[simp] theorem assertThat_abortSelfByConflict (cond : Bool) (s : Exec T) :
    (assertThat cond s).abortSelfByConflict = s.abortSelfByConflict := rfl

@[simp] theorem assertThat_abortSelfBySignal (cond : Bool) (s : Exec T) :
    (assertThat cond s).abortSelfBySignal = s.abortSelfBySignal := rfl

@[simp] theorem assertThat_abortByOther (cond : Bool) (s : Exec T) :
    (assertThat cond s).abortByOther = s.abortByOther := rfl

@[simp] theorem assertThat_commitLog (cond : Bool) (s : Exec T) :
    (assertThat cond s).commitLog = s.commitLog := rfl

@[simp] theorem assertThat_publishLog (cond : Bool) (s : Exec T) :
    (assertThat cond s).publishLog = s.publishLog := rfl

@[simp] theorem assertThat_stateLog (cond : Bool) (s : Exec T) :
    (assertThat cond s).stateLog = s.stateLog := rfl

@[simp] theorem assertThat_assertFailed (cond : Bool) (s : Exec T) :
    (assertThat cond s).assertFailed = (s.assertFailed || !cond) := rfl

@[simp] theorem setLockOwner_activeThreads (l : Nat) (o : Option Nat) (s : Exec T) :
    (setLockOwner l o s).activeThreads = s.activeThreads := rfl

@[simp] theorem setLockOwner_maxThreads (l : Nat) (o : Option Nat) (s : Exec T) :
    (setLockOwner l o s).maxThreads = s.maxThreads := rfl

@[simp] theorem setLockOwner_ctxts (l : Nat) (o : Option Nat) (s : Exec T) :
    (setLockOwner l o s).ctxts = s.ctxts := rfl

@[simp] theorem setLockOwner_lockOwner (l : Nat) (o : Option Nat) (s : Exec T) :
    (setLockOwner l o s).lockOwner = Function.update s.lockOwner l o := rfl

@[simp] theorem setLockOwner_pending (l : Nat) (o : Option Nat) (s : Exec T) :
    (setLockOwner l o s).pending = s.pending := rfl

@[simp] theorem setLockOwner_rob (l : Nat) (o : Option Nat) (s : Exec T) :
    (setLockOwner l o s).rob = s.rob := rfl

@[simp] theorem setLockOwner_freeList (l : Nat) (o : Option Nat) (s : Exec T) :
    (setLockOwner l o s).freeList = s.freeList := rfl

@[simp] theorem setLockOwner_numTotal (l : Nat) (o : Option Nat) (s : Exec T) :
    (setLockOwner l o s).numTotal = s.numTotal := rfl

@[simp] theorem setLockOwner_numCommitted (l : Nat) (o : Option Nat) (s : Exec T) :
    (setLockOwner l o s).numCommitted = s.numCommitted := rfl

@[simp] theorem setLockOwner_numGlobalCleanups (l : Nat) (o : Option Nat) (s : Exec T) :
    (setLockOwner l o s).numGlobalCleanups = s.numGlobalCleanups := rfl

@[simp] theorem setLockOwner_abortSelfByConflict (l : Nat) (o : Option Nat) (s : Exec T) :
    (setLockOwner l o s).abortSelfByConflict = s.abortSelfByConflict := rfl

@[simp] theorem setLockOwner_abortSelfBySignal (l : Nat) (o : Option Nat) (s : Exec T) :
    (setLockOwner l o s).abortSelfBySignal = s.abortSelfBySignal := rfl

@[simp] theorem setLockOwner_abortByOther (l : Nat) (o : Option Nat) (s : Exec T) :
    (setLockOwner l o s).abortByOther = s.abortByOther := rfl

@[simp] theorem setLockOwner_commitLog (l : Nat) (o : Option Nat) (s : Exec T) :
    (setLockOwner l o s).commitLog = s.commitLog := rfl

@[simp] theorem setLockOwner_publishLog (l : Nat) (o : Option Nat) (s : Exec T) :
    (setLockOwner l o s).publishLog = s.publishLog := rfl

@[simp] theorem setLockOwner_stateLog (l : Nat) (o : Option Nat) (s : Exec T) :
    (setLockOwner l o s).stateLog = s.stateLog := rfl

@[simp] theorem setLockOwner_assertFailed (l : Nat) (o : Option Nat) (s : Exec T) :
    (setLockOwner l o s).assertFailed = s.assertFailed := rfl

@[simp] theorem releaseLocks_activeThreads (c : Nat) (s : Exec T) :
    (releaseLocks c s).activeThreads = s.activeThreads := rfl

@[simp] theorem releaseLocks_maxThreads (c : Nat) (s : Exec T) :
    (releaseLocks c s).maxThreads = s.maxThreads := rfl

@[simp] theorem releaseLocks_ctxts (c : Nat) (s : Exec T) :
    (releaseLocks c s).ctxts = s.ctxts := rfl

@[simp] theorem releaseLocks_lockOwner (c : Nat) (s : Exec T) :
    (releaseLocks c s).lockOwner = (s.ctxts c).nhood.foldl (releaseOne c) s.lockOwner := rfl

@[simp] theorem releaseLocks_pending (c : Nat) (s : Exec T) :
    (releaseLocks c s).pending = s.pending := rfl

@[simp] theorem releaseLocks_rob (c : Nat) (s : Exec T) :
    (releaseLocks c s).rob = s.rob := rfl

@[simp] theorem releaseLocks_freeList (c : Nat) (s : Exec T) :
    (releaseLocks c s).freeList = s.freeList := rfl

@[simp] theorem releaseLocks_numTotal (c : Nat) (s : Exec T) :
    (releaseLocks c s).numTotal = s.numTotal := rfl

@[simp] theorem releaseLocks_numCommitted (c : Nat) (s : Exec T) :
    (releaseLocks c s).numCommitted = s.numCommitted := rfl

@[simp] theorem releaseLocks_numGlobalCleanups (c : Nat) (s : Exec T) :
    (releaseLocks c s).numGlobalCleanups = s.numGlobalCleanups := rfl

@[simp] theorem releaseLocks_abortSelfByConflict (c : Nat) (s : Exec T) :
    (releaseLocks c s).abortSelfByConflict = s.abortSelfByConflict := rfl

@[simp] theorem releaseLocks_abortSelfBySignal (c : Nat) (s : Exec T) :
    (releaseLocks c s).abortSelfBySignal = s.abortSelfBySignal := rfl

@[simp] theorem releaseLocks_abortByOther (c : Nat) (s : Exec T) :
    (releaseLocks c s).abortByOther = s.abortByOther := rfl

@[simp] theorem releaseLocks_commitLog (c : Nat) (s : Exec T) :
    (releaseLocks c s).commitLog = s.commitLog := rfl

@[simp] theorem releaseLocks_publishLog (c : Nat) (s : Exec T) :
    (releaseLocks c s).publishLog = s.publishLog := rfl

@[simp] theorem releaseLocks_stateLog (c : Nat) (s : Exec T) :
    (releaseLocks c s).stateLog = s.stateLog := rfl

@[simp] theorem releaseLocks_assertFailed (c : Nat) (s : Exec T) :
    (releaseLocks c s).assertFailed = s.assertFailed := rfl

@[simp] theorem setPending_activeThreads (i : Nat) (h : List T) (s : Exec T) :
    (setPending i h s).activeThreads = s.activeThreads := rfl

@[simp] theorem setPending_maxThreads (i : Nat) (h : List T) (s : Exec T) :
    (setPending i h s).maxThreads = s.maxThreads := rfl

@[simp] theorem setPending_ctxts (i : Nat) (h : List T) (s : Exec T) :
    (setPending i h s).ctxts = s.ctxts := rfl

@[simp] theorem setPending_lockOwner (i : Nat) (h : List T) (s : Exec T) :
    (setPending i h s).lockOwner = s.lockOwner := rfl

@[simp] theorem setPending_pending (i : Nat) (h : List T) (s : Exec T) :
    (setPending i h s).pending = Function.update s.pending i h := rfl

@[simp] theorem setPending_rob (i : Nat) (h : List T) (s : Exec T) :
    (setPending i h s).rob = s.rob := rfl

@[simp] theorem setPending_freeList (i : Nat) (h : List T) (s : Exec T) :
    (setPending i h s).freeList = s.freeList := rfl

@[simp] theorem setPending_numTotal (i : Nat) (h : List T) (s : Exec T) :
    (setPending i h s).numTotal = s.numTotal := rfl

@[simp] theorem setPending_numCommitted (i : Nat) (h : List T) (s : Exec T) :
    (setPending i h s).numCommitted = s.numCommitted := rfl

@[simp] theorem setPending_numGlobalCleanups (i : Nat) (h : List T) (s : Exec T) :
    (setPending i h s).numGlobalCleanups = s.numGlobalCleanups := rfl

@[simp] theorem setPending_abortSelfByConflict (i : Nat) (h : List T) (s : Exec T) :
    (setPending i h s).abortSelfByConflict = s.abortSelfByConflict := rfl

@[simp] theorem setPending_abortSelfBySignal (i : Nat) (h : List T) (s : Exec T) :
    (setPending i h s).abortSelfBySignal = s.abortSelfBySignal := rfl

@[simp] theorem setPending_abortByOther (i : Nat) (h : List T) (s : Exec T) :
    (setPending i h s).abortByOther = s.abortByOther := rfl

@[simp] theorem setPending_commitLog (i : Nat) (h : List T) (s : Exec T) :
    (setPending i h s).commitLog = s.commitLog := rfl

@[simp] theorem setPending_publishLog (i : Nat) (h : List T) (s : Exec T) :
    (setPending i h s).publishLog = s.publishLog := rfl

@[simp] theorem setPending_stateLog (i : Nat) (h : List T) (s : Exec T) :
    (setPending i h s).stateLog = s.stateLog := rfl

@[simp] theorem setPending_assertFailed (i : Nat) (h : List T) (s : Exec T) :
    (setPending i h s).assertFailed = s.assertFailed := rfl

@[simp] theorem pushLocal_activeThreads (tid : Nat) (x : T) (s : Exec T) :
    (pushLocal tid x s).activeThreads = s.activeThreads := rfl

@[simp] theorem pushLocal_maxThreads (tid : Nat) (x : T) (s : Exec T) :
    (pushLocal tid x s).maxThreads = s.maxThreads := rfl

@[simp] theorem pushLocal_ctxts (tid : Nat) (x : T) (s : Exec T) :
    (pushLocal tid x s).ctxts = s.ctxts := rfl

@[simp] theorem pushLocal_lockOwner (tid : Nat) (x : T) (s : Exec T) :
    (pushLocal tid x s).lockOwner = s.lockOwner := rfl

@[simp] theorem pushLocal_pending (tid : Nat) (x : T) (s : Exec T) :
    (pushLocal tid x s).pending = Function.update s.pending tid (x :: s.pending tid) := rfl

@[simp] theorem pushLocal_rob (tid : Nat) (x : T) (s : Exec T) :
    (pushLocal tid x s).rob = s.rob := rfl

@[simp] theorem pushLocal_freeList (tid : Nat) (x : T) (s : Exec T) :
    (pushLocal tid x s).freeList = s.freeList := rfl

@[simp] theorem pushLocal_numTotal (tid : Nat) (x : T) (s : Exec T) :
    (pushLocal tid x s).numTotal = s.numTotal := rfl

@[simp] theorem pushLocal_numCommitted (tid : Nat) (x : T) (s : Exec T) :
    (pushLocal tid x s).numCommitted = s.numCommitted := rfl

@[simp] theorem pushLocal_numGlobalCleanups (tid : Nat) (x : T) (s : Exec T) :
    (pushLocal tid x s).numGlobalCleanups = s.numGlobalCleanups := rfl

@[simp] theorem pushLocal_abortSelfByConflict (tid : Nat) (x : T) (s : Exec T) :
    (pushLocal tid x s).abortSelfByConflict = s.abortSelfByConflict := rfl

@[simp] theorem pushLocal_abortSelfBySignal (tid : Nat) (x : T) (s : Exec T) :
    (pushLocal tid x s).abortSelfBySignal = s.abortSelfBySignal := rfl

@[simp] theorem pushLocal_abortByOther (tid : Nat) (x : T) (s : Exec T) :
    (pushLocal tid x s).abortByOther = s.abortByOther := rfl

@[simp] theorem pushLocal_commitLog (tid : Nat) (x : T) (s : Exec T) :
    (pushLocal tid x s).commitLog = s.commitLog := rfl

@[simp] theorem pushLocal_publishLog (tid : Nat) (x : T) (s : Exec T) :
    (pushLocal tid x s).publishLog = s.publishLog := rfl

@[simp] theorem pushLocal_stateLog (tid : Nat) (x : T) (s : Exec T) :
    (pushLocal tid x s).stateLog = s.stateLog := rfl

@[simp] theorem pushLocal_assertFailed (tid : Nat) (x : T) (s : Exec T) :
    (pushLocal tid x s).assertFailed = s.assertFailed := rfl

@[simp] theorem push_activeThreads (tid : Nat) (items : List T) (s : Exec T) :
    (push tid items s).activeThreads = s.activeThreads := rfl

@[simp] theorem push_maxThreads (tid : Nat) (items : List T) (s : Exec T) :
    (push tid items s).maxThreads = s.maxThreads := rfl

@[simp] theorem push_ctxts (tid : Nat) (items : List T) (s : Exec T) :
    (push tid items s).ctxts = s.ctxts := rfl

@[simp] theorem push_lockOwner (tid : Nat) (items : List T) (s : Exec T) :
    (push tid items s).lockOwner = s.lockOwner := rfl

@[simp] theorem push_pending (tid : Nat) (items : List T) (s : Exec T) :
    (push tid items s).pending = Function.update s.pending tid (items.foldl (fun h x => heapPush x h) (s.pending tid)) := rfl

@[simp] theorem push_rob (tid : Nat) (items : List T) (s : Exec T) :
    (push tid items s).rob = s.rob := rfl

@[simp] theorem push_freeList (tid : Nat) (items : List T) (s : Exec T) :
    (push tid items s).freeList = s.freeList := rfl

@[simp] theorem push_numTotal (tid : Nat) (items : List T) (s : Exec T) :
    (push tid items s).numTotal = s.numTotal := rfl

@[simp] theorem push_numCommitted (tid : Nat) (items : List T) (s : Exec T) :
    (push tid items s).numCommitted = s.numCommitted := rfl

@[simp] theorem push_numGlobalCleanups (tid : Nat) (items : List T) (s : Exec T) :
    (push tid items s).numGlobalCleanups = s.numGlobalCleanups := rfl

@[simp] theorem push_abortSelfByConflict (tid : Nat) (items : List T) (s : Exec T) :
    (push tid items s).abortSelfByConflict = s.abortSelfByConflict := rfl

@[simp] theorem push_abortSelfBySignal (tid : Nat) (items : List T) (s : Exec T) :
    (push tid items s).abortSelfBySignal = s.abortSelfBySignal := rfl

@[simp] theorem push_abortByOther (tid : Nat) (items : List T) (s : Exec T) :
    (push tid items s).abortByOther = s.abortByOther := rfl

@[simp] theorem push_commitLog (tid : Nat) (items : List T) (s : Exec T) :
    (push tid items s).commitLog = s.commitLog := rfl

@[simp] theorem push_publishLog (tid : Nat) (items : List T) (s : Exec T) :
    (push tid items s).publishLog = s.publishLog := rfl

@[simp] theorem push_stateLog (tid : Nat) (items : List T) (s : Exec T) :
    (push tid items s).stateLog = s.stateLog := rfl

@[simp] theorem push_assertFailed (tid : Nat) (items : List T) (s : Exec T) :
    (push tid items s).assertFailed = s.assertFailed := rfl

@[simp] theorem push_abort_activeThreads (x : T) (owner : Nat) (s : Exec T) :
    (push_abort x owner s).activeThreads = s.activeThreads := rfl

@[simp] theorem push_abort_maxThreads (x : T) (owner : Nat) (s : Exec T) :
    (push_abort x owner s).maxThreads = s.maxThreads := rfl

@[simp] theorem push_abort_ctxts (x : T) (owner : Nat) (s : Exec T) :
    (push_abort x owner s).ctxts = s.ctxts := rfl

@[simp] theorem push_abort_lockOwner (x : T) (owner : Nat) (s : Exec T) :
    (push_abort x owner s).lockOwner = s.lockOwner := rfl

@[simp] theorem push_abort_pending (x : T) (owner : Nat) (s : Exec T) :
    (push_abort x owner s).pending = Function.update s.pending (owner / 2) (x :: s.pending (owner / 2)) := rfl

@[simp] theorem push_abort_rob (x : T) (owner : Nat) (s : Exec T) :
    (push_abort x owner s).rob = s.rob := rfl

@[simp] theorem push_abort_freeList (x : T) (owner : Nat) (s : Exec T) :
    (push_abort x owner s).freeList = s.freeList := rfl

@[simp] theorem push_abort_numTotal (x : T) (owner : Nat) (s : Exec T) :
    (push_abort x owner s).numTotal = s.numTotal := rfl

@[simp] theorem push_abort_numCommitted (x : T) (owner : Nat) (s : Exec T) :
    (push_abort x owner s).numCommitted = s.numCommitted := rfl

@[simp] theorem push_abort_numGlobalCleanups (x : T) (owner : Nat) (s : Exec T) :
    (push_abort x owner s).numGlobalCleanups = s.numGlobalCleanups := rfl

@[simp] theorem push_abort_abortSelfByConflict (x : T) (owner : Nat) (s : Exec T) :
    (push_abort x owner s).abortSelfByConflict = s.abortSelfByConflict := rfl

@[simp] theorem push_abort_abortSelfBySignal (x : T) (owner : Nat) (s : Exec T) :
    (push_abort x owner s).abortSelfBySignal = s.abortSelfBySignal := rfl

@[simp] theorem push_abort_abortByOther (x : T) (owner : Nat) (s : Exec T) :
    (push_abort x owner s).abortByOther = s.abortByOther := rfl

@[simp] theorem push_abort_commitLog (x : T) (owner : Nat) (s : Exec T) :
    (push_abort x owner s).commitLog = s.commitLog := rfl

@[simp] theorem push_abort_publishLog (x : T) (owner : Nat) (s : Exec T) :
    (push_abort x owner s).publishLog = s.publishLog := rfl

@[simp] theorem push_abort_stateLog (x : T) (owner : Nat) (s : Exec T) :
    (push_abort x owner s).stateLog = s.stateLog := rfl

@[simp] theorem push_abort_assertFailed (x : T) (owner : Nat) (s : Exec T) :
    (push_abort x owner s).assertFailed = s.assertFailed := rfl

@[simp] theorem setRob_activeThreads (r : List Nat) (s : Exec T) :
    (setRob r s).activeThreads = s.activeThreads := rfl

@[simp] theorem setRob_maxThreads (r : List Nat) (s : Exec T) :
    (setRob r s).maxThreads = s.maxThreads := rfl

@[simp] theorem setRob_ctxts (r : List Nat) (s : Exec T) :
    (setRob r s).ctxts = s.ctxts := rfl

@[simp] theorem setRob_lockOwner (r : List Nat) (s : Exec T) :
    (setRob r s).lockOwner = s.lockOwner := rfl

@[simp] theorem setRob_pending (r : List Nat) (s : Exec T) :
    (setRob r s).pending = s.pending := rfl

@[simp] theorem setRob_rob (r : List Nat) (s : Exec T) :
    (setRob r s).rob = r := rfl

@[simp] theorem setRob_freeList (r : List Nat) (s : Exec T) :
    (setRob r s).freeList = s.freeList := rfl

@[simp] theorem setRob_numTotal (r : List Nat) (s : Exec T) :
    (setRob r s).numTotal = s.numTotal := rfl

@[simp] theorem setRob_numCommitted (r : List Nat) (s : Exec T) :
    (setRob r s).numCommitted = s.numCommitted := rfl

@[simp] theorem setRob_numGlobalCleanups (r : List Nat) (s : Exec T) :
    (setRob r s).numGlobalCleanups = s.numGlobalCleanups := rfl

@[simp] theorem setRob_abortSelfByConflict (r : List Nat) (s : Exec T) :
    (setRob r s).abortSelfByConflict = s.abortSelfByConflict := rfl

@[simp] theorem setRob_abortSelfBySignal (r : List Nat) (s : Exec T) :
    (setRob r s).abortSelfBySignal = s.abortSelfBySignal := rfl

@[simp] theorem setRob_abortByOther (r : List Nat) (s : Exec T) :
    (setRob r s).abortByOther = s.abortByOther := rfl

@[simp] theorem setRob_commitLog (r : List Nat) (s : Exec T) :
    (setRob r s).commitLog = s.commitLog := rfl

@[simp] theorem setRob_publishLog (r : List Nat) (s : Exec T) :
    (setRob r s).publishLog = s.publishLog := rfl

@[simp] theorem setRob_stateLog (r : List Nat) (s : Exec T) :
    (setRob r s).stateLog = s.stateLog := rfl

@[simp] theorem setRob_assertFailed (r : List Nat) (s : Exec T) :
    (setRob r s).assertFailed = s.assertFailed := rfl

@[simp] theorem setFreeList_activeThreads (w : Nat) (q : List Nat) (s : Exec T) :
    (setFreeList w q s).activeThreads = s.activeThreads := rfl

@[simp] theorem setFreeList_maxThreads (w : Nat) (q : List Nat) (s : Exec T) :
    (setFreeList w q s).maxThreads = s.maxThreads := rfl

@[simp] theorem setFreeList_ctxts (w : Nat) (q : List Nat) (s : Exec T) :
    (setFreeList w q s).ctxts = s.ctxts := rfl

@[simp] theorem setFreeList_lockOwner (w : Nat) (q : List Nat) (s : Exec T) :
    (setFreeList w q s).lockOwner = s.lockOwner := rfl

@[simp] theorem setFreeList_pending (w : Nat) (q : List Nat) (s : Exec T) :
    (setFreeList w q s).pending = s.pending := rfl

@[simp] theorem setFreeList_rob (w : Nat) (q : List Nat) (s : Exec T) :
    (setFreeList w q s).rob = s.rob := rfl

@[simp] theorem setFreeList_freeList (w : Nat) (q : List Nat) (s : Exec T) :
    (setFreeList w q s).freeList = Function.update s.freeList w q := rfl

@[simp] theorem setFreeList_numTotal (w : Nat) (q : List Nat) (s : Exec T) :
    (setFreeList w q s).numTotal = s.numTotal := rfl

@[simp] theorem setFreeList_numCommitted (w : Nat) (q : List Nat) (s : Exec T) :
    (setFreeList w q s).numCommitted = s.numCommitted := rfl

@[simp] theorem setFreeList_numGlobalCleanups (w : Nat) (q : List Nat) (s : Exec T) :
    (setFreeList w q s).numGlobalCleanups = s.numGlobalCleanups := rfl

@[simp] theorem setFreeList_abortSelfByConflict (w : Nat) (q : List Nat) (s : Exec T) :
    (setFreeList w q s).abortSelfByConflict = s.abortSelfByConflict := rfl

@[simp] theorem setFreeList_abortSelfBySignal (w : Nat) (q : List Nat) (s : Exec T) :
    (setFreeList w q s).abortSelfBySignal = s.abortSelfBySignal := rfl

@[simp] theorem setFreeList_abortByOther (w : Nat) (q : List Nat) (s : Exec T) :
    (setFreeList w q s).abortByOther = s.abortByOther := rfl

@[simp] theorem setFreeList_commitLog (w : Nat) (q : List Nat) (s : Exec T) :
    (setFreeList w q s).commitLog = s.commitLog := rfl

@[simp] theorem setFreeList_publishLog (w : Nat) (q : List Nat) (s : Exec T) :
    (setFreeList w q s).publishLog = s.publishLog := rfl

@[simp] theorem setFreeList_stateLog (w : Nat) (q : List Nat) (s : Exec T) :
    (setFreeList w q s).stateLog = s.stateLog := rfl

@[simp] theorem setFreeList_assertFailed (w : Nat) (q : List Nat) (s : Exec T) :
    (setFreeList w q s).assertFailed = s.assertFailed := rfl

@[simp] theorem reclaim_activeThreads (ctx : Nat) (s : Exec T) :
    (reclaim ctx s).activeThreads = s.activeThreads := rfl

@[simp] theorem reclaim_maxThreads (ctx : Nat) (s : Exec T) :
    (reclaim ctx s).maxThreads = s.maxThreads := rfl

@[simp] theorem reclaim_ctxts (ctx : Nat) (s : Exec T) :
    (reclaim ctx s).ctxts = s.ctxts := rfl

@[simp] theorem reclaim_lockOwner (ctx : Nat) (s : Exec T) :
    (reclaim ctx s).lockOwner = s.lockOwner := rfl

@[simp] theorem reclaim_pending (ctx : Nat) (s : Exec T) :
    (reclaim ctx s).pending = s.pending := rfl

@[simp] theorem reclaim_rob (ctx : Nat) (s : Exec T) :
    (reclaim ctx s).rob = s.rob := rfl

@[simp] theorem reclaim_freeList (ctx : Nat) (s : Exec T) :
    (reclaim ctx s).freeList = Function.update s.freeList (s.ctxts ctx).owner (s.freeList (s.ctxts ctx).owner ++ [ctx]) := rfl

@[simp] theorem reclaim_numTotal (ctx : Nat) (s : Exec T) :
    (reclaim ctx s).numTotal = s.numTotal := rfl

@[simp] theorem reclaim_numCommitted (ctx : Nat) (s : Exec T) :
    (reclaim ctx s).numCommitted = s.numCommitted := rfl

@[simp] theorem reclaim_numGlobalCleanups (ctx : Nat) (s : Exec T) :
    (reclaim ctx s).numGlobalCleanups = s.numGlobalCleanups := rfl

@[simp] theorem reclaim_abortSelfByConflict (ctx : Nat) (s : Exec T) :
    (reclaim ctx s).abortSelfByConflict = s.abortSelfByConflict := rfl

@[simp] theorem reclaim_abortSelfBySignal (ctx : Nat) (s : Exec T) :
    (reclaim ctx s).abortSelfBySignal = s.abortSelfBySignal := rfl

@[simp] theorem reclaim_abortByOther (ctx : Nat) (s : Exec T) :
    (reclaim ctx s).abortByOther = s.abortByOther := rfl

@[simp] theorem reclaim_commitLog (ctx : Nat) (s : Exec T) :
    (reclaim ctx s).commitLog = s.commitLog := rfl

@[simp] theorem reclaim_publishLog (ctx : Nat) (s : Exec T) :
    (reclaim ctx s).publishLog = s.publishLog := rfl

@[simp] theorem reclaim_stateLog (ctx : Nat) (s : Exec T) :
    (reclaim ctx s).stateLog = s.stateLog := rfl

@[simp] theorem reclaim_assertFailed (ctx : Nat) (s : Exec T) :
    (reclaim ctx s).assertFailed = s.assertFailed := rfl

@[simp] theorem addNumTotal_activeThreads (s : Exec T) :
    (addNumTotal s).activeThreads = s.activeThreads := rfl

@[simp] theorem addNumTotal_maxThreads (s : Exec T) :
    (addNumTotal s).maxThreads = s.maxThreads := rfl

@[simp] theorem addNumTotal_ctxts (s : Exec T) :
    (addNumTotal s).ctxts = s.ctxts := rfl

@[simp] theorem addNumTotal_lockOwner (s : Exec T) :
    (addNumTotal s).lockOwner = s.lockOwner := rfl

@[simp] theorem addNumTotal_pending (s : Exec T) :
    (addNumTotal s).pending = s.pending := rfl

@[simp] theorem addNumTotal_rob (s : Exec T) :
    (addNumTotal s).rob = s.rob := rfl

@[simp] theorem addNumTotal_freeList (s : Exec T) :
    (addNumTotal s).freeList = s.freeList := rfl

@[simp] theorem addNumTotal_numTotal (s : Exec T) :
    (addNumTotal s).numTotal = s.numTotal + 1 := rfl

@[simp] theorem addNumTotal_numCommitted (s : Exec T) :
    (addNumTotal s).numCommitted = s.numCommitted := rfl

@[simp] theorem addNumTotal_numGlobalCleanups (s : Exec T) :
    (addNumTotal s).numGlobalCleanups = s.numGlobalCleanups := rfl

@[simp] theorem addNumTotal_abortSelfByConflict (s : Exec T) :
    (addNumTotal s).abortSelfByConflict = s.abortSelfByConflict := rfl

@[simp] theorem addNumTotal_abortSelfBySignal (s : Exec T) :
    (addNumTotal s).abortSelfBySignal = s.abortSelfBySignal := rfl

@[simp] theorem addNumTotal_abortByOther (s : Exec T) :
    (addNumTotal s).abortByOther = s.abortByOther := rfl

@[simp] theorem addNumTotal_commitLog (s : Exec T) :
    (addNumTotal s).commitLog = s.commitLog := rfl

@[simp] theorem addNumTotal_publishLog (s : Exec T) :
    (addNumTotal s).publishLog = s.publishLog := rfl

@[simp] theorem addNumTotal_stateLog (s : Exec T) :
    (addNumTotal s).stateLog = s.stateLog := rfl

@[simp] theorem addNumTotal_assertFailed (s : Exec T) :
    (addNumTotal s).assertFailed = s.assertFailed := rfl

@[simp] theorem addNumCommitted_activeThreads (s : Exec T) :
    (addNumCommitted s).activeThreads = s.activeThreads := rfl

@[simp] theorem addNumCommitted_maxThreads (s : Exec T) :
    (addNumCommitted s).maxThreads = s.maxThreads := rfl

@[simp] theorem addNumCommitted_ctxts (s : Exec T) :
    (addNumCommitted s).ctxts = s.ctxts := rfl

@[simp] theorem addNumCommitted_lockOwner (s : Exec T) :
    (addNumCommitted s).lockOwner = s.lockOwner := rfl

@[simp] theorem addNumCommitted_pending (s : Exec T) :
    (addNumCommitted s).pending = s.pending := rfl

@[simp] theorem addNumCommitted_rob (s : Exec T) :
    (addNumCommitted s).rob = s.rob := rfl

@[simp] theorem addNumCommitted_freeList (s : Exec T) :
    (addNumCommitted s).freeList = s.freeList := rfl

@[simp] theorem addNumCommitted_numTotal (s : Exec T) :
    (addNumCommitted s).numTotal = s.numTotal := rfl

@[simp] theorem addNumCommitted_numCommitted (s : Exec T) :
    (addNumCommitted s).numCommitted = s.numCommitted + 1 := rfl

@[simp] theorem addNumCommitted_numGlobalCleanups (s : Exec T) :
    (addNumCommitted s).numGlobalCleanups = s.numGlobalCleanups := rfl

@[simp] theorem addNumCommitted_abortSelfByConflict (s : Exec T) :
    (addNumCommitted s).abortSelfByConflict = s.abortSelfByConflict := rfl

@[simp] theorem addNumCommitted_abortSelfBySignal (s : Exec T) :
    (addNumCommitted s).abortSelfBySignal = s.abortSelfBySignal := rfl

@[simp] theorem addNumCommitted_abortByOther (s : Exec T) :
    (addNumCommitted s).abortByOther = s.abortByOther := rfl

@[simp] theorem addNumCommitted_commitLog (s : Exec T) :
    (addNumCommitted s).commitLog = s.commitLog := rfl

@[simp] theorem addNumCommitted_publishLog (s : Exec T) :
    (addNumCommitted s).publishLog = s.publishLog := rfl

@[simp] theorem addNumCommitted_stateLog (s : Exec T) :
    (addNumCommitted s).stateLog = s.stateLog := rfl

@[simp] theorem addNumCommitted_assertFailed (s : Exec T) :
    (addNumCommitted s).assertFailed = s.assertFailed := rfl

@[simp] theorem addNumGlobalCleanups_activeThreads (s : Exec T) :
    (addNumGlobalCleanups s).activeThreads = s.activeThreads := rfl

@[simp] theorem addNumGlobalCleanups_maxThreads (s : Exec T) :
    (addNumGlobalCleanups s).maxThreads = s.maxThreads := rfl

@[simp] theorem addNumGlobalCleanups_ctxts (s : Exec T) :
    (addNumGlobalCleanups s).ctxts = s.ctxts := rfl

@[simp] theorem addNumGlobalCleanups_lockOwner (s : Exec T) :
    (addNumGlobalCleanups s).lockOwner = s.lockOwner := rfl

@[simp] theorem addNumGlobalCleanups_pending (s : Exec T) :
    (addNumGlobalCleanups s).pending = s.pending := rfl

@[simp] theorem addNumGlobalCleanups_rob (s : Exec T) :
    (addNumGlobalCleanups s).rob = s.rob := rfl

@[simp] theorem addNumGlobalCleanups_freeList (s : Exec T) :
    (addNumGlobalCleanups s).freeList = s.freeList := rfl

@[simp] theorem addNumGlobalCleanups_numTotal (s : Exec T) :
    (addNumGlobalCleanups s).numTotal = s.numTotal := rfl

@[simp] theorem addNumGlobalCleanups_numCommitted (s : Exec T) :
    (addNumGlobalCleanups s).numCommitted = s.numCommitted := rfl

@[simp] theorem addNumGlobalCleanups_numGlobalCleanups (s : Exec T) :
    (addNumGlobalCleanups s).numGlobalCleanups = s.numGlobalCleanups + 1 := rfl

@[simp] theorem addNumGlobalCleanups_abortSelfByConflict (s : Exec T) :
    (addNumGlobalCleanups s).abortSelfByConflict = s.abortSelfByConflict := rfl

@[simp] theorem addNumGlobalCleanups_abortSelfBySignal (s : Exec T) :
    (addNumGlobalCleanups s).abortSelfBySignal = s.abortSelfBySignal := rfl

@[simp] theorem addNumGlobalCleanups_abortByOther (s : Exec T) :
    (addNumGlobalCleanups s).abortByOther = s.abortByOther := rfl

@[simp] theorem addNumGlobalCleanups_commitLog (s : Exec T) :
    (addNumGlobalCleanups s).commitLog = s.commitLog := rfl

@[simp] theorem addNumGlobalCleanups_publishLog (s : Exec T) :
    (addNumGlobalCleanups s).publishLog = s.publishLog := rfl

@[simp] theorem addNumGlobalCleanups_stateLog (s : Exec T) :
    (addNumGlobalCleanups s).stateLog = s.stateLog := rfl

@[simp] theorem addNumGlobalCleanups_assertFailed (s : Exec T) :
    (addNumGlobalCleanups s).assertFailed = s.assertFailed := rfl

@[simp] theorem addAbortSelfByConflict_activeThreads (s : Exec T) :
    (addAbortSelfByConflict s).activeThreads = s.activeThreads := rfl

@[simp] theorem addAbortSelfByConflict_maxThreads (s : Exec T) :
    (addAbortSelfByConflict s).maxThreads = s.maxThreads := rfl

@[simp] theorem addAbortSelfByConflict_ctxts (s : Exec T) :
    (addAbortSelfByConflict s).ctxts = s.ctxts := rfl

@[simp] theorem addAbortSelfByConflict_lockOwner (s : Exec T) :
    (addAbortSelfByConflict s).lockOwner = s.lockOwner := rfl

@[simp] theorem addAbortSelfByConflict_pending (s : Exec T) :
    (addAbortSelfByConflict s).pending = s.pending := rfl

@[simp] theorem addAbortSelfByConflict_rob (s : Exec T) :
    (addAbortSelfByConflict s).rob = s.rob := rfl

@[simp] theorem addAbortSelfByConflict_freeList (s : Exec T) :
    (addAbortSelfByConflict s).freeList = s.freeList := rfl

@[simp] theorem addAbortSelfByConflict_numTotal (s : Exec T) :
    (addAbortSelfByConflict s).numTotal = s.numTotal := rfl

@[simp] theorem addAbortSelfByConflict_numCommitted (s : Exec T) :
    (addAbortSelfByConflict s).numCommitted = s.numCommitted := rfl

@[simp] theorem addAbortSelfByConflict_numGlobalCleanups (s : Exec T) :
    (addAbortSelfByConflict s).numGlobalCleanups = s.numGlobalCleanups := rfl

@[simp] theorem addAbortSelfByConflict_abortSelfByConflict (s : Exec T) :
    (addAbortSelfByConflict s).abortSelfByConflict = s.abortSelfByConflict + 1 := rfl

@[simp] theorem addAbortSelfByConflict_abortSelfBySignal (s : Exec T) :
    (addAbortSelfByConflict s).abortSelfBySignal = s.abortSelfBySignal := rfl

@[simp] theorem addAbortSelfByConflict_abortByOther (s : Exec T) :
    (addAbortSelfByConflict s).abortByOther = s.abortByOther := rfl

@[simp] theorem addAbortSelfByConflict_commitLog (s : Exec T) :
    (addAbortSelfByConflict s).commitLog = s.commitLog := rfl

@[simp] theorem addAbortSelfByConflict_publishLog (s : Exec T) :
    (addAbortSelfByConflict s).publishLog = s.publishLog := rfl

@[simp] theorem addAbortSelfByConflict_stateLog (s : Exec T) :
    (addAbortSelfByConflict s).stateLog = s.stateLog := rfl

@[simp] theorem addAbortSelfByConflict_assertFailed (s : Exec T) :
    (addAbortSelfByConflict s).assertFailed = s.assertFailed := rfl

@[simp] theorem addAbortSelfBySignal_activeThreads (s : Exec T) :
    (addAbortSelfBySignal s).activeThreads = s.activeThreads := rfl

@[simp] theorem addAbortSelfBySignal_maxThreads (s : Exec T) :
    (addAbortSelfBySignal s).maxThreads = s.maxThreads := rfl

@[simp] theorem addAbortSelfBySignal_ctxts (s : Exec T) :
    (addAbortSelfBySignal s).ctxts = s.ctxts := rfl

@[simp] theorem addAbortSelfBySignal_lockOwner (s : Exec T) :
    (addAbortSelfBySignal s).lockOwner = s.lockOwner := rfl

@[simp] theorem addAbortSelfBySignal_pending (s : Exec T) :
    (addAbortSelfBySignal s).pending = s.pending := rfl

@[simp] theorem addAbortSelfBySignal_rob (s : Exec T) :
    (addAbortSelfBySignal s).rob = s.rob := rfl

@[simp] theorem addAbortSelfBySignal_freeList (s : Exec T) :
    (addAbortSelfBySignal s).freeList = s.freeList := rfl

@[simp] theorem addAbortSelfBySignal_numTotal (s : Exec T) :
    (addAbortSelfBySignal s).numTotal = s.numTotal := rfl

@[simp] theorem addAbortSelfBySignal_numCommitted (s : Exec T) :
    (addAbortSelfBySignal s).numCommitted = s.numCommitted := rfl

@[simp] theorem addAbortSelfBySignal_numGlobalCleanups (s : Exec T) :
    (addAbortSelfBySignal s).numGlobalCleanups = s.numGlobalCleanups := rfl

@[simp] theorem addAbortSelfBySignal_abortSelfByConflict (s : Exec T) :
    (addAbortSelfBySignal s).abortSelfByConflict = s.abortSelfByConflict := rfl

@[simp] theorem addAbortSelfBySignal_abortSelfBySignal (s : Exec T) :
    (addAbortSelfBySignal s).abortSelfBySignal = s.abortSelfBySignal + 1 := rfl

@[simp] theorem addAbortSelfBySignal_abortByOther (s : Exec T) :
    (addAbortSelfBySignal s).abortByOther = s.abortByOther := rfl

@[simp] theorem addAbortSelfBySignal_commitLog (s : Exec T) :
    (addAbortSelfBySignal s).commitLog = s.commitLog := rfl

@[simp] theorem addAbortSelfBySignal_publishLog (s : Exec T) :
    (addAbortSelfBySignal s).publishLog = s.publishLog := rfl

@[simp] theorem addAbortSelfBySignal_stateLog (s : Exec T) :
    (addAbortSelfBySignal s).stateLog = s.stateLog := rfl

@[simp] theorem addAbortSelfBySignal_assertFailed (s : Exec T) :
    (addAbortSelfBySignal s).assertFailed = s.assertFailed := rfl

@[simp] theorem addAbortByOther_activeThreads (s : Exec T) :
    (addAbortByOther s).activeThreads = s.activeThreads := rfl

@[simp] theorem addAbortByOther_maxThreads (s : Exec T) :
    (addAbortByOther s).maxThreads = s.maxThreads := rfl

@[simp] theorem addAbortByOther_ctxts (s : Exec T) :
    (addAbortByOther s).ctxts = s.ctxts := rfl

@[simp] theorem addAbortByOther_lockOwner (s : Exec T) :
    (addAbortByOther s).lockOwner = s.lockOwner := rfl

@[simp] theorem addAbortByOther_pending (s : Exec T) :
    (addAbortByOther s).pending = s.pending := rfl

@[simp] theorem addAbortByOther_rob (s : Exec T) :
    (addAbortByOther s).rob = s.rob := rfl

@[simp] theorem addAbortByOther_freeList (s : Exec T) :
    (addAbortByOther s).freeList = s.freeList := rfl

@[simp] theorem addAbortByOther_numTotal (s : Exec T) :
    (addAbortByOther s).numTotal = s.numTotal := rfl

@[simp] theorem addAbortByOther_numCommitted (s : Exec T) :
    (addAbortByOther s).numCommitted = s.numCommitted := rfl

@[simp] theorem addAbortByOther_numGlobalCleanups (s : Exec T) :
    (addAbortByOther s).numGlobalCleanups = s.numGlobalCleanups := rfl

@[simp] theorem addAbortByOther_abortSelfByConflict (s : Exec T) :
    (addAbortByOther s).abortSelfByConflict = s.abortSelfByConflict := rfl

@[simp] theorem addAbortByOther_abortSelfBySignal (s : Exec T) :
    (addAbortByOther s).abortSelfBySignal = s.abortSelfBySignal := rfl

@[simp] theorem addAbortByOther_abortByOther (s : Exec T) :
    (addAbortByOther s).abortByOther = s.abortByOther + 1 := rfl

@[simp] theorem addAbortByOther_commitLog (s : Exec T) :
    (addAbortByOther s).commitLog = s.commitLog := rfl

@[simp] theorem addAbortByOther_publishLog (s : Exec T) :
    (addAbortByOther s).publishLog = s.publishLog := rfl

@[simp] theorem addAbortByOther_stateLog (s : Exec T) :
    (addAbortByOther s).stateLog = s.stateLog := rfl

@[simp] theorem addAbortByOther_assertFailed (s : Exec T) :
    (addAbortByOther s).assertFailed = s.assertFailed := rfl

@[simp] theorem doCommit_activeThreads (tid c : Nat) (s : Exec T) :
    (doCommit tid c s).activeThreads = s.activeThreads := by
  simp only [doCommit, countCommit_activeThreads, countAbort_activeThreads, setState_activeThreads, resetUserHandle_activeThreads, push_activeThreads, push_abort_activeThreads, releaseLocks_activeThreads, logCommit_activeThreads, assertThat_activeThreads]

@[simp] theorem doCommit_maxThreads (tid c : Nat) (s : Exec T) :
    (doCommit tid c s).maxThreads = s.maxThreads := by
  simp only [doCommit, countCommit_maxThreads, countAbort_maxThreads, setState_maxThreads, resetUserHandle_maxThreads, push_maxThreads, push_abort_maxThreads, releaseLocks_maxThreads, logCommit_maxThreads, assertThat_maxThreads]

@[simp] theorem doCommit_lockOwner (tid c : Nat) (s : Exec T) :
    (doCommit tid c s).lockOwner = (s.ctxts c).nhood.foldl (releaseOne c) s.lockOwner := by
  simp [doCommit]

@[simp] theorem doCommit_pending (tid c : Nat) (s : Exec T) :
    (doCommit tid c s).pending = Function.update s.pending tid ((s.ctxts c).pushBuffer.foldl (fun h x => heapPush x h) (s.pending tid)) := by
  simp [doCommit]

@[simp] theorem doCommit_rob (tid c : Nat) (s : Exec T) :
    (doCommit tid c s).rob = s.rob := by
  simp only [doCommit, countCommit_rob, countAbort_rob, setState_rob, resetUserHandle_rob, push_rob, push_abort_rob, releaseLocks_rob, logCommit_rob, assertThat_rob]

@[simp] theorem doCommit_freeList (tid c : Nat) (s : Exec T) :
    (doCommit tid c s).freeList = s.freeList := by
  simp only [doCommit, countCommit_freeList, countAbort_freeList, setState_freeList, resetUserHandle_freeList, push_freeList, push_abort_freeList, releaseLocks_freeList, logCommit_freeList, assertThat_freeList]

@[simp] theorem doCommit_numTotal (tid c : Nat) (s : Exec T) :
    (doCommit tid c s).numTotal = s.numTotal := by
  simp only [doCommit, countCommit_numTotal, countAbort_numTotal, setState_numTotal, resetUserHandle_numTotal, push_numTotal, push_abort_numTotal, releaseLocks_numTotal, logCommit_numTotal, assertThat_numTotal]

@[simp] theorem doCommit_numCommitted (tid c : Nat) (s : Exec T) :
    (doCommit tid c s).numCommitted = s.numCommitted := by
  simp only [doCommit, countCommit_numCommitted, countAbort_numCommitted, setState_numCommitted, resetUserHandle_numCommitted, push_numCommitted, push_abort_numCommitted, releaseLocks_numCommitted, logCommit_numCommitted, assertThat_numCommitted]

@[simp] theorem doCommit_numGlobalCleanups (tid c : Nat) (s : Exec T) :
    (doCommit tid c s).numGlobalCleanups = s.numGlobalCleanups := by
  simp only [doCommit, countCommit_numGlobalCleanups, countAbort_numGlobalCleanups, setState_numGlobalCleanups, resetUserHandle_numGlobalCleanups, push_numGlobalCleanups, push_abort_numGlobalCleanups, releaseLocks_numGlobalCleanups, logCommit_numGlobalCleanups, assertThat_numGlobalCleanups]

@[simp] theorem doCommit_abortSelfByConflict (tid c : Nat) (s : Exec T) :
    (doCommit tid c s).abortSelfByConflict = s.abortSelfByConflict := by
  simp only [doCommit, countCommit_abortSelfByConflict, countAbort_abortSelfByConflict, setState_abortSelfByConflict, resetUserHandle_abortSelfByConflict, push_abortSelfByConflict, push_abort_abortSelfByConflict, releaseLocks_abortSelfByConflict, logCommit_abortSelfByConflict, assertThat_abortSelfByConflict]

@[simp] theorem doCommit_abortSelfBySignal (tid c : Nat) (s : Exec T) :
    (doCommit tid c s).abortSelfBySignal = s.abortSelfBySignal := by
  simp only [doCommit, countCommit_abortSelfBySignal, countAbort_abortSelfBySignal, setState_abortSelfBySignal, resetUserHandle_abortSelfBySignal, push_abortSelfBySignal, push_abort_abortSelfBySignal, releaseLocks_abortSelfBySignal, logCommit_abortSelfBySignal, assertThat_abortSelfBySignal]

@[simp] theorem doCommit_abortByOther (tid c : Nat) (s : Exec T) :
    (doCommit tid c s).abortByOther = s.abortByOther := by
  simp only [doCommit, countCommit_abortByOther, countAbort_abortByOther, setState_abortByOther, resetUserHandle_abortByOther, push_abortByOther, push_abort_abortByOther, releaseLocks_abortByOther, logCommit_abortByOther, assertThat_abortByOther]

@[simp] theorem doCommit_commitLog (tid c : Nat) (s : Exec T) :
    (doCommit tid c s).commitLog = (s.ctxts c).active :: s.commitLog := by
  simp [doCommit]

@[simp] theorem doCommit_publishLog (tid c : Nat) (s : Exec T) :
    (doCommit tid c s).publishLog = (s.ctxts c).pushBuffer ++ s.publishLog := by
  simp [doCommit]

@[simp] theorem doCommit_stateLog (tid c : Nat) (s : Exec T) :
    (doCommit tid c s).stateLog = (c, (s.ctxts c).state, .COMMIT_DONE) :: s.stateLog := by
  simp [doCommit]

@[simp] theorem doCommit_assertFailed (tid c : Nat) (s : Exec T) :
    (doCommit tid c s).assertFailed = (s.assertFailed || !hasState c .COMMITTING s) := by
  simp [doCommit]

@[simp] theorem doCommit_ctxts_state (tid c : Nat) (s : Exec T) (d : Nat) :
    ((doCommit tid c s).ctxts d).state = if d = c then .COMMIT_DONE else (s.ctxts d).state := by
  by_cases h : d = c <;> simp [doCommit, h]

@[simp] theorem doCommit_ctxts_active (tid c : Nat) (s : Exec T) (d : Nat) :
    ((doCommit tid c s).ctxts d).active = (s.ctxts d).active := by
  by_cases h : d = c <;> simp [doCommit, h]

@[simp] theorem doCommit_ctxts_lostConflict (tid c : Nat) (s : Exec T) (d : Nat) :
    ((doCommit tid c s).ctxts d).lostConflict = (s.ctxts d).lostConflict := by
  by_cases h : d = c <;> simp [doCommit, h]

@[simp] theorem doCommit_ctxts_executed (tid c : Nat) (s : Exec T) (d : Nat) :
    ((doCommit tid c s).ctxts d).executed = (s.ctxts d).executed := by
  by_cases h : d = c <;> simp [doCommit, h]

@[simp] theorem doCommit_ctxts_owner (tid c : Nat) (s : Exec T) (d : Nat) :
    ((doCommit tid c s).ctxts d).owner = (s.ctxts d).owner := by
  by_cases h : d = c <;> simp [doCommit, h]

@[simp] theorem doCommit_ctxts_nhood (tid c : Nat) (s : Exec T) (d : Nat) :
    ((doCommit tid c s).ctxts d).nhood = (s.ctxts d).nhood := by
  by_cases h : d = c <;> simp [doCommit, h]

@[simp] theorem doCommit_ctxts_pushBuffer (tid c : Nat) (s : Exec T) (d : Nat) :
    ((doCommit tid c s).ctxts d).pushBuffer = if d = c then [] else (s.ctxts d).pushBuffer := by
  by_cases h : d = c <;> simp [doCommit, h]

@[simp] theorem doCommit_ctxts_nCommit (tid c : Nat) (s : Exec T) (d : Nat) :
    ((doCommit tid c s).ctxts d).nCommit = if d = c then (s.ctxts c).nCommit + 1 else (s.ctxts d).nCommit := by
  by_cases h : d = c <;> simp [doCommit, h]

@[simp] theorem doCommit_ctxts_nAbort (tid c : Nat) (s : Exec T) (d : Nat) :
    ((doCommit tid c s).ctxts d).nAbort = (s.ctxts d).nAbort := by
  by_cases h : d = c <;> simp [doCommit, h]

@[simp] theorem doAbort_activeThreads (c : Nat) (s : Exec T) :
    (doAbort c s).activeThreads = s.activeThreads := by
  simp only [doAbort, countCommit_activeThreads, countAbort_activeThreads, setState_activeThreads, resetUserHandle_activeThreads, push_activeThreads, push_abort_activeThreads, releaseLocks_activeThreads, logCommit_activeThreads, assertThat_activeThreads]

@[simp] theorem doAbort_maxThreads (c : Nat) (s : Exec T) :
    (doAbort c s).maxThreads = s.maxThreads := by
  simp only [doAbort, countCommit_maxThreads, countAbort_maxThreads, setState_maxThreads, resetUserHandle_maxThreads, push_maxThreads, push_abort_maxThreads, releaseLocks_maxThreads, logCommit_maxThreads, assertThat_maxThreads]

@[simp] theorem doAbort_lockOwner (c : Nat) (s : Exec T) :
    (doAbort c s).lockOwner = (s.ctxts c).nhood.foldl (releaseOne c) s.lockOwner := by
  simp [doAbort]

@[simp] theorem doAbort_pending (c : Nat) (s : Exec T) :
    (doAbort c s).pending = Function.update s.pending ((s.ctxts c).owner / 2) ((s.ctxts c).active :: s.pending ((s.ctxts c).owner / 2)) := by
  simp [doAbort]

@[simp] theorem doAbort_rob (c : Nat) (s : Exec T) :
    (doAbort c s).rob = s.rob := by
  simp only [doAbort, countCommit_rob, countAbort_rob, setState_rob, resetUserHandle_rob, push_rob, push_abort_rob, releaseLocks_rob, logCommit_rob, assertThat_rob]

@[simp] theorem doAbort_freeList (c : Nat) (s : Exec T) :
    (doAbort c s).freeList = s.freeList := by
  simp only [doAbort, countCommit_freeList, countAbort_freeList, setState_freeList, resetUserHandle_freeList, push_freeList, push_abort_freeList, releaseLocks_freeList, logCommit_freeList, assertThat_freeList]

@[simp] theorem doAbort_numTotal (c : Nat) (s : Exec T) :
    (doAbort c s).numTotal = s.numTotal := by
  simp only [doAbort, countCommit_numTotal, countAbort_numTotal, setState_numTotal, resetUserHandle_numTotal, push_numTotal, push_abort_numTotal, releaseLocks_numTotal, logCommit_numTotal, assertThat_numTotal]

@[simp] theorem doAbort_numCommitted (c : Nat) (s : Exec T) :
    (doAbort c s).numCommitted = s.numCommitted := by
  simp only [doAbort, countCommit_numCommitted, countAbort_numCommitted, setState_numCommitted, resetUserHandle_numCommitted, push_numCommitted, push_abort_numCommitted, releaseLocks_numCommitted, logCommit_numCommitted, assertThat_numCommitted]

@[simp] theorem doAbort_numGlobalCleanups (c : Nat) (s : Exec T) :
    (doAbort c s).numGlobalCleanups = s.numGlobalCleanups := by
  simp only [doAbort, countCommit_numGlobalCleanups, countAbort_numGlobalCleanups, setState_numGlobalCleanups, resetUserHandle_numGlobalCleanups, push_numGlobalCleanups, push_abort_numGlobalCleanups, releaseLocks_numGlobalCleanups, logCommit_numGlobalCleanups, assertThat_numGlobalCleanups]

@[simp] theorem doAbort_abortSelfByConflict (c : Nat) (s : Exec T) :
    (doAbort c s).abortSelfByConflict = s.abortSelfByConflict := by
  simp only [doAbort, countCommit_abortSelfByConflict, countAbort_abortSelfByConflict, setState_abortSelfByConflict, resetUserHandle_abortSelfByConflict, push_abortSelfByConflict, push_abort_abortSelfByConflict, releaseLocks_abortSelfByConflict, logCommit_abortSelfByConflict, assertThat_abortSelfByConflict]

@[simp] theorem doAbort_abortSelfBySignal (c : Nat) (s : Exec T) :
    (doAbort c s).abortSelfBySignal = s.abortSelfBySignal := by
  simp only [doAbort, countCommit_abortSelfBySignal, countAbort_abortSelfBySignal, setState_abortSelfBySignal, resetUserHandle_abortSelfBySignal, push_abortSelfBySignal, push_abort_abortSelfBySignal, releaseLocks_abortSelfBySignal, logCommit_abortSelfBySignal, assertThat_abortSelfBySignal]

@[simp] theorem doAbort_abortByOther (c : Nat) (s : Exec T) :
    (doAbort c s).abortByOther = s.abortByOther := by
  simp only [doAbort, countCommit_abortByOther, countAbort_abortByOther, setState_abortByOther, resetUserHandle_abortByOther, push_abortByOther, push_abort_abortByOther, releaseLocks_abortByOther, logCommit_abortByOther, assertThat_abortByOther]

@[simp] theorem doAbort_commitLog (c : Nat) (s : Exec T) :
    (doAbort c s).commitLog = s.commitLog := by
  simp only [doAbort, countCommit_commitLog, countAbort_commitLog, setState_commitLog, resetUserHandle_commitLog, push_commitLog, push_abort_commitLog, releaseLocks_commitLog, logCommit_commitLog, assertThat_commitLog]

@[simp] theorem doAbort_publishLog (c : Nat) (s : Exec T) :
    (doAbort c s).publishLog = s.publishLog := by
  simp only [doAbort, countCommit_publishLog, countAbort_publishLog, setState_publishLog, resetUserHandle_publishLog, push_publishLog, push_abort_publishLog, releaseLocks_publishLog, logCommit_publishLog, assertThat_publishLog]

@[simp] theorem doAbort_stateLog (c : Nat) (s : Exec T) :
    (doAbort c s).stateLog = (c, (s.ctxts c).state, .ABORT_DONE) :: s.stateLog := by
  simp [doAbort]

@[simp] theorem doAbort_assertFailed (c : Nat) (s : Exec T) :
    (doAbort c s).assertFailed = (s.assertFailed || !hasState c .ABORTING s) := by
  simp [doAbort]

@[simp] theorem doAbort_ctxts_state (c : Nat) (s : Exec T) (d : Nat) :
    ((doAbort c s).ctxts d).state = if d = c then .ABORT_DONE else (s.ctxts d).state := by
  by_cases h : d = c <;> simp [doAbort, h]

@[simp] theorem doAbort_ctxts_active (c : Nat) (s : Exec T) (d : Nat) :
    ((doAbort c s).ctxts d).active = (s.ctxts d).active := by
  by_cases h : d = c <;> simp [doAbort, h]

@[simp] theorem doAbort_ctxts_lostConflict (c : Nat) (s : Exec T) (d : Nat) :
    ((doAbort c s).ctxts d).lostConflict = (s.ctxts d).lostConflict := by
  by_cases h : d = c <;> simp [doAbort, h]

@[simp] theorem doAbort_ctxts_executed (c : Nat) (s : Exec T) (d : Nat) :
    ((doAbort c s).ctxts d).executed = (s.ctxts d).executed := by
  by_cases h : d = c <;> simp [doAbort, h]

@[simp] theorem doAbort_ctxts_owner (c : Nat) (s : Exec T) (d : Nat) :
    ((doAbort c s).ctxts d).owner = (s.ctxts d).owner := by
  by_cases h : d = c <;> simp [doAbort, h]

@[simp] theorem doAbort_ctxts_nhood (c : Nat) (s : Exec T) (d : Nat) :
    ((doAbort c s).ctxts d).nhood = (s.ctxts d).nhood := by
  by_cases h : d = c <;> simp [doAbort, h]

@[simp] theorem doAbort_ctxts_pushBuffer (c : Nat) (s : Exec T) (d : Nat) :
    ((doAbort c s).ctxts d).pushBuffer = if d = c then [] else (s.ctxts d).pushBuffer := by
  by_cases h : d = c <;> simp [doAbort, h]

@[simp] theorem doAbort_ctxts_nCommit (c : Nat) (s : Exec T) (d : Nat) :
    ((doAbort c s).ctxts d).nCommit = (s.ctxts d).nCommit := by
  by_cases h : d = c <;> simp [doAbort, h]

@[simp] theorem doAbort_ctxts_nAbort (c : Nat) (s : Exec T) (d : Nat) :
    ((doAbort c s).ctxts d).nAbort = if d = c then (s.ctxts c).nAbort + 1 else (s.ctxts d).nAbort := by
  by_cases h : d = c <;> simp [doAbort, h]

@[simp] theorem abortOther_activeThreads (c : Nat) (s : Exec T) :
    (abortOther c s).activeThreads = s.activeThreads := by
  simp only [abortOther, addAbortByOther_activeThreads, doAbort_activeThreads, setState_activeThreads]

@[simp] theorem abortOther_maxThreads (c : Nat) (s : Exec T) :
    (abortOther c s).maxThreads = s.maxThreads := by
  simp only [abortOther, addAbortByOther_maxThreads, doAbort_maxThreads, setState_maxThreads]

@[simp] theorem abortOther_lockOwner (c : Nat) (s : Exec T) :
    (abortOther c s).lockOwner = (s.ctxts c).nhood.foldl (releaseOne c) s.lockOwner := by
  simp [abortOther]

@[simp] theorem abortOther_pending (c : Nat) (s : Exec T) :
    (abortOther c s).pending = Function.update s.pending ((s.ctxts c).owner / 2) ((s.ctxts c).active :: s.pending ((s.ctxts c).owner / 2)) := by
  simp [abortOther]

@[simp] theorem abortOther_rob (c : Nat) (s : Exec T) :
    (abortOther c s).rob = s.rob := by
  simp only [abortOther, addAbortByOther_rob, doAbort_rob, setState_rob]

@[simp] theorem abortOther_freeList (c : Nat) (s : Exec T) :
    (abortOther c s).freeList = s.freeList := by
  simp only [abortOther, addAbortByOther_freeList, doAbort_freeList, setState_freeList]

@[simp] theorem abortOther_numTotal (c : Nat) (s : Exec T) :
    (abortOther c s).numTotal = s.numTotal := by
  simp only [abortOther, addAbortByOther_numTotal, doAbort_numTotal, setState_numTotal]

@[simp] theorem abortOther_numCommitted (c : Nat) (s : Exec T) :
    (abortOther c s).numCommitted = s.numCommitted := by
  simp only [abortOther, addAbortByOther_numCommitted, doAbort_numCommitted, setState_numCommitted]

@[simp] theorem abortOther_numGlobalCleanups (c : Nat) (s : Exec T) :
    (abortOther c s).numGlobalCleanups = s.numGlobalCleanups := by
  simp only [abortOther, addAbortByOther_numGlobalCleanups, doAbort_numGlobalCleanups, setState_numGlobalCleanups]

@[simp] theorem abortOther_abortSelfByConflict (c : Nat) (s : Exec T) :
    (abortOther c s).abortSelfByConflict = s.abortSelfByConflict := by
  simp only [abortOther, addAbortByOther_abortSelfByConflict, doAbort_abortSelfByConflict, setState_abortSelfByConflict]

@[simp] theorem abortOther_abortSelfBySignal (c : Nat) (s : Exec T) :
    (abortOther c s).abortSelfBySignal = s.abortSelfBySignal := by
  simp only [abortOther, addAbortByOther_abortSelfBySignal, doAbort_abortSelfBySignal, setState_abortSelfBySignal]

@[simp] theorem abortOther_abortByOther (c : Nat) (s : Exec T) :
    (abortOther c s).abortByOther = s.abortByOther + 1 := by
  simp [abortOther]

@[simp] theorem abortOther_commitLog (c : Nat) (s : Exec T) :
    (abortOther c s).commitLog = s.commitLog := by
  simp only [abortOther, addAbortByOther_commitLog, doAbort_commitLog, setState_commitLog]

@[simp] theorem abortOther_publishLog (c : Nat) (s : Exec T) :
    (abortOther c s).publishLog = s.publishLog := by
  simp only [abortOther, addAbortByOther_publishLog, doAbort_publishLog, setState_publishLog]

@[simp] theorem abortOther_stateLog (c : Nat) (s : Exec T) :
    (abortOther c s).stateLog = (c, .ABORTING, .ABORT_DONE) :: (c, (s.ctxts c).state, .ABORTING) :: s.stateLog := by
  simp [abortOther]

@[simp] theorem abortOther_assertFailed (c : Nat) (s : Exec T) :
    (abortOther c s).assertFailed = s.assertFailed := by
  simp [abortOther]

@[simp] theorem abortOther_ctxts_state (c : Nat) (s : Exec T) (d : Nat) :
    ((abortOther c s).ctxts d).state = if d = c then .ABORT_DONE else (s.ctxts d).state := by
  by_cases h : d = c <;> simp [abortOther, h]

@[simp] theorem abortOther_ctxts_active (c : Nat) (s : Exec T) (d : Nat) :
    ((abortOther c s).ctxts d).active = (s.ctxts d).active := by
  by_cases h : d = c <;> simp [abortOther, h]

@[simp] theorem abortOther_ctxts_lostConflict (c : Nat) (s : Exec T) (d : Nat) :
    ((abortOther c s).ctxts d).lostConflict = (s.ctxts d).lostConflict := by
  by_cases h : d = c <;> simp [abortOther, h]

@[simp] theorem abortOther_ctxts_executed (c : Nat) (s : Exec T) (d : Nat) :
    ((abortOther c s).ctxts d).executed = (s.ctxts d).executed := by
  by_cases h : d = c <;> simp [abortOther, h]

@[simp] theorem abortOther_ctxts_owner (c : Nat) (s : Exec T) (d : Nat) :
    ((abortOther c s).ctxts d).owner = (s.ctxts d).owner := by
  by_cases h : d = c <;> simp [abortOther, h]

@[simp] theorem abortOther_ctxts_nhood (c : Nat) (s : Exec T) (d : Nat) :
    ((abortOther c s).ctxts d).nhood = (s.ctxts d).nhood := by
  by_cases h : d = c <;> simp [abortOther, h]

@[simp] theorem abortOther_ctxts_pushBuffer (c : Nat) (s : Exec T) (d : Nat) :
    ((abortOther c s).ctxts d).pushBuffer = if d = c then [] else (s.ctxts d).pushBuffer := by
  by_cases h : d = c <;> simp [abortOther, h]

@[simp] theorem abortOther_ctxts_nCommit (c : Nat) (s : Exec T) (d : Nat) :
    ((abortOther c s).ctxts d).nCommit = (s.ctxts d).nCommit := by
  by_cases h : d = c <;> simp [abortOther, h]

@[simp] theorem abortOther_ctxts_nAbort (c : Nat) (s : Exec T) (d : Nat) :
    ((abortOther c s).ctxts d).nAbort = if d = c then (s.ctxts c).nAbort + 1 else (s.ctxts d).nAbort := by
  by_cases h : d = c <;> simp [abortOther, h]

end Projections

/-! ## isEarliest -/

section IsEarliest

variable {T : Type}

theorem isEarliestLoop_false (cmp : T → T → Bool) (pending : Nat → List T) (x : T)
    (l : List Nat) : isEarliestLoop cmp pending x l false = false := by
  cases l with
  | nil => rfl
  | cons i rest =>
    simp only [isEarliestLoop]
    cases heapTop cmp (pending i) <;> simp

theorem isEarliestLoop_true (cmp : T → T → Bool) (pending : Nat → List T) (x : T) :
    ∀ l : List Nat, isEarliestLoop cmp pending x l true =
      l.all fun i =>
        match heapTop cmp (pending i) with
        | some t => !cmp t x
        | none => true
  | [] => rfl
  | i :: rest => by
    simp only [isEarliestLoop, List.all_cons]
    cases ht : heapTop cmp (pending i) with
    | none => simpa using isEarliestLoop_true cmp pending x rest
    | some t =>
      cases hc : cmp t x with
      | true => simp [hc]
      | false => simpa [hc] using isEarliestLoop_true cmp pending x rest

theorem isEarliest_eq_spec (cmp : T → T → Bool) (x : T) (s : Exec T) :
    isEarliest cmp x s = isEarliestSpec cmp x s := by
  unfold isEarliest isEarliestSpec
  exact isEarliestLoop_true cmp s.pending x _

theorem isEarliest_true_iff (cmp : T → T → Bool) (x : T) (s : Exec T) :
    isEarliest cmp x s = true ↔
      ∀ i, i < s.activeThreads → ∀ t, heapTop cmp (s.pending i) = some t → cmp t x = false := by
  rw [isEarliest_eq_spec]
  unfold isEarliestSpec
  rw [List.all_eq_true]
  constructor
  · intro h i hi t ht
    have := h i (List.mem_range.mpr hi)
    rw [ht] at this
    simpa using this
  · intro h i hi
    have hi2 := List.mem_range.mp hi
    cases ht : heapTop cmp (s.pending i) with
    | none => rfl
    | some t => simp [h i hi2 t ht]

/-- C9: `isEarliest (x)` is true exactly when no pending heap of a worker (the rows
below `getActiveThreads ()`, the ones the loop visits) has a top item `t` with
`cmp (t, x)`; when the rows of no worker are empty, as they are in every run, this is:
no row at all has such a top.  The loop with its early `break` computes the same value as
the conjunction over all heaps (`isEarliestSpec`).  The embedding of `isEarliest` only
reads the executor state, as the source only calls `empty ()` and `top ()`. -/
theorem isEarliest_iff (cmp : T → T → Bool) (x : T) (s : Exec T) :
    (isEarliest cmp x s = true ↔
      ∀ i, i < s.activeThreads → ∀ t, heapTop cmp (s.pending i) = some t → cmp t x = false) ∧
    ((∀ i, s.activeThreads ≤ i → s.pending i = []) →
      (isEarliest cmp x s = true ↔
        ∀ i t, heapTop cmp (s.pending i) = some t → cmp t x = false)) ∧
    isEarliest cmp x s = isEarliestSpec cmp x s := by
  refine ⟨isEarliest_true_iff cmp x s, ?_, isEarliest_eq_spec cmp x s⟩
  intro hrows
  rw [isEarliest_true_iff]
  constructor
  · intro h i t ht
    by_cases hi : i < s.activeThreads
    · exact h i hi t ht
    · rw [hrows i (Nat.le_of_not_lt hi)] at ht
      simp [heapTop, heapPop] at ht
  · intro h i _ t ht
    exact h i t ht

end IsEarliest


/-! ## scheduleGlobalMinFirst -/

section Schedule

variable {T : Type}

/-- What the scan loop has established after looking at the heaps `0 .. k - 1`. -/
theorem scanMin_fold (cmp : T → T → Bool) (hc : StrictWeak cmp) (pending : Nat → List T) :
    ∀ k : Nat,
      let acc := (List.range k).foldl (scanStep cmp pending) (0, none)
      (acc.2 = none → ∀ i, i < k → pending i = []) ∧
      (∀ m, acc.2 = some m →
        acc.1 < k ∧ heapTop cmp (pending acc.1) = some m ∧
        ∀ i, i < k → ∀ t, heapTop cmp (pending i) = some t → cmp t m = false)
  | 0 => by simp
  | k + 1 => by
    have ih := scanMin_fold cmp hc pending k
    simp only [List.range_succ, List.foldl_append, List.foldl_cons, List.foldl_nil] at ih ⊢
    generalize (List.range k).foldl (scanStep cmp pending) (0, none) = acc at ih ⊢
    obtain ⟨j, mp⟩ := acc
    obtain ⟨ih1, ih2⟩ := ih
    simp only at ih1 ih2
    unfold scanStep
    cases ht : heapTop cmp (pending k) with
    | none =>
      have hk : pending k = [] := heapTop_eq_none.mp ht
      simp only
      refine ⟨fun h i hi => ?_, fun m hm => ?_⟩
      · rcases Nat.lt_succ_iff_lt_or_eq.mp hi with h1 | rfl
        · exact ih1 h i h1
        · exact hk
      · obtain ⟨h1, h2, h3⟩ := ih2 m hm
        refine ⟨Nat.lt_succ_of_lt h1, h2, fun i hi t hti => ?_⟩
        rcases Nat.lt_succ_iff_lt_or_eq.mp hi with h4 | rfl
        · exact h3 i h4 t hti
        · rw [ht] at hti; exact absurd hti (by simp)
    | some t =>
      cases mp with
      | none =>
        simp only
        refine ⟨fun h => absurd h (by simp), fun m hm => ?_⟩
        simp only [Option.some.injEq] at hm
        subst hm
        refine ⟨Nat.lt_succ_self k, ht, fun i hi t2 hti => ?_⟩
        rcases Nat.lt_succ_iff_lt_or_eq.mp hi with h4 | rfl
        · have := ih1 rfl i h4
          rw [heapTop_eq_none.mpr this] at hti
          exact absurd hti (by simp)
        · rw [ht] at hti
          simp only [Option.some.injEq] at hti
          subst hti
          exact hc.irrefl _
      | some m0 =>
        obtain ⟨h1, h2, h3⟩ := ih2 m0 rfl
        simp only
        by_cases hlt : cmp t m0 = true
        · simp only [hlt, if_true]
          refine ⟨fun h => absurd h (by simp), fun m hm => ?_⟩
          simp only [Option.some.injEq] at hm
          subst hm
          refine ⟨Nat.lt_succ_self k, ht, fun i hi t2 hti => ?_⟩
          rcases Nat.lt_succ_iff_lt_or_eq.mp hi with h4 | rfl
          · have h5 := h3 i h4 t2 hti
            cases h6 : cmp t2 t with
            | false => rfl
            | true =>
              rw [hc.trans _ _ _ h6 hlt] at h5
              exact absurd h5 (by simp)
          · rw [ht] at hti
            simp only [Option.some.injEq] at hti
            subst hti
            exact hc.irrefl _
        · have hlt2 : cmp t m0 = false := by simpa using hlt
          simp only [hlt2, Bool.false_eq_true, if_false]
          refine ⟨fun h => absurd h (by simp), fun m hm => ?_⟩
          simp only [Option.some.injEq] at hm
          subst hm
          refine ⟨Nat.lt_succ_of_lt h1, h2, fun i hi t2 hti => ?_⟩
          rcases Nat.lt_succ_iff_lt_or_eq.mp hi with h4 | rfl
          · exact h3 i h4 t2 hti
          · rw [ht] at hti
            simp only [Option.some.injEq] at hti
            subst hti
            simpa using hlt

/-- C8: with a non-empty free list of the calling thread and a non-empty pending heap,
`scheduleGlobalMinFirst` returns a context `ctx` holding an item `x` that was popped
from a pending heap `j` and that no item left in any pending heap strictly precedes;
`ctx` is the former tail of the caller's free list, is SCHEDULED, has the caller as
owner, has been pushed into the reorder buffer, and `numTotal` has grown by one. -/
theorem scheduleGlobalMinFirst_spec (cmp : T → T → Bool) (hc : StrictWeak cmp) (tid : Nat)
    (s : Exec T) (hrows : s.activeThreads ≤ s.maxThreads) (hfree : s.freeList tid ≠ [])
    (hpend : ∃ i, i < s.activeThreads ∧ s.pending i ≠ []) :
    ∃ ctx j x,
      (scheduleGlobalMinFirst cmp tid s).1 = some ctx ∧
      j < s.activeThreads ∧
      heapPop cmp (s.pending j) = some (x, (scheduleGlobalMinFirst cmp tid s).2.pending j) ∧
      (∀ i, i ≠ j → (scheduleGlobalMinFirst cmp tid s).2.pending i = s.pending i) ∧
      ((scheduleGlobalMinFirst cmp tid s).2.ctxts ctx).active = x ∧
      (∀ i, i < s.activeThreads →
        ∀ y, y ∈ (scheduleGlobalMinFirst cmp tid s).2.pending i → cmp y x = false) ∧
      (s.freeList tid).getLast? = some ctx ∧
      (scheduleGlobalMinFirst cmp tid s).2.freeList tid = (s.freeList tid).dropLast ∧
      ((scheduleGlobalMinFirst cmp tid s).2.ctxts ctx).state = .SCHEDULED ∧
      ((scheduleGlobalMinFirst cmp tid s).2.ctxts ctx).owner = tid ∧
      (scheduleGlobalMinFirst cmp tid s).2.rob = heapPush ctx s.rob ∧
      (scheduleGlobalMinFirst cmp tid s).2.numTotal = s.numTotal + 1 := by
  obtain ⟨i0, hi0, hne0⟩ := hpend
  have hscan := scanMin_fold cmp hc s.pending s.activeThreads
  simp only at hscan
  obtain ⟨hs1, hs2⟩ := hscan
  have hfold : (List.range s.activeThreads).foldl (scanStep cmp s.pending) (0, none)
      = scanMin cmp s := rfl
  rw [hfold] at hs1 hs2
  cases hm : (scanMin cmp s).2 with
  | none => exact absurd (hs1 hm i0 hi0) hne0
  | some m =>
    obtain ⟨hj, htop, hmin⟩ := hs2 m hm
    obtain ⟨rest, hpop⟩ := heapTop_eq_some.mp htop
    obtain ⟨ctx, hctx⟩ : ∃ ctx, (s.freeList tid).getLast? = some ctx := by
      cases hl : (s.freeList tid).getLast? with
      | none => exact absurd (List.getLast?_eq_none_iff.mp hl) hfree
      | some c => exact ⟨c, rfl⟩
    have hnotall : emptyAll s.maxThreads s.pending = false := by
      cases he : emptyAll s.maxThreads s.pending with
      | false => rfl
      | true =>
        exact absurd (emptyAll_eq_true.mp he i0 (Nat.lt_of_lt_of_le hi0 hrows)) hne0
    have hfe : (s.freeList tid).isEmpty = false := by
      cases hl : s.freeList tid with
      | nil => exact absurd hl hfree
      | cons a l => rfl
    have hres : scheduleGlobalMinFirst cmp tid s =
        (some ctx,
          addNumTotal (setRob (heapPush ctx s.rob)
            (setOwner ctx tid (setState ctx .SCHEDULED
              (construct ctx m tid (setPending (scanMin cmp s).1 rest
                (setFreeList tid (s.freeList tid).dropLast s))))))) := by
      simp [scheduleGlobalMinFirst, hfe, hnotall, hpop, hctx]
    rw [hres]
    refine ⟨ctx, (scanMin cmp s).1, m, rfl, hj, ?_, ?_, ?_, ?_, hctx, ?_, ?_, ?_, ?_, ?_⟩
    · simpa using hpop
    · intro i hi
      simp [Function.update_noteq hi]
    · simp
    · intro i hi y hy
      simp only [addNumTotal_pending, setRob_pending, setOwner_pending, setState_pending,
        construct_pending, setPending_pending, setFreeList_pending] at hy
      by_cases hij : i = (scanMin cmp s).1
      · subst hij
        simp only [Function.update_same] at hy
        exact heapPop_least hc id hpop y (heapPop_rest_subset hpop y hy)
      · simp only [Function.update_noteq hij] at hy
        cases hti : heapTop cmp (s.pending i) with
        | none =>
          rw [heapTop_eq_none.mp hti] at hy
          exact absurd hy (by simp)
        | some t =>
          exact hc.negTrans _ _ _ (heapTop_least hc hti y hy) (hmin i hi t hti)
    · simp
    · simp
    · simp
    · simp
    · simp

end Schedule


/-! ## Effects of compare-and-swap -/

section Effects

variable {T : Type}

theorem casState_eq (c : Nat) (a b : State) (s : Exec T) :
    casState c a b s =
      (decide ((s.ctxts c).state = a), if (s.ctxts c).state = a then setState c b s else s) := by
  unfold casState
  by_cases h : (s.ctxts c).state = a <;> simp [h]

end Effects

/-! ## Losing a lock contest -/

section Lose

variable {T : Type}

/-- C10: context `B` asks for Lockable `l` owned by another context `A` and does not
win the comparison.  `resolveConflict` returns true after storing ABORT_SELF to `B`, and
`subAcquire` returns with `B.lostConflict` set, `l` still owned by `A`; the object `A`
(its state and neighborhood among the rest), all owner words, the pending heaps and the
three abort counters are as before. -/
theorem subAcquire_loses (cmp : T → T → Bool) (fuel B A l : Nat) (s : Exec T)
    (hown : s.lockOwner l = some A) (hne : A ≠ B) (hlose : ctxtCmp cmp s B A = false) :
    resolveConflict cmp fuel B A s = some (true, setState B .ABORT_SELF s) ∧
    ∃ s1, subAcquire cmp (fuel + 1) B l s = some s1 ∧
      (s1.ctxts B).state = .ABORT_SELF ∧
      (s1.ctxts B).lostConflict = true ∧
      s1.lockOwner l = some A ∧ s1.lockOwner l ≠ some B ∧
      s1.ctxts A = s.ctxts A ∧
      s1.lockOwner = s.lockOwner ∧
      s1.pending = s.pending ∧
      s1.abortSelfByConflict = s.abortSelfByConflict ∧
      s1.abortSelfBySignal = s.abortSelfBySignal ∧
      s1.abortByOther = s.abortByOther := by
  have hres : resolveConflict cmp fuel B A s = some (true, setState B .ABORT_SELF s) := by
    simp [resolveConflict, hlose]
  refine ⟨hres, ?_⟩
  have htry : tryAcquire B l s = (.FAIL, s) := by
    simp [tryAcquire, hown, hne]
  have hsub : subAcquire cmp (fuel + 1) B l s =
      some (setLostConflict B true (setState B .ABORT_SELF s)) := by
    simp [subAcquire, htry, getOwner, hown, hres]
  refine ⟨_, hsub, ?_, ?_, ?_, ?_, ?_, ?_, ?_, ?_, ?_, ?_⟩
  · simp
  · simp
  · simpa using hown
  · simp [hown, hne]
  · simp [setLostConflict, setState, Function.update_noteq hne]
  · simp
  · simp
  · simp
  · simp
  · simp

end Lose

/-! ## Steps as sequences of state changes -/

section Decompose

variable {T : Type}

theorem Exec.eq_of_fields {s t : Exec T}
    (h1 : s.activeThreads = t.activeThreads) (h2 : s.maxThreads = t.maxThreads)
    (h3 : s.ctxts = t.ctxts) (h4 : s.lockOwner = t.lockOwner) (h5 : s.pending = t.pending)
    (h6 : s.rob = t.rob) (h7 : s.freeList = t.freeList) (h8 : s.numTotal = t.numTotal)
    (h9 : s.numCommitted = t.numCommitted) (h10 : s.numGlobalCleanups = t.numGlobalCleanups)
    (h11 : s.abortSelfByConflict = t.abortSelfByConflict)
    (h12 : s.abortSelfBySignal = t.abortSelfBySignal) (h13 : s.abortByOther = t.abortByOther)
    (h14 : s.commitLog = t.commitLog) (h15 : s.publishLog = t.publishLog)
    (h16 : s.stateLog = t.stateLog) (h17 : s.assertFailed = t.assertFailed) : s = t := by
  cases s; cases t
  simp only at h1 h2 h3 h4 h5 h6 h7 h8 h9 h10 h11 h12 h13 h14 h15 h16 h17
  subst h1 h2 h3 h4 h5 h6 h7 h8 h9 h10 h11 h12 h13 h14 h15 h16 h17
  rfl

theorem Atoms.single {cmp : T → T → Bool} {allowed : T → T → Prop} {s s1 : Exec T}
    (h : Atom cmp allowed s s1) : Atoms cmp allowed s s1 :=
  Atoms.tail s s s1 (Atoms.refl s) h

theorem Atoms.trans {cmp : T → T → Bool} {allowed : T → T → Prop} {s s1 s2 : Exec T}
    (h1 : Atoms cmp allowed s s1) (h2 : Atoms cmp allowed s1 s2) : Atoms cmp allowed s s2 := by
  induction h2 with
  | refl => exact h1
  | tail a b _ hab ih => exact Atoms.tail _ _ _ ih hab

/-- Whatever holds at the start and is kept by every state change holds at the end. -/
theorem Atoms.preserves {cmp : T → T → Bool} {allowed : T → T → Prop} {P : Exec T → Prop}
    (hstep : ∀ s s1, P s → Atom cmp allowed s s1 → P s1) {s s1 : Exec T}
    (h : Atoms cmp allowed s s1) (hs : P s) : P s1 := by
  induction h with
  | refl => exact hs
  | tail a b _ hab ih => exact hstep _ _ ih hab

/-- The scan loop ends either without a candidate, all heaps seen being empty and
`minTID` still 0, or with the index of a heap it has seen. -/
theorem scanIndex_fold (cmp : T → T → Bool) (pending : Nat → List T) :
    ∀ k : Nat,
      let acc := (List.range k).foldl (scanStep cmp pending) (0, none)
      (acc.2 = none → acc.1 = 0 ∧ ∀ i, i < k → pending i = []) ∧
      (acc.2 ≠ none → acc.1 < k)
  | 0 => by simp
  | k + 1 => by
    have ih := scanIndex_fold cmp pending k
    simp only [List.range_succ, List.foldl_append, List.foldl_cons, List.foldl_nil] at ih ⊢
    generalize (List.range k).foldl (scanStep cmp pending) (0, none) = acc at ih ⊢
    obtain ⟨j, mp⟩ := acc
    obtain ⟨ih1, ih2⟩ := ih
    simp only at ih1 ih2
    unfold scanStep
    cases ht : heapTop cmp (pending k) with
    | none =>
      have hk : pending k = [] := heapTop_eq_none.mp ht
      simp only
      refine ⟨fun h => ⟨(ih1 h).1, fun i hi => ?_⟩, fun h => Nat.lt_succ_of_lt (ih2 h)⟩
      rcases Nat.lt_succ_iff_lt_or_eq.mp hi with h1 | rfl
      · exact (ih1 h).2 i h1
      · exact hk
    | some t =>
      cases mp with
      | none => simp
      | some m0 =>
        simp only
        by_cases hlt : cmp t m0 = true
        · simp [hlt]
        · have hlt2 : cmp t m0 = false := by simpa using hlt
          simp only [hlt2, Bool.false_eq_true, if_false]
          exact ⟨fun h => absurd h (by simp), fun _ => Nat.lt_succ_of_lt (ih2 (by simp))⟩

theorem scheduleGlobalMinFirst_atoms (cmp : T → T → Bool) (allowed : T → T → Prop)
    (tid : Nat) (s : Exec T) (htid : tid < s.activeThreads) :
    Atoms cmp allowed s (scheduleGlobalMinFirst cmp tid s).2 := by
  unfold scheduleGlobalMinFirst
  simp only
  split
  · split
    · split
      · rename_i x rest ctx hpop hctx
        apply Atoms.single
        have hidx := scanIndex_fold cmp s.pending s.activeThreads
        simp only at hidx
        have hj : (scanMin cmp s).1 < s.activeThreads := by
          by_cases hnone : (scanMin cmp s).2 = none
          · have h0 := (hidx.1 hnone)
            have hz : (scanMin cmp s).1 = 0 := h0.1
            have he := h0.2 0 (Nat.lt_of_le_of_lt (Nat.zero_le _) htid)
            rw [hz, he] at hpop
            simp [heapPop] at hpop
          · exact hidx.2 hnone
        exact Atom.sched s tid ctx _ x rest htid hj hctx hpop
      · exact Atoms.refl _
    · exact Atoms.refl _
  · exact Atoms.refl _

theorem spinLoop_atoms (cmp : T → T → Bool) (allowed : T → T → Prop) (l that : Nat) :
    ∀ (fuel : Nat) (s s2 : Exec T), s.lockOwner l = some that →
      spinLoop fuel that s = some s2 →
      Atoms cmp allowed s s2 ∧ s2.rob = s.rob ∧
        ∀ d, (s2.ctxts d).executed = (s.ctxts d).executed
  | 0, s, s2, _, h => by simp [spinLoop] at h
  | fuel + 1, s, s2, hown, h => by
    unfold spinLoop at h
    by_cases hdone : (s.ctxts that).state = .ABORT_DONE
    · simp only [hasState_eq, hdone, decide_True, if_true, Option.some.injEq] at h
      subst h
      exact ⟨Atoms.refl _, rfl, fun _ => rfl⟩
    · simp only [hasState_eq, hdone, decide_False, Bool.false_eq_true, if_false] at h
      by_cases hex : (s.ctxts that).executed = true
      · simp only [hasExecuted, hex, if_true] at h
        by_cases hst : (s.ctxts that).state = .ABORT_SELF
        · simp only [casState, hst, if_true] at h
          cases fuel with
          | zero => simp [spinLoop] at h
          | succ f =>
            unfold spinLoop at h
            simp only [hasState_eq, abortOther_ctxts_state, if_true, decide_True,
              Option.some.injEq] at h
            subst h
            refine ⟨Atoms.single (Atom.helped s l that hown (Or.inr ⟨hst, hex⟩)), ?_, ?_⟩
            · simp
            · intro d; simp
        · simp only [casState, hst, if_false] at h
          exact spinLoop_atoms cmp allowed l that fuel s s2 hown h
      · simp only [hasExecuted, hex, Bool.false_eq_true, if_false] at h
        exact spinLoop_atoms cmp allowed l that fuel s s2 hown h

theorem resolveConflict_atoms (cmp : T → T → Bool) (allowed : T → T → Prop)
    (fuel c l that : Nat) (s s2 : Exec T) (b : Bool) (hrun : Running s c)
    (hown : s.lockOwner l = some that)
    (h : resolveConflict cmp fuel c that s = some (b, s2)) :
    Atoms cmp allowed s s2 ∧ s2.rob = s.rob ∧
      ∀ d, (s2.ctxts d).executed = (s.ctxts d).executed := by
  unfold resolveConflict at h
  by_cases hcmp : ctxtCmp cmp s c that = true
  · simp only [hcmp, if_true] at h
    have ha : Atoms cmp allowed s
        (assertThat (!hasState that .COMMIT_DONE s && !hasState that .COMMITTING s) s) :=
      Atoms.single (Atom.asserted s _)
    generalize hs0 : assertThat (!hasState that .COMMIT_DONE s && !hasState that .COMMITTING s) s
      = s0 at h ha
    have hs0rob : s0.rob = s.rob := by subst hs0; simp
    have hs0ex : ∀ d, (s0.ctxts d).executed = (s.ctxts d).executed := by
      intro d; subst hs0; rfl
    have hs0own : s0.lockOwner l = some that := by subst hs0; simpa using hown
    have hs0st : ∀ d, (s0.ctxts d).state = (s.ctxts d).state := by
      intro d; subst hs0; rfl
    by_cases hdone : (s0.ctxts that).state = .ABORT_DONE
    · simp only [hasState_eq, hdone, decide_True, if_true, Option.some.injEq,
        Prod.mk.injEq] at h
      obtain ⟨_, rfl⟩ := h
      exact ⟨ha, hs0rob, hs0ex⟩
    · simp only [hasState_eq, hdone, decide_False, Bool.false_eq_true, if_false] at h
      by_cases hsch : (s0.ctxts that).state = .SCHEDULED
      · simp only [casState, hsch, if_true, Option.map_eq_some'] at h
        obtain ⟨s3, hspin, h3⟩ := h
        simp only [Prod.mk.injEq] at h3
        obtain ⟨_, rfl⟩ := h3
        have hsig : Atom cmp allowed s0 (setState that .ABORT_SELF s0) :=
          Atom.signalled s0 that hsch
        obtain ⟨h1, h2, h3⟩ := spinLoop_atoms cmp allowed l that fuel _ _
          (by simpa using hs0own) hspin
        refine ⟨(ha.trans (Atoms.single hsig)).trans h1, ?_, ?_⟩
        · rw [h2]; simpa using hs0rob
        · intro d; rw [h3]; simpa using hs0ex d
      · simp only [casState, hsch, if_false] at h
        by_cases hself : (s0.ctxts that).state = .ABORT_SELF
        · simp only [hasState_eq, hself, decide_True, if_true, Option.map_eq_some'] at h
          obtain ⟨s3, hspin, h3⟩ := h
          simp only [Prod.mk.injEq] at h3
          obtain ⟨_, rfl⟩ := h3
          obtain ⟨h1, h2, h3⟩ := spinLoop_atoms cmp allowed l that fuel _ _ hs0own hspin
          refine ⟨ha.trans h1, ?_, ?_⟩
          · rw [h2]; exact hs0rob
          · intro d; rw [h3]; exact hs0ex d
        · simp only [hasState_eq, hself, decide_False, Bool.false_eq_true, if_false] at h
          by_cases hrtc : (s0.ctxts that).state = .READY_TO_COMMIT
          · simp only [hrtc, if_true, Option.some.injEq, Prod.mk.injEq] at h
            obtain ⟨_, rfl⟩ := h
            refine ⟨ha.trans (Atoms.single (Atom.helped s0 l that hs0own (Or.inl hrtc))), ?_, ?_⟩
            · simpa using hs0rob
            · intro d; simpa using hs0ex d
          · simp only [hrtc, if_false, Option.some.injEq, Prod.mk.injEq] at h
            obtain ⟨_, rfl⟩ := h
            exact ⟨ha, hs0rob, hs0ex⟩
  · simp only [hcmp, Bool.false_eq_true, if_false, Option.some.injEq, Prod.mk.injEq] at h
    obtain ⟨_, rfl⟩ := h
    refine ⟨Atoms.single (Atom.loseState s c hrun), ?_, ?_⟩
    · simp
    · intro d; simp

theorem subAcquire_atoms (cmp : T → T → Bool) (allowed : T → T → Prop) (c l : Nat) :
    ∀ (fuel : Nat) (s s1 : Exec T), Running s c → subAcquire cmp fuel c l s = some s1 →
      Atoms cmp allowed s s1
  | 0, s, s1, _, h => by simp [subAcquire] at h
  | fuel + 1, s, s1, hrun, h => by
    unfold subAcquire at h
    cases hown : s.lockOwner l with
    | none =>
      simp only [tryAcquire, hown, Option.some.injEq] at h
      subst h
      exact Atoms.single (Atom.newOwner s c l hrun hown)
    | some o =>
      by_cases hoc : o = c
      · simp only [tryAcquire, hown, hoc, if_true, Option.some.injEq] at h
        subst h
        exact Atoms.single (Atom.asserted s _)
      · simp only [tryAcquire, hown, hoc, if_false, getOwner] at h
        cases hres : resolveConflict cmp fuel c o s with
        | none => simp [hres] at h
        | some r =>
          obtain ⟨b, s2⟩ := r
          simp only [hres] at h
          obtain ⟨h1, h2, h3⟩ := resolveConflict_atoms cmp allowed fuel c l o s s2 b hrun hown hres
          have h4 : Atoms cmp allowed s (setLostConflict c true s2) :=
            h1.trans (Atoms.single (Atom.lostFlag s2 c))
          cases b with
          | true =>
            simp only [if_true, Option.some.injEq] at h
            subst h
            exact h4
          | false =>
            simp only [Bool.false_eq_true, if_false] at h
            have hrun2 : Running (setLostConflict c true s2) c := by
              refine ⟨?_, ?_⟩
              · simpa [h2] using hrun.1
              · simpa [h3] using hrun.2
            exact h4.trans (subAcquire_atoms cmp allowed c l fuel _ s1 hrun2 h)

theorem signalThat_atoms (cmp : T → T → Bool) (allowed : T → T → Prop) (that : Nat)
    (s : Exec T) : Atoms cmp allowed s (signalThat that s) := by
  unfold signalThat
  have ha : Atoms cmp allowed s
      (assertThat (!hasState that .COMMIT_DONE s && !hasState that .COMMITTING s) s) :=
    Atoms.single (Atom.asserted s _)
  generalize assertThat (!hasState that .COMMIT_DONE s && !hasState that .COMMITTING s) s
    = s0 at ha
  by_cases hsch : (s0.ctxts that).state = .SCHEDULED
  · simp only [casState, hsch, if_true]
    exact ha.trans (Atoms.single (Atom.signalled s0 that hsch))
  · simp only [casState, hsch, if_false]
    exact ha

theorem finishIteration_atoms (cmp : T → T → Bool) (allowed : T → T → Prop) (c : Nat)
    (s : Exec T) (hrun : Running s c) : Atoms cmp allowed s (finishIteration c s) := by
  unfold finishIteration
  by_cases hsch : (s.ctxts c).state = .SCHEDULED
  · simp only [casState, hsch, if_true]
    exact Atoms.single (Atom.finishReady s c hrun hsch)
  · by_cases hself : (s.ctxts c).state = .ABORT_SELF
    · have hres : finishIteration c s =
          setExecuted c true (doAbort c (countSelfAbort c (setState c .ABORTING s))) := by
        simp [finishIteration, casState, hself]
      unfold finishIteration at hres
      rw [hres]
      exact Atoms.single (Atom.finishAbort s c hrun hself)
    · simp only [casState, hsch, hself, if_false]
      exact Atoms.single (Atom.finishOnly s c hrun hsch hself)

theorem ctxtCmp_congr (cmp : T → T → Bool) {s t : Exec T}
    (h : ∀ d, (t.ctxts d).active = (s.ctxts d).active) : ctxtCmp cmp t = ctxtCmp cmp s := by
  funext a b
  simp [ctxtCmp, h]

theorem clearROBRound_atoms (cmp : T → T → Bool) (allowed : T → T → Prop) (tid : Nat)
    (s : Exec T) (htid : tid < s.activeThreads) :
    match clearROBRound cmp tid s with
    | .stop => True
    | .reclaimed _ s1 =>
      Atoms cmp allowed s s1 ∧ s1.activeThreads = s.activeThreads ∧
        s.rob.length = s1.rob.length + 1
    | .committed _ s1 =>
      Atoms cmp allowed s s1 ∧ s1.activeThreads = s.activeThreads ∧
        s.rob.length = s1.rob.length + 1 := by
  unfold clearROBRound
  cases htop : heapTop (ctxtCmp cmp s) s.rob with
  | none => simp
  | some head =>
    obtain ⟨rest, hpop⟩ := heapTop_eq_some.mp htop
    simp only
    by_cases hdone : (s.ctxts head).state = .ABORT_DONE
    · simp only [hasState_eq, hdone, decide_True, if_true, hpop]
      refine ⟨Atoms.single (Atom.dropAborted s head rest (heapPop_perm hpop) hdone), ?_, ?_⟩
      · simp
      · simpa using heapPop_length hpop
    · simp only [hasState_eq, hdone, decide_False, Bool.false_eq_true, if_false]
      by_cases hrtc : (s.ctxts head).state = .READY_TO_COMMIT
      · simp only [hrtc, decide_True, if_true]
        by_cases hearly : isEarliest cmp (s.ctxts head).active s = true
        · simp only [hearly, if_true]
          have hcc : ctxtCmp cmp (doCommit tid head (setState head .COMMITTING s))
              = ctxtCmp cmp s := ctxtCmp_congr cmp (by intro d; simp)
          have hrob : (doCommit tid head (setState head .COMMITTING s)).rob = s.rob := by simp
          rw [hcc, hrob, hpop]
          simp only [decide_True]
          refine ⟨Atoms.single (Atom.commit s tid head rest htid hpop hrtc hearly), ?_, ?_⟩
          · simp
          · simpa using heapPop_length hpop
        · simp [hearly]
      · simp [hrtc]

theorem clearROBLoop_atoms (cmp : T → T → Bool) (allowed : T → T → Prop) (tid : Nat) :
    ∀ (fuel : Nat) (s : Exec T) (d : Bool), tid < s.activeThreads →
      Atoms cmp allowed s (clearROBLoop cmp tid fuel s d).2 ∧
        (clearROBLoop cmp tid fuel s d).2.activeThreads = s.activeThreads
  | 0, s, d, _ => ⟨Atoms.refl _, rfl⟩
  | fuel + 1, s, d, htid => by
    have hr := clearROBRound_atoms cmp allowed tid s htid
    unfold clearROBLoop
    cases hround : clearROBRound cmp tid s with
    | stop => exact ⟨Atoms.refl _, rfl⟩
    | reclaimed head s1 =>
      rw [hround] at hr
      obtain ⟨h1, h2, _⟩ := hr
      have ih := clearROBLoop_atoms cmp allowed tid fuel s1 true (by rw [h2]; exact htid)
      exact ⟨h1.trans ih.1, ih.2.trans h2⟩
    | committed head s1 =>
      rw [hround] at hr
      obtain ⟨h1, h2, _⟩ := hr
      have ih := clearROBLoop_atoms cmp allowed tid fuel s1 true (by rw [h2]; exact htid)
      exact ⟨h1.trans ih.1, ih.2.trans h2⟩

theorem pushAll_perm {α : Type} :
    ∀ (buf init : List α), (buf.foldl (fun h c => heapPush c h) init).Perm (buf ++ init)
  | [], init => List.Perm.refl _
  | c :: buf, init => by
    simp only [List.foldl_cons, heapPush_eq, List.cons_append]
    exact (pushAll_perm buf (c :: init)).trans List.perm_middle

theorem setRob_setRob (r r1 : List Nat) (s : Exec T) : setRob r (setRob r1 s) = setRob r s := by
  apply Exec.eq_of_fields <;> simp

theorem setRob_self (s : Exec T) : setRob s.rob s = s := by
  apply Exec.eq_of_fields <;> simp

theorem drainROB_atoms (cmp : T → T → Bool) (allowed : T → T → Prop) :
    ∀ (fuel : Nat) (s : Exec T) (buf : List Nat),
      Atoms cmp allowed (setRob (buf ++ s.rob) s)
        (setRob ((drainROB cmp fuel s buf).2.foldl (fun h c => heapPush c h)
          (drainROB cmp fuel s buf).1.rob) (drainROB cmp fuel s buf).1)
  | 0, s, buf => by
    simp only [drainROB]
    have h := @Atom.permRob T cmp allowed  (setRob (buf ++ s.rob) s)
      (buf.foldl (fun h c => heapPush c h) s.rob) (by simpa using (pushAll_perm buf s.rob).symm)
    rw [setRob_setRob] at h
    exact Atoms.single h
  | fuel + 1, s, buf => by
    unfold drainROB
    cases hpop : heapPop (ctxtCmp cmp s) s.rob with
    | none =>
      simp only
      have h := @Atom.permRob T cmp allowed  (setRob (buf ++ s.rob) s)
        (buf.foldl (fun h c => heapPush c h) s.rob)
        (by simpa using (pushAll_perm buf s.rob).symm)
      rw [setRob_setRob] at h
      exact Atoms.single h
    | some p =>
      obtain ⟨ctx, rest⟩ := p
      have hperm : s.rob.Perm (ctx :: rest) := heapPop_perm hpop
      simp only
      by_cases hdone : (s.ctxts ctx).state = .ABORT_DONE
      · simp only [hasState_eq, setRob_ctxts, hdone, decide_True, if_true]
        have ih := drainROB_atoms cmp allowed fuel (reclaim ctx (setRob rest s)) buf
        have hatom := @Atom.dropAborted T cmp allowed 
          (setRob (buf ++ s.rob) s) ctx (buf ++ rest)
          (by
            simp only [setRob_rob]
            exact (List.Perm.append_left buf hperm).trans List.perm_middle)
          (by simpa using hdone)
        have heq : reclaim ctx (setRob (buf ++ rest) (setRob (buf ++ s.rob) s)) =
            setRob (buf ++ (reclaim ctx (setRob rest s)).rob) (reclaim ctx (setRob rest s)) := by
          apply Exec.eq_of_fields <;> simp
        rw [heq] at hatom
        exact (Atoms.single hatom).trans ih
      · simp only [hasState_eq, setRob_ctxts, hdone, decide_False, Bool.false_eq_true, if_false]
        have ih := drainROB_atoms cmp allowed fuel (setRob rest s) (buf ++ [ctx])
        have hatom := @Atom.permRob T cmp allowed 
          (setRob (buf ++ s.rob) s) (buf ++ [ctx] ++ rest)
          (by
            simp only [setRob_rob, List.append_assoc, List.singleton_append]
            exact List.Perm.append_left buf hperm)
        have heq : setRob (buf ++ [ctx] ++ rest) (setRob (buf ++ s.rob) s) =
            setRob (buf ++ [ctx] ++ (setRob rest s).rob) (setRob rest s) := by
          apply Exec.eq_of_fields <;> simp
        rw [heq] at hatom
        exact (Atoms.single hatom).trans ih

theorem reclaimGlobally_atoms (cmp : T → T → Bool) (allowed : T → T → Prop) (s : Exec T) :
    Atoms cmp allowed s (reclaimGlobally cmp s) := by
  unfold reclaimGlobally
  have h1 : Atoms cmp allowed s (addNumGlobalCleanups s) :=
    Atoms.single (Atom.cleanupCount s)
  have h2 := drainROB_atoms cmp allowed (addNumGlobalCleanups s).rob.length
    (addNumGlobalCleanups s) []
  simp only [List.nil_append, setRob_self] at h2
  exact h1.trans h2

theorem clearROB_atoms (cmp : T → T → Bool) (allowed : T → T → Prop) (tid : Nat)
    (s : Exec T) (htid : tid < s.activeThreads) :
    Atoms cmp allowed s (clearROB cmp tid s).2 := by
  unfold clearROB
  have h := (clearROBLoop_atoms cmp allowed tid s.rob.length s false htid).1
  simp only
  split
  · exact h.trans (reclaimGlobally_atoms cmp allowed _)
  · exact h

/-- Every step of a run is a sequence of state changes. -/
theorem Step.atoms_step {cmp : T → T → Bool} {allowed : T → T → Prop} {s s1 : Exec T}
    (h : Step cmp allowed s s1) : Atoms cmp allowed s s1 := by
  cases h with
  | schedule tid htid => exact scheduleGlobalMinFirst_atoms cmp allowed tid s htid
  | acquire c l fuel _ hrun hsub => exact subAcquire_atoms cmp allowed c l fuel s _ hrun hsub
  | signal c l that hrun hown hne hcmp hst =>
    exact (signalThat_atoms cmp allowed that s).trans (Atoms.single (Atom.lostFlag _ c))
  | opPush c x hrun hal => exact Atoms.single (Atom.opPush s c x hrun hal)
  | finish c hrun => exact finishIteration_atoms cmp allowed c s hrun
  | clear tid htid => exact clearROB_atoms cmp allowed tid s htid

theorem Reachable.atoms_reach {cmp : T → T → Bool} {allowed : T → T → Prop} {s0 s : Exec T}
    (h : Reachable cmp allowed s0 s) : Atoms cmp allowed s0 s := by
  induction h with
  | init => exact Atoms.refl _
  | step a b _ hstep ih => exact ih.trans hstep.atoms_step

/-- Invariance principle for runs: a property of the start state that every state
change keeps holds in every reachable state. -/
theorem Reachable.invariant {cmp : T → T → Bool} {allowed : T → T → Prop}
    {P : Exec T → Prop} (hstep : ∀ s s1, P s → Atom cmp allowed s s1 → P s1)
    {s0 s : Exec T} (h0 : P s0) (h : Reachable cmp allowed s0 s) : P s :=
  Atoms.preserves hstep h.atoms_reach h0

end Decompose
/-! ## The structural invariant -/

section WellFormed

variable {T : Type}

@[simp] theorem countSelfAbort_activeThreads (c : Nat) (s : Exec T) :
    (countSelfAbort c s).activeThreads = s.activeThreads := by
  unfold countSelfAbort; split <;> rfl

@[simp] theorem countSelfAbort_maxThreads (c : Nat) (s : Exec T) :
    (countSelfAbort c s).maxThreads = s.maxThreads := by
  unfold countSelfAbort; split <;> rfl

@[simp] theorem countSelfAbort_ctxts (c : Nat) (s : Exec T) :
    (countSelfAbort c s).ctxts = s.ctxts := by
  unfold countSelfAbort; split <;> rfl

@[simp] theorem countSelfAbort_lockOwner (c : Nat) (s : Exec T) :
    (countSelfAbort c s).lockOwner = s.lockOwner := by
  unfold countSelfAbort; split <;> rfl

@[simp] theorem countSelfAbort_pending (c : Nat) (s : Exec T) :
    (countSelfAbort c s).pending = s.pending := by
  unfold countSelfAbort; split <;> rfl

@[simp] theorem countSelfAbort_rob (c : Nat) (s : Exec T) :
    (countSelfAbort c s).rob = s.rob := by
  unfold countSelfAbort; split <;> rfl

@[simp] theorem countSelfAbort_freeList (c : Nat) (s : Exec T) :
    (countSelfAbort c s).freeList = s.freeList := by
  unfold countSelfAbort; split <;> rfl

@[simp] theorem countSelfAbort_numTotal (c : Nat) (s : Exec T) :
    (countSelfAbort c s).numTotal = s.numTotal := by
  unfold countSelfAbort; split <;> rfl

@[simp] theorem countSelfAbort_numCommitted (c : Nat) (s : Exec T) :
    (countSelfAbort c s).numCommitted = s.numCommitted := by
  unfold countSelfAbort; split <;> rfl

@[simp] theorem countSelfAbort_numGlobalCleanups (c : Nat) (s : Exec T) :
    (countSelfAbort c s).numGlobalCleanups = s.numGlobalCleanups := by
  unfold countSelfAbort; split <;> rfl

@[simp] theorem countSelfAbort_abortByOther (c : Nat) (s : Exec T) :
    (countSelfAbort c s).abortByOther = s.abortByOther := by
  unfold countSelfAbort; split <;> rfl

@[simp] theorem countSelfAbort_commitLog (c : Nat) (s : Exec T) :
    (countSelfAbort c s).commitLog = s.commitLog := by
  unfold countSelfAbort; split <;> rfl

@[simp] theorem countSelfAbort_publishLog (c : Nat) (s : Exec T) :
    (countSelfAbort c s).publishLog = s.publishLog := by
  unfold countSelfAbort; split <;> rfl

@[simp] theorem countSelfAbort_stateLog (c : Nat) (s : Exec T) :
    (countSelfAbort c s).stateLog = s.stateLog := by
  unfold countSelfAbort; split <;> rfl

@[simp] theorem countSelfAbort_assertFailed (c : Nat) (s : Exec T) :
    (countSelfAbort c s).assertFailed = s.assertFailed := by
  unfold countSelfAbort; split <;> rfl

/-- The self abort increments exactly one of the two self-abort counters. -/
theorem countSelfAbort_sum (c : Nat) (s : Exec T) :
    (countSelfAbort c s).abortSelfByConflict + (countSelfAbort c s).abortSelfBySignal =
      s.abortSelfByConflict + s.abortSelfBySignal + 1 := by
  unfold countSelfAbort
  split
  · simp only [addAbortSelfByConflict_abortSelfByConflict, addAbortSelfByConflict_abortSelfBySignal]
    omega
  · simp only [addAbortSelfBySignal_abortSelfByConflict, addAbortSelfBySignal_abortSelfBySignal]
    omega

/-- What the loop of `releaseLocks` leaves in an owner word. -/
theorem releaseFold_apply (c : Nat) :
    ∀ (ls : List Nat) (own : Nat → Option Nat) (l : Nat),
      (ls.foldl (releaseOne c) own) l = if l ∈ ls ∧ own l = some c then none else own l
  | [], own, l => by simp
  | x :: ls, own, l => by
    rw [List.foldl_cons, releaseFold_apply c ls]
    unfold releaseOne
    by_cases hx : own x = some c
    · simp only [hx, if_true]
      by_cases hlx : l = x
      · subst hlx
        simp [hx]
      · simp only [Function.update_noteq hlx, List.mem_cons, hlx, false_or]
    · simp only [hx, if_false]
      by_cases hlx : l = x
      · subst hlx
        simp [hx]
      · simp only [List.mem_cons, hlx, false_or]

/-- When every Lockable a context owns is in its neighborhood, `releaseLocks` leaves
the context without any Lockable and does not touch the others. -/
theorem releaseFold_owned (c : Nat) (ls : List Nat) (own : Nat → Option Nat)
    (h : ∀ l, own l = some c → l ∈ ls) (l : Nat) :
    (ls.foldl (releaseOne c) own) l = if own l = some c then none else own l := by
  rw [releaseFold_apply]
  by_cases hc : own l = some c
  · simp [hc, h l hc]
  · simp [hc]

theorem WF.executed_of_state {s : Exec T} (h : WF s) {c : Nat} (hc : c ∈ s.rob)
    (hs : (s.ctxts c).state ≠ .SCHEDULED) (ha : (s.ctxts c).state ≠ .ABORT_SELF) :
    (s.ctxts c).executed = true := by
  cases he : (s.ctxts c).executed with
  | true => rfl
  | false =>
    rcases h.notExecuted c hc he with h1 | h1
    · exact absurd h1 hs
    · exact absurd h1 ha

theorem WF.running_state {s : Exec T} (h : WF s) {c : Nat} (hrun : Running s c) :
    (s.ctxts c).state = .SCHEDULED ∨ (s.ctxts c).state = .ABORT_SELF :=
  h.notExecuted c hrun.1 hrun.2

theorem WF_sched (cmp : T → T → Bool) (s : Exec T) (h : WF s) (tid ctx j : Nat) (x : T)
    (rest : List T) (htid : tid < s.activeThreads) (hj : j < s.activeThreads)
    (hctx : (s.freeList tid).getLast? = some ctx)
    (_hpop : heapPop cmp (s.pending j) = some (x, rest)) :
    WF (addNumTotal (setRob (heapPush ctx s.rob)
      (setOwner ctx tid (setState ctx .SCHEDULED
        (construct ctx x tid (setPending j rest
          (setFreeList tid (s.freeList tid).dropLast s))))))) := by
  have hmem : ctx ∈ s.freeList tid := List.mem_of_getLast?_eq_some hctx
  have hnotrob : ctx ∉ s.rob := h.freeNotRob tid ctx hmem
  have hsplit : (s.freeList tid).dropLast ++ [ctx] = s.freeList tid :=
    List.dropLast_append_getLast? ctx hctx
  have hnd : ((s.freeList tid).dropLast ++ [ctx]).Nodup := by
    rw [hsplit]; exact h.freeNodup tid
  have hnotdrop : ctx ∉ (s.freeList tid).dropLast := by
    intro hin
    have := List.nodup_append.mp hnd
    exact this.2.2 hin (List.mem_singleton_self ctx)
  refine ⟨?_, ?_, ?_, ?_, ?_, ?_, ?_, ?_⟩
  · intro l c hl
    simp only [addNumTotal_lockOwner, setRob_lockOwner, setOwner_lockOwner, setState_lockOwner,
      construct_lockOwner, setPending_lockOwner, setFreeList_lockOwner] at hl
    obtain ⟨h1, h2, h3, h4⟩ := h.owned l c hl
    have hne : c ≠ ctx := fun e => hnotrob (e ▸ h2)
    simp [hne, h1, h2, h3, h4]
  · simpa using ⟨hnotrob, h.robNodup⟩
  · intro w c hc
    simp only [addNumTotal_freeList, setRob_freeList, setOwner_freeList, setState_freeList,
      construct_freeList, setPending_freeList, setFreeList_freeList, Function.update_apply] at hc
    simp only [addNumTotal_rob, setRob_rob, heapPush_eq, List.mem_cons, not_or]
    by_cases hw : w = tid
    · subst hw
      simp only [if_true] at hc
      exact ⟨fun e => hnotdrop (e ▸ hc), h.freeNotRob w c (List.mem_of_mem_dropLast hc)⟩
    · simp only [hw, if_false] at hc
      exact ⟨fun e => hw (h.freeDisjoint w tid c hc (e ▸ hmem)), h.freeNotRob w c hc⟩
  · intro w
    simp only [addNumTotal_freeList, setRob_freeList, setOwner_freeList, setState_freeList,
      construct_freeList, setPending_freeList, setFreeList_freeList, Function.update_apply]
    by_cases hw : w = tid
    · subst hw
      simp only [if_true]
      exact (List.dropLast_sublist _).nodup (h.freeNodup w)
    · simp only [hw, if_false]
      exact h.freeNodup w
  · intro w w1 c hc hc1
    simp only [addNumTotal_freeList, setRob_freeList, setOwner_freeList, setState_freeList,
      construct_freeList, setPending_freeList, setFreeList_freeList, Function.update_apply]
      at hc hc1
    have m1 : c ∈ s.freeList w := by
      by_cases hw : w = tid
      · subst hw; simp only [if_true] at hc; exact List.mem_of_mem_dropLast hc
      · simpa [hw] using hc
    have m2 : c ∈ s.freeList w1 := by
      by_cases hw : w1 = tid
      · subst hw; simp only [if_true] at hc1; exact List.mem_of_mem_dropLast hc1
      · simpa [hw] using hc1
    exact h.freeDisjoint w w1 c m1 m2
  · intro c hc hex
    simp only [addNumTotal_rob, setRob_rob, heapPush_eq, List.mem_cons] at hc
    by_cases hcc : c = ctx
    · subst hcc; simp
    · have hc2 : c ∈ s.rob := by simpa [hcc] using hc
      have hex2 : (s.ctxts c).executed = false := by simpa [hcc] using hex
      simpa [hcc] using h.notExecuted c hc2 hex2
  · intro c hc
    simp only [addNumTotal_rob, setRob_rob, heapPush_eq, List.mem_cons] at hc
    by_cases hcc : c = ctx
    · subst hcc; simpa using htid
    · have hc2 : c ∈ s.rob := by simpa [hcc] using hc
      simpa [hcc] using h.ownerValid c hc2
  · intro i hi
    have hij : i ≠ j := by
      simp only [addNumTotal_activeThreads, setRob_activeThreads, setOwner_activeThreads,
        setState_activeThreads, construct_activeThreads, setPending_activeThreads,
        setFreeList_activeThreads] at hi
      omega
    simpa [Function.update_noteq hij] using h.pendingValid i (by simpa using hi)

/-- A state change that only touches context members other than the neighborhood and
the owner, and ends no context, keeps the structural invariant. -/
theorem WF.of_ctxts {s t : Exec T} (h : WF s)
    (h1 : t.lockOwner = s.lockOwner) (h2 : t.rob = s.rob) (h3 : t.freeList = s.freeList)
    (h4 : t.activeThreads = s.activeThreads) (h5 : t.pending = s.pending)
    (hn : ∀ d, (t.ctxts d).nhood = (s.ctxts d).nhood)
    (ho : ∀ d, (t.ctxts d).owner = (s.ctxts d).owner)
    (hterm : ∀ d, (s.ctxts d).state ≠ .ABORT_DONE → (s.ctxts d).state ≠ .COMMIT_DONE →
      (t.ctxts d).state ≠ .ABORT_DONE ∧ (t.ctxts d).state ≠ .COMMIT_DONE)
    (hex : ∀ d, d ∈ s.rob → (t.ctxts d).executed = false →
      (t.ctxts d).state = .SCHEDULED ∨ (t.ctxts d).state = .ABORT_SELF) : WF t := by
  refine ⟨?_, ?_, ?_, ?_, ?_, ?_, ?_, ?_⟩
  · intro l c hl
    rw [h1] at hl
    obtain ⟨a1, a2, a3, a4⟩ := h.owned l c hl
    rw [hn, h2]
    exact ⟨a1, a2, hterm c a3 a4⟩
  · rw [h2]; exact h.robNodup
  · intro w c hc
    rw [h3] at hc; rw [h2]
    exact h.freeNotRob w c hc
  · intro w; rw [h3]; exact h.freeNodup w
  · intro w w1 c hc hc1
    rw [h3] at hc hc1
    exact h.freeDisjoint w w1 c hc hc1
  · intro c hc he
    rw [h2] at hc
    exact hex c hc he
  · intro c hc
    rw [h2] at hc; rw [ho, h4]
    exact h.ownerValid c hc
  · intro i hi
    rw [h4] at hi; rw [h5]
    exact h.pendingValid i hi

/-- An abort of context `x` of the reorder buffer keeps the structural invariant. -/
theorem WF.of_abort_wf {s t : Exec T} (h : WF s) (x : Nat) (hx : x ∈ s.rob)
    (hl : ∀ l, t.lockOwner l = if s.lockOwner l = some x then none else s.lockOwner l)
    (h2 : t.rob = s.rob) (h3 : t.freeList = s.freeList)
    (h4 : t.activeThreads = s.activeThreads)
    (h5 : ∀ i, i ≠ (s.ctxts x).owner / 2 → t.pending i = s.pending i)
    (hn : ∀ d, (t.ctxts d).nhood = (s.ctxts d).nhood)
    (ho : ∀ d, (t.ctxts d).owner = (s.ctxts d).owner)
    (hst : ∀ d, d ≠ x → (t.ctxts d).state = (s.ctxts d).state)
    (hex : ∀ d, d ≠ x → (t.ctxts d).executed = (s.ctxts d).executed)
    (hexx : (t.ctxts x).executed = true) : WF t := by
  refine ⟨?_, ?_, ?_, ?_, ?_, ?_, ?_, ?_⟩
  · intro l c hlc
    rw [hl] at hlc
    by_cases hown : s.lockOwner l = some x
    · simp [hown] at hlc
    · simp only [hown, if_false] at hlc
      have hcx : c ≠ x := fun e => hown (e ▸ hlc)
      obtain ⟨a1, a2, a3, a4⟩ := h.owned l c hlc
      rw [hn, h2, hst c hcx]
      exact ⟨a1, a2, a3, a4⟩
  · rw [h2]; exact h.robNodup
  · intro w c hc
    rw [h3] at hc; rw [h2]
    exact h.freeNotRob w c hc
  · intro w; rw [h3]; exact h.freeNodup w
  · intro w w1 c hc hc1
    rw [h3] at hc hc1
    exact h.freeDisjoint w w1 c hc hc1
  · intro c hc he
    rw [h2] at hc
    have hcx : c ≠ x := by
      intro e
      subst e
      rw [hexx] at he
      exact absurd he (by simp)
    rw [hst c hcx]
    rw [hex c hcx] at he
    exact h.notExecuted c hc he
  · intro c hc
    rw [h2] at hc; rw [ho, h4]
    exact h.ownerValid c hc
  · intro i hi
    rw [h4] at hi
    have hox := h.ownerValid x hx
    have hne : i ≠ (s.ctxts x).owner / 2 := by
      have : (s.ctxts x).owner / 2 ≤ (s.ctxts x).owner := Nat.div_le_self _ _
      omega
    rw [h5 i hne]
    exact h.pendingValid i hi

/-- Taking context `x` out of the reorder buffer and onto a free list, after it has
given up its Lockables, keeps the structural invariant. -/
theorem WF.of_retire {s t : Exec T} (h : WF s) (x : Nat) (rest : List Nat)
    (hperm : s.rob.Perm (x :: rest))
    (hl : ∀ l, t.lockOwner l = if s.lockOwner l = some x then none else s.lockOwner l)
    (h2 : t.rob = rest)
    (h3 : t.freeList =
      Function.update s.freeList (s.ctxts x).owner (s.freeList (s.ctxts x).owner ++ [x]))
    (h4 : t.activeThreads = s.activeThreads)
    (h5 : ∀ i, s.activeThreads ≤ i → t.pending i = s.pending i)
    (hn : ∀ d, d ≠ x → (t.ctxts d).nhood = (s.ctxts d).nhood)
    (ho : ∀ d, d ≠ x → (t.ctxts d).owner = (s.ctxts d).owner)
    (hst : ∀ d, d ≠ x → (t.ctxts d).state = (s.ctxts d).state)
    (hex : ∀ d, d ≠ x → (t.ctxts d).executed = (s.ctxts d).executed) : WF t := by
  have hxrob : x ∈ s.rob := hperm.symm.subset (List.mem_cons_self _ _)
  have hnd : (x :: rest).Nodup := hperm.nodup_iff.mp h.robNodup
  have hxrest : x ∉ rest := (List.nodup_cons.mp hnd).1
  have hsub : ∀ d, d ∈ rest → d ∈ s.rob := fun d hd =>
    hperm.symm.subset (List.mem_cons_of_mem _ hd)
  have hne : ∀ d, d ∈ rest → d ≠ x := fun d hd e => hxrest (e ▸ hd)
  have hxfree : ∀ w, x ∉ s.freeList w := fun w hw => h.freeNotRob w x hw hxrob
  refine ⟨?_, ?_, ?_, ?_, ?_, ?_, ?_, ?_⟩
  · intro l c hlc
    rw [hl] at hlc
    by_cases hown : s.lockOwner l = some x
    · simp [hown] at hlc
    · simp only [hown, if_false] at hlc
      have hcx : c ≠ x := fun e => hown (e ▸ hlc)
      obtain ⟨a1, a2, a3, a4⟩ := h.owned l c hlc
      rw [hn c hcx, h2, hst c hcx]
      refine ⟨a1, ?_, a3, a4⟩
      rcases List.mem_cons.mp (hperm.subset a2) with e | e
      · exact absurd e hcx
      · exact e
  · rw [h2]; exact (List.nodup_cons.mp hnd).2
  · intro w c hc
    rw [h3, Function.update_apply] at hc
    rw [h2]
    by_cases hw : w = (s.ctxts x).owner
    · simp only [hw, if_true, List.mem_append, List.mem_singleton] at hc
      rcases hc with hc | hc
      · exact fun hr => h.freeNotRob _ c hc (hsub c hr)
      · rw [hc]; exact hxrest
    · simp only [hw, if_false] at hc
      exact fun hr => h.freeNotRob _ c hc (hsub c hr)
  · intro w
    rw [h3, Function.update_apply]
    by_cases hw : w = (s.ctxts x).owner
    · simp only [hw, if_true]
      refine List.nodup_append.mpr ⟨h.freeNodup _, List.nodup_singleton x, ?_⟩
      intro a ha hb
      rw [List.mem_singleton.mp hb] at ha
      exact hxfree _ ha
    · simp only [hw, if_false]
      exact h.freeNodup w
  · intro w w1 c hc hc1
    rw [h3, Function.update_apply] at hc hc1
    by_cases hcx : c = x
    · subst hcx
      have e1 : w = (s.ctxts c).owner := by
        by_contra hw
        simp only [hw, if_false] at hc
        exact hxfree w hc
      have e2 : w1 = (s.ctxts c).owner := by
        by_contra hw
        simp only [hw, if_false] at hc1
        exact hxfree w1 hc1
      rw [e1, e2]
    · have m1 : c ∈ s.freeList w := by
        by_cases hw : w = (s.ctxts x).owner
        · simp only [hw, if_true, List.mem_append, List.mem_singleton, hcx, or_false] at hc
          rw [hw]; exact hc
        · simpa [hw] using hc
      have m2 : c ∈ s.freeList w1 := by
        by_cases hw : w1 = (s.ctxts x).owner
        · simp only [hw, if_true, List.mem_append, List.mem_singleton, hcx, or_false] at hc1
          rw [hw]; exact hc1
        · simpa [hw] using hc1
      exact h.freeDisjoint w w1 c m1 m2
  · intro c hc he
    rw [h2] at hc
    rw [hst c (hne c hc)]
    rw [hex c (hne c hc)] at he
    exact h.notExecuted c (hsub c hc) he
  · intro c hc
    rw [h2] at hc
    rw [ho c (hne c hc), h4]
    exact h.ownerValid c (hsub c hc)
  · intro i hi
    rw [h4] at hi
    rw [h5 i hi]
    exact h.pendingValid i hi

theorem WF.released {s : Exec T} (h : WF s) (x l : Nat) :
    ((s.ctxts x).nhood.foldl (releaseOne x) s.lockOwner) l =
      if s.lockOwner l = some x then none else s.lockOwner l :=
  releaseFold_owned x _ _ (fun l1 h1 => (h.owned l1 x h1).1) l

/-- Every state change keeps the structural invariant. -/
theorem WF.atom_wf {cmp : T → T → Bool} {allowed : T → T → Prop} {s s1 : Exec T}
    (h : WF s) (ha : Atom cmp allowed s s1) : WF s1 := by
  cases ha with
  | sched tid ctx j x rest htid hj hctx hpop =>
    exact WF_sched cmp s h tid ctx j x rest htid hj hctx hpop
  | newOwner c l hrun hnone =>
    have hstate := h.running_state hrun
    refine ⟨?_, ?_, ?_, ?_, ?_, ?_, ?_, ?_⟩
    · intro l1 c1 hl
      simp only [nhoodPushBack_lockOwner, setLockOwner_lockOwner, Function.update_apply] at hl
      simp only [nhoodPushBack_ctxts_nhood, setLockOwner_ctxts, nhoodPushBack_rob,
        setLockOwner_rob, nhoodPushBack_ctxts_state]
      by_cases hll : l1 = l
      · simp only [hll, if_true, Option.some.injEq] at hl
        subst hl
        refine ⟨by simp [hll], hrun.1, ?_, ?_⟩
        · rcases hstate with e | e <;> simp [e]
        · rcases hstate with e | e <;> simp [e]
      · simp only [hll, if_false] at hl
        obtain ⟨a1, a2, a3, a4⟩ := h.owned l1 c1 hl
        refine ⟨?_, a2, a3, a4⟩
        by_cases hc : c1 = c
        · simp [hc, hc ▸ a1]
        · simp [hc, a1]
    · simpa using h.robNodup
    · intro w d hd; simpa using h.freeNotRob w d (by simpa using hd)
    · intro w; simpa using h.freeNodup w
    · intro w w1 d hd hd1
      exact h.freeDisjoint w w1 d (by simpa using hd) (by simpa using hd1)
    · intro d hd he
      simpa using h.notExecuted d (by simpa using hd) (by simpa using he)
    · intro d hd; simpa using h.ownerValid d (by simpa using hd)
    · intro i hi; simpa using h.pendingValid i (by simpa using hi)
  | asserted cond =>
    exact h.of_ctxts rfl rfl rfl rfl rfl (fun _ => rfl) (fun _ => rfl)
      (fun d a b => ⟨a, b⟩) (fun d hd he => h.notExecuted d hd he)
  | loseState c hrun =>
    have hstate := h.running_state hrun
    refine h.of_ctxts rfl rfl rfl rfl rfl (fun d => by simp) (fun d => by simp) ?_ ?_
    · intro d a b
      by_cases hd : d = c
      · simp [hd]
      · simpa [hd] using And.intro a b
    · intro d hd he
      by_cases hdc : d = c
      · simp [hdc]
      · simpa [hdc] using h.notExecuted d hd (by simpa using he)
  | lostFlag c =>
    exact h.of_ctxts rfl rfl rfl rfl rfl (fun d => by simp) (fun d => by simp)
      (fun d a b => by simpa using And.intro a b)
      (fun d hd he => by simpa using h.notExecuted d hd (by simpa using he))
  | signalled that hst =>
    refine h.of_ctxts rfl rfl rfl rfl rfl (fun d => by simp) (fun d => by simp) ?_ ?_
    · intro d a b
      by_cases hd : d = that
      · simp [hd]
      · simpa [hd] using And.intro a b
    · intro d hd he
      by_cases hdc : d = that
      · simp [hdc]
      · simpa [hdc] using h.notExecuted d hd (by simpa using he)
  | helped l that hown hst =>
    obtain ⟨a1, a2, a3, a4⟩ := h.owned l that hown
    have hexec : (s.ctxts that).executed = true := by
      rcases hst with e | ⟨_, e⟩
      · exact h.executed_of_state a2 (by simp [e]) (by simp [e])
      · exact e
    refine h.of_abort_wf that a2 ?_ (by simp) (by simp) (by simp) ?_ (fun d => by simp)
      (fun d => by simp) ?_ (fun d _ => by simp) (by simpa using hexec)
    · intro l1
      simpa using h.released that l1
    · intro i hi
      simp [Function.update_apply, hi]
    · intro d hd
      simp [hd]
  | opPush c x hrun hal =>
    exact h.of_ctxts rfl rfl rfl rfl rfl (fun d => by simp) (fun d => by simp)
      (fun d a b => by simpa using And.intro a b)
      (fun d hd he => by simpa using h.notExecuted d hd (by simpa using he))
  | finishReady c hrun hst =>
    refine h.of_ctxts rfl rfl rfl rfl rfl (fun d => by simp) (fun d => by simp) ?_ ?_
    · intro d a b
      by_cases hd : d = c
      · simp [hd]
      · simpa [hd] using And.intro a b
    · intro d hd he
      by_cases hdc : d = c
      · simp [hdc] at he
      · simpa [hdc] using h.notExecuted d hd (by simpa [hdc] using he)
  | finishAbort c hrun hst =>
    refine h.of_abort_wf c hrun.1 ?_ (by simp) (by simp) (by simp) ?_ (fun d => by simp)
      (fun d => by simp) ?_ ?_ (by simp)
    · intro l1
      simpa using h.released c l1
    · intro i hi
      simp [Function.update_apply, hi]
    · intro d hd
      simp [hd]
    · intro d hd
      simp [hd]
  | finishOnly c hrun h1 h2 =>
    refine h.of_ctxts rfl rfl rfl rfl rfl (fun d => by simp) (fun d => by simp)
      (fun d a b => by simpa using And.intro a b) ?_
    intro d hd he
    by_cases hdc : d = c
    · simp [hdc] at he
    · simpa [hdc] using h.notExecuted d hd (by simpa [hdc] using he)
  | commit tid head rest htid hpop hst hearly =>
    have hperm := heapPop_perm hpop
    refine h.of_retire head rest hperm ?_ (by simp) (by simp) (by simp) ?_ ?_ ?_ ?_ ?_
    · intro l1
      simpa using h.released head l1
    · intro i hi
      have : i ≠ tid := by omega
      simp [Function.update_noteq this]
    · intro d hd; simp
    · intro d hd; simp
    · intro d hd; simp [hd]
    · intro d hd; simp
  | dropAborted c rest hperm hst =>
    refine h.of_retire c rest hperm ?_ (by simp) (by simp) (by simp) ?_ ?_ ?_ ?_ ?_
    · intro l1
      by_cases hown : s.lockOwner l1 = some c
      · exact absurd hst (h.owned l1 c hown).2.2.1
      · simp [hown]
    · intro i hi; simp
    · intro d hd; simp
    · intro d hd; simp
    · intro d hd; simp
    · intro d hd; simp
  | permRob r hperm =>
    refine ⟨?_, ?_, ?_, ?_, ?_, ?_, ?_, ?_⟩
    · intro l c hl
      obtain ⟨a1, a2, a3, a4⟩ := h.owned l c (by simpa using hl)
      exact ⟨by simpa using a1, by simpa using hperm.subset a2, by simpa using a3,
        by simpa using a4⟩
    · simpa using hperm.nodup_iff.mp h.robNodup
    · intro w d hd
      have := h.freeNotRob w d (by simpa using hd)
      simpa using fun hr => this (hperm.symm.subset hr)
    · intro w; simpa using h.freeNodup w
    · intro w w1 d hd hd1
      exact h.freeDisjoint w w1 d (by simpa using hd) (by simpa using hd1)
    · intro d hd he
      simpa using h.notExecuted d (hperm.symm.subset (by simpa using hd)) (by simpa using he)
    · intro d hd
      simpa using h.ownerValid d (hperm.symm.subset (by simpa using hd))
    · intro i hi; simpa using h.pendingValid i (by simpa using hi)
  | cleanupCount =>
    exact h.of_ctxts rfl rfl rfl rfl rfl (fun _ => rfl) (fun _ => rfl)
      (fun d a b => ⟨a, b⟩) (fun d hd he => h.notExecuted d hd he)

end WellFormed
/-! ## The state after push_initial -/

section InitialState

variable {T : Type}

theorem foldl_preserves {α β : Type} (P : β → Prop) (f : β → α → β)
    (hf : ∀ b a, P b → P (f b a)) : ∀ (l : List α) (b : β), P b → P (l.foldl f b)
  | [], _, hb => hb
  | a :: l, b, hb => foldl_preserves P f hf l (f b a) (hf b a hb)

theorem pushEach_preserves (P : Exec T → Prop) (assign : Nat → Nat)
    (hP : ∀ s k y, P s → P (pushLocal (assign k) y s)) :
    ∀ (rest : List T) (k : Nat) (s : Exec T), P s → P (pushEach assign k rest s)
  | [], _, _, hs => hs
  | y :: ys, k, s, hs => pushEach_preserves P assign hP ys (k + 1) _ (hP s k y hs)

theorem allocAll_preserves (P : Exec T → Prop) (window : Nat) (dummy : T)
    (hP : ∀ s tid j, P s → P (allocSlot window dummy tid s j)) (s : Exec T) (hs : P s) :
    P (allocAll window dummy s) := by
  unfold allocAll
  exact foldl_preserves P _
    (fun b tid hb => foldl_preserves P _ (fun b1 j hb1 => hP b1 tid j hb1) _ b hb) _ s hs

theorem allocInner_freeList (window : Nat) (dummy : T) (tid : Nat) :
    ∀ (k : Nat) (s : Exec T),
      ((List.range k).foldl (allocSlot window dummy tid) s).freeList =
        Function.update s.freeList tid
          (s.freeList tid ++ (List.range k).map (fun j => tid * window + j))
  | 0, s => by simp
  | k + 1, s => by
    rw [List.range_succ, List.foldl_append, List.foldl_cons, List.foldl_nil]
    simp only [allocSlot, setFreeList_freeList, setState_freeList, construct_freeList,
      allocInner_freeList window dummy tid k s, Function.update_same,
      Function.update_idem, List.map_append, List.map_cons, List.map_nil, List.append_assoc]

theorem allocOuter_freeList (window : Nat) (dummy : T) :
    ∀ (m : Nat) (s : Exec T) (w : Nat),
      ((List.range m).foldl
          (fun s1 tid => (List.range window).foldl (allocSlot window dummy tid) s1) s).freeList w =
        if w < m then s.freeList w ++ (List.range window).map (fun j => w * window + j)
        else s.freeList w
  | 0, s, w => by simp
  | m + 1, s, w => by
    have ih := allocOuter_freeList window dummy m s
    rw [List.range_succ, List.foldl_append, List.foldl_cons, List.foldl_nil,
      allocInner_freeList, Function.update_apply]
    by_cases hw : w = m
    · subst hw
      simp [ih]
    · simp only [hw, if_false, ih]
      by_cases hlt : w < m
      · simp [hlt, Nat.lt_succ_of_lt hlt]
      · have : ¬ w < m + 1 := by omega
        simp [hlt, this]

theorem Pristine.pushLocal {n : Nat} {s : Exec T} (h : Pristine n s) (tid : Nat) (y : T)
    (htid : tid < n) : Pristine n (pushLocal tid y s) := by
  refine ⟨h.rob, h.lockOwner, h.activeThreads, ?_, h.numTotal, h.numCommitted,
    h.numGlobalCleanups, h.abortSelfByConflict, h.abortSelfBySignal, h.abortByOther,
    h.commitLog, h.publishLog, h.ctxts, h.stateLog⟩
  intro i hi
  have hne : i ≠ tid := by omega
  simp [Function.update_noteq hne, h.pendingValid i hi]

theorem Pristine.allocSlot {n : Nat} {s : Exec T} (h : Pristine n s) (window : Nat)
    (dummy : T) (tid j : Nat) : Pristine n (allocSlot window dummy tid s j) := by
  refine ⟨by simpa [ROBexecutor.allocSlot] using h.rob,
    by simpa [ROBexecutor.allocSlot] using h.lockOwner,
    by simpa [ROBexecutor.allocSlot] using h.activeThreads,
    by simpa [ROBexecutor.allocSlot] using h.pendingValid,
    by simpa [ROBexecutor.allocSlot] using h.numTotal,
    by simpa [ROBexecutor.allocSlot] using h.numCommitted,
    by simpa [ROBexecutor.allocSlot] using h.numGlobalCleanups,
    by simpa [ROBexecutor.allocSlot] using h.abortSelfByConflict,
    by simpa [ROBexecutor.allocSlot] using h.abortSelfBySignal,
    by simpa [ROBexecutor.allocSlot] using h.abortByOther,
    by simpa [ROBexecutor.allocSlot] using h.commitLog,
    by simpa [ROBexecutor.allocSlot] using h.publishLog, ?_, ?_⟩
  · intro d
    by_cases hd : d = tid * window + j
    · simp [ROBexecutor.allocSlot, hd]
    · simpa [ROBexecutor.allocSlot, hd] using h.ctxts d
  · intro e he
    simp only [ROBexecutor.allocSlot, setFreeList_stateLog, setState_stateLog,
      construct_stateLog, construct_ctxts_state, if_true, List.mem_cons] at he
    rcases he with he | he
    · rw [he]
    · exact h.stateLog e he

theorem Pristine.fresh (n maxT : Nat) (junk : T) : Pristine n (Exec.fresh n maxT junk) := by
  refine ⟨rfl, fun _ => rfl, rfl, fun _ _ => rfl, rfl, rfl, rfl, rfl, rfl, rfl, rfl, rfl, ?_, ?_⟩
  · intro d
    simp [Exec.fresh, Ctxt.construct]
  · intro e he
    simp [Exec.fresh] at he

theorem Initial.started {cmp : T → T → Bool} {window : Nat} {items : List T} {s0 : Exec T}
    (h : Initial cmp window items s0) : Started window s0 := by
  obtain ⟨n, maxT, junk, assign, hn, _, hassign, hpush⟩ := h
  unfold push_initialW at hpush
  cases items with
  | nil => simp at hpush
  | cons x rest =>
    simp only at hpush
    have h0 : Pristine n (setPending 0 (heapPush x ((Exec.fresh n maxT junk).pending 0))
        (Exec.fresh n maxT junk)) := Pristine.pushLocal (Pristine.fresh n maxT junk) 0 x hn
    have hfl0 : ∀ w, (setPending 0 (heapPush x ((Exec.fresh n maxT junk).pending 0))
        (Exec.fresh n maxT junk)).freeList w = [] := fun _ => rfl
    generalize setPending 0 (heapPush x ((Exec.fresh n maxT junk).pending 0))
      (Exec.fresh n maxT junk) = sa at hpush h0 hfl0
    have h1 : Pristine n (pushEach assign 0 rest sa) ∧
        ∀ w, (pushEach assign 0 rest sa).freeList w = [] :=
      pushEach_preserves (fun s => Pristine n s ∧ ∀ w, s.freeList w = []) assign
        (fun s k y hs => ⟨hs.1.pushLocal (assign k) y (hassign k), hs.2⟩) rest 0 sa ⟨h0, hfl0⟩
    generalize pushEach assign 0 rest sa = s1 at hpush h1
    have h2 : Pristine n (assertThat (!emptyAll s1.maxThreads s1.pending) s1) :=
      ⟨h1.1.rob, h1.1.lockOwner, h1.1.activeThreads, h1.1.pendingValid, h1.1.numTotal,
        h1.1.numCommitted, h1.1.numGlobalCleanups, h1.1.abortSelfByConflict,
        h1.1.abortSelfBySignal, h1.1.abortByOther, h1.1.commitLog, h1.1.publishLog,
        h1.1.ctxts, h1.1.stateLog⟩
    have hfl2 : ∀ w, (assertThat (!emptyAll s1.maxThreads s1.pending) s1).freeList w = [] :=
      h1.2
    generalize assertThat (!emptyAll s1.maxThreads s1.pending) s1 = s2 at hpush h2 hfl2
    cases htop : heapTop cmp (s2.pending 0) with
    | none => simp [htop] at hpush
    | some dummy =>
      simp only [htop, Option.some.injEq] at hpush
      subst hpush
      have h3 : Pristine n (allocAll window dummy s2) :=
        allocAll_preserves (fun s => Pristine n s) window dummy
          (fun s tid j hs => hs.allocSlot window dummy tid j) s2 h2
      refine ⟨by rw [h3.activeThreads]; exact h3, by rw [h3.activeThreads]; exact hn, ?_⟩
      intro w
      rw [h3.activeThreads]
      unfold allocAll
      rw [allocOuter_freeList, h2.activeThreads, hfl2]
      simp

theorem Started.wf_started {window : Nat} {s0 : Exec T} (h : Started window s0) : WF s0 := by
  have hmem : ∀ w c, c ∈ s0.freeList w →
      w < s0.activeThreads ∧ ∃ j, j < window ∧ c = w * window + j := by
    intro w c hc
    rw [h.freeList] at hc
    by_cases hw : w < s0.activeThreads
    · simp only [hw, if_true, List.mem_map, List.mem_range] at hc
      obtain ⟨j, hj, e⟩ := hc
      exact ⟨hw, j, hj, e.symm⟩
    · simp [hw] at hc
  refine ⟨?_, ?_, ?_, ?_, ?_, ?_, ?_, ?_⟩
  · intro l c hl
    rw [h.pristine.lockOwner] at hl
    exact absurd hl (by simp)
  · rw [h.pristine.rob]; exact List.nodup_nil
  · intro w c _
    rw [h.pristine.rob]; exact List.not_mem_nil c
  · intro w
    rw [h.freeList]
    by_cases hw : w < s0.activeThreads
    · simp only [hw, if_true]
      exact (List.nodup_range window).map (fun a b e => Nat.add_left_cancel e)
    · simp [hw]
  · intro w w1 c hc hc1
    obtain ⟨_, j, hj, e⟩ := hmem w c hc
    obtain ⟨_, j1, hj1, e1⟩ := hmem w1 c hc1
    have hpos : 0 < window := Nat.lt_of_le_of_lt (Nat.zero_le _) hj
    have d1 : c / window = w := by
      rw [e, Nat.add_comm, Nat.add_mul_div_right _ _ hpos, Nat.div_eq_of_lt hj, Nat.zero_add]
    have d2 : c / window = w1 := by
      rw [e1, Nat.add_comm, Nat.add_mul_div_right _ _ hpos, Nat.div_eq_of_lt hj1, Nat.zero_add]
    rw [← d1, ← d2]
  · intro c hc _
    rw [h.pristine.rob] at hc
    exact absurd hc (List.not_mem_nil c)
  · intro c hc
    rw [h.pristine.rob] at hc
    exact absurd hc (List.not_mem_nil c)
  · exact h.pristine.pendingValid

/-- The structural invariant holds in every state of a run. -/
theorem Run.wf_run {cmp : T → T → Bool} {allowed : T → T → Prop} {window : Nat}
    {items : List T} {s : Exec T} (h : Run cmp allowed window items s) : WF s := by
  obtain ⟨s0, hinit, hreach⟩ := h
  exact Reachable.invariant (fun a b ha hab => WF.atom_wf ha hab) hinit.started.wf_started hreach

end InitialState
/-! ## Legal state transitions -/

section LegalTransitions

variable {T : Type}

theorem LegalLog.atom_legal {cmp : T → T → Bool} {allowed : T → T → Prop} {s s1 : Exec T}
    (hwf : WF s) (h : LegalLog s) (ha : Atom cmp allowed s s1) : LegalLog s1 := by
  cases ha with
  | sched tid ctx j x rest htid hj hctx hpop =>
    intro e he
    simp only [addNumTotal_stateLog, setRob_stateLog, setOwner_stateLog, setState_stateLog,
      construct_ctxts_state, construct_stateLog, setPending_stateLog, setFreeList_stateLog,
      if_true, List.mem_cons] at he
    rcases he with he | he
    · subst he; left; rfl
    · exact h e he
  | newOwner c l hrun hnone => exact fun e he => h e (by simpa using he)
  | asserted cond => exact fun e he => h e (by simpa using he)
  | loseState c hrun =>
    intro e he
    simp only [setState_stateLog, List.mem_cons] at he
    rcases he with he | he
    · subst he
      rcases hwf.running_state hrun with e1 | e1
      · left; simp [e1, legalTransition]
      · right; simp [e1]
    · exact h e he
  | lostFlag c => exact fun e he => h e (by simpa using he)
  | signalled that hst =>
    intro e he
    simp only [setState_stateLog, List.mem_cons] at he
    rcases he with he | he
    · subst he; left; simp [hst, legalTransition]
    · exact h e he
  | helped l that hown hst =>
    intro e he
    simp only [abortOther_stateLog, setState_stateLog, setState_ctxts_state, if_true,
      List.mem_cons] at he
    rcases he with he | he | he | he
    · subst he; left; rfl
    · subst he; left; rfl
    · subst he
      rcases hst with e1 | ⟨e1, _⟩
      · left; simp [e1, legalTransition]
      · left; simp [e1, legalTransition]
    · exact h e he
  | opPush c x hrun hal => exact fun e he => h e (by simpa using he)
  | finishReady c hrun hst =>
    intro e he
    simp only [setExecuted_stateLog, setState_stateLog, List.mem_cons] at he
    rcases he with he | he
    · subst he; left; simp [hst, legalTransition]
    · exact h e he
  | finishAbort c hrun hst =>
    intro e he
    simp only [setExecuted_stateLog, doAbort_stateLog, countSelfAbort_stateLog,
      countSelfAbort_ctxts, setState_stateLog, setState_ctxts_state, if_true,
      List.mem_cons] at he
    rcases he with he | he | he
    · subst he; left; rfl
    · subst he; left; simp [hst, legalTransition]
    · exact h e he
  | finishOnly c hrun h1 h2 => exact fun e he => h e (by simpa using he)
  | commit tid head rest htid hpop hst hearly =>
    intro e he
    simp only [addNumCommitted_stateLog, reclaim_stateLog, assertThat_stateLog,
      setRob_stateLog, doCommit_stateLog, setState_stateLog, setState_ctxts_state, if_true,
      List.mem_cons] at he
    rcases he with he | he | he
    · subst he; left; rfl
    · subst he; left; simp [hst, legalTransition]
    · exact h e he
  | dropAborted c rest hperm hst => exact fun e he => h e (by simpa using he)
  | permRob r hperm => exact fun e he => h e (by simpa using he)
  | cleanupCount => exact fun e he => h e (by simpa using he)

theorem Run.wf_and_of_initial {cmp : T → T → Bool} {allowed : T → T → Prop} {window : Nat}
    {items : List T} {s : Exec T} {P : Exec T → Prop}
    (hinit : ∀ s0, Initial cmp window items s0 → P s0)
    (hstep : ∀ a b, WF a → P a → Atom cmp allowed a b → P b)
    (h : Run cmp allowed window items s) : P s := by
  obtain ⟨s0, h0, hreach⟩ := h
  have hboth : WF s ∧ P s := @Reachable.invariant T cmp allowed (fun a => WF a ∧ P a)
    (fun a b hab hatom => ⟨hab.1.atom_wf hatom, hstep a b hab.1 hab.2 hatom⟩) s0 s
    ⟨h0.started.wf_started, hinit s0 h0⟩ hreach
  exact hboth.2

theorem Run.wf_and {cmp : T → T → Bool} {allowed : T → T → Prop} {window : Nat}
    {items : List T} {s : Exec T} {P : Exec T → Prop}
    (hinit : ∀ s0, Started window s0 → P s0)
    (hstep : ∀ a b, WF a → P a → Atom cmp allowed a b → P b)
    (h : Run cmp allowed window items s) : P s :=
  Run.wf_and_of_initial (fun s0 h0 => hinit s0 h0.started) hstep h

theorem Run.legalLog {cmp : T → T → Bool} {allowed : T → T → Prop} {window : Nat}
    {items : List T} {s : Exec T} (h : Run cmp allowed window items s) : LegalLog s :=
  Run.wf_and (fun s0 h0 e he => Or.inl (by rw [h0.pristine.stateLog e he]; rfl))
    (fun _ _ hwf hp hatom => LegalLog.atom_legal hwf hp hatom) h

theorem OneOutcome.atom_outcome {cmp : T → T → Bool} {allowed : T → T → Prop} {s s1 : Exec T}
    (hwf : WF s) (h : OneOutcome s) (ha : Atom cmp allowed s s1) : OneOutcome s1 := by
  cases ha with
  | sched tid ctx j x rest htid hj hctx hpop =>
    intro d
    by_cases hd : d = ctx
    · simp [hd]
    · simpa [hd] using h d
  | newOwner c l hrun hnone => exact fun d => by simpa using h d
  | asserted cond => exact fun d => by simpa using h d
  | loseState c hrun =>
    intro d
    by_cases hd : d = c
    · subst hd
      have h3 := (h d).2.2
      rcases hwf.running_state hrun with e1 | e1 <;> simpa [e1] using h3
    · simpa [hd] using h d
  | lostFlag c => exact fun d => by simpa using h d
  | signalled that hst =>
    intro d
    by_cases hd : d = that
    · subst hd
      simpa [hst] using (h d).2.2
    · simpa [hd] using h d
  | helped l that hown hst =>
    intro d
    by_cases hd : d = that
    · subst hd
      have h3 := (h d).2.2
      rcases hst with e1 | ⟨e1, _⟩ <;> simpa [e1] using h3
    · simpa [hd] using h d
  | opPush c x hrun hal => exact fun d => by simpa using h d
  | finishReady c hrun hst =>
    intro d
    by_cases hd : d = c
    · subst hd
      simpa [hst] using (h d).2.2
    · simpa [hd] using h d
  | finishAbort c hrun hst =>
    intro d
    by_cases hd : d = c
    · subst hd
      simpa [hst] using (h d).2.2
    · simpa [hd] using h d
  | finishOnly c hrun h1 h2 => exact fun d => by simpa using h d
  | commit tid head rest htid hpop hst hearly =>
    intro d
    by_cases hd : d = head
    · subst hd
      simpa [hst] using (h d).2.2
    · simpa [hd] using h d
  | dropAborted c rest hperm hst => exact fun d => by simpa using h d
  | permRob r hperm => exact fun d => by simpa using h d
  | cleanupCount => exact fun d => by simpa using h d

theorem Run.oneOutcome {cmp : T → T → Bool} {allowed : T → T → Prop} {window : Nat}
    {items : List T} {s : Exec T} (h : Run cmp allowed window items s) : OneOutcome s :=
  Run.wf_and
    (fun s0 h0 d => by
      obtain ⟨a1, a2, _, a4⟩ := h0.pristine.ctxts d
      rcases a4 with e | e <;> simp [e, a1, a2])
    (fun _ _ hwf hp hatom => OneOutcome.atom_outcome hwf hp hatom) h

end LegalTransitions
/-! ## Counting the attempts -/

section Counting

variable {T : Type}

theorem filter_flip_perm {p q : Nat → Bool} :
    ∀ {l : List Nat} {x : Nat}, l.Nodup → x ∈ l → p x = true → q x = false →
      (∀ c, c ∈ l → c ≠ x → p c = q c) → (l.filter p).Perm (x :: l.filter q)
  | [], x, _, hx, _, _, _ => absurd hx (List.not_mem_nil x)
  | a :: l, x, hnd, hx, hp, hq, hpq => by
    obtain ⟨ha, hnd1⟩ := List.nodup_cons.mp hnd
    by_cases hax : a = x
    · subst hax
      have hcongr : l.filter p = l.filter q :=
        List.filter_congr (fun c hc => hpq c (List.mem_cons_of_mem _ hc)
          (fun e => ha (e ▸ hc)))
      simp [List.filter_cons, hp, hq, hcongr]
    · have hxl : x ∈ l := by
        rcases List.mem_cons.mp hx with e | e
        · exact absurd e.symm hax
        · exact e
      have ih := filter_flip_perm hnd1 hxl hp hq
        (fun c hc hcx => hpq c (List.mem_cons_of_mem _ hc) hcx)
      have hpa : p a = q a := hpq a (List.mem_cons_self _ _) hax
      cases hqa : q a with
      | true =>
        simp only [List.filter_cons, hpa, hqa, if_true]
        exact (List.Perm.cons a ih).trans (List.Perm.swap x a _)
      | false =>
        simpa [List.filter_cons, hpa, hqa] using ih

/-- The live contexts stay the same when the reorder buffer stays the same and no
context of it enters or leaves ABORT_DONE. -/
theorem liveRob_congr {s t : Exec T} (hrob : t.rob = s.rob)
    (hst : ∀ c, c ∈ s.rob →
      ((t.ctxts c).state = .ABORT_DONE ↔ (s.ctxts c).state = .ABORT_DONE)) :
    liveRob t = liveRob s := by
  unfold liveRob
  rw [hrob]
  apply List.filter_congr
  intro c hc
  have := hst c hc
  by_cases h1 : (s.ctxts c).state = .ABORT_DONE
  · simp [h1, this.mpr h1]
  · have h2 : (t.ctxts c).state ≠ .ABORT_DONE := fun e => h1 (this.mp e)
    simp [h1, h2]

/-- The live contexts lose exactly `x` when `x`, a live context of the reorder buffer,
goes to ABORT_DONE and nothing else changes. -/
theorem liveRob_abort {s t : Exec T} (hwf : WF s) (x : Nat) (hx : x ∈ s.rob)
    (hlive : (s.ctxts x).state ≠ .ABORT_DONE) (hrob : t.rob = s.rob)
    (hdone : (t.ctxts x).state = .ABORT_DONE)
    (hst : ∀ c, c ≠ x → (t.ctxts c).state = (s.ctxts c).state) :
    (liveRob s).Perm (x :: liveRob t) := by
  unfold liveRob
  rw [hrob]
  refine filter_flip_perm hwf.robNodup hx (by simpa using hlive) (by simpa using hdone) ?_
  intro c _ hcx
  simp [hst c hcx]

/-- The live contexts when context `x` leaves the reorder buffer. -/
theorem liveRob_retire {s t : Exec T} (hwf : WF s) (x : Nat) (rest : List Nat)
    (hperm : s.rob.Perm (x :: rest)) (hrob : t.rob = rest)
    (hst : ∀ c, c ≠ x → (t.ctxts c).state = (s.ctxts c).state) :
    (liveRob s).Perm
      ((if (s.ctxts x).state = .ABORT_DONE then [] else [x]) ++ liveRob t) := by
  have hnd : (x :: rest).Nodup := hperm.nodup_iff.mp hwf.robNodup
  have hxrest : x ∉ rest := (List.nodup_cons.mp hnd).1
  have hcongr : (liveRob t) =
      rest.filter (fun c => decide ((s.ctxts c).state ≠ .ABORT_DONE)) := by
    unfold liveRob
    rw [hrob]
    apply List.filter_congr
    intro c hc
    have hcx : c ≠ x := fun e => hxrest (e ▸ hc)
    simp [hst c hcx]
  rw [hcongr]
  unfold liveRob
  refine (hperm.filter _).trans ?_
  by_cases hd : (s.ctxts x).state = .ABORT_DONE
  · simp [List.filter_cons, hd]
  · simp [List.filter_cons, hd]

theorem liveRob_perm {s t : Exec T} (hperm : s.rob.Perm t.rob)
    (hst : ∀ c, (t.ctxts c).state = (s.ctxts c).state) : (liveRob s).Perm (liveRob t) := by
  unfold liveRob
  have : (fun c => decide ((t.ctxts c).state ≠ State.ABORT_DONE)) =
      (fun c => decide ((s.ctxts c).state ≠ State.ABORT_DONE)) := by
    funext c; rw [hst]
  rw [this]
  exact hperm.filter _

theorem Counted.of_same_counted {s t : Exec T} (h : Counted s) (hrob : t.rob = s.rob)
    (hst : ∀ c, c ∈ s.rob →
      ((t.ctxts c).state = .ABORT_DONE ↔ (s.ctxts c).state = .ABORT_DONE))
    (h1 : t.numTotal = s.numTotal) (h2 : t.numCommitted = s.numCommitted)
    (h3 : t.abortSelfByConflict = s.abortSelfByConflict)
    (h4 : t.abortSelfBySignal = s.abortSelfBySignal)
    (h5 : t.abortByOther = s.abortByOther) : Counted t := by
  unfold Counted at h ⊢
  rw [liveRob_congr hrob hst, h1, h2, h3, h4, h5]
  exact h

theorem Counted.atom_counted {cmp : T → T → Bool} {allowed : T → T → Prop} {s s1 : Exec T}
    (hwf : WF s) (h : Counted s) (ha : Atom cmp allowed s s1) : Counted s1 := by
  cases ha with
  | sched tid ctx j x rest htid hj hctx hpop =>
    unfold Counted at h ⊢
    have hnotrob : ctx ∉ s.rob :=
      hwf.freeNotRob tid ctx (List.mem_of_getLast?_eq_some hctx)
    have hlive : liveRob (addNumTotal (setRob (heapPush ctx s.rob)
        (setOwner ctx tid (setState ctx .SCHEDULED (construct ctx x tid
          (setPending j rest (setFreeList tid (s.freeList tid).dropLast s)))))))
        = ctx :: liveRob s := by
      unfold liveRob
      simp only [addNumTotal_rob, setRob_rob, heapPush_eq, List.filter_cons]
      simp only [addNumTotal_ctxts, setRob_ctxts, setOwner_ctxts_state, setState_ctxts_state,
        if_true, ne_eq, reduceCtorEq, not_false_eq_true, decide_True, List.cons.injEq, true_and]
      apply List.filter_congr
      intro c hc
      have hcc : c ≠ ctx := fun e => hnotrob (e ▸ hc)
      simp [hcc]
    rw [hlive]
    simp only [addNumTotal_numTotal, addNumTotal_numCommitted,
      addNumTotal_abortSelfByConflict, addNumTotal_abortSelfBySignal, addNumTotal_abortByOther,
      setRob_numTotal, setOwner_numTotal, setState_numTotal, construct_numTotal,
      setPending_numTotal, setFreeList_numTotal, List.length_cons]
    simp only [setRob_numCommitted, setOwner_numCommitted, setState_numCommitted,
      construct_numCommitted, setPending_numCommitted, setFreeList_numCommitted,
      setRob_abortSelfByConflict, setOwner_abortSelfByConflict, setState_abortSelfByConflict,
      construct_abortSelfByConflict, setPending_abortSelfByConflict,
      setFreeList_abortSelfByConflict, setRob_abortSelfBySignal, setOwner_abortSelfBySignal,
      setState_abortSelfBySignal, construct_abortSelfBySignal, setPending_abortSelfBySignal,
      setFreeList_abortSelfBySignal, setRob_abortByOther, setOwner_abortByOther,
      setState_abortByOther, construct_abortByOther, setPending_abortByOther,
      setFreeList_abortByOther]
    omega
  | newOwner c l hrun hnone =>
    exact h.of_same_counted rfl (fun c _ => by simp) rfl rfl rfl rfl rfl
  | asserted cond =>
    exact h.of_same_counted rfl (fun c _ => by simp) rfl rfl rfl rfl rfl
  | loseState c hrun =>
    have hstate := hwf.running_state hrun
    refine h.of_same_counted rfl (fun d _ => ?_) rfl rfl rfl rfl rfl
    by_cases hd : d = c
    · subst hd; rcases hstate with e | e <;> simp [e]
    · simp [hd]
  | lostFlag c =>
    exact h.of_same_counted rfl (fun c _ => by simp) rfl rfl rfl rfl rfl
  | signalled that hst =>
    refine h.of_same_counted rfl (fun d _ => ?_) rfl rfl rfl rfl rfl
    by_cases hd : d = that
    · subst hd; simp [hst]
    · simp [hd]
  | helped l that hown hst =>
    unfold Counted at h ⊢
    obtain ⟨_, a2, a3, _⟩ := hwf.owned l that hown
    have hp := (liveRob_abort (t := abortOther that (setState that .ABORT_HELP s)) hwf that a2 a3
      (by simp) (by simp) (fun c hc => by simp [hc])).length_eq
    simp only [List.length_cons] at hp
    simp only [abortOther_numTotal, setState_numTotal, abortOther_numCommitted,
      setState_numCommitted, abortOther_abortSelfByConflict, setState_abortSelfByConflict,
      abortOther_abortSelfBySignal, setState_abortSelfBySignal, abortOther_abortByOther,
      setState_abortByOther]
    omega
  | opPush c x hrun hal =>
    exact h.of_same_counted rfl (fun c _ => by simp) rfl rfl rfl rfl rfl
  | finishReady c hrun hst =>
    refine h.of_same_counted rfl (fun d _ => ?_) rfl rfl rfl rfl rfl
    by_cases hd : d = c
    · subst hd; simp [hst]
    · simp [hd]
  | finishAbort c hrun hst =>
    unfold Counted at h ⊢
    have hp := (liveRob_abort
      (t := setExecuted c true (doAbort c (countSelfAbort c (setState c .ABORTING s))))
      hwf c hrun.1 (by simp [hst]) (by simp) (by simp) (fun d hd => by simp [hd])).length_eq
    simp only [List.length_cons] at hp
    have hsum := countSelfAbort_sum c (setState c .ABORTING s)
    simp only [setState_abortSelfByConflict, setState_abortSelfBySignal] at hsum
    simp only [setExecuted_numTotal, doAbort_numTotal, countSelfAbort_numTotal,
      setState_numTotal, setExecuted_numCommitted, doAbort_numCommitted,
      countSelfAbort_numCommitted, setState_numCommitted, setExecuted_abortSelfByConflict,
      doAbort_abortSelfByConflict, setExecuted_abortSelfBySignal, doAbort_abortSelfBySignal,
      setExecuted_abortByOther, doAbort_abortByOther, countSelfAbort_abortByOther,
      setState_abortByOther]
    omega
  | finishOnly c hrun h1 h2 =>
    exact h.of_same_counted rfl (fun c _ => by simp) rfl rfl rfl rfl rfl
  | commit tid head rest htid hpop hst hearly =>
    unfold Counted at h ⊢
    have hp := (liveRob_retire
      (t := addNumCommitted (reclaim head (assertThat true
          (setRob rest (doCommit tid head (setState head .COMMITTING s))))))
      hwf head rest (heapPop_perm hpop) (by simp) (fun d hd => by simp [hd])).length_eq
    simp only [hst, reduceCtorEq, if_false, List.singleton_append, List.length_cons] at hp
    simp only [addNumCommitted_numTotal, reclaim_numTotal, assertThat_numTotal,
      setRob_numTotal, doCommit_numTotal, setState_numTotal, addNumCommitted_numCommitted,
      reclaim_numCommitted, assertThat_numCommitted, setRob_numCommitted,
      doCommit_numCommitted, setState_numCommitted, addNumCommitted_abortSelfByConflict,
      reclaim_abortSelfByConflict, assertThat_abortSelfByConflict, setRob_abortSelfByConflict,
      doCommit_abortSelfByConflict, setState_abortSelfByConflict,
      addNumCommitted_abortSelfBySignal, reclaim_abortSelfBySignal,
      assertThat_abortSelfBySignal, setRob_abortSelfBySignal, doCommit_abortSelfBySignal,
      setState_abortSelfBySignal, addNumCommitted_abortByOther, reclaim_abortByOther,
      assertThat_abortByOther, setRob_abortByOther, doCommit_abortByOther,
      setState_abortByOther]
    omega
  | dropAborted c rest hperm hst =>
    unfold Counted at h ⊢
    have hp := (liveRob_retire (t := reclaim c (setRob rest s)) hwf c rest hperm (by simp)
      (fun d hd => by simp)).length_eq
    simp only [hst, if_true, List.nil_append] at hp
    simp only [reclaim_numTotal, setRob_numTotal, reclaim_numCommitted, setRob_numCommitted,
      reclaim_abortSelfByConflict, setRob_abortSelfByConflict, reclaim_abortSelfBySignal,
      setRob_abortSelfBySignal, reclaim_abortByOther, setRob_abortByOther]
    omega
  | permRob r hperm =>
    unfold Counted at h ⊢
    have hp := (liveRob_perm (t := setRob r s) (by simpa using hperm) (fun c => by simp)).length_eq
    simp only [setRob_numTotal, setRob_numCommitted, setRob_abortSelfByConflict,
      setRob_abortSelfBySignal, setRob_abortByOther]
    omega
  | cleanupCount =>
    exact h.of_same_counted rfl (fun c _ => by simp) rfl rfl rfl rfl rfl

theorem Run.counted {cmp : T → T → Bool} {allowed : T → T → Prop} {window : Nat}
    {items : List T} {s : Exec T} (h : Run cmp allowed window items s) : Counted s :=
  Run.wf_and
    (fun s0 h0 => by
      unfold Counted liveRob
      rw [h0.pristine.numTotal, h0.pristine.numCommitted, h0.pristine.abortSelfByConflict,
        h0.pristine.abortSelfBySignal, h0.pristine.abortByOther, h0.pristine.rob]
      rfl)
    (fun _ _ hwf hp hatom => Counted.atom_counted hwf hp hatom) h

end Counting
/-! ## Conservation of items -/

section Conservation

variable {T : Type}

theorem heapItems_congr {p q : Nat → List T} :
    ∀ k : Nat, (∀ i, i < k → q i = p i) → heapItems q k = heapItems p k
  | 0, _ => rfl
  | k + 1, h => by
    simp only [heapItems]
    rw [heapItems_congr k (fun i hi => h i (Nat.lt_succ_of_lt hi)), h k (Nat.lt_succ_self k)]

theorem heapItems_update (p : Nat → List T) (j : Nat) (L : List T) :
    ∀ k : Nat, j < k →
      heapItems (Function.update p j L) k + (p j : Multiset T) =
        heapItems p k + (L : Multiset T)
  | 0, h => absurd h (Nat.not_lt_zero j)
  | k + 1, h => by
    simp only [heapItems]
    rcases Nat.lt_succ_iff_lt_or_eq.mp h with hlt | heq
    · have ih := heapItems_update p j L k hlt
      have hne : k ≠ j := by omega
      rw [Function.update_noteq hne]
      calc heapItems (Function.update p j L) k + ↑(p k) + ↑(p j)
          = (heapItems (Function.update p j L) k + ↑(p j)) + ↑(p k) := by abel
        _ = (heapItems p k + ↑L) + ↑(p k) := by rw [ih]
        _ = heapItems p k + ↑(p k) + ↑L := by abel
    · subst heq
      have hc : heapItems (Function.update p j L) j = heapItems p j :=
        heapItems_congr j (fun i hi => Function.update_noteq (by omega) _ _)
      rw [hc, Function.update_same]
      abel

/-- Pushing the items `L` into the heap of an active thread adds them to the pending
items. -/
theorem pendingItems_add {s t : Exec T} (j : Nat) (L X : List T) (hj : j < s.activeThreads)
    (hact : t.activeThreads = s.activeThreads)
    (hp : t.pending = Function.update s.pending j X) (hX : X.Perm (L ++ s.pending j)) :
    pendingItems t = (L : Multiset T) + pendingItems s := by
  unfold pendingItems
  rw [hact, hp]
  have h := heapItems_update s.pending j X s.activeThreads hj
  rw [Multiset.coe_eq_coe.mpr hX, ← Multiset.coe_add] at h
  have h2 : heapItems (Function.update s.pending j X) s.activeThreads +
      ↑(s.pending j) = (↑L + heapItems s.pending s.activeThreads) + ↑(s.pending j) := by
    rw [h]; abel
  exact add_right_cancel h2

/-- Popping `x` off the heap of an active thread takes it out of the pending items. -/
theorem pendingItems_pop {s t : Exec T} (j : Nat) (x : T) (rest : List T)
    (hj : j < s.activeThreads) (hact : t.activeThreads = s.activeThreads)
    (hperm : (s.pending j).Perm (x :: rest))
    (hp : t.pending = Function.update s.pending j rest) :
    pendingItems s = ({x} : Multiset T) + pendingItems t := by
  unfold pendingItems
  rw [hact, hp]
  have h := heapItems_update s.pending j rest s.activeThreads hj
  have hx : (↑(s.pending j) : Multiset T) = {x} + ↑rest := by
    rw [Multiset.coe_eq_coe.mpr hperm, ← Multiset.cons_coe, Multiset.singleton_add]
  rw [hx] at h
  have h2 : heapItems s.pending s.activeThreads + ↑rest =
      ({x} + heapItems (Function.update s.pending j rest) s.activeThreads) + ↑rest := by
    rw [← h]; abel
  exact add_right_cancel h2

theorem pendingItems_same {s t : Exec T} (hact : t.activeThreads = s.activeThreads)
    (hp : t.pending = s.pending) : pendingItems t = pendingItems s := by
  unfold pendingItems
  rw [hact, hp]

theorem liveItems_perm {s t : Exec T} (hperm : (liveRob s).Perm (liveRob t))
    (hact : ∀ c, (t.ctxts c).active = (s.ctxts c).active) : liveItems s = liveItems t := by
  unfold liveItems
  have : (fun c => (t.ctxts c).active) = (fun c => (s.ctxts c).active) := funext hact
  rw [this]
  exact Multiset.coe_eq_coe.mpr (hperm.map _)

theorem liveItems_cons {s t : Exec T} (x : Nat) (hperm : (liveRob s).Perm (x :: liveRob t))
    (hact : ∀ c, (t.ctxts c).active = (s.ctxts c).active) :
    liveItems s = ({(s.ctxts x).active} : Multiset T) + liveItems t := by
  unfold liveItems
  have : (fun c => (t.ctxts c).active) = (fun c => (s.ctxts c).active) := funext hact
  rw [this, Multiset.coe_eq_coe.mpr (hperm.map _), List.map_cons, ← Multiset.cons_coe,
    Multiset.singleton_add]

theorem Conserved.of_same_conserved {items : List T} {s t : Exec T} (h : Conserved items s)
    (hrob : t.rob = s.rob)
    (hst : ∀ c, c ∈ s.rob →
      ((t.ctxts c).state = .ABORT_DONE ↔ (s.ctxts c).state = .ABORT_DONE))
    (hact : ∀ c, (t.ctxts c).active = (s.ctxts c).active)
    (h1 : t.activeThreads = s.activeThreads) (h2 : t.pending = s.pending)
    (h3 : t.commitLog = s.commitLog) (h4 : t.publishLog = s.publishLog)
    (h5 : t.numCommitted = s.numCommitted) : Conserved items t := by
  unfold Conserved at h ⊢
  have hl : liveItems s = liveItems t :=
    liveItems_perm (by rw [liveRob_congr hrob hst]) hact
  rw [h3, h4, h5, pendingItems_same h1 h2, ← hl]
  exact h

theorem liveRob_sched {s : Exec T} (hwf : WF s) (tid ctx j : Nat) (x : T) (rest : List T)
    (hctx : (s.freeList tid).getLast? = some ctx) :
    liveRob (addNumTotal (setRob (heapPush ctx s.rob)
        (setOwner ctx tid (setState ctx .SCHEDULED (construct ctx x tid
          (setPending j rest (setFreeList tid (s.freeList tid).dropLast s)))))))
      = ctx :: liveRob s := by
  have hnotrob : ctx ∉ s.rob :=
    hwf.freeNotRob tid ctx (List.mem_of_getLast?_eq_some hctx)
  unfold liveRob
  simp only [addNumTotal_rob, setRob_rob, heapPush_eq, List.filter_cons]
  simp only [addNumTotal_ctxts, setRob_ctxts, setOwner_ctxts_state, setState_ctxts_state,
    if_true, ne_eq, reduceCtorEq, not_false_eq_true, decide_True, List.cons.injEq, true_and]
  apply List.filter_congr
  intro c hc
  have hcc : c ≠ ctx := fun e => hnotrob (e ▸ hc)
  simp [hcc]

theorem liveRob_subset (s : Exec T) : ∀ c, c ∈ liveRob s → c ∈ s.rob := by
  intro c hc
  unfold liveRob at hc
  exact (List.mem_filter.mp hc).1

theorem Conserved.atom_conserved {cmp : T → T → Bool} {allowed : T → T → Prop} {items : List T}
    {s s1 : Exec T} (hwf : WF s) (h : Conserved items s) (ha : Atom cmp allowed s s1) :
    Conserved items s1 := by
  cases ha with
  | sched tid ctx j x rest htid hj hctx hpop =>
    have hnotrob : ctx ∉ s.rob :=
      hwf.freeNotRob tid ctx (List.mem_of_getLast?_eq_some hctx)
    have hpend := pendingItems_pop
      (t := addNumTotal (setRob (heapPush ctx s.rob)
        (setOwner ctx tid (setState ctx .SCHEDULED (construct ctx x tid
          (setPending j rest (setFreeList tid (s.freeList tid).dropLast s)))))))
      j x rest hj (by simp) (heapPop_perm hpop) (by simp)
    have hlive : liveItems (addNumTotal (setRob (heapPush ctx s.rob)
        (setOwner ctx tid (setState ctx .SCHEDULED (construct ctx x tid
          (setPending j rest (setFreeList tid (s.freeList tid).dropLast s)))))))
        = ({x} : Multiset T) + liveItems s := by
      unfold liveItems
      rw [liveRob_sched hwf tid ctx j x rest hctx, List.map_cons, ← Multiset.cons_coe,
        Multiset.singleton_add]
      have e1 : List.map (fun c => ((addNumTotal (setRob (heapPush ctx s.rob)
          (setOwner ctx tid (setState ctx .SCHEDULED (construct ctx x tid
            (setPending j rest (setFreeList tid (s.freeList tid).dropLast s))))))).ctxts c).active)
          (liveRob s) = List.map (fun c => (s.ctxts c).active) (liveRob s) := by
        apply List.map_congr_left
        intro c hc
        have hcc : c ≠ ctx := fun e => hnotrob (e ▸ liveRob_subset s c hc)
        simp [hcc]
      rw [e1]
      simp
    unfold Conserved at h ⊢
    rw [hlive]
    rw [hpend] at h
    refine ⟨?_, by simpa using h.2⟩
    simp only [addNumTotal_publishLog, setRob_publishLog, setOwner_publishLog,
      setState_publishLog, construct_publishLog, setPending_publishLog,
      setFreeList_publishLog, addNumTotal_commitLog, setRob_commitLog, setOwner_commitLog,
      setState_commitLog, construct_commitLog, setPending_commitLog, setFreeList_commitLog]
    rw [h.1]
    abel
  | newOwner c l hrun hnone =>
    exact h.of_same_conserved rfl (fun c _ => by simp) (fun c => by simp) rfl rfl rfl rfl rfl
  | asserted cond =>
    exact h.of_same_conserved rfl (fun c _ => by simp) (fun c => by simp) rfl rfl rfl rfl rfl
  | loseState c hrun =>
    have hstate := hwf.running_state hrun
    refine h.of_same_conserved rfl (fun d _ => ?_) (fun c => by simp) rfl rfl rfl rfl rfl
    by_cases hd : d = c
    · subst hd; rcases hstate with e | e <;> simp [e]
    · simp [hd]
  | lostFlag c =>
    exact h.of_same_conserved rfl (fun c _ => by simp) (fun c => by simp) rfl rfl rfl rfl rfl
  | signalled that hst =>
    refine h.of_same_conserved rfl (fun d _ => ?_) (fun c => by simp) rfl rfl rfl rfl rfl
    by_cases hd : d = that
    · subst hd; simp [hst]
    · simp [hd]
  | helped l that hown hst =>
    obtain ⟨_, a2, a3, _⟩ := hwf.owned l that hown
    have hox := hwf.ownerValid that a2
    have hlive := liveItems_cons (t := abortOther that (setState that .ABORT_HELP s)) that
      (liveRob_abort hwf that a2 a3 (by simp) (by simp) (fun c hc => by simp [hc]))
      (fun c => by simp)
    have hpend := pendingItems_add (t := abortOther that (setState that .ABORT_HELP s))
      ((s.ctxts that).owner / 2) [(s.ctxts that).active]
      ((s.ctxts that).active :: s.pending ((s.ctxts that).owner / 2))
      (Nat.lt_of_le_of_lt (Nat.div_le_self _ _) hox) (by simp) (by simp)
      (by simp)
    unfold Conserved at h ⊢
    rw [hpend]
    rw [hlive] at h
    refine ⟨?_, by simpa using h.2⟩
    simp only [abortOther_publishLog, setState_publishLog, abortOther_commitLog,
      setState_commitLog]
    rw [h.1]
    simp only [Multiset.coe_singleton]
    abel
  | opPush c x hrun hal =>
    exact h.of_same_conserved rfl (fun c _ => by simp) (fun c => by simp) rfl rfl rfl rfl rfl
  | finishReady c hrun hst =>
    refine h.of_same_conserved rfl (fun d _ => ?_) (fun c => by simp) rfl rfl rfl rfl rfl
    by_cases hd : d = c
    · subst hd; simp [hst]
    · simp [hd]
  | finishAbort c hrun hst =>
    have hox := hwf.ownerValid c hrun.1
    have hlive := liveItems_cons
      (t := setExecuted c true (doAbort c (countSelfAbort c (setState c .ABORTING s)))) c
      (liveRob_abort hwf c hrun.1 (by simp [hst]) (by simp) (by simp)
        (fun d hd => by simp [hd]))
      (fun c => by simp)
    have hpend := pendingItems_add
      (t := setExecuted c true (doAbort c (countSelfAbort c (setState c .ABORTING s))))
      ((s.ctxts c).owner / 2) [(s.ctxts c).active]
      ((s.ctxts c).active :: s.pending ((s.ctxts c).owner / 2))
      (Nat.lt_of_le_of_lt (Nat.div_le_self _ _) hox) (by simp) (by simp)
      (by simp)
    unfold Conserved at h ⊢
    rw [hpend]
    rw [hlive] at h
    refine ⟨?_, by simpa using h.2⟩
    simp only [setExecuted_publishLog, doAbort_publishLog, countSelfAbort_publishLog,
      setState_publishLog, setExecuted_commitLog, doAbort_commitLog,
      countSelfAbort_commitLog, setState_commitLog]
    rw [h.1]
    simp only [Multiset.coe_singleton]
    abel
  | finishOnly c hrun h1 h2 =>
    exact h.of_same_conserved rfl (fun c _ => by simp) (fun c => by simp) rfl rfl rfl rfl rfl
  | commit tid head rest htid hpop hst hearly =>
    have hret := liveRob_retire
      (t := addNumCommitted (reclaim head (assertThat true
          (setRob rest (doCommit tid head (setState head .COMMITTING s))))))
      hwf head rest (heapPop_perm hpop) (by simp) (fun d hd => by simp [hd])
    simp only [hst, reduceCtorEq, if_false, List.singleton_append] at hret
    have hlive := liveItems_cons
      (t := addNumCommitted (reclaim head (assertThat true
          (setRob rest (doCommit tid head (setState head .COMMITTING s)))))) head hret
      (fun c => by simp)
    have hpend := pendingItems_add
      (t := addNumCommitted (reclaim head (assertThat true
          (setRob rest (doCommit tid head (setState head .COMMITTING s))))))
      tid (s.ctxts head).pushBuffer
      ((s.ctxts head).pushBuffer.foldl (fun h x => heapPush x h) (s.pending tid))
      htid (by simp) (by simp) (pushAll_perm _ _)
    unfold Conserved at h ⊢
    rw [hpend]
    rw [hlive] at h
    refine ⟨?_, by simpa using h.2⟩
    simp only [addNumCommitted_publishLog, reclaim_publishLog, assertThat_publishLog,
      setRob_publishLog, doCommit_publishLog, setState_publishLog, setState_ctxts_pushBuffer,
      addNumCommitted_commitLog, reclaim_commitLog, assertThat_commitLog, setRob_commitLog,
      doCommit_commitLog, setState_commitLog, setState_ctxts_active]
    rw [← Multiset.coe_add, ← Multiset.cons_coe, ← Multiset.singleton_add]
    calc ↑items + (↑(s.ctxts head).pushBuffer + ↑s.publishLog)
        = ↑(s.ctxts head).pushBuffer + (↑items + ↑s.publishLog) := by abel
      _ = ↑(s.ctxts head).pushBuffer +
          (↑s.commitLog + pendingItems s + ({(s.ctxts head).active} + liveItems
            (addNumCommitted (reclaim head (assertThat true
              (setRob rest (doCommit tid head (setState head .COMMITTING s)))))))) := by
          rw [h.1]
      _ = _ := by abel
  | dropAborted c rest hperm hst =>
    have hret := liveRob_retire (t := reclaim c (setRob rest s)) hwf c rest hperm (by simp)
      (fun d hd => by simp)
    simp only [hst, if_true, List.nil_append] at hret
    have hlive := liveItems_perm hret (fun c => by simp)
    unfold Conserved at h ⊢
    rw [← hlive, pendingItems_same (s := s) (by simp) (by simp)]
    simpa using h
  | permRob r hperm =>
    have hlive := liveItems_perm (t := setRob r s)
      (liveRob_perm (by simpa using hperm) (fun c => by simp)) (fun c => by simp)
    unfold Conserved at h ⊢
    rw [← hlive, pendingItems_same (s := s) (by simp) (by simp)]
    simpa using h
  | cleanupCount =>
    exact h.of_same_conserved rfl (fun c _ => by simp) (fun c => by simp) rfl rfl rfl rfl rfl

theorem heapItems_nil : ∀ k : Nat, heapItems (fun _ => ([] : List T)) k = 0
  | 0 => rfl
  | k + 1 => by simp [heapItems, heapItems_nil k]

theorem pushEach_pendingItems (assign : Nat → Nat) :
    ∀ (rest : List T) (k : Nat) (s : Exec T), (∀ i, assign i < s.activeThreads) →
      pendingItems (pushEach assign k rest s) = (rest : Multiset T) + pendingItems s ∧
        (pushEach assign k rest s).activeThreads = s.activeThreads
  | [], _, s, _ => by simp [pushEach]
  | y :: ys, k, s, ha => by
    have h1 := pendingItems_add (s := s) (t := pushLocal (assign k) y s) (assign k) [y]
      (y :: s.pending (assign k)) (ha k) rfl (by simp) (by simp)
    have ih := pushEach_pendingItems assign ys (k + 1) (pushLocal (assign k) y s)
      (by simpa using ha)
    simp only [pushEach]
    rw [ih.1, h1, ih.2]
    refine ⟨?_, rfl⟩
    have e : ((y :: ys : List T) : Multiset T) = ↑[y] + ↑ys := by
      rw [Multiset.coe_add]; rfl
    rw [e]
    abel

/-- After `push_initial` the pending heaps hold exactly the input. -/
theorem Initial.pendingItems {cmp : T → T → Bool} {window : Nat} {items : List T}
    {s0 : Exec T} (h : Initial cmp window items s0) :
    pendingItems s0 = (items : Multiset T) := by
  obtain ⟨n, maxT, junk, assign, hn, _, hassign, hpush⟩ := h
  unfold push_initialW at hpush
  cases items with
  | nil => simp at hpush
  | cons x rest =>
    simp only at hpush
    have h0 := pendingItems_add (s := Exec.fresh n maxT junk)
      (t := setPending 0 (heapPush x ((Exec.fresh n maxT junk).pending 0))
        (Exec.fresh n maxT junk)) 0 [x] [x] hn rfl (by simp [Exec.fresh])
      (by simp [Exec.fresh])
    have hz : ROBexecutor.pendingItems (Exec.fresh n maxT junk) = 0 :=
      heapItems_nil _
    rw [hz, add_zero] at h0
    have hact0 : (setPending 0 (heapPush x ((Exec.fresh n maxT junk).pending 0))
        (Exec.fresh n maxT junk)).activeThreads = n := rfl
    generalize setPending 0 (heapPush x ((Exec.fresh n maxT junk).pending 0))
      (Exec.fresh n maxT junk) = sa at hpush h0 hact0
    have h1 := pushEach_pendingItems assign rest 0 sa (by rw [hact0]; exact hassign)
    rw [h0] at h1
    generalize pushEach assign 0 rest sa = s1 at hpush h1
    have h2 : ROBexecutor.pendingItems (assertThat (!emptyAll s1.maxThreads s1.pending) s1) =
        ROBexecutor.pendingItems s1 := pendingItems_same rfl rfl
    generalize hs2 : assertThat (!emptyAll s1.maxThreads s1.pending) s1 = s2 at hpush h2
    cases htop : heapTop cmp (s2.pending 0) with
    | none => simp [htop] at hpush
    | some dummy =>
      simp only [htop, Option.some.injEq] at hpush
      subst hpush
      have h3 : (allocAll window dummy s2).pending = s2.pending ∧
          (allocAll window dummy s2).activeThreads = s2.activeThreads :=
        allocAll_preserves
          (fun s => s.pending = s2.pending ∧ s.activeThreads = s2.activeThreads) window dummy
          (fun s tid j hs => by simpa [allocSlot] using hs) s2 ⟨rfl, rfl⟩
      rw [pendingItems_same h3.2 h3.1, h2, h1.1]
      have e : ((x :: rest : List T) : Multiset T) = ↑[x] + ↑rest := by
        rw [Multiset.coe_add]; rfl
      rw [e]
      abel

theorem Run.conserved {cmp : T → T → Bool} {allowed : T → T → Prop} {window : Nat}
    {items : List T} {s : Exec T} (h : Run cmp allowed window items s) :
    Conserved items s :=
  Run.wf_and_of_initial
    (fun s0 h0 => by
      have hs := h0.started
      unfold Conserved liveItems liveRob
      rw [h0.pendingItems, hs.pristine.rob, hs.pristine.commitLog, hs.pristine.publishLog,
        hs.pristine.numCommitted]
      simp)
    (fun _ _ hwf hp hatom => Conserved.atom_conserved hwf hp hatom) h

end Conservation
/-! ## The order of commits -/

section CommitOrder

variable {T : Type}

theorem mem_pushAll {α : Type} (buf init : List α) (y : α) :
    y ∈ buf.foldl (fun h c => heapPush c h) init ↔ y ∈ buf ∨ y ∈ init := by
  rw [(pushAll_perm buf init).mem_iff, List.mem_append]

theorem Ordered.of_same_ordered {cmp : T → T → Bool} {s t : Exec T} (h : Ordered cmp s)
    (h1 : t.commitLog = s.commitLog) (h2 : t.pending = s.pending) (h3 : t.rob = s.rob)
    (h4 : ∀ c, (t.ctxts c).active = (s.ctxts c).active)
    (h5 : ∀ c, (t.ctxts c).pushBuffer = (s.ctxts c).pushBuffer) : Ordered cmp t := by
  refine ⟨?_, ?_, ?_, ?_⟩
  · intro x hx i y hy
    rw [h1] at hx; rw [h2] at hy
    exact h.pending x hx i y hy
  · intro x hx c hc
    rw [h1] at hx; rw [h3] at hc; rw [h4]
    exact h.rob x hx c hc
  · intro c p hp
    rw [h5] at hp; rw [h4]
    exact h.buffer c p hp
  · rw [h1]; exact h.log

/-- An abort of a context of the reorder buffer keeps the order invariant: the item
that goes back to a pending heap is the item of that context. -/
theorem Ordered.of_abort_ordered {cmp : T → T → Bool} {s t : Exec T} (h : Ordered cmp s) (x : Nat)
    (hx : x ∈ s.rob) (h1 : t.commitLog = s.commitLog)
    (h2 : t.pending = Function.update s.pending ((s.ctxts x).owner / 2)
      ((s.ctxts x).active :: s.pending ((s.ctxts x).owner / 2)))
    (h3 : t.rob = s.rob) (h4 : ∀ c, (t.ctxts c).active = (s.ctxts c).active)
    (h5 : ∀ c, (t.ctxts c).pushBuffer = if c = x then [] else (s.ctxts c).pushBuffer) :
    Ordered cmp t := by
  refine ⟨?_, ?_, ?_, ?_⟩
  · intro a ha i y hy
    rw [h1] at ha
    rw [h2, Function.update_apply] at hy
    by_cases hi : i = (s.ctxts x).owner / 2
    · simp only [hi, if_true, List.mem_cons] at hy
      rcases hy with e | e
      · rw [e]; exact h.rob a ha x hx
      · exact h.pending a ha _ y e
    · simp only [hi, if_false] at hy
      exact h.pending a ha i y hy
  · intro a ha c hc
    rw [h1] at ha; rw [h3] at hc; rw [h4]
    exact h.rob a ha c hc
  · intro c p hp
    rw [h5] at hp; rw [h4]
    by_cases hc : c = x
    · simp [hc] at hp
    · simp only [hc, if_false] at hp
      exact h.buffer c p hp
  · rw [h1]; exact h.log

theorem Ordered.atom_ordered {cmp : T → T → Bool} (hc : StrictWeak cmp) {s s1 : Exec T}
    (hwf : WF s) (h : Ordered cmp s)
    (ha : Atom cmp (fun a x => cmp x a = false) s s1) : Ordered cmp s1 := by
  cases ha with
  | sched tid ctx j x rest htid hj hctx hpop =>
    have hnotrob : ctx ∉ s.rob :=
      hwf.freeNotRob tid ctx (List.mem_of_getLast?_eq_some hctx)
    refine ⟨?_, ?_, ?_, ?_⟩
    · intro a ha i y hy
      have ha2 : a ∈ s.commitLog := by simpa using ha
      simp only [addNumTotal_pending, setRob_pending, setOwner_pending, setState_pending,
        construct_pending, setPending_pending, setFreeList_pending, Function.update_apply] at hy
      by_cases hi : i = j
      · simp only [hi, if_true] at hy
        exact h.pending a ha2 j y (heapPop_rest_subset hpop y hy)
      · simp only [hi, if_false] at hy
        exact h.pending a ha2 i y hy
    · intro a ha c hcr
      have ha2 : a ∈ s.commitLog := by simpa using ha
      simp only [addNumTotal_rob, setRob_rob, heapPush_eq, List.mem_cons] at hcr
      by_cases hcc : c = ctx
      · subst hcc
        simpa using h.pending a ha2 j x (heapPop_mem hpop)
      · have hc2 : c ∈ s.rob := by simpa [hcc] using hcr
        simpa [hcc] using h.rob a ha2 c hc2
    · intro c p hp
      by_cases hcc : c = ctx
      · subst hcc; simp at hp
      · simp only [addNumTotal_ctxts, setRob_ctxts, setOwner_ctxts_pushBuffer,
          setState_ctxts_pushBuffer, construct_ctxts_pushBuffer, hcc, if_false,
          setPending_ctxts, setFreeList_ctxts] at hp
        simpa [hcc] using h.buffer c p hp
    · simpa using h.log
  | newOwner c l hrun hnone =>
    exact h.of_same_ordered rfl rfl rfl (fun d => by simp) (fun d => by simp)
  | asserted cond =>
    exact h.of_same_ordered rfl rfl rfl (fun d => by simp) (fun d => by simp)
  | loseState c hrun =>
    exact h.of_same_ordered rfl rfl rfl (fun d => by simp) (fun d => by simp)
  | lostFlag c =>
    exact h.of_same_ordered rfl rfl rfl (fun d => by simp) (fun d => by simp)
  | signalled that hst =>
    exact h.of_same_ordered rfl rfl rfl (fun d => by simp) (fun d => by simp)
  | helped l that hown hst =>
    obtain ⟨_, a2, _, _⟩ := hwf.owned l that hown
    exact h.of_abort_ordered that a2 (by simp) (by simp) (by simp) (fun d => by simp)
      (fun d => by simp)
  | opPush c x hrun hal =>
    refine ⟨?_, ?_, ?_, ?_⟩
    · intro a ha i y hy
      exact h.pending a (by simpa using ha) i y (by simpa using hy)
    · intro a ha d hd
      simpa using h.rob a (by simpa using ha) d (by simpa using hd)
    · intro d p hp
      simp only [pushBufferAppend_ctxts_pushBuffer] at hp
      simp only [pushBufferAppend_ctxts_active]
      by_cases hd : d = c
      · subst hd
        simp only [if_true, List.mem_append, List.mem_singleton] at hp
        rcases hp with e | e
        · exact h.buffer d p e
        · rw [e]; exact hal
      · simp only [hd, if_false] at hp
        exact h.buffer d p hp
    · simpa using h.log
  | finishReady c hrun hst =>
    exact h.of_same_ordered rfl rfl rfl (fun d => by simp) (fun d => by simp)
  | finishAbort c hrun hst =>
    exact h.of_abort_ordered c hrun.1 (by simp) (by simp) (by simp) (fun d => by simp)
      (fun d => by simp)
  | finishOnly c hrun h1 h2 =>
    exact h.of_same_ordered rfl rfl rfl (fun d => by simp) (fun d => by simp)
  | commit tid head rest htid hpop hst hearly =>
    have hperm := heapPop_perm hpop
    have hhead : head ∈ s.rob := heapPop_mem hpop
    have hsub : ∀ c, c ∈ rest → c ∈ s.rob := heapPop_rest_subset hpop
    have hleast : ∀ c, c ∈ s.rob → cmp (s.ctxts c).active (s.ctxts head).active = false :=
      heapPop_least hc (fun c => (s.ctxts c).active) hpop
    have hearly2 := (isEarliest_true_iff cmp (s.ctxts head).active s).mp hearly
    have hpend : ∀ i y, y ∈ s.pending i → cmp y (s.ctxts head).active = false := by
      intro i y hy
      by_cases hi : i < s.activeThreads
      · cases htop : heapTop cmp (s.pending i) with
        | none =>
          rw [heapTop_eq_none.mp htop] at hy
          exact absurd hy (List.not_mem_nil y)
        | some t =>
          exact hc.negTrans _ _ _ (heapTop_least hc htop y hy) (hearly2 i hi t htop)
      · rw [hwf.pendingValid i (by omega)] at hy
        exact absurd hy (List.not_mem_nil y)
    refine ⟨?_, ?_, ?_, ?_⟩
    · intro a ha i y hy
      simp only [addNumCommitted_commitLog, reclaim_commitLog, assertThat_commitLog,
        setRob_commitLog, doCommit_commitLog, setState_commitLog, setState_ctxts_active,
        List.mem_cons] at ha
      simp only [addNumCommitted_pending, reclaim_pending, assertThat_pending, setRob_pending,
        doCommit_pending, setState_pending, setState_ctxts_pushBuffer,
        Function.update_apply] at hy
      have hy2 : y ∈ (s.ctxts head).pushBuffer ∨ y ∈ s.pending i := by
        by_cases hi : i = tid
        · simp only [hi, if_true, mem_pushAll] at hy
          rw [hi]; exact hy
        · simp only [hi, if_false] at hy
          exact Or.inr hy
      rcases ha with e | e
      · rw [e]
        rcases hy2 with hy3 | hy3
        · exact h.buffer head y hy3
        · exact hpend i y hy3
      · rcases hy2 with hy3 | hy3
        · exact hc.negTrans _ _ _ (h.buffer head y hy3) (h.rob a e head hhead)
        · exact h.pending a e i y hy3
    · intro a ha c hcr
      simp only [addNumCommitted_commitLog, reclaim_commitLog, assertThat_commitLog,
        setRob_commitLog, doCommit_commitLog, setState_commitLog, setState_ctxts_active,
        List.mem_cons] at ha
      have hc2 : c ∈ rest := by simpa using hcr
      simp only [addNumCommitted_ctxts, reclaim_ctxts, assertThat_ctxts, setRob_ctxts,
        doCommit_ctxts_active, setState_ctxts_active]
      rcases ha with e | e
      · rw [e]; exact hleast c (hsub c hc2)
      · exact h.rob a e c (hsub c hc2)
    · intro c p hp
      simp only [addNumCommitted_ctxts, reclaim_ctxts, assertThat_ctxts, setRob_ctxts,
        doCommit_ctxts_pushBuffer, setState_ctxts_pushBuffer] at hp
      simp only [addNumCommitted_ctxts, reclaim_ctxts, assertThat_ctxts, setRob_ctxts,
        doCommit_ctxts_active, setState_ctxts_active]
      by_cases hch : c = head
      · simp [hch] at hp
      · simp only [hch, if_false] at hp
        exact h.buffer c p hp
    · simp only [addNumCommitted_commitLog, reclaim_commitLog, assertThat_commitLog,
        setRob_commitLog, doCommit_commitLog, setState_commitLog, setState_ctxts_active,
        List.pairwise_cons]
      exact ⟨fun a ha => h.rob a ha head hhead, h.log⟩
  | dropAborted c rest hperm hst =>
    refine ⟨?_, ?_, ?_, ?_⟩
    · intro a ha i y hy
      exact h.pending a (by simpa using ha) i y (by simpa using hy)
    · intro a ha d hd
      have hd2 : d ∈ s.rob := hperm.symm.subset (List.mem_cons_of_mem _ (by simpa using hd))
      simpa using h.rob a (by simpa using ha) d hd2
    · intro d p hp
      simpa using h.buffer d p (by simpa using hp)
    · simpa using h.log
  | permRob r hperm =>
    refine ⟨?_, ?_, ?_, ?_⟩
    · intro a ha i y hy
      exact h.pending a (by simpa using ha) i y (by simpa using hy)
    · intro a ha d hd
      have hd2 : d ∈ s.rob := hperm.symm.subset (by simpa using hd)
      simpa using h.rob a (by simpa using ha) d hd2
    · intro d p hp
      simpa using h.buffer d p (by simpa using hp)
    · simpa using h.log
  | cleanupCount =>
    exact h.of_same_ordered rfl rfl rfl (fun d => by simp) (fun d => by simp)

theorem Run.ordered {cmp : T → T → Bool} (hc : StrictWeak cmp) {window : Nat}
    {items : List T} {s : Exec T}
    (h : Run cmp (fun a x => cmp x a = false) window items s) : Ordered cmp s :=
  Run.wf_and
    (fun s0 h0 => by
      refine ⟨?_, ?_, ?_, ?_⟩
      · intro x hx
        rw [h0.pristine.commitLog] at hx
        exact absurd hx (List.not_mem_nil x)
      · intro x hx
        rw [h0.pristine.commitLog] at hx
        exact absurd hx (List.not_mem_nil x)
      · intro c p hp
        rw [(h0.pristine.ctxts c).2.2.1] at hp
        exact absurd hp (List.not_mem_nil p)
      · rw [h0.pristine.commitLog]
        exact List.Pairwise.nil)
    (fun _ _ hwf hp hatom => Ordered.atom_ordered hc hwf hp hatom) h

end CommitOrder
/-! ## The small run is a run -/

section DemoRun

theorem strictWeak_natLt : StrictWeak natLt := by
  refine ⟨?_, ?_, ?_⟩
  · intro a; simp [natLt]
  · intro a b c h1 h2
    simp only [natLt, decide_eq_true_eq] at h1 h2 ⊢
    omega
  · intro a b c h1 h2
    simp only [natLt, decide_eq_false_iff_not] at h1 h2 ⊢
    omega

theorem demoStart_initial : Initial natLt 1 [5, 3] demoStart :=
  ⟨2, 2, 0, fun _ => 0, by decide, by decide, fun _ => Nat.zero_lt_two, rfl⟩

theorem demo_reachable : Reachable natLt demoAllowed demoStart demoEnd := by
  have r0 : Reachable natLt demoAllowed demoStart demoStart := Reachable.init
  have r1 : Reachable natLt demoAllowed demoStart demo1 :=
    Reachable.step _ _ r0 (Step.schedule demoStart 1 (by decide))
  have r2 : Reachable natLt demoAllowed demoStart demo2 :=
    Reachable.step _ _ r1 (Step.schedule demo1 0 (by decide))
  have r3 : Reachable natLt demoAllowed demoStart demo3 :=
    Reachable.step _ _ r2 (Step.acquire demo2 0 7 1 demo3 ⟨by decide, by decide⟩ rfl)
  have r4 : Reachable natLt demoAllowed demoStart demo4 :=
    Reachable.step _ _ r3
      (Step.signal demo3 1 7 0 ⟨by decide, by decide⟩ (by decide) (by decide) (by decide)
        (by decide))
  have r5 : Reachable natLt demoAllowed demoStart demo5 :=
    Reachable.step _ _ r4 (Step.finish demo4 0 ⟨by decide, by decide⟩)
  have r6 : Reachable natLt demoAllowed demoStart demo6 :=
    Reachable.step _ _ r5 (Step.acquire demo5 1 7 1 demo6 ⟨by decide, by decide⟩ rfl)
  have r7 : Reachable natLt demoAllowed demoStart demo7 :=
    Reachable.step _ _ r6 (Step.finish demo6 1 ⟨by decide, by decide⟩)
  have r8 : Reachable natLt demoAllowed demoStart demo8 :=
    Reachable.step _ _ r7 (Step.clear demo7 1 (by decide))
  have r9 : Reachable natLt demoAllowed demoStart demo9 :=
    Reachable.step _ _ r8 (Step.schedule demo8 0 (by decide))
  have r10 : Reachable natLt demoAllowed demoStart demo10 :=
    Reachable.step _ _ r9 (Step.finish demo9 0 ⟨by decide, by decide⟩)
  exact Reachable.step _ _ r10 (Step.clear demo10 0 (by decide))

theorem demo_run : Run natLt demoAllowed 1 [5, 3] demoEnd :=
  ⟨demoStart, demoStart_initial, demo_reachable⟩

theorem demoEnd_commitLog : demoEnd.commitLog = [5, 3] := by decide

theorem demoEnd_counters :
    demoEnd.numTotal = 3 ∧ demoEnd.numCommitted = 2 ∧ demoEnd.abortSelfBySignal = 1 ∧
      demoEnd.abortSelfByConflict = 0 ∧ demoEnd.abortByOther = 0 ∧ demoEnd.rob = [] := by
  decide

end DemoRun
/-! ## The commit sweep -/

section Sweep

variable {T : Type}

/-- A round of the loop of `clearROB` in closed form. -/
theorem clearROBRound_eq (cmp : T → T → Bool) (tid : Nat) (s : Exec T) :
    clearROBRound cmp tid s =
      match heapPop (ctxtCmp cmp s) s.rob with
      | none => .stop
      | some (head, rest) =>
        if (s.ctxts head).state = .ABORT_DONE then
          .reclaimed head (reclaim head (setRob rest s))
        else if (s.ctxts head).state = .READY_TO_COMMIT ∧
            isEarliest cmp (s.ctxts head).active s = true then
          .committed head (addNumCommitted (reclaim head (assertThat true
            (setRob rest (doCommit tid head (setState head .COMMITTING s))))))
        else .stop := by
  unfold clearROBRound
  cases hpop : heapPop (ctxtCmp cmp s) s.rob with
  | none =>
    have : heapTop (ctxtCmp cmp s) s.rob = none := by simp [heapTop, hpop]
    simp [this]
  | some p =>
    obtain ⟨head, rest⟩ := p
    have htop : heapTop (ctxtCmp cmp s) s.rob = some head := by simp [heapTop, hpop]
    simp only [htop]
    by_cases hdone : (s.ctxts head).state = .ABORT_DONE
    · simp [hdone]
    · simp only [hasState_eq, hdone, decide_False, Bool.false_eq_true, if_false]
      by_cases hrtc : (s.ctxts head).state = .READY_TO_COMMIT
      · simp only [hrtc, decide_True, if_true, true_and]
        by_cases hearly : isEarliest cmp (s.ctxts head).active s = true
        · simp only [hearly, if_true]
          have hcc : ctxtCmp cmp (doCommit tid head (setState head .COMMITTING s))
              = ctxtCmp cmp s := ctxtCmp_congr cmp (by intro d; simp)
          have hrob : (doCommit tid head (setState head .COMMITTING s)).rob = s.rob := by simp
          rw [hcc, hrob, hpop]
          simp
        · simp [hearly]
      · simp [hrtc]

theorem clearROBRound_length (cmp : T → T → Bool) (tid : Nat) (s : Exec T) :
    match clearROBRound cmp tid s with
    | .stop => True
    | .reclaimed _ s1 => s.rob.length = s1.rob.length + 1
    | .committed _ s1 => s.rob.length = s1.rob.length + 1 := by
  rw [clearROBRound_eq]
  cases hpop : heapPop (ctxtCmp cmp s) s.rob with
  | none => simp
  | some p =>
    obtain ⟨head, rest⟩ := p
    have hl := heapPop_length hpop
    simp only
    by_cases h1 : (s.ctxts head).state = .ABORT_DONE
    · simpa [h1] using hl
    · by_cases h2 : (s.ctxts head).state = .READY_TO_COMMIT ∧
          isEarliest cmp (s.ctxts head).active s = true
      · simpa [h1, h2] using hl
      · simp [h1, h2]

theorem clearROBLoop_swept (cmp : T → T → Bool) (tid : Nat) (s : Exec T) :
    ∀ (fuel : Nat) (a : Exec T) (d : Bool), Swept cmp tid s a →
      Swept cmp tid s (clearROBLoop cmp tid fuel a d).2
  | 0, _, _, h => h
  | fuel + 1, a, d, h => by
    unfold clearROBLoop
    cases hround : clearROBRound cmp tid a with
    | stop => exact h
    | reclaimed head b =>
      exact clearROBLoop_swept cmp tid s fuel b true (Swept.reclaimed a b head h hround)
    | committed head b =>
      exact clearROBLoop_swept cmp tid s fuel b true (Swept.committed a b head h hround)

/-- The loop of `clearROB` ends with a round that stops: the fuel it is given, the
size of the reorder buffer, is never used up. -/
theorem clearROBLoop_stops (cmp : T → T → Bool) (tid : Nat) :
    ∀ (fuel : Nat) (a : Exec T) (d : Bool), a.rob.length ≤ fuel →
      clearROBRound cmp tid (clearROBLoop cmp tid fuel a d).2 = .stop
  | 0, a, d, h => by
    have : a.rob = [] := List.length_eq_zero.mp (Nat.le_zero.mp h)
    simp [clearROBLoop, clearROBRound_eq, this, heapPop]
  | fuel + 1, a, d, h => by
    have hl := clearROBRound_length cmp tid a
    unfold clearROBLoop
    cases hround : clearROBRound cmp tid a with
    | stop => simpa using hround
    | reclaimed head b =>
      rw [hround] at hl
      exact clearROBLoop_stops cmp tid fuel b true (by simp only at hl; omega)
    | committed head b =>
      rw [hround] at hl
      exact clearROBLoop_stops cmp tid fuel b true (by simp only at hl; omega)

theorem drainROB_preserves (cmp : T → T → Bool) (P : Exec T → Prop)
    (h1 : ∀ s r, P s → P (setRob r s)) (h2 : ∀ s c, P s → P (reclaim c s)) :
    ∀ (fuel : Nat) (s : Exec T) (buf : List Nat), P s → P (drainROB cmp fuel s buf).1
  | 0, _, _, h => h
  | fuel + 1, s, buf, h => by
    unfold drainROB
    cases heapPop (ctxtCmp cmp s) s.rob with
    | none => exact h
    | some p =>
      obtain ⟨ctx, rest⟩ := p
      simp only
      split
      · exact drainROB_preserves cmp P h1 h2 fuel _ buf (h2 _ ctx (h1 s rest h))
      · exact drainROB_preserves cmp P h1 h2 fuel _ _ (h1 s rest h)

/-- `reclaimGlobally` commits nothing: it leaves every context object, the commit log
and `numCommitted` alone. -/
theorem reclaimGlobally_frame (cmp : T → T → Bool) (s : Exec T) :
    (reclaimGlobally cmp s).ctxts = s.ctxts ∧
      (reclaimGlobally cmp s).commitLog = s.commitLog ∧
      (reclaimGlobally cmp s).numCommitted = s.numCommitted := by
  unfold reclaimGlobally
  have h := drainROB_preserves cmp
    (fun a => a.ctxts = s.ctxts ∧ a.commitLog = s.commitLog ∧ a.numCommitted = s.numCommitted)
    (fun a r ha => ha) (fun a c ha => ha) (addNumGlobalCleanups s).rob.length
    (addNumGlobalCleanups s) [] ⟨rfl, rfl, rfl⟩
  exact h

/-- A context on which `doCommit` ran during a sweep was committed by a round of the
sweep whose head it was. -/
theorem Swept.committed_by_round {cmp : T → T → Bool} {tid : Nat} {s a : Exec T}
    (h : Swept cmp tid s a) (d : Nat)
    (hd : (a.ctxts d).nCommit ≠ (s.ctxts d).nCommit) :
    ∃ b b1, Swept cmp tid s b ∧ clearROBRound cmp tid b = .committed d b1 := by
  induction h with
  | start => exact absurd rfl hd
  | reclaimed a b head hsw hround ih =>
    rw [clearROBRound_eq] at hround
    cases hpop : heapPop (ctxtCmp cmp a) a.rob with
    | none => simp [hpop] at hround
    | some p =>
      obtain ⟨hd0, rest⟩ := p
      simp only [hpop] at hround
      split at hround
      · simp only [Sweep.reclaimed.injEq] at hround
        obtain ⟨_, rfl⟩ := hround
        exact ih (by simpa using hd)
      · split at hround <;> simp at hround
  | committed a b head hsw hround ih =>
    by_cases hdh : d = head
    · subst hdh
      exact ⟨a, b, hsw, hround⟩
    · rw [clearROBRound_eq] at hround
      cases hpop : heapPop (ctxtCmp cmp a) a.rob with
      | none => simp [hpop] at hround
      | some p =>
        obtain ⟨hd0, rest⟩ := p
        simp only [hpop] at hround
        split at hround
        · simp at hround
        · split at hround
          · simp only [Sweep.committed.injEq] at hround
            obtain ⟨rfl, rfl⟩ := hround
            exact ih (by simpa [hdh] using hd)
          · simp at hround

end Sweep
/-! ## The properties of a run -/

section Properties

variable {T : Type}

theorem pendingItems_empty {s : Exec T} (h : ∀ i, i < s.activeThreads → s.pending i = []) :
    pendingItems s = 0 := by
  unfold pendingItems
  rw [heapItems_congr (p := fun _ => []) s.activeThreads h]
  exact heapItems_nil _

/-- C1: in a run whose operators only push items that do not strictly precede their own
item, and for a comparator that is a strict weak order, the commits are in order: when
the `i`-th committed item strictly precedes the `j`-th committed item under `cmp`
(`commitLog.reverse` lists the commits in the order they were made), then `i < j`, the
first was committed before the second. -/
theorem commit_order (cmp : T → T → Bool) (hc : StrictWeak cmp) (window : Nat)
    (items : List T) (s : Exec T)
    (h : Run cmp (fun a x => cmp x a = false) window items s) (i j : Nat)
    (hi : i < s.commitLog.reverse.length) (hj : j < s.commitLog.reverse.length)
    (hcmp : cmp (s.commitLog.reverse.get ⟨i, hi⟩) (s.commitLog.reverse.get ⟨j, hj⟩) = true) :
    i < j := by
  have hlog := (Run.ordered hc h).log
  have hrev : s.commitLog.reverse.Pairwise (fun earlier later => cmp later earlier = false) :=
    List.pairwise_reverse.mpr hlog
  rw [List.pairwise_iff_getElem] at hrev
  by_contra hnot
  rcases Nat.lt_or_eq_of_le (Nat.le_of_not_lt hnot) with hlt | heq
  · have := hrev j i hj hi hlt
    simp only [List.get_eq_getElem] at hcmp
    rw [this] at hcmp
    exact absurd hcmp (by simp)
  · subst heq
    rw [hc.irrefl] at hcmp
    exact absurd hcmp (by simp)

/-- C1, on the small run: 3 and 5 are committed in this order. -/
theorem commit_order_witness :
    StrictWeak natLt ∧ Run natLt (fun a x => natLt x a = false) 1 [5, 3] demoEnd ∧
      demoEnd.commitLog.reverse = [3, 5] ∧
      natLt (demoEnd.commitLog.reverse.get ⟨0, by decide⟩)
        (demoEnd.commitLog.reverse.get ⟨1, by decide⟩) = true ∧ 0 < 1 :=
  ⟨strictWeak_natLt, demo_run, by decide, by decide,
    commit_order natLt strictWeak_natLt 1 [5, 3] demoEnd demo_run 0 1 (by decide) (by decide)
      (by decide)⟩

/-- C2: a round of the loop of `clearROB` commits only the head: when it commits
context `head`, then `head` is the top of the reorder buffer, is READY_TO_COMMIT, and no
pending heap has a top item that strictly precedes its item; it is set to COMMITTING,
`doCommit` runs on it, it is popped, and `numCommitted` grows by one, no other context
changing its state.  A round that reclaims leaves all contexts and the commit log alone.
A round stops exactly when the buffer is empty or its head is neither ABORT_DONE nor
committable.  The loop of `clearROB` goes from round to round until a round stops, and
any context on which `doCommit` ran during `clearROB` was the head in the round that
committed it. -/
theorem clearROB_commits_only_head (cmp : T → T → Bool) (tid : Nat) (s : Exec T) :
    (∀ head s1, clearROBRound cmp tid s = .committed head s1 →
      heapTop (ctxtCmp cmp s) s.rob = some head ∧
      (s.ctxts head).state = .READY_TO_COMMIT ∧
      (∀ i, i < s.activeThreads → ∀ t, heapTop cmp (s.pending i) = some t →
        cmp t (s.ctxts head).active = false) ∧
      (∃ rest, heapPop (ctxtCmp cmp s) s.rob = some (head, rest) ∧ s1.rob = rest) ∧
      (s1.ctxts head).state = .COMMIT_DONE ∧
      (s1.ctxts head).nCommit = (s.ctxts head).nCommit + 1 ∧
      s1.stateLog =
        (head, .COMMITTING, .COMMIT_DONE) :: (head, .READY_TO_COMMIT, .COMMITTING) :: s.stateLog ∧
      s1.numCommitted = s.numCommitted + 1 ∧
      s1.commitLog = (s.ctxts head).active :: s.commitLog ∧
      ∀ d, d ≠ head → (s1.ctxts d).state = (s.ctxts d).state ∧
        (s1.ctxts d).nCommit = (s.ctxts d).nCommit) ∧
    (∀ head s1, clearROBRound cmp tid s = .reclaimed head s1 →
      heapTop (ctxtCmp cmp s) s.rob = some head ∧ (s.ctxts head).state = .ABORT_DONE ∧
      s1.ctxts = s.ctxts ∧ s1.numCommitted = s.numCommitted ∧ s1.commitLog = s.commitLog) ∧
    (clearROBRound cmp tid s = .stop ↔
      s.rob = [] ∨ ∃ head, heapTop (ctxtCmp cmp s) s.rob = some head ∧
        (s.ctxts head).state ≠ .ABORT_DONE ∧
        ¬((s.ctxts head).state = .READY_TO_COMMIT ∧
          isEarliest cmp (s.ctxts head).active s = true)) ∧
    Swept cmp tid s (clearROBLoop cmp tid s.rob.length s false).2 ∧
    clearROBRound cmp tid (clearROBLoop cmp tid s.rob.length s false).2 = .stop ∧
    (∀ d, ((clearROB cmp tid s).2.ctxts d).nCommit ≠ (s.ctxts d).nCommit →
      ∃ a b, Swept cmp tid s a ∧ clearROBRound cmp tid a = .committed d b) := by
  refine ⟨?_, ?_, ?_, ?_, ?_, ?_⟩
  · intro head s1 hround
    rw [clearROBRound_eq] at hround
    cases hpop : heapPop (ctxtCmp cmp s) s.rob with
    | none => simp [hpop] at hround
    | some p =>
      obtain ⟨hd0, rest⟩ := p
      simp only [hpop] at hround
      by_cases h1 : (s.ctxts hd0).state = .ABORT_DONE
      · simp [h1] at hround
      · by_cases h2 : (s.ctxts hd0).state = .READY_TO_COMMIT ∧
            isEarliest cmp (s.ctxts hd0).active s = true
        · simp only [h1, if_false, h2, and_self, if_true, Sweep.committed.injEq] at hround
          obtain ⟨rfl, rfl⟩ := hround
          refine ⟨heapTop_eq_some.mpr ⟨rest, hpop⟩, h2.1,
            (isEarliest_true_iff cmp _ s).mp h2.2, ⟨rest, rfl, by simp⟩, by simp, by simp,
            by simp [h2.1], by simp, by simp, ?_⟩
          intro d hd
          simp [hd]
        · simp [h1, h2] at hround
  · intro head s1 hround
    rw [clearROBRound_eq] at hround
    cases hpop : heapPop (ctxtCmp cmp s) s.rob with
    | none => simp [hpop] at hround
    | some p =>
      obtain ⟨hd0, rest⟩ := p
      simp only [hpop] at hround
      by_cases h1 : (s.ctxts hd0).state = .ABORT_DONE
      · simp only [h1, if_true, Sweep.reclaimed.injEq] at hround
        obtain ⟨rfl, rfl⟩ := hround
        exact ⟨heapTop_eq_some.mpr ⟨rest, hpop⟩, h1, rfl, rfl, rfl⟩
      · by_cases h2 : (s.ctxts hd0).state = .READY_TO_COMMIT ∧
            isEarliest cmp (s.ctxts hd0).active s = true
        · simp [h1, h2] at hround
        · simp [h1, h2] at hround
  · rw [clearROBRound_eq]
    cases hpop : heapPop (ctxtCmp cmp s) s.rob with
    | none =>
      simp only [true_iff]
      exact Or.inl (heapPop_eq_none.mp hpop)
    | some p =>
      obtain ⟨hd0, rest⟩ := p
      have htop : heapTop (ctxtCmp cmp s) s.rob = some hd0 := heapTop_eq_some.mpr ⟨rest, hpop⟩
      have hne : s.rob ≠ [] := fun e => by rw [e] at hpop; simp [heapPop] at hpop
      simp only [htop, Option.some.injEq, hne, false_or, exists_eq_left']
      by_cases h1 : (s.ctxts hd0).state = .ABORT_DONE
      · simp [h1]
      · by_cases h2 : (s.ctxts hd0).state = .READY_TO_COMMIT ∧
            isEarliest cmp (s.ctxts hd0).active s = true
        · simp [h1, h2]
        · simp [h1, h2]
  · exact clearROBLoop_swept cmp tid s _ s false Swept.start
  · exact clearROBLoop_stops cmp tid _ s false (Nat.le_refl _)
  · intro d hd
    have hsw := clearROBLoop_swept cmp tid s s.rob.length s false Swept.start
    have hctx : (clearROB cmp tid s).2.ctxts = (clearROBLoop cmp tid s.rob.length s false).2.ctxts := by
      unfold clearROB
      simp only
      split
      · exact (reclaimGlobally_frame cmp _).1
      · rfl
    rw [hctx] at hd
    exact hsw.committed_by_round d hd

/-- Runs of whole operations (`Run`: no thread is interrupted inside `subAcquire`,
inside `clearROB` or inside the statements of `execute` behind `applyOperator`) lose and
duplicate no item.  After `push_initial` the pending heaps hold
exactly the input.  In every state of a run the input and the items published by commits
are, as multisets, the committed items, the pending items and the items of the live
contexts of the reorder buffer, and `numCommitted` is the number of committed items;
`doAbort` adds exactly the item of its context to a pending heap and `doCommit` adds
exactly its push buffer.  Hence with an empty reorder buffer and empty pending heaps the
committed items are the initial and the published items, and `numCommitted` is their
number. -/
theorem items_conserved (cmp : T → T → Bool) (allowed : T → T → Prop) (window : Nat)
    (items : List T) (s : Exec T) (h : Run cmp allowed window items s) :
    (∀ s0, Initial cmp window items s0 →
      pendingItems s0 = (items : Multiset T) ∧ s0.rob = [] ∧ s0.commitLog = []) ∧
    (items : Multiset T) + (s.publishLog : Multiset T) =
      (s.commitLog : Multiset T) + pendingItems s + liveItems s ∧
    s.numCommitted = s.commitLog.length ∧
    (∀ c, (doAbort c s).pending =
      Function.update s.pending ((s.ctxts c).owner / 2)
        ((s.ctxts c).active :: s.pending ((s.ctxts c).owner / 2))) ∧
    (∀ tid c, ((doCommit tid c s).pending tid : Multiset T) =
        ((s.ctxts c).pushBuffer : Multiset T) + (s.pending tid : Multiset T) ∧
      ∀ i, i ≠ tid → (doCommit tid c s).pending i = s.pending i) ∧
    (s.rob = [] → (∀ i, i < s.activeThreads → s.pending i = []) →
      (s.commitLog : Multiset T) = (items : Multiset T) + (s.publishLog : Multiset T) ∧
        s.numCommitted = (items ++ s.publishLog).length) := by
  have hcons := Run.conserved h
  refine ⟨?_, hcons.1, hcons.2, ?_, ?_, ?_⟩
  · intro s0 h0
    exact ⟨h0.pendingItems, h0.started.pristine.rob, h0.started.pristine.commitLog⟩
  · intro c; simp
  · intro tid c
    refine ⟨?_, ?_⟩
    · rw [doCommit_pending, Function.update_same, Multiset.coe_add]
      exact Multiset.coe_eq_coe.mpr (pushAll_perm _ _)
    · intro i hi
      rw [doCommit_pending, Function.update_noteq hi]
  · intro hrob hpend
    have h1 : liveItems s = 0 := by
      unfold liveItems liveRob
      rw [hrob]; rfl
    have h2 := hcons.1
    rw [pendingItems_empty hpend, h1, add_zero, add_zero] at h2
    refine ⟨h2.symm, ?_⟩
    rw [hcons.2]
    have h3 := congrArg Multiset.card h2
    simp only [Multiset.card_add, Multiset.coe_card] at h3
    rw [List.length_append]
    exact h3.symm

/-- On the small run both items were committed and nothing else. -/
theorem items_conserved_witness :
    Run natLt demoAllowed 1 [5, 3] demoEnd ∧ demoEnd.commitLog = [5, 3] ∧
      demoEnd.publishLog = [] ∧
      (([5, 3] : List Nat) : Multiset Nat) + (demoEnd.publishLog : Multiset Nat) =
        (demoEnd.commitLog : Multiset Nat) + pendingItems demoEnd + liveItems demoEnd :=
  ⟨demo_run, by decide, by decide,
    (items_conserved natLt demoAllowed 1 [5, 3] demoEnd demo_run).2.1⟩

/-- Runs of whole operations (`Run`): in every state of such a run a context in COMMIT_DONE or ABORT_DONE owns no
Lockable: every Lockable a context owns is in its neighborhood, `releaseLocks` leaves
no neighborhood entry owned by the context, so that after `doCommit` and after
`doAbort` no Lockable is owned by it; Lockables of other contexts are not touched. -/
theorem terminal_owns_nothing (cmp : T → T → Bool) (allowed : T → T → Prop) (window : Nat)
    (items : List T) (s : Exec T) (h : Run cmp allowed window items s) :
    (∀ c, (s.ctxts c).state = .COMMIT_DONE ∨ (s.ctxts c).state = .ABORT_DONE →
      ∀ l, s.lockOwner l ≠ some c) ∧
    (∀ c l, s.lockOwner l = some c → l ∈ (s.ctxts c).nhood) ∧
    (∀ c l, l ∈ (s.ctxts c).nhood → (releaseLocks c s).lockOwner l ≠ some c) ∧
    (∀ c l, (releaseLocks c s).lockOwner l ≠ some c ∧ (doAbort c s).lockOwner l ≠ some c ∧
      ∀ tid, (doCommit tid c s).lockOwner l ≠ some c) ∧
    (∀ c l d, d ≠ c → s.lockOwner l = some d →
      (releaseLocks c s).lockOwner l = some d) := by
  have hwf := Run.wf_run h
  have hrel : ∀ c l, (releaseLocks c s).lockOwner l ≠ some c := by
    intro c l
    rw [releaseLocks_lockOwner, hwf.released c l]
    by_cases ho : s.lockOwner l = some c
    · simp [ho]
    · simp [ho]
  refine ⟨?_, ?_, ?_, ?_, ?_⟩
  · intro c hst l hl
    obtain ⟨_, _, a3, a4⟩ := hwf.owned l c hl
    rcases hst with e | e
    · exact a4 e
    · exact a3 e
  · intro c l hl
    exact (hwf.owned l c hl).1
  · intro c l _
    exact hrel c l
  · intro c l
    refine ⟨hrel c l, ?_, ?_⟩
    · rw [doAbort_lockOwner]; exact hrel c l
    · intro tid
      rw [doCommit_lockOwner]; exact hrel c l
  · intro c l d hd hl
    rw [releaseLocks_lockOwner, hwf.released c l, hl]
    have : some d ≠ some c := by simpa using hd
    simp [this]

/-- On the small run context 0 was aborted while it owned Lockable 7, and in
the last state no context owns it. -/
theorem terminal_owns_nothing_witness :
    Run natLt demoAllowed 1 [5, 3] demoEnd ∧ demo4.lockOwner 7 = some 0 ∧
      (demo5.ctxts 0).state = .ABORT_DONE ∧ demo5.lockOwner 7 = none ∧
      ∀ c, (demoEnd.ctxts c).state = .COMMIT_DONE ∨ (demoEnd.ctxts c).state = .ABORT_DONE →
        ∀ l, demoEnd.lockOwner l ≠ some c :=
  ⟨demo_run, by decide, by decide, by decide,
    (terminal_owns_nothing natLt demoAllowed 1 [5, 3] demoEnd demo_run).1⟩

/-- Runs of whole operations (`Run`): every store to a context state made in such a
run (all of them are recorded in
`stateLog` as pointer, old state, new state) is one of the legal transitions or leaves
the state unchanged, and no store leaves COMMIT_DONE or ABORT_DONE.  The lifetime of a
context object starts with its constructor, which `scheduleGlobalMinFirst` runs on a
slot of the free list before it stores SCHEDULED. -/
theorem transitions_legal (cmp : T → T → Bool) (allowed : T → T → Prop) (window : Nat)
    (items : List T) (s : Exec T) (h : Run cmp allowed window items s) (c : Nat)
    (a b : State) (hlog : (c, a, b) ∈ s.stateLog) :
    (legalTransition a b = true ∨ a = b) ∧
      (a = .COMMIT_DONE ∨ a = .ABORT_DONE → b = a) := by
  have h1 := Run.legalLog h (c, a, b) hlog
  simp only at h1
  refine ⟨h1, ?_⟩
  intro ha
  rcases h1 with h2 | h2
  · rcases ha with e | e <;> subst e <;> cases b <;> simp [legalTransition] at h2
  · exact h2.symm

/-- On the small run: the stores made to context 0 while it was signalled and
aborted. -/
theorem transitions_legal_witness :
    Run natLt demoAllowed 1 [5, 3] demoEnd ∧
      (0, State.ABORTING, State.ABORT_DONE) ∈ demoEnd.stateLog ∧
      (legalTransition .ABORTING .ABORT_DONE = true ∨ State.ABORTING = State.ABORT_DONE) ∧
      (State.ABORTING = .COMMIT_DONE ∨ State.ABORTING = .ABORT_DONE →
        State.ABORT_DONE = State.ABORTING) :=
  ⟨demo_run, by decide,
    transitions_legal natLt demoAllowed 1 [5, 3] demoEnd demo_run 0 .ABORTING .ABORT_DONE
      (by decide)⟩

/-- Runs of whole operations (`Run`): in every state of such a run and for every context object, counted from its
construction: `doCommit` and `doAbort` have run at most once together; the context is in
COMMIT_DONE exactly when `doCommit` has run once and `doAbort` never, in ABORT_DONE
exactly when `doAbort` has run once and `doCommit` never, and in any other state neither
has run. -/
theorem one_outcome (cmp : T → T → Bool) (allowed : T → T → Prop) (window : Nat)
    (items : List T) (s : Exec T) (h : Run cmp allowed window items s) (d : Nat) :
    (s.ctxts d).nCommit + (s.ctxts d).nAbort ≤ 1 ∧
    ((s.ctxts d).state = .COMMIT_DONE ↔
      (s.ctxts d).nCommit = 1 ∧ (s.ctxts d).nAbort = 0) ∧
    ((s.ctxts d).state = .ABORT_DONE ↔
      (s.ctxts d).nAbort = 1 ∧ (s.ctxts d).nCommit = 0) ∧
    (((s.ctxts d).state ≠ .COMMIT_DONE ∧ (s.ctxts d).state ≠ .ABORT_DONE) ↔
      (s.ctxts d).nCommit = 0 ∧ (s.ctxts d).nAbort = 0) := by
  obtain ⟨h1, h2, h3⟩ := Run.oneOutcome h d
  by_cases hc : (s.ctxts d).state = .COMMIT_DONE
  · obtain ⟨a, b⟩ := h1 hc
    simp [hc, a, b]
  · by_cases ha : (s.ctxts d).state = .ABORT_DONE
    · obtain ⟨a, b⟩ := h2 ha
      simp [ha, a, b]
    · obtain ⟨a, b⟩ := h3 hc ha
      simp [hc, ha, a, b]

/-- On the small run the second attempt in context 0 was committed and not
aborted; its first attempt had been aborted and not committed. -/
theorem one_outcome_witness :
    Run natLt demoAllowed 1 [5, 3] demoEnd ∧
      (demo5.ctxts 0).nAbort = 1 ∧ (demo5.ctxts 0).nCommit = 0 ∧
      (demoEnd.ctxts 0).state = .COMMIT_DONE ∧
      (demoEnd.ctxts 0).nCommit + (demoEnd.ctxts 0).nAbort ≤ 1 :=
  ⟨demo_run, by decide, by decide, by decide,
    (one_outcome natLt demoAllowed 1 [5, 3] demoEnd demo_run 0).1⟩

/-- Runs of whole operations (`Run`): in every state of such a run `numCommitted ≤ numTotal`, and the scheduled attempts
are the committed ones, the aborted ones counted by the three abort counters, and the
live contexts of the reorder buffer; with an empty reorder buffer the three abort
counters add up to `numTotal - numCommitted`.  Each of the two places that run `doAbort`
increments exactly one abort counter by one: `abortOther` increments `abortByOther`, the
self abort in `finishIteration` increments `abortSelfByConflict` when `lostConflict` is
set and `abortSelfBySignal` otherwise. -/
theorem counters_account (cmp : T → T → Bool) (allowed : T → T → Prop) (window : Nat)
    (items : List T) (s : Exec T) (h : Run cmp allowed window items s) :
    s.numCommitted ≤ s.numTotal ∧
    s.numTotal =
      s.numCommitted + s.abortSelfByConflict + s.abortSelfBySignal + s.abortByOther +
        (liveRob s).length ∧
    (s.rob = [] →
      s.abortSelfByConflict + s.abortSelfBySignal + s.abortByOther =
        s.numTotal - s.numCommitted) ∧
    (∀ that, (abortOther that s).abortByOther = s.abortByOther + 1 ∧
      (abortOther that s).abortSelfByConflict = s.abortSelfByConflict ∧
      (abortOther that s).abortSelfBySignal = s.abortSelfBySignal ∧
      ((abortOther that s).ctxts that).nAbort = (s.ctxts that).nAbort + 1) ∧
    (∀ c, (s.ctxts c).state = .ABORT_SELF →
      ((finishIteration c s).ctxts c).nAbort = (s.ctxts c).nAbort + 1 ∧
      (finishIteration c s).abortByOther = s.abortByOther ∧
      (finishIteration c s).abortSelfByConflict =
        s.abortSelfByConflict + (if (s.ctxts c).lostConflict then 1 else 0) ∧
      (finishIteration c s).abortSelfBySignal =
        s.abortSelfBySignal + (if (s.ctxts c).lostConflict then 0 else 1)) ∧
    (∀ c, (s.ctxts c).state ≠ .ABORT_SELF →
      ((finishIteration c s).ctxts c).nAbort = (s.ctxts c).nAbort ∧
      (finishIteration c s).abortByOther = s.abortByOther ∧
      (finishIteration c s).abortSelfByConflict = s.abortSelfByConflict ∧
      (finishIteration c s).abortSelfBySignal = s.abortSelfBySignal) := by
  have hcount := Run.counted h
  unfold Counted at hcount
  refine ⟨by omega, hcount, ?_, ?_, ?_, ?_⟩
  · intro hrob
    have : (liveRob s).length = 0 := by
      unfold liveRob; rw [hrob]; rfl
    omega
  · intro that
    exact ⟨by simp, by simp, by simp, by simp⟩
  · intro c hst
    have hres : finishIteration c s =
        setExecuted c true (doAbort c (countSelfAbort c (setState c .ABORTING s))) := by
      simp [finishIteration, casState, hst]
    rw [hres]
    refine ⟨by simp, by simp, ?_, ?_⟩
    · simp only [setExecuted_abortSelfByConflict, doAbort_abortSelfByConflict]
      unfold countSelfAbort
      by_cases hl : (s.ctxts c).lostConflict = true
      · simp [hl]
      · simp [hl]
    · simp only [setExecuted_abortSelfBySignal, doAbort_abortSelfBySignal]
      unfold countSelfAbort
      by_cases hl : (s.ctxts c).lostConflict = true
      · simp [hl]
      · simp [hl]
  · intro c hst
    by_cases hsch : (s.ctxts c).state = .SCHEDULED
    · have hres : finishIteration c s = setExecuted c true (setState c .READY_TO_COMMIT s) := by
        simp [finishIteration, casState, hsch]
      rw [hres]
      exact ⟨by simp, by simp, by simp, by simp⟩
    · have hres : finishIteration c s = setExecuted c true s := by
        simp [finishIteration, casState, hsch, hst]
      rw [hres]
      exact ⟨by simp, by simp, by simp, by simp⟩

/-- On the small run: three attempts, two commits, one self abort after a signal. -/
theorem counters_account_witness :
    Run natLt demoAllowed 1 [5, 3] demoEnd ∧
      demoEnd.numTotal = 3 ∧ demoEnd.numCommitted = 2 ∧ demoEnd.abortSelfBySignal = 1 ∧
      demoEnd.rob = [] ∧ demoEnd.numCommitted ≤ demoEnd.numTotal ∧
      (demoEnd.rob = [] →
        demoEnd.abortSelfByConflict + demoEnd.abortSelfBySignal + demoEnd.abortByOther =
          demoEnd.numTotal - demoEnd.numCommitted) :=
  ⟨demo_run, by decide, by decide, by decide, by decide,
    (counters_account natLt demoAllowed 1 [5, 3] demoEnd demo_run).1,
    (counters_account natLt demoAllowed 1 [5, 3] demoEnd demo_run).2.2.1⟩

/-- C8, on the small run: thread 1 schedules item 3, the least pending item, into
context 1. -/
theorem scheduleGlobalMinFirst_spec_witness :
    StrictWeak natLt ∧ demoStart.activeThreads ≤ demoStart.maxThreads ∧
      demoStart.freeList 1 ≠ [] ∧ (∃ i, i < demoStart.activeThreads ∧ demoStart.pending i ≠ []) ∧
      (scheduleGlobalMinFirst natLt 1 demoStart).1 = some 1 ∧
      ((scheduleGlobalMinFirst natLt 1 demoStart).2.ctxts 1).active = 3 ∧
      ∃ ctx j x,
        (scheduleGlobalMinFirst natLt 1 demoStart).1 = some ctx ∧
        j < demoStart.activeThreads ∧
        heapPop natLt (demoStart.pending j) =
          some (x, (scheduleGlobalMinFirst natLt 1 demoStart).2.pending j) ∧
        (∀ i, i ≠ j → (scheduleGlobalMinFirst natLt 1 demoStart).2.pending i = demoStart.pending i) ∧
        ((scheduleGlobalMinFirst natLt 1 demoStart).2.ctxts ctx).active = x ∧
        (∀ i, i < demoStart.activeThreads →
          ∀ y, y ∈ (scheduleGlobalMinFirst natLt 1 demoStart).2.pending i → natLt y x = false) ∧
        (demoStart.freeList 1).getLast? = some ctx ∧
        (scheduleGlobalMinFirst natLt 1 demoStart).2.freeList 1 = (demoStart.freeList 1).dropLast ∧
        ((scheduleGlobalMinFirst natLt 1 demoStart).2.ctxts ctx).state = .SCHEDULED ∧
        ((scheduleGlobalMinFirst natLt 1 demoStart).2.ctxts ctx).owner = 1 ∧
        (scheduleGlobalMinFirst natLt 1 demoStart).2.rob = heapPush ctx demoStart.rob ∧
        (scheduleGlobalMinFirst natLt 1 demoStart).2.numTotal = demoStart.numTotal + 1 :=
  ⟨strictWeak_natLt, by decide, by decide, ⟨0, by decide, by decide⟩, by decide, by decide,
    scheduleGlobalMinFirst_spec natLt strictWeak_natLt 1 demoStart (by decide) (by decide)
      ⟨0, by decide, by decide⟩⟩

/-- C10, on a variant of the small run: context 0 (item 5) asks for Lockable 7, which
context 1 (item 3) owns, and loses. -/
theorem subAcquire_loses_witness :
    demoLose.lockOwner 7 = some 1 ∧ (1 : Nat) ≠ 0 ∧ ctxtCmp natLt demoLose 0 1 = false ∧
      resolveConflict natLt 3 0 1 demoLose = some (true, setState 0 .ABORT_SELF demoLose) ∧
      ∃ s1, subAcquire natLt (3 + 1) 0 7 demoLose = some s1 ∧
        (s1.ctxts 0).state = .ABORT_SELF ∧
        (s1.ctxts 0).lostConflict = true ∧
        s1.lockOwner 7 = some 1 ∧ s1.lockOwner 7 ≠ some 0 ∧
        s1.ctxts 1 = demoLose.ctxts 1 ∧
        s1.lockOwner = demoLose.lockOwner ∧
        s1.pending = demoLose.pending ∧
        s1.abortSelfByConflict = demoLose.abortSelfByConflict ∧
        s1.abortSelfBySignal = demoLose.abortSelfBySignal ∧
        s1.abortByOther = demoLose.abortByOther :=
  ⟨by decide, by decide, by decide,
    subAcquire_loses natLt 3 0 1 7 demoLose (by decide) (by decide) (by decide)⟩

end Properties
/-! ## Winning a lock contest against a context that is ready to commit -/

section Help

variable {T : Type}

/-- C11: context `B` asks for Lockable `l` owned by another context `A` that is
READY_TO_COMMIT and whose item `B`'s item strictly precedes (every Lockable `A` owns
being in its neighborhood, as `subAcquire` leaves it).  Then `subAcquire` returns, `A`
has gone READY_TO_COMMIT, ABORT_HELP, ABORTING, ABORT_DONE, `A` owns no Lockable, the
item of `A` has been pushed to the pending heap of `A.owner / 2` and nothing else has
changed in the pending heaps, `abortByOther` has grown by one and the other abort
counters are as before, the state of `B` is as before, and `B` owns `l` and has appended
it to its neighborhood. -/
theorem subAcquire_helps (cmp : T → T → Bool) (fuel B A l : Nat) (s : Exec T)
    (hown : s.lockOwner l = some A) (hne : A ≠ B)
    (hnh : ∀ l1, s.lockOwner l1 = some A → l1 ∈ (s.ctxts A).nhood)
    (hst : (s.ctxts A).state = .READY_TO_COMMIT)
    (hwin : ctxtCmp cmp s B A = true) :
    ∃ s1, subAcquire cmp (fuel + 2) B l s = some s1 ∧
      s1.stateLog =
        (A, .ABORTING, .ABORT_DONE) :: (A, .ABORT_HELP, .ABORTING) ::
          (A, .READY_TO_COMMIT, .ABORT_HELP) :: s.stateLog ∧
      (s1.ctxts A).state = .ABORT_DONE ∧
      (∀ l1, s1.lockOwner l1 ≠ some A) ∧
      s1.pending =
        Function.update s.pending ((s.ctxts A).owner / 2)
          (heapPush (s.ctxts A).active (s.pending ((s.ctxts A).owner / 2))) ∧
      s1.abortByOther = s.abortByOther + 1 ∧
      s1.abortSelfByConflict = s.abortSelfByConflict ∧
      s1.abortSelfBySignal = s.abortSelfBySignal ∧
      (s1.ctxts B).state = (s.ctxts B).state ∧
      s1.lockOwner l = some B ∧
      (s1.ctxts B).nhood = (s.ctxts B).nhood ++ [l] ∧
      (∀ l1, l1 ≠ l → s.lockOwner l1 ≠ some A → s1.lockOwner l1 = s.lockOwner l1) := by
  have hBA : B ≠ A := fun h => hne h.symm
  have hres : resolveConflict cmp (fuel + 1) B A s =
      some (false, abortOther A (setState A .ABORT_HELP
        (assertThat (!hasState A .COMMIT_DONE s && !hasState A .COMMITTING s) s))) := by
    simp [resolveConflict, hwin, casState, hasState_eq, hst]
  have htry : tryAcquire B l s = (.FAIL, s) := by
    simp [tryAcquire, hown, hne]
  generalize hs2 : abortOther A (setState A .ABORT_HELP
        (assertThat (!hasState A .COMMIT_DONE s && !hasState A .COMMITTING s) s)) = s2
    at hres
  have hlock : ∀ l1, s2.lockOwner l1 = if s.lockOwner l1 = some A then none else s.lockOwner l1 := by
    intro l1
    rw [← hs2]
    simp only [abortOther_lockOwner, setState_ctxts_nhood, setState_lockOwner,
      assertThat_lockOwner, assertThat_ctxts]
    exact releaseFold_owned A _ _ hnh l1
  have hfree : (setLostConflict B true s2).lockOwner l = none := by
    simp [hlock, hown]
  have htry2 : tryAcquire B l (setLostConflict B true s2) =
      (.NEW_OWNER, setLockOwner l (some B) (setLostConflict B true s2)) := by
    simp only [tryAcquire, hfree]
  have hsub : subAcquire cmp (fuel + 2) B l s =
      some (nhoodPushBack B l (setLockOwner l (some B) (setLostConflict B true s2))) := by
    rw [subAcquire]
    simp only [htry, getOwner, hown, hres]
    rw [subAcquire]
    simp only [htry2]
    simp
  refine ⟨_, hsub, ?_, ?_, ?_, ?_, ?_, ?_, ?_, ?_, ?_, ?_, ?_⟩
  · simp [← hs2, hst]
  · simp [← hs2, hne]
  · intro l1
    by_cases hl : l1 = l
    · subst hl
      simp [hBA]
    · simp only [nhoodPushBack_lockOwner, setLockOwner_lockOwner, setLostConflict_lockOwner,
        Function.update_noteq hl, hlock]
      by_cases ho : s.lockOwner l1 = some A
      · simp [ho]
      · simp [ho]
  · simp [← hs2]
  · simp [← hs2]
  · simp [← hs2]
  · simp [← hs2]
  · simp [← hs2, hBA]
  · simp
  · simp [← hs2, hBA]
  · intro l1 hl ho
    simp only [nhoodPushBack_lockOwner, setLockOwner_lockOwner, setLostConflict_lockOwner,
      Function.update_noteq hl, hlock, ho, if_false]

theorem demoReady_run : Run natLt demoAllowed 1 [5, 3] demoReady := by
  have r0 : Reachable natLt demoAllowed demoStart demoStart := Reachable.init
  have r1 : Reachable natLt demoAllowed demoStart demo1 :=
    Reachable.step _ _ r0 (Step.schedule demoStart 1 (by decide))
  have r2 : Reachable natLt demoAllowed demoStart demo2 :=
    Reachable.step _ _ r1 (Step.schedule demo1 0 (by decide))
  have r3 : Reachable natLt demoAllowed demoStart demo3 :=
    Reachable.step _ _ r2 (Step.acquire demo2 0 7 1 demo3 ⟨by decide, by decide⟩ rfl)
  exact ⟨demoStart, demoStart_initial,
    Reachable.step _ _ r3 (Step.finish demo3 0 ⟨by decide, by decide⟩)⟩

/-- C11, on a variant of the small run: context 1 (item 3) asks for Lockable 7, which
context 0 (item 5) owns while it is READY_TO_COMMIT; context 0 is aborted and its item
goes back to the heap of worker 0. -/
theorem subAcquire_helps_witness :
    demoReady.lockOwner 7 = some 0 ∧ (0 : Nat) ≠ 1 ∧
      (demoReady.ctxts 0).state = .READY_TO_COMMIT ∧ ctxtCmp natLt demoReady 1 0 = true ∧
      ∃ s1, subAcquire natLt (0 + 2) 1 7 demoReady = some s1 ∧
        s1.stateLog =
          (0, .ABORTING, .ABORT_DONE) :: (0, .ABORT_HELP, .ABORTING) ::
            (0, .READY_TO_COMMIT, .ABORT_HELP) :: demoReady.stateLog ∧
        (s1.ctxts 0).state = .ABORT_DONE ∧
        (∀ l1, s1.lockOwner l1 ≠ some 0) ∧
        s1.pending =
          Function.update demoReady.pending ((demoReady.ctxts 0).owner / 2)
            (heapPush (demoReady.ctxts 0).active
              (demoReady.pending ((demoReady.ctxts 0).owner / 2))) ∧
        s1.abortByOther = demoReady.abortByOther + 1 ∧
        s1.abortSelfByConflict = demoReady.abortSelfByConflict ∧
        s1.abortSelfBySignal = demoReady.abortSelfBySignal ∧
        (s1.ctxts 1).state = (demoReady.ctxts 1).state ∧
        s1.lockOwner 7 = some 1 ∧
        (s1.ctxts 1).nhood = (demoReady.ctxts 1).nhood ++ [7] ∧
        (∀ l1, l1 ≠ 7 → demoReady.lockOwner l1 ≠ some 0 →
          s1.lockOwner l1 = demoReady.lockOwner l1) :=
  ⟨by decide, by decide, by decide, by decide,
    subAcquire_helps natLt 0 1 0 7 demoReady (by decide) (by decide)
      (fun l1 h1 => ((Run.wf_run demoReady_run).owned l1 0 h1).1) (by decide) (by decide)⟩

end Help

/-! ## The context comparator, the empty input, and doAbort -/

section Small

variable {T : Type}

/-- C12, as the code has it: the context comparator compares the items and nothing
else, `ctxtCmp (A, B) = cmp (A.active, B.active)`.  For a strict weak order at most one
of `ctxtCmp (A, B)` and `ctxtCmp (B, A)` holds; when the items compare equal neither
holds, and a context that asks for a Lockable owned by the other one loses: it stores
ABORT_SELF to itself and `subAcquire` returns without the Lockable, whichever of the two
it is. -/
theorem ctxtCmp_items_only (cmp : T → T → Bool) (hc : StrictWeak cmp) (s : Exec T)
    (A B : Nat) :
    ctxtCmp cmp s A B = cmp (s.ctxts A).active (s.ctxts B).active ∧
    ¬(ctxtCmp cmp s A B = true ∧ ctxtCmp cmp s B A = true) ∧
    (cmp (s.ctxts A).active (s.ctxts B).active = false →
      cmp (s.ctxts B).active (s.ctxts A).active = false →
      ctxtCmp cmp s A B = false ∧ ctxtCmp cmp s B A = false ∧
      ∀ fuel l req own, (req = A ∧ own = B) ∨ (req = B ∧ own = A) → req ≠ own →
        s.lockOwner l = some own →
        ∃ s1, subAcquire cmp (fuel + 1) req l s = some s1 ∧
          (s1.ctxts req).state = .ABORT_SELF ∧ s1.lockOwner l = some own) := by
  refine ⟨rfl, ?_, ?_⟩
  · rintro ⟨h1, h2⟩
    have := hc.trans _ _ _ h1 h2
    rw [hc.irrefl] at this
    exact absurd this (by simp)
  · intro h1 h2
    refine ⟨h1, h2, ?_⟩
    intro fuel l req own hcase hne hown
    have hlose : ctxtCmp cmp s req own = false := by
      rcases hcase with ⟨rfl, rfl⟩ | ⟨rfl, rfl⟩
      · exact h1
      · exact h2
    have hres : resolveConflict cmp fuel req own s = some (true, setState req .ABORT_SELF s) := by
      simp [resolveConflict, hlose]
    have htry : tryAcquire req l s = (.FAIL, s) := by
      simp [tryAcquire, hown, Ne.symm hne]
    have hsub : subAcquire cmp (fuel + 1) req l s =
        some (setLostConflict req true (setState req .ABORT_SELF s)) := by
      simp [subAcquire, htry, getOwner, hown, hres]
    exact ⟨_, hsub, by simp, by simpa using hown⟩

/-- C12, on two contexts that hold the equal items 4 and 4. -/
theorem ctxtCmp_items_only_witness :
    StrictWeak natLt ∧ (tie3.ctxts 0).active = 4 ∧ (tie3.ctxts 1).active = 4 ∧
      ctxtCmp natLt tie3 0 1 = natLt (tie3.ctxts 0).active (tie3.ctxts 1).active ∧
      ¬(ctxtCmp natLt tie3 0 1 = true ∧ ctxtCmp natLt tie3 1 0 = true) :=
  ⟨strictWeak_natLt, by decide, by decide,
    (ctxtCmp_items_only natLt strictWeak_natLt tie3 0 1).1,
    (ctxtCmp_items_only natLt strictWeak_natLt tie3 0 1).2.1⟩

/-- C12 as stated fails: the contexts 0 and 1 are distinct and hold equal items, and
neither `ctxtCmp (0, 1)` nor `ctxtCmp (1, 0)` holds; neither wins a lock contest:
context 1 loses when it asks for the Lockable of context 0, and context 0 loses when it
asks for the Lockable of context 1. -/
theorem ctxtCmp_tie_counterexample :
    (0 : Nat) ≠ 1 ∧ ctxtCmp natLt tie3 0 1 = false ∧ ctxtCmp natLt tie3 1 0 = false ∧
      ¬(∀ (s : Exec Nat) (A B : Nat), A ≠ B →
          Xor' (ctxtCmp natLt s A B = true) (ctxtCmp natLt s B A = true)) ∧
      tie3.lockOwner 7 = some 0 ∧
      (resolveConflict natLt 1 1 0 tie3).map Prod.fst = some true ∧
      ((subAcquire natLt 2 1 7 tie3).map fun s1 => ((s1.ctxts 1).state, s1.lockOwner 7)) =
        some (.ABORT_SELF, some 0) ∧
      tie4.lockOwner 7 = some 1 ∧
      (resolveConflict natLt 1 0 1 tie4).map Prod.fst = some true ∧
      ((subAcquire natLt 2 0 7 tie4).map fun s1 => ((s1.ctxts 0).state, s1.lockOwner 7)) =
        some (.ABORT_SELF, some 1) := by
  refine ⟨by decide, by decide, by decide, ?_, by decide, by decide, by decide, by decide,
    by decide, by decide⟩
  intro h
  have h01 := h tie3 0 1 (by decide)
  have e1 : ctxtCmp natLt tie3 0 1 = false := by decide
  have e2 : ctxtCmp natLt tie3 1 0 = false := by decide
  rcases h01 with ⟨h1, _⟩ | ⟨h1, _⟩
  · rw [e1] at h1; exact absurd h1 (by simp)
  · rw [e2] at h1; exact absurd h1 (by simp)

theorem pushEach_head_nonempty (assign : Nat → Nat) :
    ∀ (rest : List T) (k : Nat) (s : Exec T), s.pending 0 ≠ [] →
      (pushEach assign k rest s).pending 0 ≠ [] ∧
      (pushEach assign k rest s).assertFailed = s.assertFailed ∧
      (pushEach assign k rest s).maxThreads = s.maxThreads
  | [], _, _, h => ⟨h, rfl, rfl⟩
  | y :: ys, k, s, h => by
    have hp : (pushLocal (assign k) y s).pending 0 ≠ [] := by
      simp only [pushLocal_pending, Function.update_apply]
      split
      · simp
      · exact h
    have ih := pushEach_head_nonempty assign ys (k + 1) (pushLocal (assign k) y s) hp
    simpa [pushEach] using ih

/-- C15, as the code has it: `push_initial` needs a non-empty range.  On the empty
range its first `assert (beg != end)` fails and `*beg` is not an element of the range
(the result `none`).  On every non-empty range `push_initial` returns, no assertion has
failed, the element read as `dummy` is the top of the non-empty heap `pending [0]`, the
pending heaps hold exactly the input, and `numTotal` and `numCommitted` are 0 and the
reorder buffer is empty when the workers start. -/
theorem push_initial_nonempty (cmp : T → T → Bool) (n maxT : Nat) (junk : T)
    (assign : Nat → Nat) (x : T) (rest : List T)
    (hn : 0 < n) (hmax : n ≤ maxT) (hassign : ∀ k, assign k < n) :
    push_initial cmp assign ([] : List T) (Exec.fresh n maxT junk) = none ∧
    ∃ s0, push_initial cmp assign (x :: rest) (Exec.fresh n maxT junk) = some s0 ∧
      s0.assertFailed = false ∧ s0.numTotal = 0 ∧ s0.numCommitted = 0 ∧ s0.rob = [] ∧
      pendingItems s0 = ((x :: rest : List T) : Multiset T) ∧
      s0.commitLog = [] := by
  refine ⟨rfl, ?_⟩
  have h0 : (setPending 0 (heapPush x ((Exec.fresh n maxT junk).pending 0))
      (Exec.fresh n maxT junk)).pending 0 ≠ [] := by
    simp [Exec.fresh]
  obtain ⟨h1, h2, h3⟩ := pushEach_head_nonempty assign rest 0 _ h0
  have hne : emptyAll
      (pushEach assign 0 rest (setPending 0 (heapPush x ((Exec.fresh n maxT junk).pending 0))
        (Exec.fresh n maxT junk))).maxThreads
      (pushEach assign 0 rest (setPending 0 (heapPush x ((Exec.fresh n maxT junk).pending 0))
        (Exec.fresh n maxT junk))).pending = false := by
    cases he : emptyAll _ _ with
    | false => rfl
    | true =>
      have := emptyAll_eq_true.mp he 0 (by rw [h3]; exact Nat.lt_of_lt_of_le hn hmax)
      exact absurd this h1
  have hsome : ∃ s0, push_initial cmp assign (x :: rest) (Exec.fresh n maxT junk) = some s0 ∧
      s0.assertFailed = false := by
    unfold push_initial push_initialW
    simp only
    generalize pushEach assign 0 rest (setPending 0 (heapPush x ((Exec.fresh n maxT junk).pending 0))
        (Exec.fresh n maxT junk)) = s1 at h1 h2 h3 hne
    have hs1 : s1.assertFailed = false := by rw [h2]; rfl
    cases htop : heapTop cmp ((assertThat (!emptyAll s1.maxThreads s1.pending) s1).pending 0) with
    | none =>
      have := heapTop_eq_none.mp htop
      exact absurd this h1
    | some dummy =>
      refine ⟨_, rfl, ?_⟩
      have := allocAll_preserves (fun s => s.assertFailed = false) WINDOW_SIZE_PER_THREAD dummy
        (fun s tid j hs => by simpa [allocSlot] using hs)
        (assertThat (!emptyAll s1.maxThreads s1.pending) s1) (by simp [hs1, hne])
      exact this
  obtain ⟨s0, hs0, hassert⟩ := hsome
  have hinit : Initial cmp WINDOW_SIZE_PER_THREAD (x :: rest) s0 :=
    ⟨n, maxT, junk, assign, hn, hmax, hassign, hs0⟩
  have hp := hinit.started.pristine
  exact ⟨s0, hs0, hassert, hp.numTotal, hp.numCommitted, hp.rob, hinit.pendingItems,
    hp.commitLog⟩

/-- C15, on one worker and the single item 5. -/
theorem push_initial_nonempty_witness :
    0 < 1 ∧ 1 ≤ 1 ∧ (∀ k : Nat, (fun _ => 0) k < 1) ∧
      push_initial natLt (fun _ => 0) ([] : List Nat) (Exec.fresh 1 1 0) = none ∧
      ∃ s0, push_initial natLt (fun _ => 0) (5 :: []) (Exec.fresh 1 1 0) = some s0 ∧
        s0.assertFailed = false ∧ s0.numTotal = 0 ∧ s0.numCommitted = 0 ∧ s0.rob = [] ∧
        pendingItems s0 = ((5 :: [] : List Nat) : Multiset Nat) ∧
        s0.commitLog = [] :=
  ⟨by decide, by decide, fun _ => Nat.zero_lt_one,
    push_initial_nonempty natLt 1 1 0 (fun _ => 0) 5 [] (by decide) (by decide)
      (fun _ => Nat.zero_lt_one)⟩

/-- C15 as stated fails: on the empty range `push_initial` does not get past its first
statements, the `assert (beg != end)` and the read of `*beg`. -/
theorem push_initial_empty_counterexample :
    push_initial natLt (fun _ => 0) ([] : List Nat) (Exec.fresh 1 1 0) = none ∧
      ¬(∃ s0, push_initial natLt (fun _ => 0) ([] : List Nat) (Exec.fresh 1 1 0) = some s0 ∧
          s0.assertFailed = false ∧ s0.numTotal = 0 ∧ s0.numCommitted = 0) := by
  refine ⟨rfl, ?_⟩
  rintro ⟨s0, h, _⟩
  exact absurd h (by simp [push_initial, push_initialW])

/-- C18: `doAbort` on a context in state ABORTING with owner `o` pushes the item of the
context into the pending heap of worker `o / 2` and changes no other heap, so that
exactly this one item is added to the pending items; `o / 2` is the index of an active
worker whenever `o` is.  Nothing of the push buffer goes to a heap, the push buffer is
empty afterwards, the state is ABORT_DONE (one store, from ABORTING), no assertion
fails, and nothing is published or committed. -/
theorem doAbort_returns_item (c : Nat) (s : Exec T) (hst : (s.ctxts c).state = .ABORTING) :
    (doAbort c s).pending ((s.ctxts c).owner / 2) =
      heapPush (s.ctxts c).active (s.pending ((s.ctxts c).owner / 2)) ∧
    (∀ i, i ≠ (s.ctxts c).owner / 2 → (doAbort c s).pending i = s.pending i) ∧
    ((s.ctxts c).owner < s.activeThreads →
      (s.ctxts c).owner / 2 < s.activeThreads ∧
      pendingItems (doAbort c s) = ({(s.ctxts c).active} : Multiset T) + pendingItems s) ∧
    ((doAbort c s).ctxts c).pushBuffer = [] ∧
    ((doAbort c s).ctxts c).state = .ABORT_DONE ∧
    (doAbort c s).stateLog = (c, .ABORTING, .ABORT_DONE) :: s.stateLog ∧
    (doAbort c s).assertFailed = s.assertFailed ∧
    (doAbort c s).publishLog = s.publishLog ∧
    (doAbort c s).commitLog = s.commitLog ∧
    ((doAbort c s).ctxts c).active = (s.ctxts c).active ∧
    ((doAbort c s).ctxts c).owner = (s.ctxts c).owner := by
  refine ⟨by simp, ?_, ?_, by simp, by simp, by simp [hst], ?_, by simp, by simp, by simp,
    by simp⟩
  · intro i hi
    simp [Function.update_noteq hi]
  · intro ho
    have hlt : (s.ctxts c).owner / 2 < s.activeThreads :=
      Nat.lt_of_le_of_lt (Nat.div_le_self _ _) ho
    refine ⟨hlt, ?_⟩
    have := pendingItems_add (s := s) (t := doAbort c s) ((s.ctxts c).owner / 2)
      [(s.ctxts c).active] ((s.ctxts c).active :: s.pending ((s.ctxts c).owner / 2)) hlt
      (by simp) (by simp) (by simp)
    simpa using this
  · simp [doAbort, hasState_eq, hst]

/-- C18, on a variant of the small run: context 0 (item 5, owner 0, the item 9 in its
push buffer) is aborted. -/
theorem doAbort_returns_item_witness :
    (demoAborting.ctxts 0).state = .ABORTING ∧ (demoAborting.ctxts 0).pushBuffer = [9] ∧
      demoAborting.pending 0 = [] ∧ (doAbort 0 demoAborting).pending 0 = [5] ∧
      (doAbort 0 demoAborting).pending ((demoAborting.ctxts 0).owner / 2) =
        heapPush (demoAborting.ctxts 0).active
          (demoAborting.pending ((demoAborting.ctxts 0).owner / 2)) ∧
      ((doAbort 0 demoAborting).ctxts 0).pushBuffer = [] ∧
      ((doAbort 0 demoAborting).ctxts 0).state = .ABORT_DONE :=
  ⟨by decide, by decide, by decide, by decide,
    (doAbort_returns_item 0 demoAborting (by decide)).1,
    (doAbort_returns_item 0 demoAborting (by decide)).2.2.2.1,
    (doAbort_returns_item 0 demoAborting (by decide)).2.2.2.2.1⟩

end Small

/-! ## The termination detectors -/

section TerminationProofs

theorem TwoCleanPasses.cons_quiet {cs : List TermCall} {e : TermCall}
    (h : TwoCleanPasses cs) (he : e.declared = false) : TwoCleanPasses (e :: cs) := by
  intro newer e1 older heq hd
  cases newer with
  | nil =>
    simp only [List.nil_append, List.cons.injEq] at heq
    obtain ⟨rfl, _⟩ := heq
    rw [he] at hd
    exact absurd hd (by simp)
  | cons a newer1 =>
    simp only [List.cons_append, List.cons.injEq] at heq
    exact h newer1 e1 older heq.2 hd

theorem TwoCleanPasses.cons_declared {cs : List TermCall} {e : TermCall}
    (h : TwoCleanPasses cs) (h1 : e.tid = 0) (h2 : e.pass = true) (h3 : e.black = false)
    (h4 : ∃ p, (masterPasses cs).head? = some p ∧ p.black = false) :
    TwoCleanPasses (e :: cs) := by
  intro newer e1 older heq hd
  cases newer with
  | nil =>
    simp only [List.nil_append, List.cons.injEq] at heq
    obtain ⟨rfl, rfl⟩ := heq
    exact ⟨h1, h2, h3, h4⟩
  | cons a newer1 =>
    simp only [List.cons_append, List.cons.injEq] at heq
    exact h newer1 e1 older heq.2 hd

theorem masterPasses_cons (e : TermCall) (cs : List TermCall) :
    masterPasses (e :: cs) =
      if e.tid = 0 ∧ e.pass = true then e :: masterPasses cs else masterPasses cs := by
  unfold masterPasses
  by_cases h : e.tid = 0 ∧ e.pass = true
  · simp [List.filter_cons, h]
  · rw [if_neg h, List.filter_cons]
    have : (decide (e.tid = 0) && e.pass) = false := by
      rcases not_and_or.mp h with h1 | h1
      · simp [h1]
      · simp [h1]
    simp [this]

theorem ring_master_congr {cs : List TermCall} {a b : TokenHolder}
    (h1 : a.processIsBlack = true → b.processIsBlack = true)
    (h2 : b.lastWasWhite = a.lastWasWhite)
    (h : match (masterPasses cs).head? with
      | none => a.processIsBlack = true
      | some p => a.lastWasWhite = !p.black) :
    match (masterPasses cs).head? with
    | none => b.processIsBlack = true
    | some p => b.lastWasWhite = !p.black := by
  cases hm : (masterPasses cs).head? with
  | none =>
    rw [hm] at h
    exact h1 h
  | some p =>
    rw [hm] at h
    simp only at h ⊢
    rw [h2]
    exact h

namespace LocalTerminationDetection

/-- A call of `localTermination` keeps the ring detector and its record consistent. -/
theorem localTermination_consistent (id : Nat) (w : Bool) (r : LocalTerminationDetection)
    (h : r.Consistent) : (localTermination id w r).Consistent := by
  obtain ⟨hrule, hflag, hmaster⟩ := h
  unfold localTermination
  simp only
  by_cases htok : ((setHolder id
      { (assertThat (!(w && r.globalTerm)) r).data id with
        processIsBlack := ((assertThat (!(w && r.globalTerm)) r).data id).processIsBlack || w }
      (assertThat (!(w && r.globalTerm)) r)).data id).hasToken = true
  · rw [if_pos htok]
    by_cases hid : id = 0
    · subst hid
      simp only [isSysMaster, decide_True, if_true]
      simp only [setHolder, assertThat, Function.update_same] at htok ⊢
      by_cases hdecl : ((r.data 0).lastWasWhite &&
          !((r.data 0).tokenIsBlack || ((r.data 0).processIsBlack || w))) = true
      · rw [if_pos hdecl]
        simp only [Bool.and_eq_true, Bool.not_eq_true', Bool.or_eq_false_iff] at hdecl
        obtain ⟨hlw, htb, hpb, hw⟩ := hdecl
        have hprev : ∃ p, (masterPasses r.calls).head? = some p ∧ p.black = false := by
          cases hm : (masterPasses r.calls).head? with
          | none =>
            rw [hm] at hmaster
            simp only at hmaster
            rw [hmaster] at hpb
            exact absurd hpb (by simp)
          | some p =>
            rw [hm] at hmaster
            simp only at hmaster
            rw [hlw] at hmaster
            refine ⟨p, rfl, ?_⟩
            cases hb : p.black with
            | false => rfl
            | true => rw [hb] at hmaster; exact absurd hmaster (by simp)
        refine ⟨?_, ?_, ?_⟩
        · exact hrule.cons_declared rfl rfl (by simp [htb, hpb, hw]) hprev
        · simp only [record, propGlobalTerm, true_iff]
          exact ⟨_, List.mem_cons_self _ _, rfl⟩
        · simp only [record, propGlobalTerm, masterPasses_cons, true_and, if_true,
            List.head?_cons, Function.update_same, htb, hpb, hw, Bool.or_self, Bool.not_false]
          exact hlw
      · rw [if_neg hdecl]
        refine ⟨?_, ?_, ?_⟩
        · exact hrule.cons_quiet rfl
        · simp only [record, forwardToken, propToken, setHolder, assertThat]
          rw [hflag]
          constructor
          · rintro ⟨e, he, hd⟩
            exact ⟨e, List.mem_cons_of_mem _ he, hd⟩
          · rintro ⟨e, he, hd⟩
            rcases List.mem_cons.mp he with rfl | he
            · exact absurd hd (by simp)
            · exact ⟨e, he, hd⟩
        · simp only [record, forwardToken, propToken, setHolder, assertThat,
            masterPasses_cons, true_and, if_true, List.head?_cons, Function.update_same,
            Function.update_idem, Nat.zero_add]
          by_cases hself : 1 % r.activeThreads = 0
          · rw [hself]
            simp
          · simp [Function.update_noteq (Ne.symm hself)]
    · have hm : isSysMaster id = false := by simp [isSysMaster, hid]
      have hcond : ¬isSysMaster id = true := by rw [hm]; exact Bool.false_ne_true
      rw [if_neg hcond]
      refine ⟨?_, ?_, ?_⟩
      · exact hrule.cons_quiet rfl
      · simp only [record, forwardToken, propToken, setHolder, assertThat]
        rw [hflag]
        constructor
        · rintro ⟨e, he, hd⟩
          exact ⟨e, List.mem_cons_of_mem _ he, hd⟩
        · rintro ⟨e, he, hd⟩
          rcases List.mem_cons.mp he with rfl | he
          · exact absurd hd (by simp)
          · exact ⟨e, he, hd⟩
      · simp only [record, forwardToken, propToken, setHolder, assertThat,
          masterPasses_cons, hid, false_and, if_false, Function.update_same,
          Function.update_idem]
        have h0 : (0 : Nat) ≠ id := Ne.symm hid
        by_cases hnext : (id + 1) % r.activeThreads = 0
        · refine ring_master_congr ?_ ?_ hmaster
          · rw [hnext]
            simp [Function.update_noteq h0]
          · rw [hnext]
            simp [Function.update_noteq h0]
        · refine ring_master_congr ?_ ?_ hmaster
          · simp [Function.update_noteq (Ne.symm hnext), Function.update_noteq h0]
          · simp [Function.update_noteq (Ne.symm hnext), Function.update_noteq h0]
  · rw [if_neg htok]
    refine ⟨?_, ?_, ?_⟩
    · exact hrule.cons_quiet rfl
    · simp only [record, setHolder, assertThat]
      rw [hflag]
      constructor
      · rintro ⟨e, he, hd⟩
        exact ⟨e, List.mem_cons_of_mem _ he, hd⟩
      · rintro ⟨e, he, hd⟩
        rcases List.mem_cons.mp he with rfl | he
        · exact absurd hd (by simp)
        · exact ⟨e, he, hd⟩
    · simp only [record, setHolder, assertThat, masterPasses_cons, Bool.false_eq_true,
        and_false, if_false]
      by_cases hid : id = 0
      · subst hid
        refine ring_master_congr ?_ ?_ hmaster
        · intro hp
          simp [hp]
        · simp
      · refine ring_master_congr ?_ ?_ hmaster
        · simp [Function.update_noteq (Ne.symm hid)]
        · simp [Function.update_noteq (Ne.symm hid)]

theorem run_consistent (calls : List (Nat × Bool)) :
    ∀ r : LocalTerminationDetection, r.Consistent → (run calls r).Consistent := by
  induction calls with
  | nil => exact fun r h => h
  | cons c cs ih =>
    intro r h
    exact ih _ (localTermination_consistent c.1 c.2 r h)

theorem run_calls_length (calls : List (Nat × Bool)) :
    ∀ r : LocalTerminationDetection, (run calls r).calls.length = r.calls.length + calls.length := by
  induction calls with
  | nil => exact fun r => rfl
  | cons c cs ih =>
    intro r
    have h1 : (localTermination c.1 c.2 r).calls.length = r.calls.length + 1 := by
      unfold localTermination
      simp only
      split
      · split
        · split <;> rfl
        · rfl
      · rfl
    have := ih (localTermination c.1 c.2 r)
    simp only [run, List.foldl_cons, List.length_cons] at this ⊢
    rw [this, h1]
    omega

theorem initializeThread_frame (id : Nat) (r : LocalTerminationDetection) :
    (initializeThread id r).calls = r.calls ∧ (initializeThread id r).globalTerm = false ∧
      ((initializeThread id r).data id).processIsBlack = true ∧
      ∀ j, j ≠ id → (initializeThread id r).data j = r.data j := by
  refine ⟨?_, ?_, ?_, ?_⟩
  · unfold initializeThread; split <;> rfl
  · unfold initializeThread; split <;> rfl
  · unfold initializeThread; split <;> simp [setHolder]
  · intro j hj
    unfold initializeThread
    split <;> simp [setHolder, Function.update_noteq hj]

theorem initAll_consistent :
    ∀ (order : List Nat) (r : LocalTerminationDetection), r.calls = [] →
      (order = [] → r.globalTerm = false) →
      (0 ∈ order ∨ (r.data 0).processIsBlack = true) →
      (initAll order r).Consistent
  | [], r, hc, hg, h0 => by
    have hp : (r.data 0).processIsBlack = true := by
      rcases h0 with h | h
      · exact absurd h (by simp)
      · exact h
    refine ⟨?_, ?_, ?_⟩
    · intro newer e older heq
      simp only [initAll, List.foldl_nil, hc] at heq
      exact absurd heq (by simp)
    · simp only [initAll, List.foldl_nil, hc, hg rfl]
      simp
    · simp only [initAll, List.foldl_nil, hc, masterPasses, List.filter_nil, List.head?_nil]
      exact hp
  | id :: order, r, hc, _, h0 => by
    obtain ⟨f1, f2, f3, f4⟩ := initializeThread_frame id r
    have := initAll_consistent order (initializeThread id r) (by rw [f1, hc]) (fun _ => f2)
      (by
        by_cases hid : id = 0
        · subst hid
          exact Or.inr f3
        · rcases h0 with h | h
          · rcases List.mem_cons.mp h with h | h
            · exact absurd h.symm hid
            · exact Or.inl h
          · right
            rw [f4 0 (Ne.symm hid)]
            exact h)
    simpa [initAll] using this

end LocalTerminationDetection

namespace TreeTerminationDetection

theorem modify_lastWasWhite (j : Nat) (f : TreeTokenHolder → TreeTokenHolder)
    (hf : ∀ h, (f h).lastWasWhite = h.lastWasWhite) (t : TreeTerminationDetection) :
    ((modify j f t).data 0).lastWasWhite = (t.data 0).lastWasWhite ∧
      (modify j f t).calls = t.calls ∧ (modify j f t).globalTerm = t.globalTerm := by
  refine ⟨?_, rfl, rfl⟩
  unfold modify
  by_cases h : (0 : Nat) = j
  · subst h
    simp [hf]
  · simp [Function.update_noteq h]

theorem propagateDown_frame (id : Nat) (t : TreeTerminationDetection) :
    ((propagateDown id t).data 0).lastWasWhite = (t.data 0).lastWasWhite ∧
      (propagateDown id t).calls = t.calls ∧ (propagateDown id t).globalTerm = t.globalTerm := by
  unfold propagateDown
  split
  · obtain ⟨a1, a2, a3⟩ := modify_lastWasWhite id
      (fun h => { h with down_token := false, hasToken := true }) (fun _ => rfl) t
    refine foldl_preserves
      (fun t1 : TreeTerminationDetection =>
        (t1.data 0).lastWasWhite = (t.data 0).lastWasWhite ∧ t1.calls = t.calls ∧
          t1.globalTerm = t.globalTerm) _ ?_ _ _ ⟨a1, a2, a3⟩
    intro b i hb
    dsimp only
    obtain ⟨c1, c2, c3⟩ := modify_lastWasWhite id
      (fun h => { h with up_token := Function.update h.up_token i (-1) }) (fun _ => rfl) b
    split
    · rename_i c _
      obtain ⟨d1, d2, d3⟩ := modify_lastWasWhite c
        (fun h => { h with down_token := true }) (fun _ => rfl)
        (modify id (fun h => { h with up_token := Function.update h.up_token i (-1) }) b)
      exact ⟨by rw [d1, c1]; exact hb.1, by rw [d2, c2]; exact hb.2.1,
        by rw [d3, c3]; exact hb.2.2⟩
    · exact ⟨by rw [c1]; exact hb.1, by rw [c2]; exact hb.2.1, by rw [c3]; exact hb.2.2⟩
  · exact ⟨rfl, rfl, rfl⟩

theorem flag_cons_quiet {g : Bool} {cs : List TermCall} {e : TermCall}
    (h : g = true ↔ ∃ e1, e1 ∈ cs ∧ e1.declared = true) (he : e.declared = false) :
    g = true ↔ ∃ e1, e1 ∈ e :: cs ∧ e1.declared = true := by
  rw [h]
  constructor
  · rintro ⟨e1, h1, hd⟩
    exact ⟨e1, List.mem_cons_of_mem _ h1, hd⟩
  · rintro ⟨e1, h1, hd⟩
    rcases List.mem_cons.mp h1 with rfl | h1
    · rw [he] at hd; exact absurd hd (by simp)
    · exact ⟨e1, h1, hd⟩

/-- A call of `processToken` keeps the tree detector and its record consistent. -/
theorem processToken_consistent (id : Nat) (t : TreeTerminationDetection)
    (h : t.Consistent) : (processToken id t).Consistent := by
  obtain ⟨hrule, hflag, hmaster⟩ := h
  unfold processToken
  simp only
  by_cases hall : (collect (t.data id)).1 = true
  · rw [if_pos hall]
    obtain ⟨a1, a2, a3⟩ := modify_lastWasWhite id
      (fun h => { h with processIsBlack := false, hasToken := false }) (fun _ => rfl) t
    by_cases hid : id = 0
    · subst hid
      simp only [isSysMaster, decide_True, if_true]
      by_cases hdecl : ((t.data 0).lastWasWhite && !(collect (t.data 0)).2) = true
      · rw [if_pos hdecl]
        simp only [Bool.and_eq_true, Bool.not_eq_true'] at hdecl
        obtain ⟨hlw, hblack⟩ := hdecl
        have hprev : ∃ p, (masterPasses t.calls).head? = some p ∧ p.black = false := by
          cases hm : (masterPasses t.calls).head? with
          | none =>
            rw [hm] at hmaster
            simp only at hmaster
            rw [hmaster] at hlw
            exact absurd hlw (by simp)
          | some p =>
            rw [hm] at hmaster
            simp only at hmaster
            rw [hlw] at hmaster
            refine ⟨p, rfl, ?_⟩
            cases hb : p.black with
            | false => rfl
            | true => rw [hb] at hmaster; exact absurd hmaster (by simp)
        refine ⟨?_, ?_, ?_⟩
        · simp only [record, propGlobalTerm, a2]
          exact hrule.cons_declared rfl rfl hblack hprev
        · simp only [record, propGlobalTerm, true_iff]
          exact ⟨_, List.mem_cons_self _ _, rfl⟩
        · simp only [record, propGlobalTerm, a2, masterPasses_cons, true_and, if_true,
            List.head?_cons, hall, hblack, Bool.not_false]
          rw [a1]
          exact hlw
      · rw [if_neg hdecl]
        obtain ⟨b1, b2, b3⟩ := propagateDown_frame 0
          (modify 0 (fun h => { h with lastWasWhite := !(collect (t.data 0)).2, down_token := true })
            (modify 0 (fun h => { h with processIsBlack := false, hasToken := false }) t))
        refine ⟨?_, ?_, ?_⟩
        · simp only [record, b2]
          exact hrule.cons_quiet rfl
        · simp only [record, b2, b3]
          exact flag_cons_quiet hflag rfl
        · simp only [record, b2, masterPasses_cons, true_and, hall, if_true, List.head?_cons]
          rw [b1]
          simp [modify]
    · have hm : isSysMaster id = false := by simp [isSysMaster, hid]
      rw [hm]
      simp only [Bool.false_eq_true, if_false]
      obtain ⟨c1, c2, c3⟩ := modify_lastWasWhite (t.data id).parent
        (fun h =>
          { h with up_token := (Function.update h.up_token (t.data id).parent_offset
              (if (collect (t.data id)).2 then 1 else 0)) }) (fun _ => rfl)
        (modify id (fun h => { h with processIsBlack := false, hasToken := false }) t)
      obtain ⟨b1, b2, b3⟩ := propagateDown_frame id
        (modify (t.data id).parent
          (fun h =>
            { h with up_token := (Function.update h.up_token (t.data id).parent_offset
                (if (collect (t.data id)).2 then 1 else 0)) })
          (modify id (fun h => { h with processIsBlack := false, hasToken := false }) t))
      refine ⟨?_, ?_, ?_⟩
      · simp only [record, b2, c2]
        exact hrule.cons_quiet rfl
      · simp only [record, b2, b3, c2, c3]
        exact flag_cons_quiet hflag rfl
      · simp only [record, b2, c2, masterPasses_cons, hid, false_and, if_false]
        rw [b1, c1, a1]
        exact hmaster
  · rw [if_neg hall]
    obtain ⟨b1, b2, b3⟩ := propagateDown_frame id t
    refine ⟨?_, ?_, ?_⟩
    · simp only [record, b2]
      exact hrule.cons_quiet rfl
    · simp only [record, b2, b3]
      exact flag_cons_quiet hflag rfl
    · simp only [record, b2, masterPasses_cons, Bool.false_eq_true, and_false, if_false]
      rw [b1]
      exact hmaster

theorem tree_localTermination_consistent (id : Nat) (w : Bool) (t : TreeTerminationDetection)
    (h : t.Consistent) : (localTermination id w t).Consistent := by
  unfold localTermination
  apply processToken_consistent
  obtain ⟨hrule, hflag, hmaster⟩ := h
  obtain ⟨a1, a2, a3⟩ := modify_lastWasWhite id
    (fun h => { h with processIsBlack := h.processIsBlack || w }) (fun _ => rfl)
    (assertThat (!(w && t.globalTerm)) t)
  refine ⟨?_, ?_, ?_⟩
  · rw [a2]; exact hrule
  · rw [a2, a3]; exact hflag
  · rw [a2, a1]; exact hmaster

theorem tree_run_consistent (calls : List (Nat × Bool)) :
    ∀ t : TreeTerminationDetection, t.Consistent → (run calls t).Consistent := by
  induction calls with
  | nil => exact fun t h => h
  | cons c cs ih =>
    intro t h
    exact ih _ (tree_localTermination_consistent c.1 c.2 t h)

theorem tree_initializeThread_frame (id : Nat) (t : TreeTerminationDetection) :
    (initializeThread id t).calls = t.calls ∧ (initializeThread id t).globalTerm = false ∧
      ((initializeThread id t).data id).lastWasWhite = false ∧
      ∀ j, j ≠ id → (initializeThread id t).data j = t.data j := by
  refine ⟨?_, ?_, ?_, ?_⟩
  · unfold initializeThread; split <;> rfl
  · unfold initializeThread; split <;> rfl
  · unfold initializeThread; split <;> simp [modify]
  · intro j hj
    unfold initializeThread
    split <;> simp [modify, Function.update_noteq hj]

theorem tree_initAll_consistent :
    ∀ (order : List Nat) (t : TreeTerminationDetection), t.calls = [] →
      (order = [] → t.globalTerm = false) →
      (0 ∈ order ∨ (t.data 0).lastWasWhite = false) →
      (initAll order t).Consistent
  | [], t, hc, hg, h0 => by
    have hp : (t.data 0).lastWasWhite = false := by
      rcases h0 with h | h
      · exact absurd h (by simp)
      · exact h
    refine ⟨?_, ?_, ?_⟩
    · intro newer e older heq
      simp only [initAll, List.foldl_nil, hc] at heq
      exact absurd heq (by simp)
    · simp only [initAll, List.foldl_nil, hc, hg rfl]
      simp
    · simp only [initAll, List.foldl_nil, hc, masterPasses, List.filter_nil, List.head?_nil]
      exact hp
  | id :: order, t, hc, _, h0 => by
    obtain ⟨f1, f2, f3, f4⟩ := tree_initializeThread_frame id t
    have := tree_initAll_consistent order (initializeThread id t) (by rw [f1, hc]) (fun _ => f2)
      (by
        by_cases hid : id = 0
        · subst hid
          exact Or.inr f3
        · rcases h0 with h | h
          · rcases List.mem_cons.mp h with h | h
            · exact absurd h.symm hid
            · exact Or.inl h
          · right
            rw [f4 0 (Ne.symm hid)]
            exact h)
    simpa [initAll] using this

end TreeTerminationDetection

theorem zero_mem_of_perm_range {n : Nat} {order : List Nat} (horder : order.Perm (List.range n))
    (hn : 0 < n) : 0 ∈ order :=
  horder.symm.subset (List.mem_range.mpr hn)

end TerminationProofs

/-! ## Termination: the rule of the detectors, and the loop of execute -/

section Detect

open LocalTerminationDetection in
/-- C13: in the ring detector, after every worker has run `initializeThread` (in any
order) and for every sequence of calls `localTermination (workHappened)`: a call
declares global termination only if it is a call of the master that holds the token and
sees neither a black token nor itself black, and the most recent earlier call of the
master that held the token saw no black either; `globalTerm` is set exactly when some
call has declared.  Every call is in the record. -/
theorem ring_two_clean_passes (n : Nat) (junk : TokenHolder) (order : List Nat)
    (horder : order.Perm (List.range n)) (hn : 0 < n) (calls : List (Nat × Bool)) :
    TwoCleanPasses (run calls (initAll order (fresh n junk))).calls ∧
    ((run calls (initAll order (fresh n junk))).globalTerm = true ↔
      ∃ e, e ∈ (run calls (initAll order (fresh n junk))).calls ∧ e.declared = true) ∧
    (run calls (initAll order (fresh n junk))).calls.length = calls.length := by
  have h0 : (initAll order (fresh n junk)).Consistent :=
    initAll_consistent order (fresh n junk) rfl (fun _ => rfl)
      (Or.inl (zero_mem_of_perm_range horder hn))
  have h := run_consistent calls _ h0
  refine ⟨h.rule, h.flag, ?_⟩
  rw [run_calls_length]
  have : (initAll order (fresh n junk)).calls = [] := by
    have := foldl_preserves (fun r : LocalTerminationDetection => r.calls = [])
      (fun r1 id => initializeThread id r1)
      (fun b a hb => (initializeThread_frame a b).1.trans hb) order (fresh n junk) rfl
    exact this
  rw [this]
  simp

open LocalTerminationDetection in
/-- C13, on one worker and three calls without work: the first call is black (the
worker starts black), the second is clean, the third is clean and declares. -/
theorem ring_two_clean_passes_witness :
    ([0] : List Nat).Perm (List.range 1) ∧ 0 < 1 ∧
      (run [(0, false), (0, false), (0, false)] (initAll [0] (fresh 1 demoHolder))).calls =
        [{ tid := 0, pass := true, black := false, declared := true },
         { tid := 0, pass := true, black := false, declared := false },
         { tid := 0, pass := true, black := true, declared := false }] ∧
      TwoCleanPasses
        (run [(0, false), (0, false), (0, false)] (initAll [0] (fresh 1 demoHolder))).calls :=
  ⟨List.Perm.refl _, by decide, by decide,
    (ring_two_clean_passes 1 demoHolder [0] (List.Perm.refl _) (by decide)
      [(0, false), (0, false), (0, false)]).1⟩

/-- C19, as the code has it: the tree detector follows the same rule as the ring
detector.  After every worker has run `initializeThread` and for every sequence of
calls `localTermination (workHappened)`, in each of the two detectors a call declares
global termination only if it is a pass of the master that saw no black and the most
recent earlier pass of the master saw no black either, and `globalTerm` is set exactly
when some call has declared.  (The calls in which they declare are not the same.) -/
theorem detectors_same_rule (n : Nat) (junk : TokenHolder) (junkTree : TreeTokenHolder)
    (order : List Nat) (horder : order.Perm (List.range n)) (hn : 0 < n)
    (calls : List (Nat × Bool)) :
    TwoCleanPasses
      (LocalTerminationDetection.run calls
        (LocalTerminationDetection.initAll order (LocalTerminationDetection.fresh n junk))).calls ∧
    ((LocalTerminationDetection.run calls
        (LocalTerminationDetection.initAll order
          (LocalTerminationDetection.fresh n junk))).globalTerm = true ↔
      ∃ e, e ∈ (LocalTerminationDetection.run calls
        (LocalTerminationDetection.initAll order
          (LocalTerminationDetection.fresh n junk))).calls ∧ e.declared = true) ∧
    TwoCleanPasses
      (TreeTerminationDetection.run calls
        (TreeTerminationDetection.initAll order
          (TreeTerminationDetection.fresh n junkTree))).calls ∧
    ((TreeTerminationDetection.run calls
        (TreeTerminationDetection.initAll order
          (TreeTerminationDetection.fresh n junkTree))).globalTerm = true ↔
      ∃ e, e ∈ (TreeTerminationDetection.run calls
        (TreeTerminationDetection.initAll order
          (TreeTerminationDetection.fresh n junkTree))).calls ∧ e.declared = true) := by
  have h0 := LocalTerminationDetection.initAll_consistent order
    (LocalTerminationDetection.fresh n junk) rfl (fun _ => rfl)
    (Or.inl (zero_mem_of_perm_range horder hn))
  have h := LocalTerminationDetection.run_consistent calls _ h0
  have t0 := TreeTerminationDetection.tree_initAll_consistent order
    (TreeTerminationDetection.fresh n junkTree) rfl (fun _ => rfl)
    (Or.inl (zero_mem_of_perm_range horder hn))
  have t := TreeTerminationDetection.tree_run_consistent calls _ t0
  exact ⟨h.rule, h.flag, t.rule, t.flag⟩

/-- C19, on one worker and four calls without work: the ring declares in the third
call, the tree in the fourth. -/
theorem detectors_same_rule_witness :
    ([0] : List Nat).Perm (List.range 1) ∧ 0 < 1 ∧
      ((LocalTerminationDetection.run [(0, false), (0, false), (0, false), (0, false)]
        (LocalTerminationDetection.initAll [0]
          (LocalTerminationDetection.fresh 1 demoHolder))).calls.map fun e => e.declared) =
        [true, true, false, false] ∧
      ((TreeTerminationDetection.run [(0, false), (0, false), (0, false), (0, false)]
        (TreeTerminationDetection.initAll [0]
          (TreeTerminationDetection.fresh 1 demoTreeHolder))).calls.map fun e => e.declared) =
        [true, false, false, false] ∧
      TwoCleanPasses
        (TreeTerminationDetection.run [(0, false), (0, false), (0, false), (0, false)]
          (TreeTerminationDetection.initAll [0]
            (TreeTerminationDetection.fresh 1 demoTreeHolder))).calls :=
  ⟨List.Perm.refl _, by decide, by decide, by decide,
    (detectors_same_rule 1 demoHolder demoTreeHolder [0] (List.Perm.refl _) (by decide)
      [(0, false), (0, false), (0, false), (0, false)]).2.2.1⟩

/-- C19 as stated fails: with one worker and three calls without work the ring detector
has published global termination and the tree detector has not; it publishes one call
later. -/
theorem detectors_differ_counterexample :
    (LocalTerminationDetection.run [(0, false), (0, false), (0, false)]
      (LocalTerminationDetection.initAll [0]
        (LocalTerminationDetection.fresh 1 demoHolder))).globalTerm = true ∧
    (TreeTerminationDetection.run [(0, false), (0, false), (0, false)]
      (TreeTerminationDetection.initAll [0]
        (TreeTerminationDetection.fresh 1 demoTreeHolder))).globalTerm = false ∧
    (TreeTerminationDetection.run [(0, false), (0, false), (0, false), (0, false)]
      (TreeTerminationDetection.initAll [0]
        (TreeTerminationDetection.fresh 1 demoTreeHolder))).globalTerm = true ∧
    ¬(∀ (n : Nat) (calls : List (Nat × Bool)), 0 < n → (∀ c, c ∈ calls → c.1 < n) →
        (LocalTerminationDetection.run calls
          (LocalTerminationDetection.initAll (List.range n)
            (LocalTerminationDetection.fresh n demoHolder))).globalTerm =
        (TreeTerminationDetection.run calls
          (TreeTerminationDetection.initAll (List.range n)
            (TreeTerminationDetection.fresh n demoTreeHolder))).globalTerm) := by
  refine ⟨by decide, by decide, by decide, ?_⟩
  intro h
  have h1 := h 1 [(0, false), (0, false), (0, false)] (by decide) (by decide)
  revert h1
  decide

theorem executeOuter_unterminated {T : Type} (cmp : T → T → Bool)
    (applyOperator : Nat → Exec T → Option (Exec T)) (tid : Nat) :
    ∀ (fuel : Nat) (s : Exec T) (term : LocalTerminationDetection)
      (r : Exec T × LocalTerminationDetection),
      executeOuter cmp applyOperator tid fuel s term = some r → globalTermination r.2 = false
  | 0, _, _, _, h => by simp [executeOuter] at h
  | fuel + 1, s, term, r, h => by
    unfold executeOuter at h
    cases hin : executeInner cmp applyOperator tid fuel s false with
    | none => simp [hin] at h
    | some p =>
      obtain ⟨s1, didWork⟩ := p
      simp only [hin] at h
      by_cases hg : globalTermination
          (LocalTerminationDetection.localTermination tid didWork term) = true
      · rw [if_pos hg] at h
        exact executeOuter_unterminated cmp applyOperator tid fuel s1 _ r h
      · rw [if_neg hg] at h
        simp only [Option.some.injEq] at h
        subst h
        simpa using hg

/-- C14, what the code does: the outer loop of `execute` is
`do ... while (term.globalTermination ())`, so `execute` goes on exactly while global
termination is declared and returns as soon as it is not.  Whenever `execute` returns,
`globalTermination ()` is false.  On one worker and the single item 5 (an operator
without Lockables and pushes) `execute` commits the item, calls `localTermination
(true)` once, which declares nothing, and returns. -/
theorem execute_returns_unterminated :
    (∀ (T : Type) (cmp : T → T → Bool) (applyOperator : Nat → Exec T → Option (Exec T))
        (tid fuel : Nat) (s : Exec T) (term : LocalTerminationDetection)
        (r : Exec T × LocalTerminationDetection),
        execute cmp applyOperator tid fuel s term = some r → globalTermination r.2 = false) ∧
    ((execute natLt idleOperator 0 3 soloStart (LocalTerminationDetection.fresh 1 demoHolder)).map
        fun r => (r.1.commitLog, r.1.numCommitted, globalTermination r.2, r.2.calls)) =
      some ([5], 1, false, [{ tid := 0, pass := true, black := true, declared := false }]) := by
  refine ⟨?_, by decide⟩
  intro T cmp applyOperator tid fuel s term r h
  exact executeOuter_unterminated cmp applyOperator tid fuel s _ r h

theorem trio_run : Run natLt demoAllowed 1 [1, 3, 5] trio8 := by
  have hinit : Initial natLt 1 [1, 3, 5] trioStart :=
    ⟨3, 3, 0, fun _ => 0, by decide, by decide, fun _ => Nat.succ_pos 2, rfl⟩
  have r0 : Reachable natLt demoAllowed trioStart trioStart := Reachable.init
  have r1 : Reachable natLt demoAllowed trioStart trio1 :=
    Reachable.step _ _ r0 (Step.schedule trioStart 0 (by decide))
  have r2 : Reachable natLt demoAllowed trioStart trio2 :=
    Reachable.step _ _ r1 (Step.schedule trio1 1 (by decide))
  have r3 : Reachable natLt demoAllowed trioStart trio3 :=
    Reachable.step _ _ r2 (Step.schedule trio2 2 (by decide))
  have r4 : Reachable natLt demoAllowed trioStart trio4 :=
    Reachable.step _ _ r3 (Step.acquire trio3 2 7 1 trio4 ⟨by decide, by decide⟩ rfl)
  have r5 : Reachable natLt demoAllowed trioStart trio5 :=
    Reachable.step _ _ r4 (Step.finish trio4 2 ⟨by decide, by decide⟩)
  have r6 : Reachable natLt demoAllowed trioStart trio6 :=
    Reachable.step _ _ r5 (Step.acquire trio5 1 7 2 trio6 ⟨by decide, by decide⟩ rfl)
  have r7 : Reachable natLt demoAllowed trioStart trio7 :=
    Reachable.step _ _ r6
      (Step.signal trio6 0 7 1 ⟨by decide, by decide⟩ (by decide) (by decide) (by decide)
        (by decide))
  exact ⟨trioStart, hinit, Reachable.step _ _ r7 (Step.finish trio7 1 ⟨by decide, by decide⟩)⟩

/-- C20, what the code does: `subAcquire` stores `lostConflict = true` after every call
of `resolveConflict`, whatever it returned.  In a run on the items 1, 3, 5: context 1
(item 3) asks for Lockable 7 owned by context 2 (item 5), `resolveConflict` returns
false (context 1 wins and aborts context 2), and `lostConflict` of context 1 is true
when `subAcquire` returns with the Lockable.  Context 0 (item 1) then signals context 1,
and the self abort of context 1 is counted in `abortSelfByConflict`, not in
`abortSelfBySignal`, although context 1 has lost no contest. -/
theorem lostConflict_set_by_winner :
    Run natLt demoAllowed 1 [1, 3, 5] trio8 ∧
    (trio5.ctxts 1).lostConflict = false ∧
    trio5.lockOwner 7 = some 2 ∧
    (resolveConflict natLt 1 1 2 trio5).map Prod.fst = some false ∧
    ((subAcquire natLt 2 1 7 trio5).map fun s1 =>
        ((s1.ctxts 1).lostConflict, (s1.ctxts 1).state, s1.lockOwner 7, s1.abortByOther)) =
      some (true, .SCHEDULED, some 1, 1) ∧
    (trio6.ctxts 1).lostConflict = true ∧
    (trio7.ctxts 1).state = .ABORT_SELF ∧
    (trio7.abortSelfByConflict, trio7.abortSelfBySignal) = (0, 0) ∧
    (trio8.ctxts 1).state = .ABORT_DONE ∧
    (trio8.abortSelfByConflict, trio8.abortSelfBySignal) = (1, 0) := by
  refine ⟨trio_run, ?_⟩
  decide

end Detect

/-! ## Context slots stay with their worker -/

section Slots

variable {T : Type}

/-- `scheduleGlobalMinFirst` either schedules nothing and leaves the state alone, or
takes the tail of the caller's free list and the top of the heap the scan has chosen. -/
theorem scheduleGlobalMinFirst_shape (cmp : T → T → Bool) (tid : Nat) (s : Exec T) :
    scheduleGlobalMinFirst cmp tid s = (none, s) ∨
    ∃ ctx x rest, (s.freeList tid).getLast? = some ctx ∧
      heapPop cmp (s.pending (scanMin cmp s).1) = some (x, rest) ∧
      scheduleGlobalMinFirst cmp tid s =
        (some ctx,
          addNumTotal (setRob (heapPush ctx s.rob)
            (setOwner ctx tid (setState ctx .SCHEDULED
              (construct ctx x tid (setPending (scanMin cmp s).1 rest
                (setFreeList tid (s.freeList tid).dropLast s))))))) := by
  unfold scheduleGlobalMinFirst
  simp only
  split
  · split
    · split
      · rename_i x rest ctx hpop hctx
        right
        exact ⟨ctx, x, rest, hctx, hpop, rfl⟩
      · left; rfl
    · left; rfl
  · left; rfl

/-- With a strict weak order, the item that `scheduleGlobalMinFirst` schedules is a
least pending item. -/
theorem scheduleGlobalMinFirst_cases (cmp : T → T → Bool) (hc : StrictWeak cmp) (tid : Nat)
    (s : Exec T) (htid : tid < s.activeThreads) :
    scheduleGlobalMinFirst cmp tid s = (none, s) ∨
    ∃ ctx j x rest, j < s.activeThreads ∧ (s.freeList tid).getLast? = some ctx ∧
      heapPop cmp (s.pending j) = some (x, rest) ∧
      (∀ i, i < s.activeThreads → ∀ y, y ∈ s.pending i → cmp y x = false) ∧
      scheduleGlobalMinFirst cmp tid s =
        (some ctx,
          addNumTotal (setRob (heapPush ctx s.rob)
            (setOwner ctx tid (setState ctx .SCHEDULED
              (construct ctx x tid (setPending j rest
                (setFreeList tid (s.freeList tid).dropLast s))))))) := by
  rcases scheduleGlobalMinFirst_shape cmp tid s with h | ⟨ctx, x, rest, hctx, hpop, hres⟩
  · exact Or.inl h
  · right
    have hscan := scanMin_fold cmp hc s.pending s.activeThreads
    simp only at hscan
    obtain ⟨hs1, hs2⟩ := hscan
    have hfold : (List.range s.activeThreads).foldl (scanStep cmp s.pending) (0, none)
        = scanMin cmp s := rfl
    rw [hfold] at hs1 hs2
    have hidx := scanIndex_fold cmp s.pending s.activeThreads
    simp only at hidx
    rw [hfold] at hidx
    cases hm : (scanMin cmp s).2 with
    | none =>
      have h0 := hidx.1 hm
      have he := h0.2 0 (Nat.lt_of_le_of_lt (Nat.zero_le _) htid)
      rw [h0.1, he] at hpop
      simp [heapPop] at hpop
    | some m =>
      obtain ⟨hj, htop, hmin⟩ := hs2 m hm
      have hxm : x = m := by
        have := heapTop_eq_some.mpr ⟨rest, hpop⟩
        rw [htop] at this
        exact (Option.some.inj this).symm
      subst hxm
      refine ⟨ctx, (scanMin cmp s).1, x, rest, hj, hctx, hpop, ?_, hres⟩
      intro i hi y hy
      cases hti : heapTop cmp (s.pending i) with
      | none =>
        rw [heapTop_eq_none.mp hti] at hy
        exact absurd hy (by simp)
      | some t =>
        exact hc.negTrans _ _ _ (heapTop_least hc hti y hy) (hmin i hi t hti)

theorem SlotsHome.of_same_slots {window : Nat} {s t : Exec T} (h : SlotsHome window s)
    (hact : t.activeThreads = s.activeThreads) (hfl : t.freeList = s.freeList)
    (hrob : t.rob = s.rob) (hown : ∀ c, (t.ctxts c).owner = (s.ctxts c).owner) :
    SlotsHome window t := by
  intro w hw
  have h1 := h w (hact ▸ hw)
  rw [hfl, hrob]
  have hf : (fun c => decide ((t.ctxts c).owner = w)) =
      fun c => decide ((s.ctxts c).owner = w) := by
    funext c; rw [hown]
  rw [hf]
  exact h1

theorem SlotsHome.of_perm_slots {window : Nat} {s t : Exec T} (h : SlotsHome window s)
    (hact : t.activeThreads = s.activeThreads) (hfl : t.freeList = s.freeList)
    (hrob : s.rob.Perm t.rob) (hown : ∀ c, (t.ctxts c).owner = (s.ctxts c).owner) :
    SlotsHome window t := by
  intro w hw
  have h1 := h w (hact ▸ hw)
  rw [hfl]
  have hf : (fun c => decide ((t.ctxts c).owner = w)) =
      fun c => decide ((s.ctxts c).owner = w) := by
    funext c; rw [hown]
  rw [hf]
  exact ((hrob.filter _).symm.append_left _).trans h1

theorem SlotsHome.of_retire_slots {window : Nat} {s t : Exec T} (h : SlotsHome window s)
    (x : Nat) (rest : List Nat) (hperm : s.rob.Perm (x :: rest))
    (hact : t.activeThreads = s.activeThreads) (hrob : t.rob = rest)
    (hfl : t.freeList =
      Function.update s.freeList (s.ctxts x).owner (s.freeList (s.ctxts x).owner ++ [x]))
    (hown : ∀ c, (t.ctxts c).owner = (s.ctxts c).owner) : SlotsHome window t := by
  intro w hw
  have h1 := h w (hact ▸ hw)
  rw [hfl, hrob]
  have hf : (fun c => decide ((t.ctxts c).owner = w)) =
      fun c => decide ((s.ctxts c).owner = w) := by
    funext c; rw [hown]
  rw [hf]
  have hp := hperm.filter (fun c => decide ((s.ctxts c).owner = w))
  by_cases hx : (s.ctxts x).owner = w
  · subst hx
    rw [Function.update_same]
    have e : (x :: rest).filter (fun c => decide ((s.ctxts c).owner = (s.ctxts x).owner)) =
        x :: rest.filter (fun c => decide ((s.ctxts c).owner = (s.ctxts x).owner)) := by
      simp [List.filter_cons]
    rw [e] at hp
    have h2 : (s.freeList (s.ctxts x).owner ++ [x] ++
        rest.filter (fun c => decide ((s.ctxts c).owner = (s.ctxts x).owner))).Perm
        (s.freeList (s.ctxts x).owner ++
          s.rob.filter (fun c => decide ((s.ctxts c).owner = (s.ctxts x).owner))) := by
      rw [List.append_assoc]
      exact (hp.symm.append_left _)
    exact h2.trans h1
  · rw [Function.update_noteq (Ne.symm hx)]
    have e : (x :: rest).filter (fun c => decide ((s.ctxts c).owner = w)) =
        rest.filter (fun c => decide ((s.ctxts c).owner = w)) := by
      simp [List.filter_cons, hx]
    rw [e] at hp
    exact (hp.symm.append_left _).trans h1

/-- Every state change keeps the slots with their workers. -/
theorem SlotsHome.atom_slots {cmp : T → T → Bool} {allowed : T → T → Prop} {window : Nat}
    {s s1 : Exec T} (hwf : WF s) (h : SlotsHome window s) (ha : Atom cmp allowed s s1) :
    SlotsHome window s1 := by
  cases ha with
  | sched tid ctx j x rest htid hj hctx hpop =>
    have hnotrob : ctx ∉ s.rob :=
      hwf.freeNotRob tid ctx (List.mem_of_getLast?_eq_some hctx)
    have hsplit : s.freeList tid = (s.freeList tid).dropLast ++ [ctx] := by
      have hne : s.freeList tid ≠ [] := by
        intro e; rw [e] at hctx; simp at hctx
      have := List.dropLast_append_getLast hne
      rw [List.getLast?_eq_getLast _ hne] at hctx
      rw [← Option.some.inj hctx]
      exact this.symm
    intro w hw
    have h1 := h w hw
    simp only [addNumTotal_freeList, setRob_freeList, setOwner_freeList, setState_freeList,
      construct_freeList, setPending_freeList, setFreeList_freeList, addNumTotal_rob,
      setRob_rob, heapPush_eq, addNumTotal_ctxts, setRob_ctxts]
    have hfilter : s.rob.filter (fun c => decide (((setOwner ctx tid (setState ctx .SCHEDULED
        (construct ctx x tid (setPending j rest
          (setFreeList tid (s.freeList tid).dropLast s))))).ctxts c).owner = w)) =
        s.rob.filter (fun c => decide ((s.ctxts c).owner = w)) := by
      apply List.filter_congr
      intro c hc
      have hcc : c ≠ ctx := fun e => hnotrob (e ▸ hc)
      simp [hcc]
    by_cases hwt : w = tid
    · subst hwt
      rw [List.filter_cons, hfilter, Function.update_same]
      simp only [setOwner_ctxts_owner, if_true, decide_True]
      rw [hsplit] at h1
      refine List.Perm.trans ?_ h1
      rw [List.append_assoc]
      rfl
    · rw [List.filter_cons, hfilter, Function.update_noteq hwt]
      have : decide (((setOwner ctx tid (setState ctx .SCHEDULED
        (construct ctx x tid (setPending j rest
          (setFreeList tid (s.freeList tid).dropLast s))))).ctxts ctx).owner = w) = false := by
        simp [Ne.symm hwt]
      rw [this]
      exact h1
  | newOwner c l hrun hnone => exact h.of_same_slots rfl rfl rfl (fun d => by simp)
  | asserted cond => exact h.of_same_slots rfl rfl rfl (fun d => by simp)
  | loseState c hrun => exact h.of_same_slots rfl rfl rfl (fun d => by simp)
  | lostFlag c => exact h.of_same_slots rfl rfl rfl (fun d => by simp)
  | signalled that hst => exact h.of_same_slots rfl rfl rfl (fun d => by simp)
  | helped l that hown hst =>
    exact h.of_same_slots (by simp) (by simp) (by simp) (fun d => by simp)
  | opPush c x hrun hal => exact h.of_same_slots rfl rfl rfl (fun d => by simp)
  | finishReady c hrun hst => exact h.of_same_slots rfl rfl rfl (fun d => by simp)
  | finishAbort c hrun hst =>
    exact h.of_same_slots (by simp) (by simp) (by simp) (fun d => by simp)
  | finishOnly c hrun h1 h2 => exact h.of_same_slots rfl rfl rfl (fun d => by simp)
  | commit tid head rest htid hpop hst hearly =>
    exact h.of_retire_slots head rest (heapPop_perm hpop) (by simp) (by simp) (by simp)
      (fun d => by simp)
  | dropAborted c rest hperm hst =>
    exact h.of_retire_slots c rest hperm (by simp) (by simp) (by simp) (fun d => by simp)
  | permRob r hperm =>
    exact h.of_perm_slots rfl rfl (by simpa using hperm) (fun d => by simp)
  | cleanupCount => exact h.of_same_slots rfl rfl rfl (fun d => by simp)

theorem Started.slotsHome_start {window : Nat} {s0 : Exec T} (h : Started window s0) :
    SlotsHome window s0 := by
  intro w hw
  rw [h.freeList w, if_pos hw, h.pristine.rob]
  simp [slotsOf]

theorem Run.slotsHome {cmp : T → T → Bool} {allowed : T → T → Prop} {window : Nat}
    {items : List T} {s : Exec T} (h : Run cmp allowed window items s) : SlotsHome window s :=
  Run.wf_and (fun _ h0 => h0.slotsHome_start) (fun _ _ hwf hp hatom => hp.atom_slots hwf hatom) h

theorem length_eq_sum_filter (f : Nat → Nat) (n : Nat) :
    ∀ l : List Nat, (∀ c, c ∈ l → f c < n) →
      l.length = Finset.sum (Finset.range n) fun w => (l.filter fun c => decide (f c = w)).length
  | [], _ => by simp
  | c :: l, h => by
    have ih := length_eq_sum_filter f n l (fun d hd => h d (List.mem_cons_of_mem _ hd))
    have hc : f c < n := h c (List.mem_cons_self _ _)
    have hw : ∀ w, ((c :: l).filter fun d => decide (f d = w)).length =
        (l.filter fun d => decide (f d = w)).length + if f c = w then 1 else 0 := by
      intro w
      by_cases e : f c = w <;> simp [List.filter_cons, e]
    simp only [hw, Finset.sum_add_distrib, ← ih, List.length_cons]
    rw [Finset.sum_ite_eq]
    simp [hc]

theorem slotsOf_length (window w : Nat) : (slotsOf window w).length = window := by
  simp [slotsOf]

/-- What `drainROB` adds to a free list is a context in state ABORT_DONE, added to the
free list of its owner. -/
theorem drainROB_freeList (cmp : T → T → Bool) :
    ∀ (fuel : Nat) (s : Exec T) (buf : List Nat),
      (drainROB cmp fuel s buf).1.ctxts = s.ctxts ∧
      ∀ w c, c ∈ (drainROB cmp fuel s buf).1.freeList w →
        c ∈ s.freeList w ∨ ((s.ctxts c).state = .ABORT_DONE ∧ (s.ctxts c).owner = w)
  | 0, s, buf => ⟨rfl, fun _ _ h => Or.inl h⟩
  | fuel + 1, s, buf => by
    unfold drainROB
    cases hpop : heapPop (ctxtCmp cmp s) s.rob with
    | none => exact ⟨rfl, fun _ _ h => Or.inl h⟩
    | some p =>
      obtain ⟨ctx, rest⟩ := p
      simp only
      by_cases hd : (s.ctxts ctx).state = .ABORT_DONE
      · simp only [hasState_eq, setRob_ctxts, hd, decide_True, if_true]
        obtain ⟨i1, i2⟩ := drainROB_freeList cmp fuel (reclaim ctx (setRob rest s)) buf
        refine ⟨by rw [i1]; simp, ?_⟩
        intro w c hc
        rcases i2 w c hc with h1 | h1
        · simp only [reclaim_freeList, setRob_freeList, setRob_ctxts,
            Function.update_apply] at h1
          split at h1
          · rename_i hw
            rcases List.mem_append.mp h1 with h2 | h2
            · left; rw [hw]; exact h2
            · right
              have : c = ctx := by simpa using h2
              subst this
              exact ⟨hd, hw.symm⟩
          · exact Or.inl h1
        · right
          simpa using h1
      · simp only [hasState_eq, setRob_ctxts, hd, decide_False, Bool.false_eq_true, if_false]
        obtain ⟨i1, i2⟩ := drainROB_freeList cmp fuel (setRob rest s) (buf ++ [ctx])
        refine ⟨by rw [i1]; simp, ?_⟩
        intro w c hc
        simpa using i2 w c hc

/-- C17: context slots never change their worker and are never lost.  In every state of
a run, for every worker `w`: the free list of `w` together with the contexts of the
reorder buffer whose owner is `w` are exactly the contexts `w * window .. w * window +
window - 1` that `push_initial` allocated for `w`, so that their number is the window
size (`WINDOW_SIZE_PER_THREAD`, 1024, in `push_initial`); the reorder buffer holds at
most `activeThreads * window` contexts; and with an empty reorder buffer every free list
holds exactly the slots allocated for its worker.  The context `scheduleGlobalMinFirst`
returns on worker `w` is the tail of the free list of `w` and gets owner `w`.  `reclaim`
appends to the free list of the context's owner and to no other; `clearROB` reclaims a
head in state ABORT_DONE or the head it has just committed (COMMIT_DONE), and
`reclaimGlobally` reclaims contexts in state ABORT_DONE only. -/
theorem slots_stay_home (cmp : T → T → Bool) (allowed : T → T → Prop) (window : Nat)
    (items : List T) (s : Exec T) (h : Run cmp allowed window items s) :
    WINDOW_SIZE_PER_THREAD = 1024 ∧
    (∀ w, w < s.activeThreads →
      (s.freeList w ++ s.rob.filter fun c => decide ((s.ctxts c).owner = w)).Perm
        (slotsOf window w)) ∧
    (∀ w, w < s.activeThreads →
      (s.freeList w).length +
        (s.rob.filter fun c => decide ((s.ctxts c).owner = w)).length = window) ∧
    s.rob.length ≤ s.activeThreads * window ∧
    (s.rob = [] → ∀ w, w < s.activeThreads → (s.freeList w).Perm (slotsOf window w)) ∧
    (∀ tid c, (scheduleGlobalMinFirst cmp tid s).1 = some c →
      (s.freeList tid).getLast? = some c ∧
      ((scheduleGlobalMinFirst cmp tid s).2.ctxts c).owner = tid ∧
      (scheduleGlobalMinFirst cmp tid s).2.freeList tid = (s.freeList tid).dropLast) ∧
    (∀ c, (reclaim c s).freeList (s.ctxts c).owner = s.freeList (s.ctxts c).owner ++ [c] ∧
      ∀ w, w ≠ (s.ctxts c).owner → (reclaim c s).freeList w = s.freeList w) ∧
    (∀ tid head s1, clearROBRound cmp tid s = .reclaimed head s1 →
      (s.ctxts head).state = .ABORT_DONE ∧ s1 = reclaim head (setRob s1.rob s)) ∧
    (∀ tid head s1, clearROBRound cmp tid s = .committed head s1 →
      (s1.ctxts head).state = .COMMIT_DONE ∧
      s1.freeList = Function.update s.freeList (s.ctxts head).owner
        (s.freeList (s.ctxts head).owner ++ [head])) ∧
    (∀ w c, c ∈ (reclaimGlobally cmp s).freeList w →
      c ∈ s.freeList w ∨ ((s.ctxts c).state = .ABORT_DONE ∧ (s.ctxts c).owner = w)) := by
  have hslots := Run.slotsHome h
  have hwf := Run.wf_run h
  have hlen : ∀ w, w < s.activeThreads →
      (s.freeList w).length +
        (s.rob.filter fun c => decide ((s.ctxts c).owner = w)).length = window := by
    intro w hw
    have := (hslots w hw).length_eq
    rw [List.length_append, slotsOf_length] at this
    exact this
  refine ⟨rfl, hslots, hlen, ?_, ?_, ?_, ?_, ?_, ?_, ?_⟩
  · rw [length_eq_sum_filter (fun c => (s.ctxts c).owner) s.activeThreads s.rob
      (fun c hc => hwf.ownerValid c hc)]
    have hle : ∀ w, w ∈ Finset.range s.activeThreads →
        (s.rob.filter fun c => decide ((s.ctxts c).owner = w)).length ≤ window := by
      intro w hw
      have := hlen w (Finset.mem_range.mp hw)
      omega
    have := Finset.sum_le_sum hle
    simpa using this
  · intro hrob w hw
    have := hslots w hw
    rw [hrob] at this
    simpa using this
  · intro tid c hc
    rcases scheduleGlobalMinFirst_shape cmp tid s with h0 | ⟨ctx, x, rest, hctx, hpop, hres⟩
    · rw [h0] at hc
      exact absurd hc (by simp)
    · rw [hres] at hc ⊢
      simp only [Option.some.injEq] at hc
      subst hc
      exact ⟨hctx, by simp, by simp⟩
  · intro c
    exact ⟨by simp, fun w hw => by simp [Function.update_noteq hw]⟩
  · intro tid head s1 hround
    rw [clearROBRound_eq] at hround
    cases hpop : heapPop (ctxtCmp cmp s) s.rob with
    | none => simp [hpop] at hround
    | some p =>
      obtain ⟨hd0, rest⟩ := p
      simp only [hpop] at hround
      by_cases h1 : (s.ctxts hd0).state = .ABORT_DONE
      · simp only [h1, if_true, Sweep.reclaimed.injEq] at hround
        obtain ⟨rfl, rfl⟩ := hround
        exact ⟨h1, by simp⟩
      · by_cases h2 : (s.ctxts hd0).state = .READY_TO_COMMIT ∧
            isEarliest cmp (s.ctxts hd0).active s = true
        · simp [h1, h2] at hround
        · simp [h1, h2] at hround
  · intro tid head s1 hround
    rw [clearROBRound_eq] at hround
    cases hpop : heapPop (ctxtCmp cmp s) s.rob with
    | none => simp [hpop] at hround
    | some p =>
      obtain ⟨hd0, rest⟩ := p
      simp only [hpop] at hround
      by_cases h1 : (s.ctxts hd0).state = .ABORT_DONE
      · simp [h1] at hround
      · by_cases h2 : (s.ctxts hd0).state = .READY_TO_COMMIT ∧
            isEarliest cmp (s.ctxts hd0).active s = true
        · simp only [h1, if_false, h2, and_self, if_true, Sweep.committed.injEq] at hround
          obtain ⟨rfl, rfl⟩ := hround
          exact ⟨by simp, by simp⟩
        · simp [h1, h2] at hround
  · intro w c hc
    unfold reclaimGlobally at hc
    simp only [setRob_freeList] at hc
    have := (drainROB_freeList cmp (addNumGlobalCleanups s).rob.length
      (addNumGlobalCleanups s) []).2 w c hc
    simpa using this

/-- C17, on the small run (one context per worker): at the end the reorder buffer is
empty and each worker has its own context back. -/
theorem slots_stay_home_witness :
    Run natLt demoAllowed 1 [5, 3] demoEnd ∧ demoEnd.rob = [] ∧
      demoEnd.freeList 0 = [0] ∧ demoEnd.freeList 1 = [1] ∧
      (demo2.rob.length, demo2.freeList 0, demo2.freeList 1) = (2, [], []) ∧
      (∀ w, w < demoEnd.activeThreads →
        (demoEnd.freeList w ++
          demoEnd.rob.filter fun c => decide ((demoEnd.ctxts c).owner = w)).Perm
          (slotsOf 1 w)) ∧
      demoEnd.rob.length ≤ demoEnd.activeThreads * 1 :=
  ⟨demo_run, by decide, by decide, by decide, by decide,
    (slots_stay_home natLt demoAllowed 1 [5, 3] demoEnd demo_run).2.1,
    (slots_stay_home natLt demoAllowed 1 [5, 3] demoEnd demo_run).2.2.2.1⟩

end Slots

/-! ## Runs of independent operators: nothing is aborted -/

section QuietProofs

variable {T : Type}

theorem IndepStep.to_step {cmp : T → T → Bool} {locks : T → List Nat}
    (allowed : T → T → Prop) {s s1 : Exec T} (h : IndepStep cmp locks s s1) :
    Step cmp allowed s s1 := by
  cases h with
  | schedule tid htid => exact Step.schedule s tid htid
  | acquire c l fuel _ hrun hl hsub => exact Step.acquire s c l fuel _ hrun hsub
  | signal c l that hrun hl hown hne hcmp hst =>
    exact Step.signal s c l that hrun hown hne hcmp hst
  | finish c hrun => exact Step.finish s c hrun
  | clear tid htid => exact Step.clear s tid htid

theorem IndepRun.to_run {cmp : T → T → Bool} {locks : T → List Nat} {window : Nat}
    {items : List T} {s : Exec T} (allowed : T → T → Prop)
    (h : IndepRun cmp locks window items s) : Run cmp allowed window items s := by
  obtain ⟨s0, h0, hr⟩ := h
  refine ⟨s0, h0, ?_⟩
  induction hr with
  | refl => exact Reachable.init
  | tail _ hstep ih => exact Reachable.step _ _ ih (hstep.to_step allowed)

theorem IndepRun.extend {cmp : T → T → Bool} {locks : T → List Nat} {window : Nat}
    {items : List T} {s s1 : Exec T} (h : IndepRun cmp locks window items s)
    (hr : Relation.ReflTransGen (IndepStep cmp locks) s s1) :
    IndepRun cmp locks window items s1 := by
  obtain ⟨s0, h0, hr0⟩ := h
  exact ⟨s0, h0, hr0.trans hr⟩

theorem QuietAtom.to_atom {cmp : T → T → Bool} {locks : T → List Nat}
    (allowed : T → T → Prop) {s s1 : Exec T} (h : QuietAtom cmp locks s s1) :
    Atom cmp allowed s s1 := by
  cases h with
  | sched tid ctx j x rest htid hj hctx hpop hmin =>
    exact Atom.sched s tid ctx j x rest htid hj hctx hpop
  | newOwner c l hrun hl hnone => exact Atom.newOwner s c l hrun hnone
  | asserted cond => exact Atom.asserted s cond
  | finishReady c hrun hst => exact Atom.finishReady s c hrun hst
  | commit tid head rest htid hpop hst hearly =>
    exact Atom.commit s tid head rest htid hpop hst hearly
  | permRob r hperm => exact Atom.permRob s r hperm
  | cleanupCount => exact Atom.cleanupCount s

/-- A quiet state change keeps the shape of the states of a run of independent
operators. -/
theorem Quiet.atom_quiet {cmp : T → T → Bool} {locks : T → List Nat} {s s1 : Exec T}
    (hwf : WF s) (h : Quiet cmp locks s) (ha : QuietAtom cmp locks s s1) :
    Quiet cmp locks s1 := by
  cases ha with
  | sched tid ctx j x rest htid hj hctx hpop hmin =>
    have hnotrob : ctx ∉ s.rob :=
      hwf.freeNotRob tid ctx (List.mem_of_getLast?_eq_some hctx)
    refine ⟨?_, by simpa using h.abortSelfByConflict, by simpa using h.abortSelfBySignal,
      by simpa using h.abortByOther, ?_, ?_, by simpa using h.published, ?_, ?_⟩
    · intro c hc
      simp only [addNumTotal_rob, setRob_rob, heapPush_eq, List.mem_cons] at hc
      by_cases hcc : c = ctx
      · subst hcc
        left
        simp
      · have hcr : c ∈ s.rob := hc.resolve_left hcc
        simpa [hcc] using h.states c hcr
    · intro d
      by_cases hd : d = ctx
      · subst hd; simp
      · simpa [hd] using h.nAbort d
    · intro d
      by_cases hd : d = ctx
      · subst hd; simp
      · simpa [hd] using h.buffers d
    · intro l c hl
      simp only [addNumTotal_lockOwner, setRob_lockOwner, setOwner_lockOwner,
        setState_lockOwner, construct_lockOwner, setPending_lockOwner,
        setFreeList_lockOwner] at hl
      have hcr := (hwf.owned l c hl).2.1
      have hcc : c ≠ ctx := fun e => hnotrob (e ▸ hcr)
      simpa [hcc] using h.ownLocks l c hl
    · intro c hc i y hy
      simp only [addNumTotal_rob, setRob_rob, heapPush_eq, List.mem_cons] at hc
      simp only [addNumTotal_pending, setRob_pending, setOwner_pending, setState_pending,
        construct_pending, setPending_pending, setFreeList_pending] at hy
      have hy0 : y ∈ s.pending i := by
        by_cases hij : i = j
        · subst hij
          rw [Function.update_same] at hy
          exact heapPop_rest_subset hpop y hy
        · rw [Function.update_noteq hij] at hy
          exact hy
      by_cases hcc : c = ctx
      · subst hcc
        have hi : i < s.activeThreads := by
          by_contra hge
          rw [hwf.pendingValid i (Nat.le_of_not_lt hge)] at hy0
          exact absurd hy0 (by simp)
        simpa using hmin i hi y hy0
      · have hcr : c ∈ s.rob := hc.resolve_left hcc
        simpa [hcc] using h.early c hcr i y hy0
  | newOwner c l hrun hl hnone =>
    refine ⟨?_, h.abortSelfByConflict, h.abortSelfBySignal, h.abortByOther, ?_, ?_,
      h.published, ?_, ?_⟩
    · intro d hd
      simpa using h.states d hd
    · intro d; simpa using h.nAbort d
    · intro d; simpa using h.buffers d
    · intro l1 c1 hl1
      simp only [nhoodPushBack_lockOwner, setLockOwner_lockOwner, Function.update_apply] at hl1
      simp only [nhoodPushBack_ctxts_active, setLockOwner_ctxts]
      split at hl1
      · rename_i e
        subst e
        have : c1 = c := (Option.some.inj hl1).symm
        subst this
        exact hl
      · exact h.ownLocks l1 c1 hl1
    · intro d hd i y hy
      simpa using h.early d hd i y hy
  | asserted cond =>
    exact ⟨h.states, h.abortSelfByConflict, h.abortSelfBySignal, h.abortByOther, h.nAbort,
      h.buffers, h.published, h.ownLocks, h.early⟩
  | finishReady c hrun hst =>
    refine ⟨?_, h.abortSelfByConflict, h.abortSelfBySignal, h.abortByOther, ?_, ?_,
      h.published, ?_, ?_⟩
    · intro d hd
      by_cases hdc : d = c
      · subst hdc
        right
        simp
      · simpa [hdc] using h.states d hd
    · intro d; simpa using h.nAbort d
    · intro d; simpa using h.buffers d
    · intro l1 c1 hl1
      simpa using h.ownLocks l1 c1 hl1
    · intro d hd i y hy
      simpa using h.early d hd i y hy
  | commit tid head rest htid hpop hst hearly =>
    have hperm := heapPop_perm hpop
    have hnd : (head :: rest).Nodup := hperm.nodup_iff.mp hwf.robNodup
    have hhead : head ∉ rest := (List.nodup_cons.mp hnd).1
    have hsub : ∀ c, c ∈ rest → c ∈ s.rob := fun c hc =>
      hperm.symm.subset (List.mem_cons_of_mem _ hc)
    have hbuf : (s.ctxts head).pushBuffer = [] := h.buffers head
    refine ⟨?_, by simpa using h.abortSelfByConflict, by simpa using h.abortSelfBySignal,
      by simpa using h.abortByOther, ?_, ?_, ?_, ?_, ?_⟩
    · intro c hc
      simp only [addNumCommitted_rob, reclaim_rob, assertThat_rob, setRob_rob] at hc
      have hcc : c ≠ head := fun e => hhead (e ▸ hc)
      simpa [hcc] using h.states c (hsub c hc)
    · intro d
      simpa using h.nAbort d
    · intro d
      by_cases hd : d = head
      · subst hd; simp
      · simpa [hd] using h.buffers d
    · simp [hbuf, h.published]
    · intro l c hl
      simp only [addNumCommitted_lockOwner, reclaim_lockOwner, assertThat_lockOwner,
        setRob_lockOwner, doCommit_lockOwner, setState_ctxts_nhood, setState_lockOwner] at hl
      rw [hwf.released head l] at hl
      split at hl
      · exact absurd hl (by simp)
      · simpa using h.ownLocks l c hl
    · intro c hc i y hy
      simp only [addNumCommitted_rob, reclaim_rob, assertThat_rob, setRob_rob] at hc
      simp only [addNumCommitted_pending, reclaim_pending, assertThat_pending,
        setRob_pending, doCommit_pending, setState_ctxts_pushBuffer, setState_pending, hbuf,
        List.foldl_nil, Function.update_eq_self] at hy
      simpa using h.early c (hsub c hc) i y hy
  | permRob r hperm =>
    refine ⟨?_, h.abortSelfByConflict, h.abortSelfBySignal, h.abortByOther, h.nAbort,
      h.buffers, h.published, h.ownLocks, ?_⟩
    · intro c hc
      exact h.states c (hperm.symm.subset hc)
    · intro c hc i y hy
      exact h.early c (hperm.symm.subset hc) i y hy
  | cleanupCount =>
    exact ⟨h.states, h.abortSelfByConflict, h.abortSelfBySignal, h.abortByOther, h.nAbort,
      h.buffers, h.published, h.ownLocks, h.early⟩

theorem Quiet.liveRob_eq {cmp : T → T → Bool} {locks : T → List Nat} {s : Exec T}
    (h : Quiet cmp locks s) : liveRob s = s.rob := by
  unfold liveRob
  apply List.filter_eq_self.mpr
  intro c hc
  rcases h.states c hc with ⟨_, e⟩ | ⟨_, e⟩ <;> simp [e]

/-- Two different contexts of the reorder buffer hold items of the input whose lock
sets are disjoint. -/
theorem Quiet.disjoint {cmp : T → T → Bool} {locks : T → List Nat} {items : List T}
    {s : Exec T} (h : Quiet cmp locks s) (hcons : Conserved items s)
    (hdisj : items.Pairwise fun a b => ∀ l, l ∈ locks a → l ∉ locks b)
    {c d : Nat} (hc : c ∈ s.rob) (hd : d ∈ s.rob) (hne : c ≠ d) :
    ∀ l, l ∈ locks (s.ctxts c).active → l ∉ locks (s.ctxts d).active := by
  have hsymm : ∀ {a b : T}, (∀ l, l ∈ locks a → l ∉ locks b) → ∀ l, l ∈ locks b → l ∉ locks a :=
    fun hab l hb ha => hab l ha hb
  have hle : liveItems s ≤ (items : Multiset T) := by
    have e := hcons.1
    rw [h.published] at e
    have e2 : (items : Multiset T) = liveItems s + ((s.commitLog : Multiset T) + pendingItems s) := by
      have : ((([] : List T) : Multiset T)) = 0 := rfl
      rw [this, add_zero] at e
      rw [e]
      abel
    exact Multiset.le_iff_exists_add.mpr ⟨_, e2⟩
  unfold liveItems at hle
  rw [h.liveRob_eq] at hle
  obtain ⟨l1, hperm, hsubl⟩ := Multiset.coe_le.mp hle
  have hp1 : l1.Pairwise fun a b => ∀ l, l ∈ locks a → l ∉ locks b := hdisj.sublist hsubl
  have hp2 : (s.rob.map fun c => (s.ctxts c).active).Pairwise
      fun a b => ∀ l, l ∈ locks a → l ∉ locks b := hperm.pairwise hp1 hsymm
  rw [List.pairwise_map] at hp2
  exact List.Pairwise.forall (fun _ _ hab => hsymm hab) hp2 hc hd hne

/-- The loop of `drainROB` on a reorder buffer without a context in ABORT_DONE only moves
the contexts to the buffer. -/
theorem drainROB_quiet (cmp : T → T → Bool) :
    ∀ (fuel : Nat) (s : Exec T) (buf : List Nat),
      (∀ c, c ∈ s.rob → (s.ctxts c).state ≠ .ABORT_DONE) →
      ∃ r, (drainROB cmp fuel s buf).1 = setRob r s ∧
        ((drainROB cmp fuel s buf).2 ++ r).Perm (buf ++ s.rob)
  | 0, s, buf, _ => ⟨s.rob, by simp [drainROB, setRob_self], List.Perm.refl _⟩
  | fuel + 1, s, buf, h => by
    unfold drainROB
    cases hpop : heapPop (ctxtCmp cmp s) s.rob with
    | none =>
      exact ⟨s.rob, by simp [setRob_self], List.Perm.refl _⟩
    | some p =>
      obtain ⟨ctx, rest⟩ := p
      have hperm := heapPop_perm hpop
      have hd : (s.ctxts ctx).state ≠ .ABORT_DONE := h ctx (heapPop_mem hpop)
      simp only [hasState_eq, setRob_ctxts, hd, decide_False, Bool.false_eq_true, if_false]
      obtain ⟨r, e1, e2⟩ := drainROB_quiet cmp fuel (setRob rest s) (buf ++ [ctx])
        (fun c hc => h c (hperm.symm.subset (List.mem_cons_of_mem _ (by simpa using hc))))
      refine ⟨r, by rw [e1, setRob_setRob], ?_⟩
      refine e2.trans ?_
      simp only [setRob_rob, List.append_assoc, List.singleton_append]
      exact hperm.symm.append_left _

/-- Every step of a run of independent operators is made of quiet state changes. -/
theorem IndepStep.quiet_atoms {cmp : T → T → Bool} (hc : StrictWeak cmp)
    {locks : T → List Nat} {items : List T}
    (hdisj : items.Pairwise fun a b => ∀ l, l ∈ locks a → l ∉ locks b)
    {s s1 : Exec T} (hwf : WF s) (hq : Quiet cmp locks s) (hcons : Conserved items s)
    (h : IndepStep cmp locks s s1) :
    Relation.ReflTransGen (QuietAtom cmp locks) s s1 := by
  cases h with
  | schedule tid htid =>
    rcases scheduleGlobalMinFirst_cases cmp hc tid s htid with
      h0 | ⟨ctx, j, x, rest, hj, hctx, hpop, hmin, hres⟩
    · rw [h0]
    · rw [hres]
      exact Relation.ReflTransGen.single
        (QuietAtom.sched s tid ctx j x rest htid hj hctx hpop hmin)
  | acquire c l fuel _ hrun hl hsub =>
    cases fuel with
    | zero => simp [subAcquire] at hsub
    | succ fuel =>
      unfold subAcquire at hsub
      cases hown : s.lockOwner l with
      | none =>
        simp only [tryAcquire, hown, Option.some.injEq] at hsub
        subst hsub
        exact Relation.ReflTransGen.single (QuietAtom.newOwner s c l hrun hl hown)
      | some o =>
        by_cases hoc : o = c
        · subst hoc
          simp only [tryAcquire, hown, if_true, Option.some.injEq] at hsub
          subst hsub
          exact Relation.ReflTransGen.single (QuietAtom.asserted s _)
        · have hor := (hwf.owned l o hown).2.1
          have h1 := hq.ownLocks l o hown
          exact absurd h1 (hq.disjoint hcons hdisj hrun.1 hor (Ne.symm hoc) l hl)
  | signal c l that hrun hl hown hne hcmp hst =>
    have hor := (hwf.owned l that hown).2.1
    have h1 := hq.ownLocks l that hown
    exact absurd h1 (hq.disjoint hcons hdisj hrun.1 hor (Ne.symm hne) l hl)
  | finish c hrun =>
    have hst : (s.ctxts c).state = .SCHEDULED := by
      rcases hq.states c hrun.1 with ⟨_, e⟩ | ⟨e, _⟩
      · exact e
      · rw [hrun.2] at e; exact absurd e (by simp)
    have hres : finishIteration c s = setExecuted c true (setState c .READY_TO_COMMIT s) := by
      simp [finishIteration, casState, hst]
    rw [hres]
    exact Relation.ReflTransGen.single (QuietAtom.finishReady s c hrun hst)
  | clear tid htid =>
    have hloop : ∀ (fuel : Nat) (a : Exec T) (d : Bool), WF a → Quiet cmp locks a →
        tid < a.activeThreads →
        Relation.ReflTransGen (QuietAtom cmp locks) a (clearROBLoop cmp tid fuel a d).2 ∧
          WF (clearROBLoop cmp tid fuel a d).2 ∧
          Quiet cmp locks (clearROBLoop cmp tid fuel a d).2 := by
      intro fuel
      induction fuel with
      | zero => exact fun a d ha1 ha2 _ => ⟨Relation.ReflTransGen.refl, ha1, ha2⟩
      | succ fuel ih =>
        intro a d ha1 ha2 ha3
        unfold clearROBLoop
        have hround := clearROBRound_eq cmp tid a
        cases hpop : heapPop (ctxtCmp cmp a) a.rob with
        | none =>
          rw [hpop] at hround
          simp only [hround]
          exact ⟨Relation.ReflTransGen.refl, ha1, ha2⟩
        | some p =>
          obtain ⟨head, rest⟩ := p
          rw [hpop] at hround
          simp only at hround
          have hnd : (a.ctxts head).state ≠ .ABORT_DONE := by
            rcases ha2.states head (heapPop_mem hpop) with ⟨_, e⟩ | ⟨_, e⟩ <;> simp [e]
          rw [if_neg hnd] at hround
          by_cases hgo : (a.ctxts head).state = .READY_TO_COMMIT ∧
              isEarliest cmp (a.ctxts head).active a = true
          · rw [if_pos hgo] at hround
            simp only [hround]
            have hatom : QuietAtom cmp locks a _ :=
              QuietAtom.commit a tid head rest ha3 hpop hgo.1 hgo.2
            have hwf1 := ha1.atom_wf (hatom.to_atom (fun _ _ => True))
            have hq1 := ha2.atom_quiet ha1 hatom
            obtain ⟨i1, i2, i3⟩ := ih _ true hwf1 hq1 (by simpa using ha3)
            exact ⟨Relation.ReflTransGen.head hatom i1, i2, i3⟩
          · rw [if_neg hgo] at hround
            simp only [hround]
            exact ⟨Relation.ReflTransGen.refl, ha1, ha2⟩
    obtain ⟨l1, l2, l3⟩ := hloop s.rob.length s false hwf hq htid
    unfold clearROB
    simp only
    split
    · refine l1.trans ?_
      generalize (clearROBLoop cmp tid s.rob.length s false).2 = a at l2 l3
      unfold reclaimGlobally
      dsimp only
      obtain ⟨r, e1, e2⟩ := drainROB_quiet cmp (addNumGlobalCleanups a).rob.length
        (addNumGlobalCleanups a) []
        (fun c hc => by
          rcases l3.states c (by simpa using hc) with ⟨_, e⟩ | ⟨_, e⟩ <;> simp [e])
      rw [e1]
      simp only [setRob_rob, setRob_setRob]
      refine Relation.ReflTransGen.tail
        (Relation.ReflTransGen.single (QuietAtom.cleanupCount a)) ?_
      refine QuietAtom.permRob (addNumGlobalCleanups a) _ ?_
      refine List.Perm.trans ?_ (pushAll_perm _ _).symm
      simpa using e2.symm
    · exact l1

theorem Initial.quiet_start {cmp : T → T → Bool} {window : Nat} {items : List T} {s0 : Exec T}
    (locks : T → List Nat) (h : Initial cmp window items s0) : Quiet cmp locks s0 := by
  have hp := h.started.pristine
  refine ⟨?_, hp.abortSelfByConflict, hp.abortSelfBySignal, hp.abortByOther,
    fun d => (hp.ctxts d).2.1, fun d => (hp.ctxts d).2.2.1, hp.publishLog, ?_, ?_⟩
  · intro c hc
    rw [hp.rob] at hc
    exact absurd hc (by simp)
  · intro l c hl
    rw [hp.lockOwner l] at hl
    exact absurd hl (by simp)
  · intro c hc
    rw [hp.rob] at hc
    exact absurd hc (by simp)

/-- Every state of a run of independent operators has the quiet shape. -/
theorem IndepRun.quiet {cmp : T → T → Bool} (hc : StrictWeak cmp) {locks : T → List Nat}
    {window : Nat} {items : List T}
    (hdisj : items.Pairwise fun a b => ∀ l, l ∈ locks a → l ∉ locks b)
    {s : Exec T} (h : IndepRun cmp locks window items s) : Quiet cmp locks s := by
  obtain ⟨s0, h0, hr⟩ := h
  induction hr with
  | refl => exact h0.quiet_start locks
  | tail hab hstep ih =>
    rename_i b c
    have hrun : Run cmp (fun _ _ => True) window items b :=
      IndepRun.to_run (fun _ _ => True) ⟨s0, h0, hab⟩
    have hatoms := hstep.quiet_atoms hc hdisj (Run.wf_run hrun) ih (Run.conserved hrun)
    have key : ∀ a1 a2, Relation.ReflTransGen (QuietAtom cmp locks) a1 a2 →
        WF a1 → Quiet cmp locks a1 → WF a2 ∧ Quiet cmp locks a2 := by
      intro a1 a2 hreach
      induction hreach with
      | refl => exact fun w q => ⟨w, q⟩
      | tail _ hat ih2 =>
        intro w q
        obtain ⟨w1, q1⟩ := ih2 w q
        exact ⟨w1.atom_wf (hat.to_atom (fun _ _ => True)), q1.atom_quiet w1 hat⟩
    exact (key b c hatoms (Run.wf_run hrun) ih).2

end QuietProofs

/-! ## Runs of independent operators: every item is committed -/

section Complete

variable {T : Type}

theorem Atom.threads_kept {cmp : T → T → Bool} {allowed : T → T → Prop} {s s1 : Exec T}
    (ha : Atom cmp allowed s s1) :
    s1.activeThreads = s.activeThreads ∧ s1.maxThreads = s.maxThreads := by
  cases ha <;> exact ⟨by simp, by simp⟩

theorem Initial.threads_start {cmp : T → T → Bool} {window : Nat} {items : List T} {s0 : Exec T}
    (h : Initial cmp window items s0) :
    0 < s0.activeThreads ∧ s0.activeThreads ≤ s0.maxThreads := by
  obtain ⟨n, maxT, junk, assign, hn, hmax, hassign, hpush⟩ := h
  unfold push_initialW at hpush
  cases items with
  | nil => simp at hpush
  | cons x rest =>
    simp only at hpush
    have h1 := pushEach_preserves (fun s : Exec T => s.activeThreads = n ∧ s.maxThreads = maxT)
      assign (fun s k y hs => by simpa using hs) rest 0
      (setPending 0 (heapPush x ((Exec.fresh n maxT junk).pending 0)) (Exec.fresh n maxT junk))
      ⟨rfl, rfl⟩
    generalize pushEach assign 0 rest (setPending 0 (heapPush x ((Exec.fresh n maxT junk).pending 0))
      (Exec.fresh n maxT junk)) = s1 at hpush h1
    cases htop : heapTop cmp (s1.pending 0) with
    | none => simp [htop] at hpush
    | some dummy =>
      simp only [assertThat_pending, htop, Option.some.injEq] at hpush
      subst hpush
      have h2 := allocAll_preserves
        (fun s : Exec T => s.activeThreads = n ∧ s.maxThreads = maxT) window dummy
        (fun s tid j hs => by simpa [allocSlot] using hs)
        (assertThat (!emptyAll s1.maxThreads s1.pending) s1) (by simpa using h1)
      rw [h2.1, h2.2]
      exact ⟨hn, hmax⟩

theorem Run.threads {cmp : T → T → Bool} {allowed : T → T → Prop} {window : Nat}
    {items : List T} {s : Exec T} (h : Run cmp allowed window items s) :
    0 < s.activeThreads ∧ s.activeThreads ≤ s.maxThreads :=
  Run.wf_and_of_initial (fun _ h0 => h0.threads_start)
    (fun a b _ hp hatom => by rw [hatom.threads_kept.1, hatom.threads_kept.2]; exact hp) h

/-- With a free context and a pending item, `scheduleGlobalMinFirst` schedules. -/
theorem scheduleGlobalMinFirst_some (cmp : T → T → Bool) (hc : StrictWeak cmp) (tid : Nat)
    (s : Exec T) (hrows : s.activeThreads ≤ s.maxThreads) (hfree : s.freeList tid ≠ [])
    (hpend : ∃ i, i < s.activeThreads ∧ s.pending i ≠ []) :
    ∃ ctx j x rest, j < s.activeThreads ∧ (s.freeList tid).getLast? = some ctx ∧
      heapPop cmp (s.pending j) = some (x, rest) ∧
      scheduleGlobalMinFirst cmp tid s =
        (some ctx,
          addNumTotal (setRob (heapPush ctx s.rob)
            (setOwner ctx tid (setState ctx .SCHEDULED
              (construct ctx x tid (setPending j rest
                (setFreeList tid (s.freeList tid).dropLast s))))))) := by
  obtain ⟨i0, hi0, hne0⟩ := hpend
  have hscan := scanMin_fold cmp hc s.pending s.activeThreads
  simp only at hscan
  obtain ⟨hs1, hs2⟩ := hscan
  have hfold : (List.range s.activeThreads).foldl (scanStep cmp s.pending) (0, none)
      = scanMin cmp s := rfl
  rw [hfold] at hs1 hs2
  cases hm : (scanMin cmp s).2 with
  | none => exact absurd (hs1 hm i0 hi0) hne0
  | some m =>
    obtain ⟨hj, htop, _⟩ := hs2 m hm
    obtain ⟨rest, hpop⟩ := heapTop_eq_some.mp htop
    obtain ⟨ctx, hctx⟩ : ∃ ctx, (s.freeList tid).getLast? = some ctx := by
      cases hl : (s.freeList tid).getLast? with
      | none => exact absurd (List.getLast?_eq_none_iff.mp hl) hfree
      | some c => exact ⟨c, rfl⟩
    have hnotall : emptyAll s.maxThreads s.pending = false := by
      cases he : emptyAll s.maxThreads s.pending with
      | false => rfl
      | true =>
        exact absurd (emptyAll_eq_true.mp he i0 (Nat.lt_of_lt_of_le hi0 hrows)) hne0
    have hfe : (s.freeList tid).isEmpty = false := by
      cases hl : s.freeList tid with
      | nil => exact absurd hl hfree
      | cons a l => rfl
    refine ⟨ctx, (scanMin cmp s).1, m, rest, hj, hctx, hpop, ?_⟩
    simp [scheduleGlobalMinFirst, hfe, hnotall, hpop, hctx]

theorem heapItems_eq_zero (p : Nat → List T) :
    ∀ k : Nat, heapItems p k = 0 → ∀ i, i < k → p i = []
  | 0, _, i, hi => absurd hi (Nat.not_lt_zero i)
  | k + 1, h, i, hi => by
    simp only [heapItems] at h
    have h1 := (add_eq_zero.mp h).1
    have h2 := (add_eq_zero.mp h).2
    rcases Nat.lt_succ_iff_lt_or_eq.mp hi with hlt | rfl
    · exact heapItems_eq_zero p k h1 i hlt
    · exact (Multiset.coe_eq_zero _).mp h2

/-- The operators of all contexts of `l` can finish. -/
theorem IndepRun.finish_all {cmp : T → T → Bool} (hc : StrictWeak cmp)
    {locks : T → List Nat} {window : Nat} {items : List T}
    (hdisj : items.Pairwise fun a b => ∀ l, l ∈ locks a → l ∉ locks b) :
    ∀ (l : List Nat) (s : Exec T), IndepRun cmp locks window items s →
      (∀ c, c ∈ l → c ∈ s.rob) →
      ∃ s1, Relation.ReflTransGen (IndepStep cmp locks) s s1 ∧ s1.rob = s.rob ∧
        s1.pending = s.pending ∧ s1.activeThreads = s.activeThreads ∧
        (∀ c, (s.ctxts c).executed = true → (s1.ctxts c).executed = true) ∧
        ∀ c, c ∈ l → (s1.ctxts c).executed = true
  | [], s, _, _ =>
    ⟨s, Relation.ReflTransGen.refl, rfl, rfl, rfl, fun _ h => h,
      fun c hc => absurd hc (by simp)⟩
  | c :: l, s, hrun, hsub => by
    have hcr : c ∈ s.rob := hsub c (List.mem_cons_self _ _)
    by_cases hex : (s.ctxts c).executed = true
    · obtain ⟨s1, r1, r2, r3, r4, r5, r6⟩ := IndepRun.finish_all hc hdisj l s hrun
        (fun d hd => hsub d (List.mem_cons_of_mem _ hd))
      refine ⟨s1, r1, r2, r3, r4, r5, ?_⟩
      intro d hd
      rcases List.mem_cons.mp hd with rfl | hd
      · exact r5 _ hex
      · exact r6 d hd
    · have hex0 : (s.ctxts c).executed = false := by
        cases h : (s.ctxts c).executed with
        | false => rfl
        | true => exact absurd h hex
      have hq := hrun.quiet hc hdisj
      have hst : (s.ctxts c).state = .SCHEDULED := by
        rcases hq.states c hcr with ⟨_, e⟩ | ⟨e, _⟩
        · exact e
        · exact absurd e hex
      have hres : finishIteration c s = setExecuted c true (setState c .READY_TO_COMMIT s) := by
        simp [finishIteration, casState, hst]
      have hstep : IndepStep cmp locks s (finishIteration c s) :=
        IndepStep.finish s c ⟨hcr, hex0⟩
      have hrun1 := hrun.extend (Relation.ReflTransGen.single hstep)
      obtain ⟨s1, r1, r2, r3, r4, r5, r6⟩ := IndepRun.finish_all hc hdisj l
        (finishIteration c s) hrun1
        (fun d hd => by rw [hres]; simpa using hsub d (List.mem_cons_of_mem _ hd))
      refine ⟨s1, Relation.ReflTransGen.head hstep r1, ?_, ?_, ?_, ?_, ?_⟩
      · rw [r2, hres]; simp
      · rw [r3, hres]; simp
      · rw [r4, hres]; simp
      · intro d hd
        apply r5
        rw [hres]
        by_cases hdc : d = c
        · subst hdc; simp
        · simpa [hdc] using hd
      · intro d hd
        rcases List.mem_cons.mp hd with rfl | hd
        · apply r5
          rw [hres]
          simp
        · exact r6 d hd

/-- When every context of the reorder buffer has executed, the loop of `clearROB`
commits them all. -/
theorem clearROBLoop_all (cmp : T → T → Bool) (locks : T → List Nat) (tid : Nat) :
    ∀ (fuel : Nat) (a : Exec T) (d : Bool), WF a → Quiet cmp locks a →
      tid < a.activeThreads → (∀ c, c ∈ a.rob → (a.ctxts c).executed = true) →
      a.rob.length ≤ fuel →
      (clearROBLoop cmp tid fuel a d).2.rob = [] ∧
        (clearROBLoop cmp tid fuel a d).2.pending = a.pending ∧
        (clearROBLoop cmp tid fuel a d).2.activeThreads = a.activeThreads
  | 0, a, d, _, _, _, _, hlen =>
    ⟨List.length_eq_zero.mp (Nat.le_zero.mp hlen), rfl, rfl⟩
  | fuel + 1, a, d, hwf, hq, htid, hexec, hlen => by
    unfold clearROBLoop
    have hround := clearROBRound_eq cmp tid a
    cases hpop : heapPop (ctxtCmp cmp a) a.rob with
    | none =>
      rw [hpop] at hround
      simpa [hround] using heapPop_eq_none.mp hpop
    | some p =>
      obtain ⟨head, rest⟩ := p
      rw [hpop] at hround
      simp only at hround
      have hmem := heapPop_mem hpop
      have hst : (a.ctxts head).state = .READY_TO_COMMIT := by
        rcases hq.states head hmem with ⟨e, _⟩ | ⟨_, e⟩
        · rw [hexec head hmem] at e; exact absurd e (by simp)
        · exact e
      have hearly : isEarliest cmp (a.ctxts head).active a = true := by
        rw [isEarliest_true_iff]
        intro i _ t ht
        obtain ⟨r, hr⟩ := heapTop_eq_some.mp ht
        exact hq.early head hmem i t (heapPop_mem hr)
      have hnd : (a.ctxts head).state ≠ .ABORT_DONE := by simp [hst]
      rw [if_neg hnd, if_pos ⟨hst, hearly⟩] at hround
      simp only [hround]
      have hatom : QuietAtom cmp locks a _ :=
        QuietAtom.commit a tid head rest htid hpop hst hearly
      have hwf1 := hwf.atom_wf (hatom.to_atom (fun _ _ => True))
      have hq1 := hq.atom_quiet hwf hatom
      have hperm := heapPop_perm hpop
      obtain ⟨i1, i2, i3⟩ := clearROBLoop_all cmp locks tid fuel _ true hwf1 hq1
        (by simpa using htid)
        (fun c hc => by
          have hc1 : c ∈ rest := by simpa using hc
          simpa using hexec c (hperm.symm.subset (List.mem_cons_of_mem _ hc1)))
        (by
          have := heapPop_length hpop
          simp only [addNumCommitted_rob, reclaim_rob, assertThat_rob, setRob_rob]
          omega)
      refine ⟨i1, ?_, ?_⟩
      · rw [i2]
        simp [hq.buffers head]
      · rw [i3]
        simp

/-- From every state of a run of independent operators the run can be brought to its
end: the reorder buffer and the pending heaps are empty. -/
theorem IndepRun.complete {cmp : T → T → Bool} (hc : StrictWeak cmp)
    {locks : T → List Nat} {window : Nat} (hw : 0 < window) {items : List T}
    (hdisj : items.Pairwise fun a b => ∀ l, l ∈ locks a → l ∉ locks b) :
    ∀ (m : Nat) (s : Exec T), IndepRun cmp locks window items s →
      Multiset.card (pendingItems s) = m →
      ∃ s1, Relation.ReflTransGen (IndepStep cmp locks) s s1 ∧ s1.rob = [] ∧
        ∀ i, s1.pending i = [] := by
  intro m
  induction m with
  | zero =>
    intro s hrun hm
    obtain ⟨s1, r1, r2, r3, r4, _, r6⟩ := IndepRun.finish_all hc hdisj s.rob s hrun
      (fun _ h => h)
    have hrun1 := hrun.extend r1
    have hR1 : Run cmp (fun _ _ => True) window items s1 := hrun1.to_run _
    have ht := hR1.threads
    obtain ⟨c1, c2, c3⟩ := clearROBLoop_all cmp locks 0 s1.rob.length s1 false
      (Run.wf_run hR1) (hrun1.quiet hc hdisj) ht.1 (by rw [r2]; exact r6) (Nat.le_refl _)
    have hclear : (clearROB cmp 0 s1).2 = (clearROBLoop cmp 0 s1.rob.length s1 false).2 := by
      unfold clearROB
      simp [c1]
    have hstep : IndepStep cmp locks s1 (clearROB cmp 0 s1).2 := IndepStep.clear s1 0 ht.1
    have hrun2 := hrun1.extend (Relation.ReflTransGen.single hstep)
    refine ⟨(clearROB cmp 0 s1).2, r1.trans (Relation.ReflTransGen.single hstep),
      by rw [hclear]; exact c1, ?_⟩
    have hR2 : Run cmp (fun _ _ => True) window items (clearROB cmp 0 s1).2 := hrun2.to_run _
    have hpz : pendingItems s = 0 := Multiset.card_eq_zero.mp hm
    intro i
    rw [hclear, c2, r3]
    by_cases hi : i < s.activeThreads
    · exact heapItems_eq_zero s.pending s.activeThreads hpz i hi
    · exact (Run.wf_run (hrun.to_run (fun _ _ => True))).pendingValid i (Nat.le_of_not_lt hi)
  | succ m ih =>
    intro s hrun hm
    obtain ⟨s1, r1, r2, r3, r4, _, r6⟩ := IndepRun.finish_all hc hdisj s.rob s hrun
      (fun _ h => h)
    have hrun1 := hrun.extend r1
    have hR1 : Run cmp (fun _ _ => True) window items s1 := hrun1.to_run _
    have ht := hR1.threads
    obtain ⟨c1, c2, c3⟩ := clearROBLoop_all cmp locks 0 s1.rob.length s1 false
      (Run.wf_run hR1) (hrun1.quiet hc hdisj) ht.1 (by rw [r2]; exact r6) (Nat.le_refl _)
    have hclear : (clearROB cmp 0 s1).2 = (clearROBLoop cmp 0 s1.rob.length s1 false).2 := by
      unfold clearROB
      simp [c1]
    have hstep : IndepStep cmp locks s1 (clearROB cmp 0 s1).2 := IndepStep.clear s1 0 ht.1
    have hrun2 := hrun1.extend (Relation.ReflTransGen.single hstep)
    have hR2 : Run cmp (fun _ _ => True) window items (clearROB cmp 0 s1).2 := hrun2.to_run _
    generalize (clearROB cmp 0 s1).2 = s2 at hclear hstep hrun2 hR2
    have hrob2 : s2.rob = [] := by rw [hclear]; exact c1
    have hpend2 : s2.pending = s.pending := by rw [hclear, c2, r3]
    have hact2 : s2.activeThreads = s.activeThreads := by rw [hclear, c3, r4]
    have hitems2 : pendingItems s2 = pendingItems s := pendingItems_same hact2 hpend2
    have ht2 := hR2.threads
    have hpend : ∃ i, i < s2.activeThreads ∧ s2.pending i ≠ [] := by
      by_contra hno
      have hall : ∀ i, i < s2.activeThreads → s2.pending i = [] := by
        intro i hi
        by_contra hne
        exact hno ⟨i, hi, hne⟩
      have := pendingItems_empty hall
      rw [hitems2] at this
      rw [this] at hm
      simp at hm
    have hfree : s2.freeList 0 ≠ [] := by
      have hs := (Run.slotsHome hR2) 0 ht2.1
      rw [hrob2] at hs
      have hl := hs.length_eq
      simp only [List.filter_nil, List.append_nil, slotsOf_length] at hl
      intro e
      rw [e] at hl
      simp at hl
      omega
    obtain ⟨ctx, j, x, rest, hj, hctx, hpop, hres⟩ :=
      scheduleGlobalMinFirst_some cmp hc 0 s2 ht2.2 hfree hpend
    have hstep3 : IndepStep cmp locks s2 (scheduleGlobalMinFirst cmp 0 s2).2 :=
      IndepStep.schedule s2 0 ht2.1
    have hrun3 := hrun2.extend (Relation.ReflTransGen.single hstep3)
    have hpop3 := pendingItems_pop (s := s2) (t := (scheduleGlobalMinFirst cmp 0 s2).2) j x rest
      hj (by rw [hres]; simp) (heapPop_perm hpop) (by rw [hres]; simp)
    have hcard : Multiset.card (pendingItems (scheduleGlobalMinFirst cmp 0 s2).2) = m := by
      have := congrArg Multiset.card hpop3
      rw [hitems2, hm] at this
      simp only [Multiset.card_add, Multiset.card_singleton] at this
      omega
    obtain ⟨s4, q1, q2, q3⟩ := ih _ hrun3 hcard
    exact ⟨s4, (r1.trans (Relation.ReflTransGen.single hstep)).trans
      (Relation.ReflTransGen.head hstep3 q1), q2, q3⟩

end Complete

/-! ## Independent items -/

section IndependentItems

variable {T : Type}

/-- What holds in every state of a run of independent operators. -/
theorem IndepRun.facts {cmp : T → T → Bool} (hc : StrictWeak cmp) {locks : T → List Nat}
    {window : Nat} {items : List T}
    (hdisj : items.Pairwise fun a b => ∀ l, l ∈ locks a → l ∉ locks b)
    {s : Exec T} (h : IndepRun cmp locks window items s) :
    (s.abortSelfByConflict = 0 ∧ s.abortSelfBySignal = 0 ∧ s.abortByOther = 0 ∧
      ∀ d, (s.ctxts d).nAbort = 0) ∧
    s.commitLog.reverse.Pairwise (fun earlier later => cmp later earlier = false) ∧
    (s.commitLog : Multiset T) ≤ (items : Multiset T) ∧
    (s.rob = [] → (∀ i, i < s.activeThreads → s.pending i = []) →
      (s.commitLog : Multiset T) = (items : Multiset T) ∧ s.numTotal = items.length ∧
        s.numCommitted = items.length) := by
  have hq := h.quiet hc hdisj
  have hR : Run cmp (fun a x => cmp x a = false) window items s := h.to_run _
  have hord := (Run.ordered hc hR).log
  have hcons := Run.conserved hR
  have hcount := Run.counted hR
  have hz : ((([] : List T)) : Multiset T) = 0 := rfl
  have e := hcons.1
  rw [hq.published, hz, add_zero] at e
  refine ⟨⟨hq.abortSelfByConflict, hq.abortSelfBySignal, hq.abortByOther, hq.nAbort⟩,
    List.pairwise_reverse.mpr hord, ?_, ?_⟩
  · exact Multiset.le_iff_exists_add.mpr ⟨pendingItems s + liveItems s, by rw [e]; abel⟩
  · intro hrob hpend
    have h1 : liveItems s = 0 := by
      unfold liveItems liveRob
      rw [hrob]; rfl
    have h2 : (liveRob s).length = 0 := by
      unfold liveRob; rw [hrob]; rfl
    rw [pendingItems_empty hpend, h1, add_zero, add_zero] at e
    have hlen : s.commitLog.length = items.length := by
      have := congrArg Multiset.card e
      simpa using this.symm
    unfold Counted at hcount
    rw [hq.abortSelfByConflict, hq.abortSelfBySignal, hq.abortByOther, h2] at hcount
    refine ⟨e.symm, ?_, ?_⟩
    · rw [hcount, hcons.2, hlen]; rfl
    · rw [hcons.2, hlen]

/-- C16: a run on a list of items whose operators ask for pairwise disjoint sets of
Lockables and push nothing (the comparator being a strict weak order, the window not
empty).  In every state of the run no abort has happened: the three abort counters are
0 and `doAbort` has run on no context; the commits made so far are in order (no
committed item strictly precedes an item committed earlier) and are items of the input,
each at most as often as it is in the input.  When the reorder buffer and the pending
heaps are empty, the commits are exactly the items of the input, each once, and
`numTotal = numCommitted = N`.  And the run gets there: from every state of the run the
steps of the executor lead to a state with empty reorder buffer and empty pending heaps,
where all this holds. -/
theorem independent_items_commit (cmp : T → T → Bool) (hc : StrictWeak cmp)
    (locks : T → List Nat) (window : Nat) (hw : 0 < window) (items : List T)
    (hdisj : items.Pairwise fun a b => ∀ l, l ∈ locks a → l ∉ locks b)
    (s : Exec T) (h : IndepRun cmp locks window items s) :
    (s.abortSelfByConflict = 0 ∧ s.abortSelfBySignal = 0 ∧ s.abortByOther = 0 ∧
      ∀ d, (s.ctxts d).nAbort = 0) ∧
    s.commitLog.reverse.Pairwise (fun earlier later => cmp later earlier = false) ∧
    (s.commitLog : Multiset T) ≤ (items : Multiset T) ∧
    (s.rob = [] → (∀ i, i < s.activeThreads → s.pending i = []) →
      (s.commitLog : Multiset T) = (items : Multiset T) ∧ s.numTotal = items.length ∧
        s.numCommitted = items.length) ∧
    ∃ s1, Relation.ReflTransGen (IndepStep cmp locks) s s1 ∧
      s1.rob = [] ∧ (∀ i, s1.pending i = []) ∧
      (s1.commitLog : Multiset T) = (items : Multiset T) ∧
      s1.numTotal = items.length ∧ s1.numCommitted = items.length ∧
      s1.abortSelfByConflict = 0 ∧ s1.abortSelfBySignal = 0 ∧ s1.abortByOther = 0 ∧
      s1.commitLog.reverse.Pairwise (fun earlier later => cmp later earlier = false) := by
  obtain ⟨f1, f2, f3, f4⟩ := h.facts hc hdisj
  refine ⟨f1, f2, f3, f4, ?_⟩
  obtain ⟨s1, r1, r2, r3⟩ := IndepRun.complete hc hw hdisj _ s h rfl
  obtain ⟨g1, g2, _, g4⟩ := (h.extend r1).facts hc hdisj
  obtain ⟨e1, e2, e3⟩ := g4 r2 (fun i _ => r3 i)
  exact ⟨s1, r1, r2, r3, e1, e2, e3, g1.1, g1.2.1, g1.2.2.1, g2⟩

theorem indep_run : IndepRun natLt ownLock 1 [5, 3] indepEnd := by
  have r1 : IndepStep natLt ownLock demoStart demo1 :=
    IndepStep.schedule demoStart 1 (by decide)
  have r2 : IndepStep natLt ownLock demo1 demo2 := IndepStep.schedule demo1 0 (by decide)
  have r3 : IndepStep natLt ownLock demo2 indep3 :=
    IndepStep.acquire demo2 0 5 1 indep3 ⟨by decide, by decide⟩ (by decide) rfl
  have r4 : IndepStep natLt ownLock indep3 indep4 :=
    IndepStep.acquire indep3 1 3 1 indep4 ⟨by decide, by decide⟩ (by decide) rfl
  have r5 : IndepStep natLt ownLock indep4 indep5 :=
    IndepStep.finish indep4 0 ⟨by decide, by decide⟩
  have r6 : IndepStep natLt ownLock indep5 indep6 :=
    IndepStep.finish indep5 1 ⟨by decide, by decide⟩
  have r7 : IndepStep natLt ownLock indep6 indepEnd := IndepStep.clear indep6 0 (by decide)
  exact ⟨demoStart, demoStart_initial,
    ((((((Relation.ReflTransGen.single r1).tail r2).tail r3).tail r4).tail r5).tail r6).tail r7⟩

/-- C16, on the items 5 and 3, each asking for the Lockable of its own number: both are
committed, 3 before 5, and nothing is aborted. -/
theorem independent_items_commit_witness :
    StrictWeak natLt ∧ 0 < 1 ∧
      ([5, 3] : List Nat).Pairwise (fun a b => ∀ l, l ∈ ownLock a → l ∉ ownLock b) ∧
      IndepRun natLt ownLock 1 [5, 3] indepEnd ∧
      indepEnd.commitLog.reverse = [3, 5] ∧ indepEnd.rob = [] ∧
      (indepEnd.numTotal, indepEnd.numCommitted) = (2, 2) ∧
      (indepEnd.abortSelfByConflict = 0 ∧ indepEnd.abortSelfBySignal = 0 ∧
        indepEnd.abortByOther = 0 ∧ ∀ d, (indepEnd.ctxts d).nAbort = 0) ∧
      indepEnd.commitLog.reverse.Pairwise (fun earlier later => natLt later earlier = false) :=
  ⟨strictWeak_natLt, by decide, by decide, indep_run, by decide, by decide, by decide,
    (independent_items_commit natLt strictWeak_natLt ownLock 1 (by decide) [5, 3] (by decide)
      indepEnd indep_run).1,
    (independent_items_commit natLt strictWeak_natLt ownLock 1 (by decide) [5, 3] (by decide)
      indepEnd indep_run).2.1⟩

end IndependentItems

/-! ## Scheduling from empty heaps -/

section EmptyHeap

variable {T : Type}

/-- C21, as the code has it: when `pending [minTID]` is empty at the pop of
`scheduleGlobalMinFirst` (which is the case when the heap of every active thread is
empty), the scheduler returns null and has changed nothing: no heap, no free list, the
reorder buffer, `numTotal` and every context are as before. -/
theorem schedule_empty_min_heap (cmp : T → T → Bool) (tid : Nat) (s : Exec T)
    (hempty : s.pending (scanMin cmp s).1 = [] ∨
      (0 < s.activeThreads ∧ ∀ i, i < s.activeThreads → s.pending i = [])) :
    scheduleGlobalMinFirst cmp tid s = (none, s) ∧
    (scheduleGlobalMinFirst cmp tid s).1 = none ∧
    (scheduleGlobalMinFirst cmp tid s).2.pending = s.pending ∧
    (scheduleGlobalMinFirst cmp tid s).2.freeList = s.freeList ∧
    (scheduleGlobalMinFirst cmp tid s).2.rob = s.rob ∧
    (scheduleGlobalMinFirst cmp tid s).2.numTotal = s.numTotal ∧
    (scheduleGlobalMinFirst cmp tid s).2.ctxts = s.ctxts := by
  have hmin : s.pending (scanMin cmp s).1 = [] := by
    rcases hempty with h | ⟨hpos, hall⟩
    · exact h
    · have hidx := scanIndex_fold cmp s.pending s.activeThreads
      simp only at hidx
      by_cases hnone : (scanMin cmp s).2 = none
      · have hz : (scanMin cmp s).1 = 0 := (hidx.1 hnone).1
        rw [hz]
        exact hall 0 hpos
      · exact hall _ (hidx.2 hnone)
  have hres : scheduleGlobalMinFirst cmp tid s = (none, s) := by
    unfold scheduleGlobalMinFirst
    simp only
    split
    · split
      · rw [hmin]
        simp [heapPop]
      · rfl
    · rfl
  rw [hres]
  exact ⟨rfl, rfl, rfl, rfl, rfl, rfl, rfl⟩

/-- C21, on a state in which the pop is reached with an empty heap: thread 0 has a free
context and `pending.empty_all ()` is false, but the heap of the only active thread is
empty. -/
theorem schedule_empty_min_heap_witness :
    idleRowState.freeList 0 = [0] ∧
      emptyAll idleRowState.maxThreads idleRowState.pending = false ∧
      idleRowState.pending (scanMin natLt idleRowState).1 = [] ∧
      scheduleGlobalMinFirst natLt 0 idleRowState = (none, idleRowState) :=
  ⟨by decide, by decide, by decide,
    (schedule_empty_min_heap natLt 0 idleRowState (Or.inl (by decide))).1⟩

/-- C21 as stated fails: after `push_initial` on the items 5 and 3 the heap of thread 1
is empty, and `scheduleGlobalMinFirst` on thread 1 schedules item 3 from the heap of
thread 0: it returns context 1, `numTotal` is 1 and the reorder buffer holds the
context. -/
theorem schedule_some_heap_empty_counterexample :
    demoStart.pending 1 = [] ∧ demoStart.pending 0 = [3, 5] ∧
      (scheduleGlobalMinFirst natLt 1 demoStart).1 = some 1 ∧
      (scheduleGlobalMinFirst natLt 1 demoStart).2.numTotal = demoStart.numTotal + 1 ∧
      (scheduleGlobalMinFirst natLt 1 demoStart).2.rob = [1] ∧
      (scheduleGlobalMinFirst natLt 1 demoStart).2.pending 0 = [5] ∧
      ¬(∀ (s : Exec Nat) (tid : Nat),
          (∃ i, i < s.activeThreads ∧ s.pending i = []) →
          (scheduleGlobalMinFirst natLt tid s).1 = none) := by
  refine ⟨by decide, by decide, by decide, by decide, by decide, by decide, ?_⟩
  intro h
  have h1 := h demoStart 1 ⟨1, by decide, by decide⟩
  revert h1
  decide

end EmptyHeap

/-! ## A won contest with nothing to do -/

section NothingToDo

variable {T : Type}

/-- C26: context `B` wins the comparison against `A` and finds `A` in state ABORT_DONE,
or in ABORT_HELP or ABORTING.  Then `resolveConflict` returns false and the executor is
as before: no context has changed, no counter, no heap, no owner word, and the
assertion has not failed.  `subAcquire`, for a Lockable that `A` still owns, stores
`lostConflict = true` and goes round its loop again, to the next `tryAcquire`. -/
theorem resolveConflict_nothing_to_do (cmp : T → T → Bool) (fuel B A : Nat) (s : Exec T)
    (hwin : ctxtCmp cmp s B A = true)
    (hst : (s.ctxts A).state = .ABORT_DONE ∨ (s.ctxts A).state = .ABORT_HELP ∨
      (s.ctxts A).state = .ABORTING) :
    resolveConflict cmp fuel B A s = some (false, s) ∧
    ∀ l, s.lockOwner l = some A → A ≠ B →
      subAcquire cmp (fuel + 1) B l s = subAcquire cmp fuel B l (setLostConflict B true s) := by
  have hassert : assertThat (!hasState A .COMMIT_DONE s && !hasState A .COMMITTING s) s = s := by
    apply Exec.eq_of_fields <;> try rfl
    rcases hst with h | h | h <;> simp [assertThat, hasState_eq, h]
  have hres : resolveConflict cmp fuel B A s = some (false, s) := by
    unfold resolveConflict
    rw [hassert]
    rcases hst with h | h | h <;> simp [hwin, hasState_eq, casState, h]
  refine ⟨hres, ?_⟩
  intro l hown hne
  have htry : tryAcquire B l s = (.FAIL, s) := by
    simp [tryAcquire, hown, hne]
  rw [subAcquire]
  simp only [htry, getOwner, hown, hres]
  simp

/-- C26, on the small run: context 0 (item 5) has been aborted and is ABORT_DONE when
context 1 (item 3) comes to `resolveConflict` against it; and on a variant in which
context 0 is ABORTING and still owns Lockable 7. -/
theorem resolveConflict_nothing_to_do_witness :
    ctxtCmp natLt demo5 1 0 = true ∧ (demo5.ctxts 0).state = .ABORT_DONE ∧
      resolveConflict natLt 0 1 0 demo5 = some (false, demo5) ∧
      ctxtCmp natLt demoAborting 1 0 = true ∧ (demoAborting.ctxts 0).state = .ABORTING ∧
      demoAborting.lockOwner 7 = some 0 ∧
      resolveConflict natLt 0 1 0 demoAborting = some (false, demoAborting) ∧
      subAcquire natLt (2 + 1) 1 7 demoAborting =
        subAcquire natLt 2 1 7 (setLostConflict 1 true demoAborting) :=
  ⟨by decide, by decide,
    (resolveConflict_nothing_to_do natLt 0 1 0 demo5 (by decide) (Or.inl (by decide))).1,
    by decide, by decide, by decide,
    (resolveConflict_nothing_to_do natLt 0 1 0 demoAborting (by decide)
      (Or.inr (Or.inr (by decide)))).1,
    (resolveConflict_nothing_to_do natLt 2 1 0 demoAborting (by decide)
      (Or.inr (Or.inr (by decide)))).2 7 (by decide) (by decide)⟩

end NothingToDo

/-! ## The global cleanup -/

section GlobalCleanup

variable {T : Type}

/-- The first loop of `reclaimGlobally`, given a round for every element of the reorder
buffer: the buffer ends empty, the contexts in ABORT_DONE are appended to the free lists
of their owners, and the others are collected. -/
theorem drainROB_split (cmp : T → T → Bool) :
    ∀ (fuel : Nat) (s : Exec T) (buf : List Nat), s.rob.length ≤ fuel →
      (drainROB cmp fuel s buf).1.rob = [] ∧
      (drainROB cmp fuel s buf).1.ctxts = s.ctxts ∧
      (drainROB cmp fuel s buf).2.Perm (buf ++ liveRob s) ∧
      ∀ w, ∃ l, (drainROB cmp fuel s buf).1.freeList w = s.freeList w ++ l ∧
        l.Perm (s.rob.filter fun c =>
          decide ((s.ctxts c).state = .ABORT_DONE ∧ (s.ctxts c).owner = w))
  | 0, s, buf, hlen => by
    have hrob : s.rob = [] := List.length_eq_zero.mp (Nat.le_zero.mp hlen)
    simp only [drainROB]
    refine ⟨hrob, trivial, ?_, fun w => ⟨[], by simp, by simp [hrob]⟩⟩
    simp [liveRob, hrob]
  | fuel + 1, s, buf, hlen => by
    unfold drainROB
    cases hpop : heapPop (ctxtCmp cmp s) s.rob with
    | none =>
      have hrob : s.rob = [] := heapPop_eq_none.mp hpop
      simp only
      refine ⟨hrob, trivial, ?_, fun w => ⟨[], by simp, by simp [hrob]⟩⟩
      simp [liveRob, hrob]
    | some p =>
      obtain ⟨ctx, rest⟩ := p
      have hperm : s.rob.Perm (ctx :: rest) := heapPop_perm hpop
      have hl := heapPop_length hpop
      simp only
      by_cases hd : (s.ctxts ctx).state = .ABORT_DONE
      · simp only [hasState_eq, setRob_ctxts, hd, decide_True, if_true]
        obtain ⟨i1, i2, i3, i4⟩ := drainROB_split cmp fuel (reclaim ctx (setRob rest s)) buf
          (by simp only [reclaim_rob, setRob_rob]; omega)
        refine ⟨i1, by rw [i2]; simp, ?_, ?_⟩
        · refine i3.trans (List.Perm.append_left buf ?_)
          have h1 : liveRob (reclaim ctx (setRob rest s)) =
              (ctx :: rest).filter fun c => decide ((s.ctxts c).state ≠ .ABORT_DONE) := by
            simp [liveRob, hd]
          rw [h1]
          exact (List.Perm.filter _ hperm).symm
        · intro w
          obtain ⟨l, e1, e2⟩ := i4 w
          simp only [reclaim_freeList, setRob_freeList, setRob_ctxts, reclaim_rob, setRob_rob,
            reclaim_ctxts] at e1 e2
          by_cases hw : (s.ctxts ctx).owner = w
          · refine ⟨ctx :: l, ?_, ?_⟩
            · rw [e1, ← hw]
              simp
            · have h2 : ((ctx :: rest).filter fun c =>
                  decide ((s.ctxts c).state = .ABORT_DONE ∧ (s.ctxts c).owner = w)) =
                  ctx :: rest.filter fun c =>
                    decide ((s.ctxts c).state = .ABORT_DONE ∧ (s.ctxts c).owner = w) := by
                simp [hd, hw]
              exact ((List.Perm.cons ctx e2).trans (by rw [h2])).trans
                (List.Perm.filter _ hperm).symm
          · refine ⟨l, ?_, ?_⟩
            · rw [e1, Function.update_noteq (Ne.symm hw)]
            · have h2 : ((ctx :: rest).filter fun c =>
                  decide ((s.ctxts c).state = .ABORT_DONE ∧ (s.ctxts c).owner = w)) =
                  rest.filter fun c =>
                    decide ((s.ctxts c).state = .ABORT_DONE ∧ (s.ctxts c).owner = w) := by
                simp [hw]
              exact (e2.trans (by rw [h2])).trans (List.Perm.filter _ hperm).symm
      · simp only [hasState_eq, setRob_ctxts, hd, decide_False, Bool.false_eq_true, if_false]
        obtain ⟨i1, i2, i3, i4⟩ := drainROB_split cmp fuel (setRob rest s) (buf ++ [ctx])
          (by simp only [setRob_rob]; omega)
        refine ⟨i1, by rw [i2]; simp, ?_, ?_⟩
        · refine i3.trans ?_
          rw [List.append_assoc]
          refine List.Perm.append_left buf ?_
          have h1 : [ctx] ++ liveRob (setRob rest s) =
              (ctx :: rest).filter fun c => decide ((s.ctxts c).state ≠ .ABORT_DONE) := by
            simp [liveRob, hd]
          rw [h1]
          exact (List.Perm.filter _ hperm).symm
        · intro w
          obtain ⟨l, e1, e2⟩ := i4 w
          simp only [setRob_freeList, setRob_ctxts, setRob_rob] at e1 e2
          refine ⟨l, e1, ?_⟩
          have h2 : ((ctx :: rest).filter fun c =>
              decide ((s.ctxts c).state = .ABORT_DONE ∧ (s.ctxts c).owner = w)) =
              rest.filter fun c =>
                decide ((s.ctxts c).state = .ABORT_DONE ∧ (s.ctxts c).owner = w) := by
            simp [hd]
          exact (e2.trans (by rw [h2])).trans (List.Perm.filter _ hperm).symm

/-- The loop of `clearROB` does not touch `numGlobalCleanups`. -/
theorem clearROBLoop_numGlobalCleanups (cmp : T → T → Bool) (tid : Nat) :
    ∀ (fuel : Nat) (a : Exec T) (d : Bool),
      (clearROBLoop cmp tid fuel a d).2.numGlobalCleanups = a.numGlobalCleanups
  | 0, _, _ => rfl
  | fuel + 1, a, d => by
    unfold clearROBLoop
    have hround := clearROBRound_eq cmp tid a
    cases hr : clearROBRound cmp tid a with
    | stop => rfl
    | reclaimed head b =>
      rw [hr] at hround
      rw [clearROBLoop_numGlobalCleanups cmp tid fuel b true]
      cases hpop : heapPop (ctxtCmp cmp a) a.rob with
      | none => simp [hpop] at hround
      | some p =>
        obtain ⟨h0, rest⟩ := p
        simp only [hpop] at hround
        split at hround
        · simp only [Sweep.reclaimed.injEq] at hround
          obtain ⟨_, rfl⟩ := hround
          simp
        · split at hround <;> simp at hround
    | committed head b =>
      rw [hr] at hround
      rw [clearROBLoop_numGlobalCleanups cmp tid fuel b true]
      cases hpop : heapPop (ctxtCmp cmp a) a.rob with
      | none => simp [hpop] at hround
      | some p =>
        obtain ⟨h0, rest⟩ := p
        simp only [hpop] at hround
        split at hround
        · simp at hround
        · split at hround
          · simp only [Sweep.committed.injEq] at hround
            obtain ⟨_, rfl⟩ := hround
            simp
          · simp at hround

/-- C22: `clearROB` calls `reclaimGlobally` exactly when, behind its sweep, the reorder
buffer is not empty and the free list of every row is empty; `numGlobalCleanups` grows
by one in that call and is not touched otherwise.  `reclaimGlobally` appends the
contexts of the reorder buffer that are in ABORT_DONE to the free lists of their owners
(to the list of `w` those of owner `w`, each once), leaves in the reorder buffer exactly
the contexts that are not in ABORT_DONE (each once), and changes no context object, no
heap, no owner word, no other counter and no log.  On the small run, with context 0
aborted and context 1 still running, `clearROB` makes the global cleanup. -/
theorem reclaimGlobally_spec (cmp : T → T → Bool) (tid : Nat) (s : Exec T) :
    ((clearROB cmp tid s).2 =
      if (clearROBLoop cmp tid s.rob.length s false).2.rob ≠ [] ∧
          ∀ w, w < (clearROBLoop cmp tid s.rob.length s false).2.maxThreads →
            (clearROBLoop cmp tid s.rob.length s false).2.freeList w = [] then
        reclaimGlobally cmp (clearROBLoop cmp tid s.rob.length s false).2
      else (clearROBLoop cmp tid s.rob.length s false).2) ∧
    ((clearROB cmp tid s).2.numGlobalCleanups =
      if (clearROBLoop cmp tid s.rob.length s false).2.rob ≠ [] ∧
          ∀ w, w < (clearROBLoop cmp tid s.rob.length s false).2.maxThreads →
            (clearROBLoop cmp tid s.rob.length s false).2.freeList w = [] then
        s.numGlobalCleanups + 1
      else s.numGlobalCleanups) ∧
    (reclaimGlobally cmp s).numGlobalCleanups = s.numGlobalCleanups + 1 ∧
    (∀ w, ∃ l, (reclaimGlobally cmp s).freeList w = s.freeList w ++ l ∧
      l.Perm (s.rob.filter fun c =>
        decide ((s.ctxts c).state = .ABORT_DONE ∧ (s.ctxts c).owner = w))) ∧
    (reclaimGlobally cmp s).rob.Perm
      (s.rob.filter fun c => decide ((s.ctxts c).state ≠ .ABORT_DONE)) ∧
    (reclaimGlobally cmp s).ctxts = s.ctxts ∧
    ((reclaimGlobally cmp s).pending = s.pending ∧
      (reclaimGlobally cmp s).lockOwner = s.lockOwner ∧
      (reclaimGlobally cmp s).numTotal = s.numTotal ∧
      (reclaimGlobally cmp s).numCommitted = s.numCommitted ∧
      (reclaimGlobally cmp s).abortSelfByConflict = s.abortSelfByConflict ∧
      (reclaimGlobally cmp s).abortSelfBySignal = s.abortSelfBySignal ∧
      (reclaimGlobally cmp s).abortByOther = s.abortByOther ∧
      (reclaimGlobally cmp s).commitLog = s.commitLog ∧
      (reclaimGlobally cmp s).publishLog = s.publishLog ∧
      (reclaimGlobally cmp s).stateLog = s.stateLog ∧
      (reclaimGlobally cmp s).assertFailed = s.assertFailed) ∧
    ((liveRob demo5, demo5.freeList 0, demo5.freeList 1, (demo5.ctxts 0).state) =
        ([1], [], [], State.ABORT_DONE) ∧
      ((clearROB natLt 0 demo5).2.rob, (clearROB natLt 0 demo5).2.freeList 0,
        (clearROB natLt 0 demo5).2.freeList 1, (clearROB natLt 0 demo5).2.numGlobalCleanups) =
        ([1], [0], [], 1)) := by
  have hcond : ∀ a : Exec T,
      ((!a.rob.isEmpty && emptyAll a.maxThreads a.freeList) = true) ↔
        (a.rob ≠ [] ∧ ∀ w, w < a.maxThreads → a.freeList w = []) := by
    intro a
    rw [Bool.and_eq_true, emptyAll_eq_true]
    simp [List.isEmpty_iff]
  have hdrain := drainROB_split cmp (addNumGlobalCleanups s).rob.length (addNumGlobalCleanups s)
    [] (Nat.le_refl _)
  have hframe := drainROB_preserves cmp
    (fun a => a.numGlobalCleanups = s.numGlobalCleanups + 1 ∧ a.pending = s.pending ∧
      a.lockOwner = s.lockOwner ∧ a.numTotal = s.numTotal ∧ a.numCommitted = s.numCommitted ∧
      a.abortSelfByConflict = s.abortSelfByConflict ∧
      a.abortSelfBySignal = s.abortSelfBySignal ∧ a.abortByOther = s.abortByOther ∧
      a.commitLog = s.commitLog ∧ a.publishLog = s.publishLog ∧ a.stateLog = s.stateLog ∧
      a.assertFailed = s.assertFailed)
    (fun a r ha => ha) (fun a c ha => ha) (addNumGlobalCleanups s).rob.length
    (addNumGlobalCleanups s) [] ⟨rfl, rfl, rfl, rfl, rfl, rfl, rfl, rfl, rfl, rfl, rfl, rfl⟩
  obtain ⟨d1, d2, d3, d4⟩ := hdrain
  obtain ⟨f0, f1, f2, f3, f4, f5, f6, f7, f8, f9, f10, f11⟩ := hframe
  have hnum : (reclaimGlobally cmp s).numGlobalCleanups = s.numGlobalCleanups + 1 := by
    unfold reclaimGlobally
    simpa using f0
  refine ⟨?_, ?_, hnum, ?_, ?_, ?_, ?_, by decide⟩
  · unfold clearROB
    simp only
    by_cases h : (!(clearROBLoop cmp tid s.rob.length s false).2.rob.isEmpty &&
        emptyAll (clearROBLoop cmp tid s.rob.length s false).2.maxThreads
          (clearROBLoop cmp tid s.rob.length s false).2.freeList) = true
    · rw [if_pos h, if_pos ((hcond _).mp h)]
    · rw [if_neg h, if_neg (fun hc => h ((hcond _).mpr hc))]
  · unfold clearROB
    simp only
    by_cases h : (!(clearROBLoop cmp tid s.rob.length s false).2.rob.isEmpty &&
        emptyAll (clearROBLoop cmp tid s.rob.length s false).2.maxThreads
          (clearROBLoop cmp tid s.rob.length s false).2.freeList) = true
    · rw [if_pos h, if_pos ((hcond _).mp h)]
      have := drainROB_preserves cmp
        (fun a => a.numGlobalCleanups = s.numGlobalCleanups + 1)
        (fun a r ha => ha) (fun a c ha => ha)
        (addNumGlobalCleanups (clearROBLoop cmp tid s.rob.length s false).2).rob.length
        (addNumGlobalCleanups (clearROBLoop cmp tid s.rob.length s false).2) []
        (by simp [clearROBLoop_numGlobalCleanups])
      unfold reclaimGlobally
      simpa using this
    · rw [if_neg h, if_neg (fun hc => h ((hcond _).mpr hc))]
      exact clearROBLoop_numGlobalCleanups cmp tid _ s false
  · intro w
    obtain ⟨l, e1, e2⟩ := d4 w
    refine ⟨l, ?_, by simpa using e2⟩
    unfold reclaimGlobally
    simpa using e1
  · unfold reclaimGlobally
    simp only [setRob_rob]
    rw [d1]
    refine (pushAll_perm _ []).trans ?_
    simpa [liveRob] using d3
  · unfold reclaimGlobally
    simpa using d2
  · unfold reclaimGlobally
    simp only [setRob_pending, setRob_lockOwner, setRob_numTotal, setRob_numCommitted,
      setRob_abortSelfByConflict, setRob_abortSelfBySignal, setRob_abortByOther,
      setRob_commitLog, setRob_publishLog, setRob_stateLog, setRob_assertFailed]
    exact ⟨f1, f2, f3, f4, f5, f6, f7, f8, f9, f10, f11⟩

end GlobalCleanup

/-! ## The ring detector: the token -/

section RingToken

open LocalTerminationDetection

/-- The next thread of the ring is another thread, for a thread that is not the
master. -/
theorem ring_next_ne (id n : Nat) (hid : id ≠ 0) (hlt : id < n) : (id + 1) % n ≠ id := by
  by_cases h : id + 1 < n
  · rw [Nat.mod_eq_of_lt h]
    omega
  · have : id + 1 = n := by omega
    rw [this, Nat.mod_self]
    exact fun h0 => hid h0.symm

/-- C25: in the ring detector a worker `id` that is not the master and holds the token
calls `localTermination (workHappened)`.  Then the next worker `(id + 1) mod
activeThreads` has the token, black exactly when the token `id` held was black or `id`
was stained or `workHappened` is true; its stain and its `lastWasWhite` are as before;
worker `id` holds no token and is white; no other row and not the flag `globalTerm`
have changed.  A token the master hands on (in a call in which it holds the token and
does not declare global termination) is clean.  A worker that holds no token only
stains itself with `workHappened`: its row is otherwise as before, and so is every other
row and the flag `globalTerm`. -/
theorem ring_forward (id : Nat) (workHappened : Bool) (r : LocalTerminationDetection)
    (hid : id ≠ 0) (hlt : id < r.activeThreads) (htok : (r.data id).hasToken = true) :
    ((localTermination id workHappened r).data ((id + 1) % r.activeThreads)).hasToken = true ∧
    ((localTermination id workHappened r).data ((id + 1) % r.activeThreads)).tokenIsBlack =
      ((r.data id).tokenIsBlack || (r.data id).processIsBlack || workHappened) ∧
    ((localTermination id workHappened r).data ((id + 1) % r.activeThreads)).processIsBlack =
      (r.data ((id + 1) % r.activeThreads)).processIsBlack ∧
    ((localTermination id workHappened r).data ((id + 1) % r.activeThreads)).lastWasWhite =
      (r.data ((id + 1) % r.activeThreads)).lastWasWhite ∧
    ((localTermination id workHappened r).data id).hasToken = false ∧
    ((localTermination id workHappened r).data id).processIsBlack = false ∧
    ((localTermination id workHappened r).data id).tokenIsBlack = false ∧
    (∀ j, j ≠ id → j ≠ (id + 1) % r.activeThreads →
      (localTermination id workHappened r).data j = r.data j) ∧
    (localTermination id workHappened r).globalTerm = r.globalTerm ∧
    (localTermination id workHappened r).activeThreads = r.activeThreads ∧
    (∀ (w0 : Bool) (r0 : LocalTerminationDetection), (r0.data 0).hasToken = true →
      ((localTermination 0 w0 r0).calls.head?.map fun e => e.declared) = some false →
      ((localTermination 0 w0 r0).data (1 % r0.activeThreads)).hasToken = true ∧
      ((localTermination 0 w0 r0).data (1 % r0.activeThreads)).tokenIsBlack = false) ∧
    (∀ (id0 : Nat) (w0 : Bool) (r0 : LocalTerminationDetection),
      (r0.data id0).hasToken = false →
      (localTermination id0 w0 r0).data =
        Function.update r0.data id0
          { r0.data id0 with processIsBlack := (r0.data id0).processIsBlack || w0 } ∧
      (localTermination id0 w0 r0).globalTerm = r0.globalTerm ∧
      (localTermination id0 w0 r0).activeThreads = r0.activeThreads) := by
  have hne := ring_next_ne id r.activeThreads hid hlt
  have hm : isSysMaster id = false := by simp [isSysMaster, hid]
  have hres : localTermination id workHappened r =
      record { tid := id, pass := true,
               black := ((r.data id).processIsBlack || workHappened) || (r.data id).tokenIsBlack,
               declared := false }
        (forwardToken id (setHolder id
          { r.data id with processIsBlack := (r.data id).processIsBlack || workHappened }
          (LocalTerminationDetection.assertThat (!(workHappened && r.globalTerm)) r))) := by
    unfold localTermination
    simp [setHolder, LocalTerminationDetection.assertThat, htok, hm]
  refine ⟨?_, ?_, ?_, ?_, ?_, ?_, ?_, ?_, ?_, ?_, ?_, ?_⟩
  · rw [hres]; simp [record, forwardToken, propToken, setHolder, LocalTerminationDetection.assertThat]
  · rw [hres]
    simp [record, forwardToken, propToken, setHolder, LocalTerminationDetection.assertThat, Function.update_noteq hne]
    cases (r.data id).tokenIsBlack <;> cases (r.data id).processIsBlack <;>
      cases workHappened <;> rfl
  · rw [hres]
    simp [record, forwardToken, propToken, setHolder, LocalTerminationDetection.assertThat, Function.update_noteq hne]
  · rw [hres]
    simp [record, forwardToken, propToken, setHolder, LocalTerminationDetection.assertThat, Function.update_noteq hne]
  · rw [hres]
    simp [record, forwardToken, propToken, setHolder, LocalTerminationDetection.assertThat, Function.update_noteq hne.symm]
  · rw [hres]
    simp [record, forwardToken, propToken, setHolder, LocalTerminationDetection.assertThat, Function.update_noteq hne.symm]
  · rw [hres]
    simp [record, forwardToken, propToken, setHolder, LocalTerminationDetection.assertThat, Function.update_noteq hne.symm]
  · intro j h1 h2
    rw [hres]
    simp [record, forwardToken, propToken, setHolder, LocalTerminationDetection.assertThat, Function.update_noteq h1,
      Function.update_noteq h2]
  · rw [hres]; simp [record, forwardToken, propToken, setHolder, LocalTerminationDetection.assertThat]
  · rw [hres]; simp [record, forwardToken, propToken, setHolder, LocalTerminationDetection.assertThat]
  · intro w0 r0 h0 hsame
    cases hth : r0.data 0 with
    | mk tb ht pb lw =>
      rw [hth] at h0
      simp only at h0
      subst h0
      cases tb <;> cases pb <;> cases lw <;> cases w0 <;>
        simp [localTermination, setHolder, LocalTerminationDetection.assertThat, hth,
          isSysMaster, record, forwardToken, propToken, propGlobalTerm] at hsame ⊢
  · intro id0 w0 r0 h0
    unfold localTermination
    simp [setHolder, LocalTerminationDetection.assertThat, h0, record]

/-- C25, on two workers: the master has made its first pass and worker 1 holds a clean
token; worker 1 is stained (it has not held the token before), so what it hands to the
master is black. -/
theorem ring_forward_witness :
    (1 : Nat) ≠ 0 ∧
      1 < (run [(0, false)] (initAll [0, 1] (fresh 2 demoHolder))).activeThreads ∧
      ((run [(0, false)] (initAll [0, 1] (fresh 2 demoHolder))).data 1).hasToken = true ∧
      ((run [(0, false)] (initAll [0, 1] (fresh 2 demoHolder))).data 1).tokenIsBlack = false ∧
      ((localTermination 1 false
        (run [(0, false)] (initAll [0, 1] (fresh 2 demoHolder)))).data
          ((1 + 1) % (run [(0, false)]
            (initAll [0, 1] (fresh 2 demoHolder))).activeThreads)).hasToken = true ∧
      ((localTermination 1 false
        (run [(0, false)] (initAll [0, 1] (fresh 2 demoHolder)))).data 0).tokenIsBlack = true :=
  ⟨by decide, by decide, by decide, by decide,
    (ring_forward 1 false (run [(0, false)] (initAll [0, 1] (fresh 2 demoHolder)))
      (by decide) (by decide) (by decide)).1,
    by decide⟩

end RingToken

/-! ## The ring detector: one token, and the first passes of the master -/

section RingInvariant

open LocalTerminationDetection

/-- A call of a worker without the token. -/
theorem localTermination_idle (id : Nat) (w : Bool) (r : LocalTerminationDetection)
    (h : (r.data id).hasToken = false) :
    (localTermination id w r).activeThreads = r.activeThreads ∧
    (localTermination id w r).globalTerm = r.globalTerm ∧
    (localTermination id w r).assertFailed = (r.assertFailed || (w && r.globalTerm)) ∧
    (∃ b, (localTermination id w r).calls =
      { tid := id, pass := false, black := b, declared := false } :: r.calls) ∧
    (∀ j, ((localTermination id w r).data j).hasToken = (r.data j).hasToken ∧
      ((localTermination id w r).data j).tokenIsBlack = (r.data j).tokenIsBlack ∧
      ((localTermination id w r).data j).lastWasWhite = (r.data j).lastWasWhite ∧
      ((localTermination id w r).data j).processIsBlack =
        ((r.data j).processIsBlack || (decide (j = id) && w))) := by
  unfold localTermination
  simp only [setHolder, LocalTerminationDetection.assertThat, Function.update_same, h,
    Bool.false_eq_true, if_false, record]
  refine ⟨trivial, trivial, by simp, ⟨_, rfl⟩, ?_⟩
  intro j
  by_cases hj : j = id
  · subst hj
    simp [h]
  · simp [Function.update_noteq hj, hj]

/-- A call of a worker that is not the master and holds the token. -/
theorem localTermination_worker (id : Nat) (w : Bool) (r : LocalTerminationDetection)
    (hid : id ≠ 0) (hlt : id < r.activeThreads) (h : (r.data id).hasToken = true) :
    (localTermination id w r).activeThreads = r.activeThreads ∧
    (localTermination id w r).globalTerm = r.globalTerm ∧
    (localTermination id w r).assertFailed =
      (r.assertFailed || (w && r.globalTerm) || r.globalTerm) ∧
    (∃ b, (localTermination id w r).calls =
      { tid := id, pass := true, black := b, declared := false } :: r.calls) ∧
    ((localTermination id w r).data id).hasToken = false ∧
    ((localTermination id w r).data ((id + 1) % r.activeThreads)).hasToken = true ∧
    ((localTermination id w r).data ((id + 1) % r.activeThreads)).tokenIsBlack =
      ((r.data id).processIsBlack || w || (r.data id).tokenIsBlack) ∧
    (∀ j, j ≠ id → ((localTermination id w r).data j).processIsBlack =
      (r.data j).processIsBlack ∧
      ((localTermination id w r).data j).lastWasWhite = (r.data j).lastWasWhite) ∧
    (∀ j, j ≠ id → j ≠ (id + 1) % r.activeThreads →
      (localTermination id w r).data j = r.data j) := by
  have hne : (id + 1) % r.activeThreads ≠ id := by
    by_cases h1 : id + 1 < r.activeThreads
    · rw [Nat.mod_eq_of_lt h1]; omega
    · have : id + 1 = r.activeThreads := by omega
      rw [← this, Nat.mod_self]
      exact fun h0 => hid h0.symm
  have hm : isSysMaster id = false := by simp [isSysMaster, hid]
  unfold localTermination
  simp only [setHolder, LocalTerminationDetection.assertThat, Function.update_same, h, hm,
    if_true, Bool.false_eq_true, if_false, record, forwardToken, propToken]
  refine ⟨trivial, trivial, by simp, ⟨_, rfl⟩, ?_, ?_, ?_, ?_, ?_⟩
  · simp [Function.update_noteq hne.symm]
  · simp
  · simp
  · intro j hj
    by_cases hn : j = (id + 1) % r.activeThreads
    · rw [hn]
      simp [Function.update_noteq hne]
    · simp [Function.update_noteq hn, Function.update_noteq hj]
  · intro j hj hn
    simp [Function.update_noteq hn, Function.update_noteq hj]

/-- A call of the master in which it holds the token and declares. -/
theorem localTermination_declare (w : Bool) (r : LocalTerminationDetection)
    (h : (r.data 0).hasToken = true)
    (hd : ((r.data 0).lastWasWhite &&
      !((r.data 0).tokenIsBlack || ((r.data 0).processIsBlack || w))) = true) :
    (localTermination 0 w r).activeThreads = r.activeThreads ∧
    (localTermination 0 w r).globalTerm = true ∧
    (localTermination 0 w r).assertFailed = (r.assertFailed || (w && r.globalTerm)) ∧
    (localTermination 0 w r).calls =
      { tid := 0, pass := true, black := false, declared := true } :: r.calls ∧
    (localTermination 0 w r).data 0 =
      { tokenIsBlack := false, hasToken := true, processIsBlack := false,
        lastWasWhite := true } ∧
    (∀ j, j ≠ 0 → (localTermination 0 w r).data j = r.data j) := by
  cases hth : r.data 0 with
  | mk tb ht pb lw =>
    rw [hth] at h hd
    simp only at h hd
    subst h
    have hlw : lw = true := by cases lw <;> simp_all
    have htb : tb = false := by cases tb <;> simp_all
    have hpb : pb = false := by cases pb <;> simp_all
    have hw : w = false := by cases w <;> simp_all
    subst hlw htb hpb hw
    unfold localTermination
    simp only [setHolder, LocalTerminationDetection.assertThat, Function.update_same, hth,
      isSysMaster, record, propGlobalTerm]
    refine ⟨by simp, by simp, by simp, by simp, by simp, ?_⟩
    intro j hj
    simp [Function.update_noteq hj]

/-- A call of the master in which it holds the token and does not declare. -/
theorem localTermination_recirc (w : Bool) (r : LocalTerminationDetection)
    (h : (r.data 0).hasToken = true)
    (hd : ((r.data 0).lastWasWhite &&
      !((r.data 0).tokenIsBlack || ((r.data 0).processIsBlack || w))) = false) :
    (localTermination 0 w r).activeThreads = r.activeThreads ∧
    (localTermination 0 w r).globalTerm = r.globalTerm ∧
    (localTermination 0 w r).assertFailed =
      (r.assertFailed || (w && r.globalTerm) || r.globalTerm) ∧
    (localTermination 0 w r).calls =
      { tid := 0, pass := true,
        black := (r.data 0).tokenIsBlack || ((r.data 0).processIsBlack || w),
        declared := false } :: r.calls ∧
    ((localTermination 0 w r).data 0).lastWasWhite =
      !((r.data 0).tokenIsBlack || ((r.data 0).processIsBlack || w)) ∧
    ((localTermination 0 w r).data 0).hasToken = decide (1 % r.activeThreads = 0) ∧
    ((localTermination 0 w r).data (1 % r.activeThreads)).hasToken = true ∧
    ((localTermination 0 w r).data (1 % r.activeThreads)).tokenIsBlack = false ∧
    (∀ j, j ≠ 0 → ((localTermination 0 w r).data j).processIsBlack =
      (r.data j).processIsBlack) ∧
    (∀ j, j ≠ 0 → j ≠ 1 % r.activeThreads → (localTermination 0 w r).data j = r.data j) := by
  cases hth : r.data 0 with
  | mk tb ht pb lw =>
    rw [hth] at h hd
    simp only at h hd
    subst h
    unfold localTermination
    simp only [setHolder, LocalTerminationDetection.assertThat, Function.update_same, hth,
      isSysMaster, record, forwardToken, propToken, hd, decide_True, if_true,
      Bool.false_eq_true, if_false, Nat.zero_add]
    refine ⟨trivial, trivial, by simp, by simp, ?_, ?_, by simp, by simp, ?_, ?_⟩
    · by_cases h1 : 1 % r.activeThreads = 0
      · rw [h1]
        simp
      · simp [Function.update_noteq (Ne.symm h1)]
    · by_cases h1 : 1 % r.activeThreads = 0
      · rw [h1]
        simp
      · simp [Function.update_noteq (Ne.symm h1), h1]
    · intro j hj
      by_cases hn : j = 1 % r.activeThreads
      · rw [hn] at hj ⊢
        simp [Function.update_noteq hj]
      · simp [Function.update_noteq hn, Function.update_noteq hj]
    · intro j hj hn
      simp [Function.update_noteq hn, Function.update_noteq hj]


theorem LateDeclare.cons_quiet_call {n : Nat} {cs : List TermCall} {e : TermCall}
    (h : LateDeclare n cs) (he : e.declared = false) : LateDeclare n (e :: cs) := by
  intro newer e1 older heq hd
  cases newer with
  | nil =>
    simp only [List.nil_append, List.cons.injEq] at heq
    obtain ⟨rfl, _⟩ := heq
    rw [he] at hd
    exact absurd hd (by simp)
  | cons a newer1 =>
    simp only [List.cons_append, List.cons.injEq] at heq
    exact h newer1 e1 older heq.2 hd

theorem LateDeclare.cons_declaring {n : Nat} {cs : List TermCall} {e : TermCall}
    (h : LateDeclare n cs) (h2 : 2 ≤ (masterPasses cs).length)
    (h3 : 2 ≤ n → 3 ≤ (masterPasses cs).length) : LateDeclare n (e :: cs) := by
  intro newer e1 older heq hd
  cases newer with
  | nil =>
    simp only [List.nil_append, List.cons.injEq] at heq
    obtain ⟨_, rfl⟩ := heq
    exact ⟨h2, h3⟩
  | cons a newer1 =>
    simp only [List.cons_append, List.cons.injEq] at heq
    exact h newer1 e1 older heq.2 hd

theorem NoForwardAfter.cons_call {cs : List TermCall} {x : TermCall}
    (h : NoForwardAfter cs)
    (hx : (∃ e, e ∈ cs ∧ e.declared = true) → x.pass = true → x.declared = true) :
    NoForwardAfter (x :: cs) := by
  intro newer e older heq hd y hy hp
  cases newer with
  | nil => exact absurd hy (List.not_mem_nil y)
  | cons a newer1 =>
    simp only [List.cons_append, List.cons.injEq] at heq
    obtain ⟨rfl, hcs⟩ := heq
    rcases List.mem_cons.mp hy with rfl | hy1
    · exact hx ⟨e, by rw [hcs]; simp, hd⟩ hp
    · exact h newer1 e older hcs hd y hy1 hp

theorem masterPasses_skip (e : TermCall) (cs : List TermCall)
    (h : e.tid ≠ 0 ∨ e.pass = false) : masterPasses (e :: cs) = masterPasses cs := by
  rw [masterPasses_cons, if_neg]
  rintro ⟨h1, h2⟩
  rcases h with h | h
  · exact h h1
  · rw [h2] at h
    exact Bool.noConfusion h

/-- A call of `localTermination` by one of the `n` workers keeps the ring as `RingAt`
describes it; the token stays where it is or goes to the next worker. -/
theorem RingAt.call {n : Nat} {r : LocalTerminationDetection} {h : Nat}
    (hinv : RingAt n r h) (id : Nat) (w : Bool) (hid : id < n) :
    ∃ h1, RingAt n (localTermination id w r) h1 := by
  have hn : 0 < n := Nat.lt_of_le_of_lt (Nat.zero_le _) hid
  by_cases hih : id = h
  · subst hih
    by_cases h0 : id = 0
    · subst h0
      cases hd : ((r.data 0).lastWasWhite &&
          !((r.data 0).tokenIsBlack || ((r.data 0).processIsBlack || w))) with
      | true =>
        obtain ⟨c1, c2, c3, c4, c5, c6⟩ := localTermination_declare w r hinv.has hd
        have hlw : (r.data 0).lastWasWhite = true := by
          cases hx : (r.data 0).lastWasWhite <;> simp_all
        have hpb : (r.data 0).processIsBlack = false := by
          cases hx : (r.data 0).processIsBlack <;> simp_all
        have htb : (r.data 0).tokenIsBlack = false := by
          cases hx : (r.data 0).tokenIsBlack <;> simp_all
        have hk0 : (masterPasses r.calls).length ≠ 0 := by
          intro hk
          have := (hinv.first hk).2 0 hn
          rw [hpb] at this
          exact Bool.noConfusion this
        have hk1 : (masterPasses r.calls).length ≠ 1 := by
          intro hk
          have := (hinv.second hk).1
          rw [hlw] at this
          exact Bool.noConfusion this
        have hk2 : 2 ≤ n → (masterPasses r.calls).length ≠ 2 := by
          intro h2 hk
          have := hinv.third hk h2
          rw [hlw] at this
          exact Bool.noConfusion this
        have hmp : masterPasses (localTermination 0 w r).calls =
            { tid := 0, pass := true, black := false, declared := true } ::
              masterPasses r.calls := by
          rw [c4, masterPasses_cons, if_pos ⟨rfl, rfl⟩]
        refine ⟨0, ⟨c1.trans hinv.act, hn, by rw [c5], ?_, ?_, ?_, ?_, fun _ => c2, ?_, ?_, ?_⟩⟩
        · intro j hj hj0
          rw [c6 j hj0]
          exact hinv.only j hj hj0
        · intro hk
          rw [hmp] at hk
          simp at hk
        · intro hk
          rw [hmp] at hk
          simp only [List.length_cons] at hk
          exact absurd (by omega) hk0
        · intro hk
          rw [hmp] at hk
          simp only [List.length_cons] at hk
          exact absurd (by omega) hk1
        · intro _ _
          rw [c5]
          exact ⟨rfl, rfl, rfl, rfl⟩
        · rw [c4]
          exact hinv.late.cons_declaring (by omega)
            (fun h2 => by have := hk2 h2; omega)
        · intro haf
          rw [c4]
          have haf0 : r.assertFailed = false := by
            rw [c3] at haf
            cases hx : r.assertFailed <;> simp_all
          exact (hinv.quiet haf0).cons_call (fun _ _ => rfl)
      | false =>
        obtain ⟨d1, d2, d3, d4, d5, d6, d7, d8, d9, d10⟩ :=
          localTermination_recirc w r hinv.has hd
        rw [hinv.act] at d6 d7 d8 d10
        have hmp : masterPasses (localTermination 0 w r).calls =
            { tid := 0, pass := true,
              black := (r.data 0).tokenIsBlack || ((r.data 0).processIsBlack || w),
              declared := false } :: masterPasses r.calls := by
          rw [d4, masterPasses_cons, if_pos ⟨rfl, rfl⟩]
        have haf0 : (localTermination 0 w r).assertFailed = false →
            r.assertFailed = false ∧ r.globalTerm = false := by
          intro haf
          rw [d3] at haf
          cases hx : r.assertFailed <;> cases hy : r.globalTerm <;> simp_all
        refine ⟨1 % n, ⟨d1.trans hinv.act, Nat.mod_lt _ hn, d7, ?_, ?_, ?_, ?_, ?_, ?_, ?_, ?_⟩⟩
        · intro j hj hjn
          by_cases hj0 : j = 0
          · subst hj0
            rw [d6]
            simpa using Ne.symm hjn
          · rw [d10 j hj0 hjn]
            exact hinv.only j hj hj0
        · intro hk
          rw [hmp] at hk
          simp at hk
        · intro hk
          rw [hmp] at hk
          simp only [List.length_cons] at hk
          have hk0 : (masterPasses r.calls).length = 0 := by omega
          obtain ⟨_, hst⟩ := hinv.first hk0
          refine ⟨by rw [d5, hst 0 hn]; simp, ?_⟩
          intro h2
          have h1n : 1 % n = 1 := Nat.mod_eq_of_lt h2
          refine ⟨fun hz => by rw [h1n] at hz; exact absurd hz (by decide), ?_⟩
          intro _ j hj1 hjn
          rw [h1n] at hj1
          rw [d9 j (by omega)]
          exact hst j hjn
        · intro hk h2
          rw [hmp] at hk
          simp only [List.length_cons] at hk
          have hk1 : (masterPasses r.calls).length = 1 := by omega
          have := ((hinv.second hk1).2 h2).1 rfl
          rw [d5, this]
          simp
        · rintro ⟨e, he, hde⟩
          rw [d2]
          rw [d4] at he
          rcases List.mem_cons.mp he with rfl | he1
          · exact absurd hde (by simp)
          · exact hinv.flag ⟨e, he1, hde⟩
        · intro haf hgt
          rw [d2, (haf0 haf).2] at hgt
          exact Bool.noConfusion hgt
        · rw [d4]
          exact hinv.late.cons_quiet_call rfl
        · intro haf
          rw [d4]
          refine (hinv.quiet (haf0 haf).1).cons_call ?_
          intro hex _
          have := hinv.flag hex
          rw [(haf0 haf).2] at this
          exact Bool.noConfusion this
    · obtain ⟨b1, b2, b3, ⟨bb, b4⟩, b5, b6, b7, b8, b9⟩ :=
        localTermination_worker id w r h0 (by rw [hinv.act]; exact hid) hinv.has
      rw [hinv.act] at b6 b7 b9
      have hne : (id + 1) % n ≠ id := ring_next_ne id n h0 hid
      have hmp : masterPasses (localTermination id w r).calls = masterPasses r.calls := by
        rw [b4]
        exact masterPasses_skip _ _ (Or.inl h0)
      have haf0 : (localTermination id w r).assertFailed = false →
          r.assertFailed = false ∧ r.globalTerm = false := by
        intro haf
        rw [b3] at haf
        cases hx : r.assertFailed <;> cases hy : r.globalTerm <;> simp_all
      refine ⟨(id + 1) % n,
        ⟨b1.trans hinv.act, Nat.mod_lt _ hn, b6, ?_, ?_, ?_, ?_, ?_, ?_, ?_, ?_⟩⟩
      · intro j hj hjn
        by_cases hji : j = id
        · rw [hji]
          exact b5
        · rw [b9 j hji hjn]
          exact hinv.only j hj hji
      · intro hk
        rw [hmp] at hk
        exact absurd (hinv.first hk).1 h0
      · intro hk
        rw [hmp] at hk
        obtain ⟨s1, s2⟩ := hinv.second hk
        refine ⟨by rw [(b8 0 (Ne.symm h0)).2]; exact s1, ?_⟩
        intro h2
        have hst := (s2 h2).2 h0
        refine ⟨?_, ?_⟩
        · intro hz
          rw [← hz, b7, hst id (Nat.le_refl _) hid]
          simp
        · intro hnz j hj hjn
          have hnext : (id + 1) % n = id + 1 := by
            by_cases hlt : id + 1 < n
            · exact Nat.mod_eq_of_lt hlt
            · have : id + 1 = n := by omega
              rw [this, Nat.mod_self] at hnz
              exact absurd rfl hnz
          rw [hnext] at hj
          rw [(b8 j (by omega)).1]
          exact hst j (by omega) hjn
      · intro hk h2
        rw [hmp] at hk
        rw [(b8 0 (Ne.symm h0)).2]
        exact hinv.third hk h2
      · rintro ⟨e, he, hde⟩
        rw [b2]
        rw [b4] at he
        rcases List.mem_cons.mp he with rfl | he1
        · exact absurd hde (by simp)
        · exact hinv.flag ⟨e, he1, hde⟩
      · intro haf hgt
        rw [b2, (haf0 haf).2] at hgt
        exact Bool.noConfusion hgt
      · rw [b4]
        exact hinv.late.cons_quiet_call rfl
      · intro haf
        rw [b4]
        refine (hinv.quiet (haf0 haf).1).cons_call ?_
        intro hex _
        have := hinv.flag hex
        rw [(haf0 haf).2] at this
        exact Bool.noConfusion this
  · have htok : (r.data id).hasToken = false := hinv.only id hid hih
    obtain ⟨a1, a2, a3, ⟨bb, a4⟩, a5⟩ := localTermination_idle id w r htok
    have hmp : masterPasses (localTermination id w r).calls = masterPasses r.calls := by
      rw [a4]
      exact masterPasses_skip _ _ (Or.inr rfl)
    have hstain : ∀ j, (r.data j).processIsBlack = true →
        ((localTermination id w r).data j).processIsBlack = true := by
      intro j hj
      rw [(a5 j).2.2.2, hj]
      simp
    refine ⟨h, ⟨a1.trans hinv.act, hinv.lt, by rw [(a5 h).1]; exact hinv.has, ?_, ?_, ?_, ?_,
      ?_, ?_, ?_, ?_⟩⟩
    · intro j hj hjh
      rw [(a5 j).1]
      exact hinv.only j hj hjh
    · intro hk
      rw [hmp] at hk
      obtain ⟨f1, f2⟩ := hinv.first hk
      exact ⟨f1, fun j hj => hstain j (f2 j hj)⟩
    · intro hk
      rw [hmp] at hk
      obtain ⟨s1, s2⟩ := hinv.second hk
      refine ⟨by rw [(a5 0).2.2.1]; exact s1, ?_⟩
      intro h2
      refine ⟨fun hz => by rw [(a5 0).2.1]; exact (s2 h2).1 hz, ?_⟩
      intro hnz j hj hjn
      exact hstain j ((s2 h2).2 hnz j hj hjn)
    · intro hk h2
      rw [hmp] at hk
      rw [(a5 0).2.2.1]
      exact hinv.third hk h2
    · rintro ⟨e, he, hde⟩
      rw [a2]
      rw [a4] at he
      rcases List.mem_cons.mp he with rfl | he1
      · exact absurd hde (by simp)
      · exact hinv.flag ⟨e, he1, hde⟩
    · intro haf hgt
      rw [a2] at hgt
      rw [a3, hgt] at haf
      have haf0 : r.assertFailed = false := by
        cases hx : r.assertFailed <;> simp_all
      have hw : w = false := by
        cases hx : w <;> simp_all
      obtain ⟨g1, g2, g3, g4⟩ := hinv.done haf0 hgt
      refine ⟨g1, by rw [(a5 0).2.2.1]; exact g2, by rw [(a5 0).2.1]; exact g3, ?_⟩
      rw [(a5 0).2.2.2, g4, hw]
      simp
    · rw [a4]
      exact hinv.late.cons_quiet_call rfl
    · intro haf
      rw [a4]
      have haf0 : r.assertFailed = false := by
        rw [a3] at haf
        cases hx : r.assertFailed <;> simp_all
      exact (hinv.quiet haf0).cons_call (fun _ hp => absurd hp (by simp))

theorem RingAt.run_ring {n : Nat} :
    ∀ (calls : List (Nat × Bool)) (r : LocalTerminationDetection) (h : Nat),
      (∀ c, c ∈ calls → c.1 < n) → RingAt n r h → ∃ h1, RingAt n (run calls r) h1
  | [], r, h, _, hinv => ⟨h, hinv⟩
  | c :: cs, r, h, hv, hinv => by
    obtain ⟨h1, hinv1⟩ := hinv.call c.1 c.2 (hv c (List.mem_cons_self _ _))
    exact RingAt.run_ring cs _ h1 (fun d hd => hv d (List.mem_cons_of_mem _ hd)) hinv1

end RingInvariant
/-! ## The ring detector from its start -/

section RingClaims

open LocalTerminationDetection

theorem initializeThread_row (id : Nat) (r : LocalTerminationDetection) :
    (initializeThread id r).data id = ringRow id ∧
      (initializeThread id r).activeThreads = r.activeThreads ∧
      (initializeThread id r).assertFailed = r.assertFailed := by
  unfold initializeThread ringRow
  by_cases h : isSysMaster id = true
  · simp [h, setHolder]
  · have h1 : isSysMaster id = false := by simpa using h
    simp [h1, setHolder]

theorem initAll_rows :
    ∀ (order : List Nat) (r : LocalTerminationDetection),
      (initAll order r).activeThreads = r.activeThreads ∧
      (initAll order r).assertFailed = r.assertFailed ∧
      (initAll order r).calls = r.calls ∧
      (order ≠ [] → (initAll order r).globalTerm = false) ∧
      ∀ j, (j ∈ order ∨ r.data j = ringRow j) → (initAll order r).data j = ringRow j
  | [], r => ⟨rfl, rfl, rfl, fun h => absurd rfl h, fun j hj => by
      rcases hj with hj | hj
      · exact absurd hj (List.not_mem_nil j)
      · exact hj⟩
  | id :: order, r => by
    obtain ⟨f1, f2, _, f4⟩ := initializeThread_frame id r
    obtain ⟨g1, g2, g3⟩ := initializeThread_row id r
    obtain ⟨i1, i2, i3, i4, i5⟩ := initAll_rows order (initializeThread id r)
    have hfold : initAll (id :: order) r = initAll order (initializeThread id r) := rfl
    rw [hfold]
    refine ⟨i1.trans g2, i2.trans g3, i3.trans f1, ?_, ?_⟩
    · intro _
      by_cases ho : order = []
      · subst ho
        exact f2
      · exact i4 ho
    · intro j hj
      apply i5
      by_cases hji : j = id
      · right
        rw [hji]
        exact g1
      · rcases hj with hj | hj
        · rcases List.mem_cons.mp hj with h1 | h1
          · exact absurd h1 hji
          · exact Or.inl h1
        · right
          rw [f4 j hji]
          exact hj

/-- After every worker has run `initializeThread` the ring is as `RingAt` describes it,
the token being with the master. -/
theorem initAll_ringAt (n : Nat) (junk : TokenHolder) (order : List Nat)
    (horder : order.Perm (List.range n)) (hn : 0 < n) :
    RingAt n (initAll order (fresh n junk)) 0 := by
  obtain ⟨i1, i2, i3, i4, i5⟩ := initAll_rows order (fresh n junk)
  have hrow : ∀ j, j < n → (initAll order (fresh n junk)).data j = ringRow j :=
    fun j hj => i5 j (Or.inl (horder.symm.subset (List.mem_range.mpr hj)))
  have hcalls : (initAll order (fresh n junk)).calls = [] := i3
  have hne : order ≠ [] := by
    intro h
    have := zero_mem_of_perm_range horder hn
    rw [h] at this
    exact absurd this (List.not_mem_nil 0)
  refine ⟨i1, hn, by rw [hrow 0 hn]; rfl, ?_, ?_, ?_, ?_, ?_, ?_, ?_, ?_⟩
  · intro j hj hj0
    rw [hrow j hj]
    simp [ringRow, isSysMaster, hj0]
  · intro _
    exact ⟨rfl, fun j hj => by rw [hrow j hj]; rfl⟩
  · intro hk
    rw [hcalls] at hk
    simp [masterPasses] at hk
  · intro hk
    rw [hcalls] at hk
    simp [masterPasses] at hk
  · rintro ⟨e, he, _⟩
    rw [hcalls] at he
    exact absurd he (List.not_mem_nil e)
  · intro _ hg
    rw [i4 hne] at hg
    exact Bool.noConfusion hg
  · intro newer e older heq
    rw [hcalls] at heq
    exact absurd heq (by simp)
  · intro _ newer e older heq
    rw [hcalls] at heq
    exact absurd heq (by simp)

theorem tokenHolder_eq {a b : TokenHolder} (h1 : a.tokenIsBlack = b.tokenIsBlack)
    (h2 : a.hasToken = b.hasToken) (h3 : a.processIsBlack = b.processIsBlack)
    (h4 : a.lastWasWhite = b.lastWasWhite) : a = b := by
  cases a; cases b
  simp only at h1 h2 h3 h4
  subst h1 h2 h3 h4
  rfl

/-- A call that reports work after global termination has been declared fails the
first assertion of `localTermination`. -/
theorem localTermination_work_after (id : Nat) (r : LocalTerminationDetection)
    (h : r.globalTerm = true) : (localTermination id true r).assertFailed = true := by
  unfold localTermination
  simp only
  split
  · split
    · split <;>
        simp [record, propGlobalTerm, forwardToken, propToken, setHolder,
          LocalTerminationDetection.assertThat, h]
    · simp [record, forwardToken, propToken, setHolder,
        LocalTerminationDetection.assertThat, h]
  · simp [record, setHolder, LocalTerminationDetection.assertThat, h]

/-- C28: in the ring detector with `n` workers, after every worker has run
`initializeThread` (in any order) and after every sequence of calls of
`localTermination` by these workers, exactly one worker has `hasToken` set, before and
after a declaration of global termination, also with a single worker.  As long as no
assertion of the detector has failed (no call has reported work after the declaration):
no call that comes after a declaring call hands the token on (if it held the token, it
declared, too); once `globalTerm` is set the master has the token, and a call of any
worker without work leaves every row as it is.  A call that reports work after the
declaration fails the assertion. -/
theorem ring_one_token (n : Nat) (junk : TokenHolder) (order : List Nat)
    (horder : order.Perm (List.range n)) (hn : 0 < n) (calls : List (Nat × Bool))
    (hvalid : ∀ c, c ∈ calls → c.1 < n) (r : LocalTerminationDetection)
    (hr : r = run calls (initAll order (fresh n junk))) :
    (∃ h, h < n ∧ (r.data h).hasToken = true ∧
      ∀ j, j < n → (r.data j).hasToken = true → j = h) ∧
    (r.assertFailed = false → NoForwardAfter r.calls) ∧
    (r.assertFailed = false → r.globalTerm = true →
      (r.data 0).hasToken = true ∧
      ∀ id, id < n →
        (localTermination id false r).data = r.data ∧
        (localTermination id false r).globalTerm = true ∧
        (localTermination id false r).assertFailed = false) ∧
    (r.globalTerm = true → ∀ id, (localTermination id true r).assertFailed = true) := by
  obtain ⟨h, hinv⟩ := RingAt.run_ring calls _ 0 hvalid (initAll_ringAt n junk order horder hn)
  rw [← hr] at hinv
  refine ⟨⟨h, hinv.lt, hinv.has, ?_⟩, hinv.quiet, ?_, fun hg id =>
    localTermination_work_after id r hg⟩
  · intro j hj htok
    by_contra hjh
    rw [hinv.only j hj hjh] at htok
    exact Bool.noConfusion htok
  · intro haf hg
    obtain ⟨g1, g2, g3, g4⟩ := hinv.done haf hg
    subst g1
    refine ⟨hinv.has, ?_⟩
    intro id hid
    by_cases h0 : id = 0
    · subst h0
      have hd : ((r.data 0).lastWasWhite &&
          !((r.data 0).tokenIsBlack || ((r.data 0).processIsBlack || false))) = true := by
        rw [g2, g3, g4]
        rfl
      obtain ⟨c1, c2, c3, c4, c5, c6⟩ := localTermination_declare false r hinv.has hd
      refine ⟨?_, c2, by rw [c3, haf]; rfl⟩
      funext j
      by_cases hj : j = 0
      · subst hj
        rw [c5]
        exact tokenHolder_eq g3.symm hinv.has.symm g4.symm g2.symm
      · exact c6 j hj
    · have htok : (r.data id).hasToken = false := hinv.only id hid h0
      obtain ⟨a1, a2, a3, _, a5⟩ := localTermination_idle id false r htok
      refine ⟨?_, a2.trans hg, by rw [a3, haf]; rfl⟩
      funext j
      obtain ⟨e1, e2, e3, e4⟩ := a5 j
      exact tokenHolder_eq e2 e1 (by rw [e4]; simp) e3

/-- C28, on a single worker that hands the token to itself: after two calls it has the
token, and after the third call, which declares, it still has it; a fourth call hands
nothing on. -/
theorem ring_one_token_witness :
    ([0] : List Nat).Perm (List.range 1) ∧ 0 < 1 ∧
      ((run [(0, false), (0, false)] (initAll [0] (fresh 1 demoHolder))).data 0).hasToken = true ∧
      (run [(0, false), (0, false), (0, false)]
        (initAll [0] (fresh 1 demoHolder))).globalTerm = true ∧
      (∃ h, h < 1 ∧
        ((run [(0, false), (0, false), (0, false)]
          (initAll [0] (fresh 1 demoHolder))).data h).hasToken = true ∧
        ∀ j, j < 1 →
          ((run [(0, false), (0, false), (0, false)]
            (initAll [0] (fresh 1 demoHolder))).data j).hasToken = true → j = h) ∧
      ((run [(0, false), (0, false), (0, false), (0, false)]
        (initAll [0] (fresh 1 demoHolder))).calls.map fun e => (e.pass, e.declared)) =
        [(true, true), (true, true), (true, false), (true, false)] :=
  ⟨List.Perm.refl _, by decide, by decide, by decide,
    (ring_one_token 1 demoHolder [0] (List.Perm.refl _) (by decide)
      [(0, false), (0, false), (0, false)] (by decide) _ rfl).1,
    by decide⟩

/-- C29: in the ring detector with `n` workers, after every worker has run
`initializeThread` (which leaves every worker stained and `lastWasWhite` true), and for
every sequence of calls of `localTermination` by these workers, with or without work: a
call that declares global termination is a call of the master that holds the token, and
at least two calls in which the master held the token came before it; with two workers
or more at least three.  So nothing is declared in the first or second pass of the
master, nor, with two workers or more, in the third. -/
theorem ring_declares_late (n : Nat) (junk : TokenHolder) (order : List Nat)
    (horder : order.Perm (List.range n)) (hn : 0 < n) (calls : List (Nat × Bool))
    (hvalid : ∀ c, c ∈ calls → c.1 < n) :
    (∀ j, j < n → (initAll order (fresh n junk)).data j =
      { tokenIsBlack := false, hasToken := decide (j = 0), processIsBlack := true,
        lastWasWhite := true }) ∧
    ∀ newer e older,
      (run calls (initAll order (fresh n junk))).calls = newer ++ e :: older →
      e.declared = true →
      e.tid = 0 ∧ e.pass = true ∧ 2 ≤ (masterPasses older).length ∧
        (2 ≤ n → 3 ≤ (masterPasses older).length) := by
  obtain ⟨h, hinv⟩ := RingAt.run_ring calls _ 0 hvalid (initAll_ringAt n junk order horder hn)
  have h0 : (initAll order (fresh n junk)).Consistent :=
    initAll_consistent order (fresh n junk) rfl (fun _ => rfl)
      (Or.inl (zero_mem_of_perm_range horder hn))
  have hc := run_consistent calls _ h0
  refine ⟨?_, ?_⟩
  · intro j hj
    exact (initAll_rows order (fresh n junk)).2.2.2.2 j
      (Or.inl (horder.symm.subset (List.mem_range.mpr hj)))
  · intro newer e older heq hd
    obtain ⟨t1, t2, _, _⟩ := hc.rule newer e older heq hd
    obtain ⟨l1, l2⟩ := hinv.late newer e older heq hd
    exact ⟨t1, t2, l1, l2⟩

/-- C29, on one worker and on two workers, without work: with one worker the third
call of the master declares; with two workers taking turns the master declares in its
fourth pass, the seventh call. -/
theorem ring_declares_late_witness :
    ([0, 1] : List Nat).Perm (List.range 2) ∧ 0 < 2 ∧
      ((run [(0, false), (0, false), (0, false)]
        (initAll [0] (fresh 1 demoHolder))).calls.map fun e => e.declared) =
        [true, false, false] ∧
      ((run [(0, false), (1, false), (0, false), (1, false), (0, false), (1, false), (0, false)]
        (initAll [0, 1] (fresh 2 demoHolder))).calls.map fun e => (e.tid, e.pass, e.declared)) =
        [(0, true, true), (1, true, false), (0, true, false), (1, true, false),
          (0, true, false), (1, true, false), (0, true, false)] ∧
      ∀ newer e older,
        (run [(0, false), (1, false), (0, false), (1, false), (0, false), (1, false), (0, false)]
          (initAll [0, 1] (fresh 2 demoHolder))).calls = newer ++ e :: older →
        e.declared = true →
        e.tid = 0 ∧ e.pass = true ∧ 2 ≤ (masterPasses older).length ∧
          (2 ≤ 2 → 3 ≤ (masterPasses older).length) :=
  ⟨by decide, by decide, by decide, by decide,
    (ring_declares_late 2 demoHolder [0, 1] (by decide) (by decide)
      [(0, false), (1, false), (0, false), (1, false), (0, false), (1, false), (0, false)]
      (by decide)).2⟩

end RingClaims

/-! ## More invariants of a run, and the assertions of the source -/

section SoundRuns

variable {T : Type}

theorem Sound.of_same_sound {s t : Exec T} (h : Sound s) (h1 : t.lockOwner = s.lockOwner)
    (h2 : ∀ c, c ∈ t.rob → c ∈ s.rob)
    (hst : ∀ d, (t.ctxts d).state = (s.ctxts d).state)
    (hex : ∀ d, (t.ctxts d).executed = (s.ctxts d).executed)
    (hn : ∀ d, (t.ctxts d).nhood = (s.ctxts d).nhood) : Sound t := by
  refine ⟨?_, ?_, ?_, ?_⟩
  · intro d; rw [hst]; exact h.settled d
  · intro d hd; rw [hst]; exact h.executedPast d (by rw [← hex]; exact hd)
  · intro d; rw [hn]; exact h.nhoodNodup d
  · intro c hc he l hl
    rw [h1]
    exact h.nhoodOwned c (h2 c hc) (by rw [← hex]; exact he) l (by rw [← hn]; exact hl)

/-- A context is aborted or committed: it ends in a terminal state with its `executed`
flag set, its Lockables are released, and nothing else changes for the others. -/
theorem Sound.of_retired {s t : Exec T} (h : Sound s) (x : Nat) (st : State)
    (hterm : st = .ABORT_DONE ∨ st = .COMMIT_DONE)
    (hl : ∀ l, t.lockOwner l = if s.lockOwner l = some x then none else s.lockOwner l)
    (h2 : ∀ c, c ∈ t.rob → c ∈ s.rob)
    (hstx : (t.ctxts x).state = st) (hexx : (t.ctxts x).executed = true)
    (hst : ∀ d, d ≠ x → (t.ctxts d).state = (s.ctxts d).state)
    (hex : ∀ d, d ≠ x → (t.ctxts d).executed = (s.ctxts d).executed)
    (hn : ∀ d, (t.ctxts d).nhood = (s.ctxts d).nhood) : Sound t := by
  refine ⟨?_, ?_, ?_, ?_⟩
  · intro d
    by_cases hd : d = x
    · rw [hd, hstx]
      rcases hterm with e | e <;> simp [e]
    · rw [hst d hd]; exact h.settled d
  · intro d hde
    by_cases hd : d = x
    · rw [hd, hstx]
      rcases hterm with e | e <;> simp [e]
    · rw [hst d hd]; exact h.executedPast d (by rw [← hex d hd]; exact hde)
  · intro d; rw [hn]; exact h.nhoodNodup d
  · intro c hc he l hlm
    by_cases hd : c = x
    · rw [hd, hexx] at he
      exact Bool.noConfusion he
    · have := h.nhoodOwned c (h2 c hc) (by rw [← hex c hd]; exact he) l (by rw [← hn]; exact hlm)
      rw [hl, this]
      simp [hd]

/-- Every state change keeps `Sound`. -/
theorem Sound.atom_sound {cmp : T → T → Bool} {allowed : T → T → Prop} {s s1 : Exec T}
    (hwf : WF s) (h : Sound s) (ha : Atom cmp allowed s s1) : Sound s1 := by
  cases ha with
  | sched tid ctx j x rest htid hj hctx hpop =>
    refine ⟨?_, ?_, ?_, ?_⟩
    · intro d
      by_cases hd : d = ctx
      · simp [hd]
      · simpa [hd] using h.settled d
    · intro d hde
      by_cases hd : d = ctx
      · simp [hd] at hde
      · simpa [hd] using h.executedPast d (by simpa [hd] using hde)
    · intro d
      by_cases hd : d = ctx
      · simp [hd]
      · simpa [hd] using h.nhoodNodup d
    · intro c hc he l hl
      by_cases hd : c = ctx
      · simp [hd] at hl
      · have hc1 : c ∈ s.rob := by
          simpa [heapPush_eq, hd] using hc
        have := h.nhoodOwned c hc1 (by simpa [hd] using he) l (by simpa [hd] using hl)
        simpa using this
  | newOwner c l hrun hnone =>
    refine ⟨?_, ?_, ?_, ?_⟩
    · intro d; simpa using h.settled d
    · intro d hde; simpa using h.executedPast d (by simpa using hde)
    · intro d
      by_cases hd : d = c
      · have hnot : l ∉ (s.ctxts c).nhood := by
          intro hmem
          have := h.nhoodOwned c hrun.1 hrun.2 l hmem
          rw [hnone] at this
          exact Option.noConfusion this
        simp only [hd, nhoodPushBack_ctxts_nhood, setLockOwner_ctxts, if_true]
        exact List.Nodup.append (h.nhoodNodup c) (List.nodup_singleton l)
          (by simpa using hnot)
      · simpa [hd] using h.nhoodNodup d
    · intro d hdr hde l1 hl1
      simp only [nhoodPushBack_lockOwner, setLockOwner_lockOwner, Function.update_apply]
      by_cases hd : d = c
      · by_cases hll : l1 = l
        · simp [hll, hd]
        · simp only [hll, if_false]
          have hmem : l1 ∈ (s.ctxts c).nhood := by
            simpa [hd, hll] using hl1
          rw [hd]
          exact h.nhoodOwned c hrun.1 hrun.2 l1 hmem
      · have hmem : l1 ∈ (s.ctxts d).nhood := by simpa [hd] using hl1
        have := h.nhoodOwned d (by simpa using hdr) (by simpa using hde) l1 hmem
        have hll : l1 ≠ l := by
          intro e
          rw [e, hnone] at this
          exact Option.noConfusion this
        simpa [hll] using this
  | asserted cond =>
    exact h.of_same_sound rfl (fun _ hc => hc) (fun _ => rfl) (fun _ => rfl) (fun _ => rfl)
  | loseState c hrun =>
    refine ⟨?_, ?_, ?_, ?_⟩
    · intro d
      by_cases hd : d = c
      · simp [hd]
      · simpa [hd] using h.settled d
    · intro d hde
      by_cases hd : d = c
      · have := hrun.2
        rw [hd] at hde
        simp only [setState_ctxts_executed] at hde
        rw [this] at hde
        exact Bool.noConfusion hde
      · simpa [hd] using h.executedPast d (by simpa using hde)
    · intro d; simpa using h.nhoodNodup d
    · intro d hdr hde l1 hl1
      simpa using h.nhoodOwned d (by simpa using hdr) (by simpa using hde) l1
        (by simpa using hl1)
  | lostFlag c =>
    exact h.of_same_sound (by simp) (fun _ hc => by simpa using hc) (fun d => by simp)
      (fun d => by simp) (fun d => by simp)
  | signalled that hst =>
    have hex : (s.ctxts that).executed = false := by
      cases he : (s.ctxts that).executed with
      | false => rfl
      | true => exact absurd hst (h.executedPast that he).1
    refine ⟨?_, ?_, ?_, ?_⟩
    · intro d
      by_cases hd : d = that
      · simp [hd]
      · simpa [hd] using h.settled d
    · intro d hde
      by_cases hd : d = that
      · rw [hd] at hde
        simp only [setState_ctxts_executed] at hde
        rw [hex] at hde
        exact Bool.noConfusion hde
      · simpa [hd] using h.executedPast d (by simpa using hde)
    · intro d; simpa using h.nhoodNodup d
    · intro d hdr hde l1 hl1
      simpa using h.nhoodOwned d (by simpa using hdr) (by simpa using hde) l1
        (by simpa using hl1)
  | helped l that hown hst =>
    obtain ⟨a1, a2, a3, a4⟩ := hwf.owned l that hown
    have hexec : (s.ctxts that).executed = true := by
      rcases hst with e | ⟨_, e⟩
      · exact hwf.executed_of_state a2 (by simp [e]) (by simp [e])
      · exact e
    refine h.of_retired that .ABORT_DONE (Or.inl rfl) ?_ (fun c hc => by simpa using hc)
      (by simp) (by simpa using hexec) (fun d hd => by simp [hd]) (fun d hd => by simp)
      (fun d => by simp)
    intro l1
    simpa using hwf.released that l1
  | opPush c x hrun hal =>
    exact h.of_same_sound (by simp) (fun _ hc => by simpa using hc) (fun d => by simp)
      (fun d => by simp) (fun d => by simp)
  | finishReady c hrun hst =>
    refine ⟨?_, ?_, ?_, ?_⟩
    · intro d
      by_cases hd : d = c
      · simp [hd]
      · simpa [hd] using h.settled d
    · intro d hde
      by_cases hd : d = c
      · simp [hd]
      · simpa [hd] using h.executedPast d (by simpa [hd] using hde)
    · intro d; simpa using h.nhoodNodup d
    · intro d hdr hde l1 hl1
      by_cases hd : d = c
      · simp [hd] at hde
      · simpa using h.nhoodOwned d (by simpa using hdr) (by simpa [hd] using hde) l1
          (by simpa using hl1)
  | finishAbort c hrun hst =>
    refine h.of_retired c .ABORT_DONE (Or.inl rfl) ?_ (fun d hd => by simpa using hd)
      (by simp) (by simp) (fun d hd => by simp [hd]) (fun d hd => by simp [hd])
      (fun d => by simp)
    intro l1
    simpa using hwf.released c l1
  | finishOnly c hrun h1 h2 =>
    refine ⟨?_, ?_, ?_, ?_⟩
    · intro d; simpa using h.settled d
    · intro d hde
      by_cases hd : d = c
      · rw [hd]
        simpa using And.intro h1 h2
      · simpa [hd] using h.executedPast d (by simpa [hd] using hde)
    · intro d; simpa using h.nhoodNodup d
    · intro d hdr hde l1 hl1
      by_cases hd : d = c
      · simp [hd] at hde
      · simpa using h.nhoodOwned d (by simpa using hdr) (by simpa [hd] using hde) l1
          (by simpa using hl1)
  | commit tid head rest htid hpop hst hearly =>
    have hhead : head ∈ s.rob := heapPop_mem hpop
    have hexec : (s.ctxts head).executed = true :=
      hwf.executed_of_state hhead (by simp [hst]) (by simp [hst])
    refine h.of_retired head .COMMIT_DONE (Or.inr rfl) ?_ ?_ (by simp)
      (by simpa using hexec) (fun d hd => by simp [hd]) (fun d hd => by simp)
      (fun d => by simp)
    · intro l1
      simpa using hwf.released head l1
    · intro c hc
      exact heapPop_rest_subset hpop c (by simpa using hc)
  | dropAborted c rest hperm hst =>
    exact h.of_same_sound (by simp)
      (fun d hd => hperm.symm.subset (List.mem_cons_of_mem _ (by simpa using hd)))
      (fun d => by simp) (fun d => by simp) (fun d => by simp)
  | permRob r hperm =>
    exact h.of_same_sound (by simp) (fun d hd => hperm.symm.subset (by simpa using hd))
      (fun d => by simp) (fun d => by simp) (fun d => by simp)
  | cleanupCount =>
    exact h.of_same_sound rfl (fun _ hc => hc) (fun _ => rfl) (fun _ => rfl) (fun _ => rfl)


/-- When the worker threads start, no assertion has failed, no operator has run and no
neighborhood holds a Lockable. -/
theorem Initial.clean {cmp : T → T → Bool} {window : Nat} {items : List T} {s0 : Exec T}
    (h : Initial cmp window items s0) :
    s0.assertFailed = false ∧
      ∀ d, (s0.ctxts d).executed = false ∧ (s0.ctxts d).nhood = [] := by
  obtain ⟨n, maxT, junk, assign, hn, hmax, hassign, hpush⟩ := h
  unfold push_initialW at hpush
  cases items with
  | nil => simp at hpush
  | cons x rest =>
    simp only at hpush
    have h0 : (setPending 0 (heapPush x ((Exec.fresh n maxT junk).pending 0))
        (Exec.fresh n maxT junk)).pending 0 ≠ [] ∧
        (setPending 0 (heapPush x ((Exec.fresh n maxT junk).pending 0))
          (Exec.fresh n maxT junk)).assertFailed = false ∧
        (setPending 0 (heapPush x ((Exec.fresh n maxT junk).pending 0))
          (Exec.fresh n maxT junk)).maxThreads = maxT ∧
        ∀ d, ((setPending 0 (heapPush x ((Exec.fresh n maxT junk).pending 0))
          (Exec.fresh n maxT junk)).ctxts d).executed = false ∧
          ((setPending 0 (heapPush x ((Exec.fresh n maxT junk).pending 0))
            (Exec.fresh n maxT junk)).ctxts d).nhood = [] := by
      refine ⟨by simp [Exec.fresh], rfl, rfl, fun d => ⟨rfl, rfl⟩⟩
    generalize setPending 0 (heapPush x ((Exec.fresh n maxT junk).pending 0))
      (Exec.fresh n maxT junk) = sa at hpush h0
    have h1 := pushEach_preserves
      (fun s : Exec T => s.pending 0 ≠ [] ∧ s.assertFailed = false ∧ s.maxThreads = maxT ∧
        ∀ d, (s.ctxts d).executed = false ∧ (s.ctxts d).nhood = []) assign
      (fun s k y hs => by
        refine ⟨?_, by simpa using hs.2.1, by simpa using hs.2.2.1, fun d => by
          simpa using hs.2.2.2 d⟩
        simp only [pushLocal_pending, Function.update_apply]
        split
        · simp
        · exact hs.1) rest 0 sa h0
    generalize pushEach assign 0 rest sa = s1 at hpush h1
    obtain ⟨p1, p2, p3, p4⟩ := h1
    have hne : emptyAll s1.maxThreads s1.pending = false := by
      cases he : emptyAll s1.maxThreads s1.pending with
      | false => rfl
      | true =>
        have := emptyAll_eq_true.mp he 0 (by rw [p3]; exact Nat.lt_of_lt_of_le hn hmax)
        exact absurd this p1
    cases htop : heapTop cmp (s1.pending 0) with
    | none => simp [htop] at hpush
    | some dummy =>
      simp only [assertThat_pending, htop, Option.some.injEq] at hpush
      subst hpush
      exact allocAll_preserves
        (fun s : Exec T => s.assertFailed = false ∧
          ∀ d, (s.ctxts d).executed = false ∧ (s.ctxts d).nhood = []) window dummy
        (fun s tid j hs => by
          refine ⟨by simpa [allocSlot] using hs.1, fun d => ?_⟩
          by_cases hd : d = tid * window + j
          · simp [allocSlot, hd]
          · simpa [allocSlot, hd] using hs.2 d)
        (assertThat (!emptyAll s1.maxThreads s1.pending) s1)
        ⟨by simp [p2, hne], fun d => by simpa using p4 d⟩

theorem Initial.sound_start {cmp : T → T → Bool} {window : Nat} {items : List T} {s0 : Exec T}
    (h : Initial cmp window items s0) : Sound s0 := by
  have hp := h.started.pristine
  have hc := h.clean.2
  refine ⟨?_, ?_, ?_, ?_⟩
  · intro d
    rcases (hp.ctxts d).2.2.2 with e | e <;> simp [e]
  · intro d hd
    rw [(hc d).1] at hd
    exact Bool.noConfusion hd
  · intro d
    rw [(hc d).2]
    exact List.nodup_nil
  · intro c hcr
    rw [hp.rob] at hcr
    exact absurd hcr (List.not_mem_nil c)

theorem Run.sound {cmp : T → T → Bool} {allowed : T → T → Prop} {window : Nat}
    {items : List T} {s : Exec T} (h : Run cmp allowed window items s) : Sound s :=
  Run.wf_and_of_initial (fun _ h0 => h0.sound_start)
    (fun _ _ hwf hp hatom => hp.atom_sound hwf hatom) h

/-- A sequence of state changes keeps `WF` and `Sound`. -/
theorem Atoms.wf_sound {cmp : T → T → Bool} {allowed : T → T → Prop} {s s1 : Exec T}
    (h : Atoms cmp allowed s s1) (hwf : WF s) (hs : Sound s) : WF s1 ∧ Sound s1 :=
  Atoms.preserves (P := fun a => WF a ∧ Sound a)
    (fun _ _ hp ha => ⟨hp.1.atom_wf ha, hp.2.atom_sound hp.1 ha⟩) h ⟨hwf, hs⟩

/-- The spin loop of `resolveConflict` fails no assertion. -/
theorem spinLoop_assert (that : Nat) :
    ∀ (fuel : Nat) (s s2 : Exec T), spinLoop fuel that s = some s2 →
      s2.assertFailed = s.assertFailed
  | 0, s, s2, h => by simp [spinLoop] at h
  | fuel + 1, s, s2, h => by
    unfold spinLoop at h
    by_cases hdone : (s.ctxts that).state = .ABORT_DONE
    · simp only [hasState_eq, hdone, decide_True, if_true, Option.some.injEq] at h
      rw [← h]
    · simp only [hasState_eq, hdone, decide_False, Bool.false_eq_true, if_false] at h
      by_cases hex : (s.ctxts that).executed = true
      · simp only [hasExecuted, hex, if_true] at h
        by_cases hst : (s.ctxts that).state = .ABORT_SELF
        · simp only [casState, hst, if_true] at h
          have := spinLoop_assert that fuel _ s2 h
          rw [this]
          simp
        · simp only [casState, hst, if_false] at h
          exact spinLoop_assert that fuel s s2 h
      · simp only [hasExecuted, hex, Bool.false_eq_true, if_false] at h
        exact spinLoop_assert that fuel s s2 h

/-- In a state between two steps of a run, `resolveConflict` against the owner of a
Lockable fails no assertion. -/
theorem resolveConflict_assert (cmp : T → T → Bool) (fuel c l that : Nat) (s s2 : Exec T)
    (b : Bool) (hwf : WF s) (hs : Sound s) (hown : s.lockOwner l = some that)
    (h : resolveConflict cmp fuel c that s = some (b, s2)) :
    s2.assertFailed = s.assertFailed := by
  have hcond : (!hasState that .COMMIT_DONE s && !hasState that .COMMITTING s) = true := by
    have h1 := (hwf.owned l that hown).2.2.2
    have h2 := (hs.settled that).1
    simp [hasState_eq, h1, h2]
  have hassert : assertThat (!hasState that .COMMIT_DONE s && !hasState that .COMMITTING s) s
      = s := by
    rw [hcond]
    apply Exec.eq_of_fields <;> simp [assertThat]
  unfold resolveConflict at h
  rw [hassert] at h
  by_cases hcmp : ctxtCmp cmp s c that = true
  · simp only [hcmp, if_true] at h
    by_cases hdone : (s.ctxts that).state = .ABORT_DONE
    · simp only [hasState_eq, hdone, decide_True, if_true, Option.some.injEq,
        Prod.mk.injEq] at h
      rw [← h.2]
    · simp only [hasState_eq, hdone, decide_False, Bool.false_eq_true, if_false] at h
      by_cases hsch : (s.ctxts that).state = .SCHEDULED
      · simp only [casState, hsch, if_true, Option.map_eq_some'] at h
        obtain ⟨s3, hspin, h3⟩ := h
        simp only [Prod.mk.injEq] at h3
        rw [← h3.2, spinLoop_assert that fuel _ s3 hspin]
        simp
      · simp only [casState, hsch, if_false] at h
        by_cases hself : (s.ctxts that).state = .ABORT_SELF
        · simp only [hasState_eq, hself, decide_True, if_true, Option.map_eq_some'] at h
          obtain ⟨s3, hspin, h3⟩ := h
          simp only [Prod.mk.injEq] at h3
          rw [← h3.2, spinLoop_assert that fuel _ s3 hspin]
        · simp only [hasState_eq, hself, decide_False, Bool.false_eq_true, if_false] at h
          by_cases hrtc : (s.ctxts that).state = .READY_TO_COMMIT
          · simp only [hrtc, if_true, Option.some.injEq, Prod.mk.injEq] at h
            rw [← h.2]
            simp
          · simp only [hrtc, if_false, Option.some.injEq, Prod.mk.injEq] at h
            rw [← h.2]
  · simp only [hcmp, Bool.false_eq_true, if_false, Option.some.injEq, Prod.mk.injEq] at h
    rw [← h.2]
    simp

/-- In a state between two steps of a run, a call of `subAcquire` by a running context
fails no assertion, and leaves a state in which the invariants hold. -/
theorem subAcquire_assert (cmp : T → T → Bool) (c l : Nat) :
    ∀ (fuel : Nat) (s s1 : Exec T), WF s → Sound s → Running s c →
      subAcquire cmp fuel c l s = some s1 → s1.assertFailed = s.assertFailed
  | 0, s, s1, _, _, _, h => by simp [subAcquire] at h
  | fuel + 1, s, s1, hwf, hs, hrun, h => by
    unfold subAcquire at h
    cases hown : s.lockOwner l with
    | none =>
      simp only [tryAcquire, hown, Option.some.injEq] at h
      rw [← h]
      simp
    | some o =>
      by_cases hoc : o = c
      · simp only [tryAcquire, hown, hoc, if_true, Option.some.injEq] at h
        rw [← h]
        have := (hwf.owned l c (by rw [hown, hoc])).1
        simp [this]
      · simp only [tryAcquire, hown, hoc, if_false, getOwner] at h
        cases hres : resolveConflict cmp fuel c o s with
        | none => simp [hres] at h
        | some r =>
          obtain ⟨b, s2⟩ := r
          simp only [hres] at h
          have ha := resolveConflict_assert cmp fuel c l o s s2 b hwf hs hown hres
          obtain ⟨h1, h2, h3⟩ :=
            resolveConflict_atoms cmp (fun _ _ => True) fuel c l o s s2 b hrun hown hres
          have h4 : Atoms cmp (fun _ _ => True) s (setLostConflict c true s2) :=
            h1.trans (Atoms.single (Atom.lostFlag s2 c))
          cases b with
          | true =>
            simp only [if_true, Option.some.injEq] at h
            rw [← h]
            simpa using ha
          | false =>
            simp only [Bool.false_eq_true, if_false] at h
            have hrun2 : Running (setLostConflict c true s2) c := by
              refine ⟨?_, ?_⟩
              · simpa [h2] using hrun.1
              · simpa [h3] using hrun.2
            obtain ⟨w1, w2⟩ := h4.wf_sound hwf hs
            rw [subAcquire_assert cmp c l fuel _ s1 w1 w2 hrun2 h]
            simpa using ha

/-- The loop of `clearROB` fails no assertion. -/
theorem clearROBLoop_assert (cmp : T → T → Bool) (tid : Nat) :
    ∀ (fuel : Nat) (a : Exec T) (d : Bool),
      (clearROBLoop cmp tid fuel a d).2.assertFailed = a.assertFailed
  | 0, _, _ => rfl
  | fuel + 1, a, d => by
    unfold clearROBLoop
    have hround := clearROBRound_eq cmp tid a
    cases hr : clearROBRound cmp tid a with
    | stop => rfl
    | reclaimed head b =>
      rw [hr] at hround
      rw [clearROBLoop_assert cmp tid fuel b true]
      cases hpop : heapPop (ctxtCmp cmp a) a.rob with
      | none => simp [hpop] at hround
      | some p =>
        obtain ⟨h0, rest⟩ := p
        simp only [hpop] at hround
        split at hround
        · simp only [Sweep.reclaimed.injEq] at hround
          obtain ⟨_, rfl⟩ := hround
          simp
        · split at hround <;> simp at hround
    | committed head b =>
      rw [hr] at hround
      rw [clearROBLoop_assert cmp tid fuel b true]
      cases hpop : heapPop (ctxtCmp cmp a) a.rob with
      | none => simp [hpop] at hround
      | some p =>
        obtain ⟨h0, rest⟩ := p
        simp only [hpop] at hround
        split at hround
        · simp at hround
        · split at hround
          · simp only [Sweep.committed.injEq] at hround
            obtain ⟨_, rfl⟩ := hround
            simp [hasState_eq]
          · simp at hround

theorem clearROB_assert (cmp : T → T → Bool) (tid : Nat) (s : Exec T) :
    (clearROB cmp tid s).2.assertFailed = s.assertFailed := by
  unfold clearROB
  simp only
  split
  · have := drainROB_preserves cmp
      (fun a : Exec T => a.assertFailed = s.assertFailed)
      (fun a r ha => ha) (fun a c ha => ha)
      (addNumGlobalCleanups (clearROBLoop cmp tid s.rob.length s false).2).rob.length
      (addNumGlobalCleanups (clearROBLoop cmp tid s.rob.length s false).2) []
      (by simp [clearROBLoop_assert])
    unfold reclaimGlobally
    simpa using this
  · exact clearROBLoop_assert cmp tid _ s false

/-- A step of a run fails no assertion of the source. -/
theorem Step.assert_kept {cmp : T → T → Bool} {allowed : T → T → Prop} {s s1 : Exec T}
    (hwf : WF s) (hs : Sound s) (h : Step cmp allowed s s1) :
    s1.assertFailed = s.assertFailed := by
  cases h with
  | schedule tid htid =>
    rcases scheduleGlobalMinFirst_shape cmp tid s with e | ⟨ctx, x, rest, _, _, e⟩
    · rw [e]
    · rw [e]
      simp
  | acquire c l fuel _ hrun hsub =>
    exact subAcquire_assert cmp c l fuel s _ hwf hs hrun hsub
  | signal c l that hrun hown hne hcmp hst =>
    have hcond : (!hasState that .COMMIT_DONE s && !hasState that .COMMITTING s) = true := by
      have h1 := (hwf.owned l that hown).2.2.2
      have h2 := (hs.settled that).1
      simp [hasState_eq, h1, h2]
    show (signalThat that s).assertFailed = s.assertFailed
    unfold signalThat
    rw [hcond]
    by_cases hsch : (s.ctxts that).state = .SCHEDULED
    · simp [casState, assertThat, hsch]
    · simp [casState, assertThat, hsch]
  | opPush c x hrun hal => simp
  | finish c hrun =>
    unfold finishIteration
    by_cases hsch : (s.ctxts c).state = .SCHEDULED
    · simp [casState, hsch]
    · by_cases hself : (s.ctxts c).state = .ABORT_SELF
      · simp [casState, hself, hasState_eq]
      · simp [casState, hsch, hself]
  | clear tid htid => exact clearROB_assert cmp tid s

/-- No assertion of the source fails in a run. -/
theorem Run.noAssert {cmp : T → T → Bool} {allowed : T → T → Prop} {window : Nat}
    {items : List T} {s : Exec T} (h : Run cmp allowed window items s) :
    s.assertFailed = false := by
  obtain ⟨s0, h0, hreach⟩ := h
  induction hreach with
  | init => exact h0.clean.1
  | step a b hr hstep ih =>
    have hrun : Run cmp allowed window items a := ⟨s0, h0, hr⟩
    rw [hstep.assert_kept (Run.wf_run hrun) (Run.sound hrun)]
    exact ih

end SoundRuns
/-! ## The assertions of subAcquire and resolveConflict -/

section AssertClaims

variable {T : Type}

/-- `resolveConflict` returns true only from its losing branch, behind the store of
ABORT_SELF to the caller. -/
theorem resolveConflict_true (cmp : T → T → Bool) (fuel c that : Nat) (s s2 : Exec T)
    (h : resolveConflict cmp fuel c that s = some (true, s2)) :
    s2 = setState c .ABORT_SELF s := by
  unfold resolveConflict at h
  by_cases hcmp : ctxtCmp cmp s c that = true
  · simp only [hcmp, if_true] at h
    split at h
    · simp at h
    · split at h
      · simp at h
      · split at h
        · simp at h
        · split at h <;> simp at h
  · simp only [hcmp, Bool.false_eq_true, if_false, Option.some.injEq, Prod.mk.injEq,
      true_and] at h
    exact h.symm

/-- When `subAcquire` returns, the caller owns the Lockable or is in state
ABORT_SELF. -/
theorem subAcquire_returns (cmp : T → T → Bool) (c l : Nat) :
    ∀ (fuel : Nat) (t t1 : Exec T), subAcquire cmp fuel c l t = some t1 →
      t1.lockOwner l = some c ∨ (t1.ctxts c).state = .ABORT_SELF
  | 0, t, t1, h => by simp [subAcquire] at h
  | fuel + 1, t, t1, h => by
    unfold subAcquire at h
    cases hown : t.lockOwner l with
    | none =>
      simp only [tryAcquire, hown, Option.some.injEq] at h
      rw [← h]
      left
      simp
    | some o =>
      by_cases hoc : o = c
      · simp only [tryAcquire, hown, hoc, if_true, Option.some.injEq] at h
        rw [← h]
        left
        simpa [hoc] using hown
      · simp only [tryAcquire, hown, hoc, if_false, getOwner] at h
        cases hres : resolveConflict cmp fuel c o t with
        | none => simp [hres] at h
        | some r =>
          obtain ⟨b, s2⟩ := r
          simp only [hres] at h
          cases b with
          | true =>
            simp only [if_true, Option.some.injEq] at h
            rw [← h, resolveConflict_true cmp fuel c o t s2 hres]
            right
            simp
          | false =>
            simp only [Bool.false_eq_true, if_false] at h
            exact subAcquire_returns cmp c l fuel _ t1 h

/-- Runs of whole operations (`Run`): in every state of such a run, a Lockable that a context owns is an element of the
neighborhood of that context, no Lockable is twice in a neighborhood, and no assertion
of the source has failed; in particular `tryAcquire` answers ALREADY_OWNER only for a
Lockable of the neighborhood.  A call of `subAcquire` by a running context that returns
leaves a state with the same properties.  And whenever `subAcquire (l)` returns, from
whatever state, the calling context owns `l` or is in state ABORT_SELF. -/
theorem owned_in_nhood (cmp : T → T → Bool) (allowed : T → T → Prop) (window : Nat)
    (items : List T) (s : Exec T) (h : Run cmp allowed window items s) :
    (∀ l c, s.lockOwner l = some c → l ∈ (s.ctxts c).nhood) ∧
    (∀ c, (s.ctxts c).nhood.Nodup) ∧
    s.assertFailed = false ∧
    (∀ c l, (tryAcquire c l s).1 = .ALREADY_OWNER →
      decide (l ∈ (s.ctxts c).nhood) = true) ∧
    (∀ fuel c l s1, Running s c → subAcquire cmp fuel c l s = some s1 →
      s1.assertFailed = false ∧ (∀ d, (s1.ctxts d).nhood.Nodup) ∧
        ∀ l1 d, s1.lockOwner l1 = some d → l1 ∈ (s1.ctxts d).nhood) ∧
    (∀ (t : Exec T) fuel c l t1, subAcquire cmp fuel c l t = some t1 →
      t1.lockOwner l = some c ∨ (t1.ctxts c).state = .ABORT_SELF) := by
  have hwf := Run.wf_run h
  have hs := Run.sound h
  refine ⟨fun l c hl => (hwf.owned l c hl).1, hs.nhoodNodup, Run.noAssert h, ?_, ?_,
    fun t fuel c l t1 ht => subAcquire_returns cmp c l fuel t t1 ht⟩
  · intro c l hacq
    have hown : s.lockOwner l = some c := by
      unfold tryAcquire at hacq
      cases ho : s.lockOwner l with
      | none => simp [ho] at hacq
      | some o =>
        by_cases hoc : o = c
        · rw [hoc]
        · simp [ho, hoc] at hacq
    simpa using (hwf.owned l c hown).1
  · intro fuel c l s1 hrun hsub
    obtain ⟨s0, h0, hreach⟩ := h
    have hrun1 : Run cmp allowed window items s1 :=
      ⟨s0, h0, Reachable.step _ _ hreach (Step.acquire s c l fuel s1 hrun hsub)⟩
    exact ⟨Run.noAssert hrun1, (Run.sound hrun1).nhoodNodup,
      fun l1 d hl => ((Run.wf_run hrun1).owned l1 d hl).1⟩

/-- On the small run context 0 owns Lockable 7, which is in its neighborhood, and
asks for it again; it is answered ALREADY_OWNER and nothing changes. -/
theorem owned_in_nhood_witness :
    Run natLt demoAllowed 1 [5, 3] demoReady ∧
      demoReady.lockOwner 7 = some 0 ∧ (demoReady.ctxts 0).nhood = [7] ∧
      (tryAcquire 0 7 demoReady).1 = .ALREADY_OWNER ∧
      (∀ l c, demoReady.lockOwner l = some c → l ∈ (demoReady.ctxts c).nhood) ∧
      demoReady.assertFailed = false :=
  ⟨demoReady_run, by decide, by decide, by decide,
    (owned_in_nhood natLt demoAllowed 1 [5, 3] demoReady demoReady_run).1,
    (owned_in_nhood natLt demoAllowed 1 [5, 3] demoReady demoReady_run).2.2.1⟩

theorem demo7_run : Run natLt demoAllowed 1 [5, 3] demo7 := by
  have r0 : Reachable natLt demoAllowed demoStart demoStart := Reachable.init
  have r1 : Reachable natLt demoAllowed demoStart demo1 :=
    Reachable.step _ _ r0 (Step.schedule demoStart 1 (by decide))
  have r2 : Reachable natLt demoAllowed demoStart demo2 :=
    Reachable.step _ _ r1 (Step.schedule demo1 0 (by decide))
  have r3 : Reachable natLt demoAllowed demoStart demo3 :=
    Reachable.step _ _ r2 (Step.acquire demo2 0 7 1 demo3 ⟨by decide, by decide⟩ rfl)
  have r4 : Reachable natLt demoAllowed demoStart demo4 :=
    Reachable.step _ _ r3
      (Step.signal demo3 1 7 0 ⟨by decide, by decide⟩ (by decide) (by decide) (by decide)
        (by decide))
  have r5 : Reachable natLt demoAllowed demoStart demo5 :=
    Reachable.step _ _ r4 (Step.finish demo4 0 ⟨by decide, by decide⟩)
  have r6 : Reachable natLt demoAllowed demoStart demo6 :=
    Reachable.step _ _ r5 (Step.acquire demo5 1 7 1 demo6 ⟨by decide, by decide⟩ rfl)
  exact ⟨demoStart, demoStart_initial,
    Reachable.step _ _ r6 (Step.finish demo6 1 ⟨by decide, by decide⟩)⟩

/-- Runs of whole operations (`Run`): in every state of such a run (the comparator being a strict weak order and no
operator pushing an item that precedes its own), the owner of a Lockable is neither
COMMITTING nor COMMIT_DONE, so that the assertion at the head of the winning branch of
`resolveConflict` holds whoever wins against it; `resolveConflict` against the owner of
a Lockable fails no assertion, and no assertion has failed in the run.  The reason in
terms of the order: no context of the reorder buffer strictly precedes a committed
item; and when a round of `clearROB` commits its head, no context of the reorder buffer
strictly precedes the head, so that a context that meets the head while it is
COMMITTING takes the losing branch of `resolveConflict`, in which there is no
assertion. -/
theorem winner_never_meets_commit (cmp : T → T → Bool) (hc : StrictWeak cmp) (window : Nat)
    (items : List T) (s : Exec T)
    (h : Run cmp (fun a x => cmp x a = false) window items s) :
    (∀ l A, s.lockOwner l = some A →
      (s.ctxts A).state ≠ .COMMITTING ∧ (s.ctxts A).state ≠ .COMMIT_DONE ∧
        ∀ B, assertThat (!hasState A .COMMIT_DONE s && !hasState A .COMMITTING s) s = s ∧
          (signalThat A s).assertFailed = false ∧
          ∀ fuel r, resolveConflict cmp fuel B A s = some r → r.2.assertFailed = false) ∧
    s.assertFailed = false ∧
    (∀ x, x ∈ s.commitLog → ∀ B, B ∈ s.rob → cmp (s.ctxts B).active x = false) ∧
    (∀ tid head s1, clearROBRound cmp tid s = .committed head s1 →
      ∀ B, B ∈ s.rob → ctxtCmp cmp s B head = false ∧
        ∀ fuel, resolveConflict cmp fuel B head (setState head .COMMITTING s) =
          some (true, setState B .ABORT_SELF (setState head .COMMITTING s))) := by
  have hwf := Run.wf_run h
  have hs := Run.sound h
  have hna := Run.noAssert h
  refine ⟨?_, hna, (Run.ordered hc h).rob, ?_⟩
  · intro l A hown
    have h1 := (hwf.owned l A hown).2.2.2
    have h2 := (hs.settled A).1
    have hcond : (!hasState A .COMMIT_DONE s && !hasState A .COMMITTING s) = true := by
      simp [hasState_eq, h1, h2]
    have hassert : assertThat (!hasState A .COMMIT_DONE s && !hasState A .COMMITTING s) s
        = s := by
      rw [hcond]
      apply Exec.eq_of_fields <;> simp [assertThat]
    refine ⟨h2, h1, fun B => ⟨hassert, ?_, ?_⟩⟩
    · unfold signalThat
      rw [hassert]
      by_cases hsch : (s.ctxts A).state = .SCHEDULED
      · simpa [casState, hsch] using hna
      · simpa [casState, hsch] using hna
    · intro fuel r hres
      obtain ⟨b, s2⟩ := r
      rw [resolveConflict_assert cmp fuel B l A s s2 b hwf hs hown hres]
      exact hna
  · intro tid head s1 hround B hB
    rw [clearROBRound_eq] at hround
    cases hpop : heapPop (ctxtCmp cmp s) s.rob with
    | none => simp [hpop] at hround
    | some p =>
      obtain ⟨h0, rest⟩ := p
      simp only [hpop] at hround
      split at hround
      · simp at hround
      · split at hround
        · simp only [Sweep.committed.injEq] at hround
          obtain ⟨rfl, _⟩ := hround
          have hleast : cmp (s.ctxts B).active (s.ctxts h0).active = false :=
            heapPop_least hc (fun c => (s.ctxts c).active) hpop B hB
          refine ⟨hleast, fun fuel => ?_⟩
          have : ctxtCmp cmp (setState h0 .COMMITTING s) B h0 = false := by
            simpa [ctxtCmp] using hleast
          simp [resolveConflict, this]
        · simp at hround

/-- On the small run context 1 (item 3) is READY_TO_COMMIT and owns Lockable 7,
and the next round of `clearROB` commits it; context 0 (item 5) does not precede it. -/
theorem winner_never_meets_commit_witness :
    StrictWeak natLt ∧ Run natLt (fun a x => natLt x a = false) 1 [5, 3] demo7 ∧
      demo7.lockOwner 7 = some 1 ∧ (demo7.ctxts 1).state = .READY_TO_COMMIT ∧
      ((demo7.ctxts 1).state ≠ .COMMITTING ∧ (demo7.ctxts 1).state ≠ .COMMIT_DONE ∧
        ∀ B, assertThat (!hasState 1 .COMMIT_DONE demo7 && !hasState 1 .COMMITTING demo7)
            demo7 = demo7 ∧
          (signalThat 1 demo7).assertFailed = false ∧
          ∀ fuel r, resolveConflict natLt fuel B 1 demo7 = some r →
            r.2.assertFailed = false) ∧
      (match clearROBRound natLt 1 demo7 with
        | .committed head _ => some head
        | _ => none) = some 1 ∧
      ctxtCmp natLt demo7 0 1 = false :=
  ⟨strictWeak_natLt, demo7_run, by decide, by decide,
    (winner_never_meets_commit natLt strictWeak_natLt 1 [5, 3] demo7 demo7_run).1 7 1
      (by decide),
    by decide, by decide⟩

end AssertClaims

/-! ## The lock discipline -/

section MutexProofs

variable {T : Type}

theorem Held.run_append (h : Held) (es fs : List MutexEvent) :
    h.run (es ++ fs) = (h.run es).bind fun h1 => h1.run fs := by
  induction es generalizing h with
  | nil => rfl
  | cons e es ih =>
    simp only [List.cons_append, Held.run]
    cases h.step e with
    | none => rfl
    | some h1 => exact ih h1

theorem PendingOnly.nil : PendingOnly [] := fun _ => rfl

theorem PendingOnly.append {es fs : List MutexEvent} (h1 : PendingOnly es)
    (h2 : PendingOnly fs) : PendingOnly (es ++ fs) := by
  intro b
  rw [Held.run_append, h1 b]
  exact h2 b

theorem PendingOnly.pair (i : Nat) : PendingOnly [.lockPending i, .unlockPending i] := by
  intro b
  simp [Held.run, Held.step]

theorem PendingOnly.bind_pairs (l : List Nat) :
    PendingOnly (l.flatMap fun i => [.lockPending i, .unlockPending i]) := by
  induction l with
  | nil => exact PendingOnly.nil
  | cons i l ih =>
    rw [List.flatMap_cons]
    exact (PendingOnly.pair i).append ih

theorem Free.of_nil : Free [] := rfl

theorem Free.of_append {es fs : List MutexEvent} (h1 : Free es) (h2 : Free fs) :
    Free (es ++ fs) := by
  unfold Free
  rw [Held.run_append, h1]
  exact h2

theorem PendingOnly.free {es : List MutexEvent} (h : PendingOnly es) : Free es := h false

theorem Free.under_rob {es : List MutexEvent} (h : PendingOnly es) :
    Free ([.lockRob] ++ es ++ [.unlockRob]) := by
  unfold Free
  rw [List.append_assoc, Held.run_append]
  simp only [Held.run, Held.step, Bool.false_or, List.isEmpty_nil, Bool.not_true,
    Bool.false_eq_true, if_false, Option.some_bind]
  rw [Held.run_append, h true]
  simp [Held.run, Held.step]

theorem disciplined_iff (es : List MutexEvent) : disciplined es = true ↔ Free es := by
  simp [disciplined, Free]

theorem isEarliestLoopEvents_pending (cmp : T → T → Bool) (pending : Nat → List T) (x : T) :
    ∀ (l : List Nat) (e : Bool), PendingOnly (isEarliestLoopEvents cmp pending x l e)
  | [], _ => PendingOnly.nil
  | i :: rest, e => by
    unfold isEarliestLoopEvents
    simp only
    refine (PendingOnly.pair i).append ?_
    split
    · exact PendingOnly.nil
    · exact isEarliestLoopEvents_pending cmp pending x rest _

theorem clearROBRoundEvents_pending (cmp : T → T → Bool) (tid : Nat) (s : Exec T) :
    PendingOnly (clearROBRoundEvents cmp tid s) := by
  unfold clearROBRoundEvents
  split
  · exact PendingOnly.nil
  · split
    · exact PendingOnly.nil
    · split
      · refine (isEarliestLoopEvents_pending cmp _ _ _ _).append ?_
        split
        · exact PendingOnly.pair tid
        · exact PendingOnly.nil
      · exact PendingOnly.nil

theorem clearROBLoopEvents_pending (cmp : T → T → Bool) (tid : Nat) :
    ∀ (fuel : Nat) (s : Exec T), PendingOnly (clearROBLoopEvents cmp tid fuel s)
  | 0, _ => PendingOnly.nil
  | fuel + 1, s => by
    unfold clearROBLoopEvents
    refine (clearROBRoundEvents_pending cmp tid s).append ?_
    split
    · exact PendingOnly.nil
    · exact clearROBLoopEvents_pending cmp tid fuel _
    · exact clearROBLoopEvents_pending cmp tid fuel _

theorem scheduleGlobalMinFirstEvents_free (cmp : T → T → Bool) (tid : Nat) (s : Exec T) :
    Free (scheduleGlobalMinFirstEvents cmp tid s) := by
  unfold scheduleGlobalMinFirstEvents
  simp only
  split
  · apply Free.under_rob
    split
    · exact (PendingOnly.bind_pairs _).append (PendingOnly.pair _)
    · exact PendingOnly.nil
  · exact Free.of_nil

theorem clearROBEvents_free (cmp : T → T → Bool) (tid : Nat) (s : Exec T) :
    Free (clearROBEvents cmp tid s) :=
  Free.under_rob (clearROBLoopEvents_pending cmp tid _ s)

theorem spinLoopEvents_pending (that : Nat) :
    ∀ (fuel : Nat) (s : Exec T), PendingOnly (spinLoopEvents fuel that s)
  | 0, _ => PendingOnly.nil
  | fuel + 1, s => by
    unfold spinLoopEvents
    split
    · exact PendingOnly.nil
    · split
      · split
        · exact (PendingOnly.pair _).append (spinLoopEvents_pending that fuel _)
        · exact spinLoopEvents_pending that fuel _
      · exact spinLoopEvents_pending that fuel _

theorem resolveConflictEvents_free (cmp : T → T → Bool) (fuel self that : Nat) (s : Exec T) :
    Free (resolveConflictEvents cmp fuel self that s) := by
  have hrest : ∀ es : List MutexEvent, PendingOnly es → Free (.enterResolve :: es) := by
    intro es hes
    unfold Free
    simp only [Held.run, Held.step, Bool.false_or, List.isEmpty_nil, Bool.not_true,
      Bool.false_eq_true, if_false]
    exact hes false
  unfold resolveConflictEvents
  apply hrest
  split
  · simp only
    split
    · exact PendingOnly.nil
    · split
      · exact spinLoopEvents_pending that fuel _
      · split
        · exact spinLoopEvents_pending that fuel _
        · split
          · exact PendingOnly.pair _
          · exact PendingOnly.nil
  · exact PendingOnly.nil

theorem subAcquireEvents_free (cmp : T → T → Bool) (c l : Nat) :
    ∀ (fuel : Nat) (s : Exec T), Free (subAcquireEvents cmp fuel c l s)
  | 0, _ => Free.of_nil
  | fuel + 1, s => by
    unfold subAcquireEvents
    split
    · split
      · refine (resolveConflictEvents_free cmp fuel c _ _).of_append ?_
        split
        · exact Free.of_nil
        · split
          · exact Free.of_nil
          · exact subAcquireEvents_free cmp c l fuel _
      · exact subAcquireEvents_free cmp c l fuel _
    · exact Free.of_nil
    · exact Free.of_nil

theorem finishIterationEvents_free (ctx : Nat) (s : Exec T) :
    Free (finishIterationEvents ctx s) := by
  unfold finishIterationEvents
  split
  · exact Free.of_nil
  · split
    · exact (PendingOnly.pair _).free
    · exact Free.of_nil

theorem executeRoundEvents_free (cmp : T → T → Bool) (fuel tid : Nat) (locks : List Nat)
    (s : Exec T) : Free (executeRoundEvents cmp fuel tid locks s) := by
  unfold executeRoundEvents
  simp only
  refine (scheduleGlobalMinFirstEvents_free cmp tid s).of_append ?_
  split
  · rename_i ctx _
    refine Free.of_append (Free.of_append ?_ (finishIterationEvents_free ctx _))
      (clearROBEvents_free cmp tid _)
    have hop : ∀ (ls : List Nat) (acc : List MutexEvent × Exec T), Free acc.1 →
        Free (ls.foldl
          (fun (acc : List MutexEvent × Exec T) l =>
            (acc.1 ++ subAcquireEvents cmp fuel ctx l acc.2,
              (subAcquire cmp fuel ctx l acc.2).getD acc.2)) acc).1 := by
      intro ls
      induction ls with
      | nil => exact fun acc h => h
      | cons l ls ih =>
        intro acc h
        exact ih _ (h.of_append (subAcquireEvents_free cmp ctx l fuel acc.2))
    exact hop locks _ Free.of_nil
  · exact clearROBEvents_free cmp tid _


theorem Held.run_split {h0 hf : Held} {pre post : List MutexEvent} {e : MutexEvent}
    (h : h0.run (pre ++ e :: post) = some hf) :
    ∃ h1 h2, h0.run pre = some h1 ∧ h1.step e = some h2 ∧ h2.run post = some hf := by
  rw [Held.run_append] at h
  cases hpre : h0.run pre with
  | none => simp [hpre] at h
  | some h1 =>
    simp only [hpre, Option.some_bind, Held.run] at h
    cases hstep : h1.step e with
    | none => simp [hstep] at h
    | some h2 =>
      simp only [hstep] at h
      exact ⟨h1, h2, rfl, hstep, h⟩

/-- C24: the sequence of lock and unlock events of every operation of the executor keeps
the lock discipline and ends with no mutex held: `scheduleGlobalMinFirst`, `clearROB`
(with the calls of `isEarliest` and `doCommit` inside), `doAbort` with `push_abort`,
`push`, the statements of `execute` behind the operator, a call of `subAcquire` with the
calls of `resolveConflict` inside, and a whole round of the loop of `execute`.  The
discipline, spelled out on such a sequence: when `robMutex` is locked no mutex is held,
when a pending-heap mutex is locked no pending-heap mutex is held, a mutex that is
unlocked is held, and `resolveConflict`, the first event of which is its entry, is
entered with no mutex held.  Sequences that break one of the rules are not accepted. -/
theorem lock_discipline (cmp : T → T → Bool) :
    (∀ tid (s : Exec T), disciplined (scheduleGlobalMinFirstEvents cmp tid s) = true) ∧
    (∀ tid (s : Exec T), disciplined (clearROBEvents cmp tid s) = true) ∧
    (∀ c (s : Exec T), disciplined (doAbortEvents c s) = true) ∧
    (∀ tid owner, disciplined (pushEvents tid) = true ∧
      disciplined (doCommitEvents tid) = true ∧ disciplined (push_abortEvents owner) = true) ∧
    (∀ ctx (s : Exec T), disciplined (finishIterationEvents ctx s) = true) ∧
    (∀ fuel c l (s : Exec T), disciplined (subAcquireEvents cmp fuel c l s) = true) ∧
    (∀ fuel self that (s : Exec T),
      disciplined (resolveConflictEvents cmp fuel self that s) = true ∧
      (resolveConflictEvents cmp fuel self that s).head? = some .enterResolve) ∧
    (∀ fuel tid locks (s : Exec T),
      disciplined (executeRoundEvents cmp fuel tid locks s) = true) ∧
    (∀ es, disciplined es = true → ∀ pre e post, es = pre ++ e :: post →
      ∃ held, Held.run { rob := false, pending := [] } pre = some held ∧
        (e = .lockRob → held.rob = false ∧ held.pending = []) ∧
        (∀ i, e = .lockPending i → held.pending = []) ∧
        (e = .enterResolve → held.rob = false ∧ held.pending = []) ∧
        (∀ i, e = .unlockPending i → held.pending = [i]) ∧
        (e = .unlockRob → held.rob = true)) ∧
    (disciplined [.lockPending 0, .lockRob, .unlockRob, .unlockPending 0] = false ∧
      disciplined [.lockPending 0, .lockPending 1, .unlockPending 1, .unlockPending 0] = false ∧
      disciplined [.lockRob, .lockPending 0, .unlockPending 0] = false ∧
      disciplined [.lockRob, .enterResolve, .unlockRob] = false ∧
      disciplined [.lockPending 0, .enterResolve, .unlockPending 0] = false) ∧
    (scheduleGlobalMinFirstEvents natLt 1 demoStart =
        [.lockRob, .lockPending 0, .unlockPending 0, .lockPending 1, .unlockPending 1,
          .lockPending 0, .unlockPending 0, .unlockRob] ∧
      clearROBEvents natLt 1 demo7 =
        [.lockRob, .lockPending 0, .unlockPending 0, .lockPending 1, .unlockPending 1,
          .lockPending 1, .unlockPending 1, .unlockRob] ∧
      subAcquireEvents natLt 2 1 7 trio5 =
        [.enterResolve, .lockPending 1, .unlockPending 1]) := by
  refine ⟨fun tid s => (disciplined_iff _).mpr (scheduleGlobalMinFirstEvents_free cmp tid s),
    fun tid s => (disciplined_iff _).mpr (clearROBEvents_free cmp tid s),
    fun c s => (disciplined_iff _).mpr (PendingOnly.pair _).free,
    fun tid owner => ⟨(disciplined_iff _).mpr (PendingOnly.pair _).free,
      (disciplined_iff _).mpr (PendingOnly.pair _).free,
      (disciplined_iff _).mpr (PendingOnly.pair _).free⟩,
    fun ctx s => (disciplined_iff _).mpr (finishIterationEvents_free ctx s),
    fun fuel c l s => (disciplined_iff _).mpr (subAcquireEvents_free cmp c l fuel s),
    fun fuel self that s =>
      ⟨(disciplined_iff _).mpr (resolveConflictEvents_free cmp fuel self that s), rfl⟩,
    fun fuel tid locks s =>
      (disciplined_iff _).mpr (executeRoundEvents_free cmp fuel tid locks s),
    ?_, by decide, by decide⟩
  intro es hes pre e post heq
  have hfree := (disciplined_iff es).mp hes
  unfold Free at hfree
  rw [heq] at hfree
  obtain ⟨h1, h2, r1, r2, _⟩ := Held.run_split hfree
  refine ⟨h1, r1, ?_, ?_, ?_, ?_, ?_⟩
  · intro he
    subst he
    simp only [Held.step] at r2
    split at r2
    · exact absurd r2 (by simp)
    · rename_i hcond
      cases hr : h1.rob <;> cases hp : h1.pending <;> simp_all
  · intro i he
    subst he
    simp only [Held.step] at r2
    split at r2
    · rename_i hcond
      simpa [List.isEmpty_iff] using hcond
    · exact absurd r2 (by simp)
  · intro he
    subst he
    simp only [Held.step] at r2
    split at r2
    · exact absurd r2 (by simp)
    · rename_i hcond
      cases hr : h1.rob <;> cases hp : h1.pending <;> simp_all
  · intro i he
    subst he
    simp only [Held.step] at r2
    split at r2
    · rename_i hcond
      exact hcond
    · exact absurd r2 (by simp)
  · intro he
    subst he
    simp only [Held.step] at r2
    split at r2
    · rename_i hcond
      exact hcond
    · exact absurd r2 (by simp)

end MutexProofs
/-! ## Executions with interleaved statements -/

section FineLemmas

variable {T : Type}

end FineLemmas

end ROBexecutor
